import Mathlib

/-!
# Klondike solitaire engine (`src/cards.h`): shallow embedding

The C engine keeps the whole game in one `Game` struct:

    Card tableau[7][64]; Card foundation[4]; Card waste[64]; Card stock[64];
    CardPos selected; CardPos moving;

and passes `Card *` pointers into that struct around (`get_card`, `memcpy`,
`card[1]`).  The embedding therefore models the four card arrays as one run of
580 consecutive `Card` cells, in declaration order, and a `Card *` as the index
of a cell (`Option Nat`, `none` being `NULL`):

* `tableau[c][r]`  is cell `64 * c + r`        (cells 0 .. 447),
* `foundation[i]`  is cell `448 + i`           (cells 448 .. 451),
* `waste[i]`       is cell `452 + i`           (cells 452 .. 515),
* `stock[i]`       is cell `516 + i`           (cells 516 .. 579).

C `int` fields of `CardPos` are `Int`; enum `Rank` is `Nat` (`NO_RANK = 0`,
`ACE = 1`, ..., `KING = 13`).  Loops with a `break` are structural recursions on
the number of iterations left.  `fix_selected_tableau` contains a `while (true)`
loop that need not terminate; it takes a fuel argument and returns `none` when
the fuel runs out, and so does everything that calls it.
-/

namespace Solitaire

/-! ## Data model -/

inductive Suite where
  | HEARTS | DIAMONDS | CLUBS | SPADES
  deriving DecidableEq

/-- Numeric value of the C enum constant. -/
def Suite.toNat : Suite → Nat
  | .HEARTS => 0
  | .DIAMONDS => 1
  | .CLUBS => 2
  | .SPADES => 3

/-- Conversion of the loop counter `suite` (0..3) of `reset_game` to the enum. -/
def suite_of_int : Nat → Suite
  | 0 => .HEARTS
  | 1 => .DIAMONDS
  | 2 => .CLUBS
  | _ => .SPADES

/-- The enum `Rank` is carried by its numeric value. -/
abbrev Rank := Nat
abbrev NO_RANK : Nat := 0
abbrev ACE : Nat := 1
abbrev KING : Nat := 13

inductive Highlight where
  | NO_HIGHLIGHT | HIGHLIGHTED | SOURCE
  deriving DecidableEq

inductive CardLocation where
  | TABLEAU | WASTE | STOCK | FOUNDATION
  deriving DecidableEq

inductive Action where
  | NO_ACTION | UP | RIGHT | DOWN | LEFT | CONFIRM | CANCEL | QUIT
  deriving DecidableEq

structure CardPos where
  active : Bool
  location : CardLocation
  column : Int
  row : Int
  deriving DecidableEq

structure Card where
  visible : Bool
  highlight : Highlight
  suite : Suite
  rank : Nat
  deriving DecidableEq

/-- The `Game` struct: `mem` is the block of card cells (see the header), followed by the
two positions. -/
structure Game where
  mem : Nat → Card
  selected : CardPos
  moving : CardPos

open Suite Highlight CardLocation Action

/-- Cell index of `tableau[column][row]`. -/
def tab (column row : Nat) : Nat := 64 * column + row
/-- Cell index of `foundation[0]`. -/
abbrev FOUNDATION_BASE : Nat := 448
/-- Cell index of `waste[0]`. -/
abbrev WASTE_BASE : Nat := 452
/-- Cell index of `stock[0]`. -/
abbrev STOCK_BASE : Nat := 516
/-- Number of card cells in the struct. -/
abbrev GAME_CELLS : Nat := 580

def Game.tableau (g : Game) (column row : Nat) : Card := g.mem (tab column row)
def Game.foundation (g : Game) (i : Nat) : Card := g.mem (FOUNDATION_BASE + i)
def Game.waste (g : Game) (i : Nat) : Card := g.mem (WASTE_BASE + i)
def Game.stock (g : Game) (i : Nat) : Card := g.mem (STOCK_BASE + i)

/-- Store through a card pointer: `*a = c`. -/
def Game.write (g : Game) (a : Nat) (c : Card) : Game :=
  { g with mem := Function.update g.mem a c }

/-- The store `a->visible = v`. -/
def Game.set_visible (g : Game) (a : Nat) (v : Bool) : Game :=
  g.write a { g.mem a with visible := v }

/-- The store `a->highlight = h`. -/
def Game.set_highlight (g : Game) (a : Nat) (h : Highlight) : Game :=
  g.write a { g.mem a with highlight := h }

/-- The store `a->rank = k`. -/
def Game.set_rank (g : Game) (a : Nat) (k : Nat) : Game :=
  g.write a { g.mem a with rank := k }

/-! ## Stacking rules -/

def get_suite_color (suite : Suite) : Bool :=
  suite.toNat &&& 2 != 0

def is_opposite_color (suite1 suite2 : Suite) : Bool :=
  get_suite_color suite1 != get_suite_color suite2

def can_stack (card above : Card) (is_foundation : Bool) : Bool :=
  if is_foundation then
    if above.rank = NO_RANK then
      decide (card.rank = ACE)
    else
      decide (card.suite = above.suite) && decide (card.rank = above.rank + 1)
  else
    (decide (above.rank = NO_RANK) && decide (card.rank = KING))
      || (is_opposite_color card.suite above.suite && decide (above.rank = card.rank + 1))

/-! ## Visibility and highlights -/

/-- Inner loop of `update_visible` for one column: `n` iterations left, at `row`. -/
def update_visible_col (column : Nat) : Nat → Nat → Game → Game
  | 0, _, g => g
  | n + 1, row, g =>
    if (g.mem (tab column row)).rank = NO_RANK then
      if row > 0 then g.set_visible (tab column (row - 1)) true else g
    else
      update_visible_col column n (row + 1) g

def update_visible (g : Game) : Game :=
  (List.range 7).foldl (fun g column => update_visible_col column 64 0 g) g

/-- The three loops of `clear_highlight` store `NO_HIGHLIGHT` into every one of the 580 cells. -/
def clear_highlight (g : Game) : Game :=
  { g with mem := fun a =>
      if a < GAME_CELLS then { g.mem a with highlight := NO_HIGHLIGHT } else g.mem a }

/-- Loop of `get_waste_top`: `n` iterations left, at index `i`, `card` is the local pointer. -/
def get_waste_top_loop (no_rank : Bool) : Nat → Nat → Option Nat → Game → Option Nat × Game
  | 0, _, card, g => (card, g)
  | n + 1, i, card, g =>
    if (g.mem (WASTE_BASE + i)).rank = NO_RANK then
      if no_rank && card.isNone then (some (WASTE_BASE + i), g) else (card, g)
    else
      get_waste_top_loop no_rank n (i + 1) (some (WASTE_BASE + i))
        (g.set_visible (WASTE_BASE + i) true)

def get_waste_top (g : Game) (no_rank : Bool) : Option Nat × Game :=
  get_waste_top_loop no_rank 64 0 none g

/-- Loop of `get_stock_top`: `n` iterations left, at index `i`, `card` is the local pointer. -/
def get_stock_top_loop (no_rank : Bool) : Nat → Nat → Option Nat → Game → Option Nat × Game
  | 0, _, card, g => (card, g)
  | n + 1, i, card, g =>
    if (g.mem (STOCK_BASE + i)).rank = NO_RANK then
      if no_rank && card.isNone then (some (STOCK_BASE + i), g) else (card, g)
    else
      get_stock_top_loop no_rank n (i + 1) (some (STOCK_BASE + i))
        (g.set_visible (STOCK_BASE + i) true)

def get_stock_top (g : Game) (no_rank : Bool) : Option Nat × Game :=
  get_stock_top_loop no_rank 64 0 none g

/-- Pointer to the card a `CardPos` references, with the game as left by the lookup
(`get_waste_top` and `get_stock_top` store into `visible`). -/
def get_card (pos : CardPos) (g : Game) (no_rank : Bool) : Option Nat × Game :=
  if !pos.active then (none, g) else
  match pos.location with
  | TABLEAU =>
    let card : Option Nat :=
      if pos.column ≥ 0 ∧ pos.column < 7 ∧ pos.row ≥ 0 ∧ pos.row < 64 then
        some (tab pos.column.toNat pos.row.toNat)
      else none
    match card with
    | some c => if !no_rank && decide ((g.mem c).rank = NO_RANK) then (none, g) else (some c, g)
    | none => (none, g)
  | WASTE => get_waste_top g no_rank
  | FOUNDATION =>
    if pos.column ≥ 0 ∧ pos.column < 4 then (some (FOUNDATION_BASE + pos.column.toNat), g)
    else (none, g)
  | STOCK => get_stock_top g no_rank

def highlight_source (g : Game) : Game :=
  if !g.moving.active then g else
  let r := get_card g.moving g true
  let g := r.2
  match r.1 with
  | none => g
  | some card => g.set_highlight card SOURCE

/-- Foundation loop of `highlight_stackable`; the state is `(count_stackable, game)`. -/
def highlight_foundations (card : Nat) (st : Nat × Game) : Nat × Game :=
  (List.range 4).foldl (fun (st : Nat × Game) i =>
    if can_stack (st.2.mem card) (st.2.mem (FOUNDATION_BASE + i)) true then
      (st.1 + 1, st.2.set_highlight (FOUNDATION_BASE + i) HIGHLIGHTED)
    else st) st

/-- Inner loop of `highlight_stackable` for one tableau column: `n` iterations left. -/
def highlight_col (card column : Nat) : Nat → Nat → Nat × Game → Nat × Game
  | 0, _, st => st
  | n + 1, row, st =>
    if (st.2.mem (tab column row)).rank = NO_RANK then
      if row > 0 then
        if (st.2.mem (tab column (row - 1))).visible then
          if can_stack (st.2.mem card) (st.2.mem (tab column (row - 1))) false then
            (st.1 + 1, st.2.set_highlight (tab column (row - 1)) HIGHLIGHTED)
          else st
        else st
      else if (st.2.mem card).rank = KING then
        (st.1 + 1, st.2.set_highlight (tab column row) HIGHLIGHTED)
      else st
    else
      highlight_col card column n (row + 1) st

/-- `card` is the pointer argument; `card[1]` is the next cell of the struct. -/
def highlight_stackable (card : Nat) (tableau : Bool) (g : Game) : Nat × Game :=
  let g := clear_highlight g
  let st : Nat × Game := (0, g)
  let st := if !tableau || decide ((g.mem (card + 1)).rank = NO_RANK) then
      highlight_foundations card st else st
  (List.range 7).foldl (fun st column => highlight_col card column 64 0 st) st

def update_display (g : Game) : Game :=
  let g := update_visible g
  let g := clear_highlight g
  let g :=
    if g.moving.active then
      let r := get_card g.moving g false
      let g := r.2
      match r.1 with
      | none => { g with moving := { g.moving with active := false } }
      | some card => (highlight_stackable card (g.moving.location == TABLEAU) g).2
    else g
  highlight_source g

/-- Loop of `get_amount_stacked_cards`: `n` iterations left, at `row`, counter `i`. -/
def get_amount_loop (g : Game) (column : Nat) : Nat → Nat → Nat → Nat
  | 0, _, i => i
  | n + 1, row, i =>
    if (g.mem (tab column row)).rank = NO_RANK then i
    else get_amount_loop g column n (row + 1) (i + 1)

def get_amount_stacked_cards (pos : CardPos) (g : Game) : Nat :=
  if !pos.active then 0
  else if pos.location ≠ TABLEAU then 1
  else if pos.column < 0 ∨ pos.column ≥ 7 ∨ pos.row < 0 ∨ pos.row ≥ 64 then 0
  else get_amount_loop g pos.column.toNat (64 - pos.row.toNat) pos.row.toNat 0

/-! ## Cursor snapping -/

/-- The `while (true)` loop of `fix_selected_tableau`, `none` when the fuel runs out. -/
def fix_selected_loop : Nat → Game → Option Game
  | 0, _ => none
  | fuel + 1, g =>
    let r := get_card g.selected g false
    let g := r.2
    match r.1 with
    | none =>
      if g.selected.row = 0 then some g
      else fix_selected_loop fuel { g with selected := { g.selected with row := g.selected.row - 1 } }
    | some card_dir =>
      if !(g.mem card_dir).visible then
        fix_selected_loop fuel { g with selected := { g.selected with row := g.selected.row + 1 } }
      else some g

def fix_selected_tableau (fuel : Nat) (g : Game) : Option Game :=
  if !g.selected.active || decide (g.selected.location ≠ TABLEAU) then some g
  else fix_selected_loop fuel g

def reset_selected (fuel : Nat) (g : Game) : Option Game :=
  let g := { g with
    selected := { active := true, location := TABLEAU, column := 0, row := 0 },
    moving := { g.moving with active := false } }
  fix_selected_tableau fuel g

/-! ## Move executor -/

/-- The call `memcpy(dst, src, sizeof(Card) * n)` on non-overlapping cell ranges. -/
def memcpy_cards (g : Game) (dst src n : Nat) : Game :=
  { g with mem := fun a => if dst ≤ a ∧ a < dst + n then g.mem (src + (a - dst)) else g.mem a }

/-- The loop of `move_card` that clears the vacated source slots: `n` iterations left. -/
def clear_source_loop : Nat → Game → Game
  | 0, g => g
  | n + 1, g =>
    let r := get_card g.moving g false
    let g := r.2
    match r.1 with
    | none => g
    | some source_card =>
      let g := g.set_rank source_card NO_RANK
      clear_source_loop n { g with moving := { g.moving with row := g.moving.row + 1 } }

/-- The common tail of `move_card` ("finish up"). -/
def move_card_finish (fuel : Nat) (g : Game) (destination : CardPos) : Option (Bool × Game) :=
  let g := { g with selected := destination }
  let g := { g with moving := { g.moving with active := false } }
  let g := update_visible g
  let g := clear_highlight g
  (fix_selected_tableau fuel g).map (fun g => (true, g))

/-- The part of `move_card` that advances a destination on an occupied tableau slot to the
slot after it; the first component is `none` where the C code returns false. -/
def move_card_destination (g : Game) (destination : CardPos) (orig_destination_card : Nat) :
    Option (CardPos × Nat) × Game :=
  if (g.mem orig_destination_card).rank ≠ NO_RANK ∧ destination.location = TABLEAU then
    let destination := { destination with row := destination.row + 1 }
    let r := get_card destination g true
    let g := r.2
    match r.1 with
    | none => (none, g)
    | some destination_card =>
      if (g.mem destination_card).rank ≠ NO_RANK then (none, g)
      else (some (destination, destination_card), g)
  else (some (destination, orig_destination_card), g)

/-- The checks of `move_card` on the end of the source run; the first component is false
where the C code returns false. -/
def move_card_check_source (g : Game) (source_card : Nat) (last_source : CardPos) :
    Bool × Game :=
  if last_source.location = TABLEAU then
    let last_source := { last_source with row := last_source.row + 1 }
    let r := get_card last_source g true
    let g := r.2
    match r.1 with
    | none => (false, g)
    | some last_source_card =>
      if (g.mem last_source_card).rank ≠ NO_RANK then (false, g) else (true, g)
  else if last_source.location = FOUNDATION then
    if (g.mem source_card).rank = NO_RANK then (false, g) else (true, g)
  else (true, g)

/-- The branch `destination.location == TABLEAU` of `move_card`. -/
def move_card_tableau (fuel : Nat) (g : Game) (source_card : Nat) (destination : CardPos)
    (destination_card amount : Nat) : Option (Bool × Game) :=
  let last_destination := { destination with row := destination.row + ((amount : Int) - 1) }
  let r := get_card last_destination g true
  let g := r.2
  match r.1 with
  | none => some (false, g)
  | some last_destination_card =>
  if (g.mem last_destination_card).rank ≠ NO_RANK then some (false, g) else
  let last_source := { g.moving with row := g.moving.row + ((amount : Int) - 1) }
  let r := get_card last_source g false
  let g := r.2
  match r.1 with
  | none => some (false, g)
  | some _ =>
  let check := move_card_check_source g source_card last_source
  let g := check.2
  if !check.1 then some (false, g) else
  let g := memcpy_cards g destination_card source_card amount
  let g :=
    if last_source.location = FOUNDATION then
      g.set_rank source_card ((g.mem source_card).rank - 1)
    else clear_source_loop amount g
  move_card_finish fuel g destination

/-- The check of `move_card` that no card lies on a tableau source that goes to a
foundation; the first component is false where the C code returns false. -/
def move_card_check_above (g : Game) : Bool × Game :=
  if g.moving.location = TABLEAU then
    let above := { g.moving with row := g.moving.row + 1 }
    let r := get_card above g false
    let g := r.2
    match r.1 with
    | some _ => (false, g)
    | none => (true, g)
  else (true, g)

/-- The branch `destination.location == FOUNDATION` of `move_card`. -/
def move_card_foundation (fuel : Nat) (g : Game) (source_card : Nat) (destination : CardPos)
    (destination_card : Nat) : Option (Bool × Game) :=
  let check := move_card_check_above g
  let g := check.2
  if !check.1 then some (false, g) else
  let g := g.write destination_card (g.mem source_card)
  let g := g.set_rank source_card NO_RANK
  move_card_finish fuel g destination

def move_card (fuel : Nat) (g : Game) : Option (Bool × Game) :=
  if !g.selected.active || !g.moving.active then some (false, g) else
  let r := get_card g.moving g false
  let g := r.2
  match r.1 with
  | none => some (false, g)
  | some source_card =>
  let destination := g.selected
  let r := get_card destination g true
  let g := r.2
  match r.1 with
  | none => some (false, g)
  | some orig_destination_card =>
  let step := move_card_destination g destination orig_destination_card
  let g := step.2
  match step.1 with
  | none => some (false, g)
  | some (destination, destination_card) =>
  if !can_stack (g.mem source_card) (g.mem orig_destination_card)
      (destination.location == FOUNDATION) then some (false, g) else
  let amount := get_amount_stacked_cards g.moving g
  if amount < 1 then some (false, g) else
  if destination.location = TABLEAU then
    move_card_tableau fuel g source_card destination destination_card amount
  else if destination.location = FOUNDATION then
    move_card_foundation fuel g source_card destination destination_card
  else some (false, g)

def is_same_pos (a b : CardPos) : Bool :=
  a.active && b.active && decide (a.column = b.column) && decide (a.row = b.row)
    && decide (a.location = b.location)

/-! ## Actions -/

/-- Stock recycle loop of `handle_action` (`for (int i = 0;; ++i)`), `n` iterations left.
Every iteration empties one waste slot, so the loop breaks within 65 iterations. -/
def recycle_loop : Nat → Nat → Game → Game
  | 0, _, g => g
  | n + 1, i, g =>
    let r := get_waste_top g false
    let g := r.2
    match r.1 with
    | none => g
    | some waste_card =>
      let g := g.write (STOCK_BASE + i) (g.mem waste_card)
      let g := g.set_rank waste_card NO_RANK
      recycle_loop n (i + 1) g

/-- Body of the stock draw loop of `handle_action` at the first empty waste slot `i`;
`card` points to the stock top. -/
def draw_card (card i : Nat) (g : Game) : Game :=
  let g := if i < 63 then g.set_rank (WASTE_BASE + (i + 1)) NO_RANK else g
  let g := g.set_visible card true
  let g := g.write (WASTE_BASE + i) (g.mem card)
  g.set_rank card NO_RANK

/-- Stock draw loop of `handle_action`: `n` iterations left, at waste index `i`;
`card` points to the stock top. -/
def draw_loop (card : Nat) : Nat → Nat → Game → Game
  | 0, _, g => g
  | n + 1, i, g =>
    if (g.mem (WASTE_BASE + i)).rank = NO_RANK then draw_card card i g
    else draw_loop card n (i + 1) g

/-- Row loop of the auto-move scan: the row of the first `HIGHLIGHTED` slot of the column,
looking no further than its first empty slot. -/
def find_highlighted_col (g : Game) (column : Nat) : Nat → Nat → Option Nat
  | 0, _ => none
  | n + 1, row =>
    if (g.mem (tab column row)).highlight = HIGHLIGHTED then some row
    else if (g.mem (tab column row)).rank = NO_RANK then none
    else find_highlighted_col g column n (row + 1)

/-- Column loop of the auto-move scan: `n` columns left, at `column`. -/
def find_highlighted (g : Game) : Nat → Nat → Option (Nat × Nat)
  | 0, _ => none
  | n + 1, column =>
    match find_highlighted_col g column 64 0 with
    | some row => some (column, row)
    | none => find_highlighted g n (column + 1)

/-- The `CONFIRM` case of `handle_action`. -/
def handle_confirm (fuel : Nat) (g : Game) : Option (Bool × Game) :=
  if g.selected.active then
    if g.selected.location = STOCK then
      if g.moving.active then some (false, g) else
      let r := get_stock_top g false
      let g := r.2
      match r.1 with
      | none => some (true, recycle_loop 65 0 g)
      | some card =>
        let g := draw_loop card 64 0 g
        some (true, { g with selected := { g.selected with location := WASTE } })
    else
      let r := get_card g.selected g false
      let g := r.2
      match r.1 with
      | some card =>
        if g.moving.active then
          if is_same_pos g.moving g.selected then
            some (true, { g with moving := { g.moving with active := false } })
          else if (g.mem card).highlight = HIGHLIGHTED then move_card fuel g
          else some (false, g)
        else
          let r := highlight_stackable card (g.selected.location == TABLEAU) g
          let count := r.1
          let g := r.2
          if count < 1 then some (false, g) else
          let g := highlight_source g
          let g := { g with moving := g.selected }
          let g := { g with moving := { g.moving with active := true } }
          if count = 1 then
            match find_highlighted g 7 0 with
            | some (column, row) =>
              move_card fuel { g with selected :=
                { active := true, location := TABLEAU, column := column, row := row } }
            | none => some (false, g)
          else some (false, g)
      | none => some (false, g)
  else some (false, g)

/-- The directional part of `handle_action`, `selected.location == TABLEAU`. -/
def handle_tableau (fuel : Nat) (direction : Action) (g : Game) : Option (Bool × Game) :=
  match direction with
  | UP =>
    let pos_dir := { g.selected with row := g.selected.row - 1 }
    let r := get_card pos_dir g false
    let card_dir := r.1
    let g := r.2
    if decide (g.selected.row ≤ 0) ||
        (match card_dir with
          | none => true
          | some c => !(g.mem c).visible) then
      let g := { g with selected := { g.selected with row := 0 } }
      let g :=
        if g.selected.column ≥ 4 then
          if (g.mem WASTE_BASE).rank ≠ NO_RANK then
            { g with selected := { g.selected with column := 0, location := WASTE } }
          else if g.selected.column = 4 then
            { g with selected := { g.selected with column := 3, location := FOUNDATION } }
          else if g.selected.column ≥ 6 then
            { g with selected := { g.selected with column := 0, location := STOCK } }
          else g
        else { g with selected := { g.selected with location := FOUNDATION } }
      (fix_selected_tableau fuel g).map (fun g => (true, g))
    else
      some (true, { g with selected := { g.selected with row := g.selected.row - 1 } })
  | RIGHT =>
    if g.selected.column ≥ 6 then
      some (true, { g with selected :=
        { g.selected with row := 0, column := 0, location := STOCK } })
    else
      (fix_selected_tableau fuel
        { g with selected := { g.selected with column := g.selected.column + 1 } }).map
        (fun g => (true, g))
  | DOWN =>
    let pos_dir := { g.selected with row := g.selected.row + 1 }
    let r := get_card pos_dir g false
    let g := r.2
    match r.1 with
    | some c =>
      if (g.mem c).visible then some (true, { g with selected := pos_dir })
      else some (false, g)
    | none => some (false, g)
  | LEFT =>
    if g.selected.column > 0 then
      (fix_selected_tableau fuel
        { g with selected := { g.selected with column := g.selected.column - 1 } }).map
        (fun g => (true, g))
    else some (true, g)
  | _ => some (false, g)

/-- The directional part of `handle_action`, `selected.location == FOUNDATION`. -/
def handle_foundation (fuel : Nat) (direction : Action) (g : Game) : Option (Bool × Game) :=
  let g := { g with selected := { g.selected with row := 0 } }
  match direction with
  | UP => some (false, g)
  | RIGHT =>
    if g.selected.column ≥ 3 then
      let g := { g with selected := { g.selected with column := 0 } }
      if (g.mem WASTE_BASE).rank ≠ NO_RANK then
        some (true, { g with selected := { g.selected with location := WASTE } })
      else
        some (true, { g with selected := { g.selected with location := STOCK } })
    else
      some (true, { g with selected := { g.selected with column := g.selected.column + 1 } })
  | DOWN =>
    (fix_selected_tableau fuel
      { g with selected := { g.selected with location := TABLEAU } }).map (fun g => (true, g))
  | LEFT =>
    if g.selected.column ≤ 0 then some (false, g)
    else some (true, { g with selected := { g.selected with column := g.selected.column - 1 } })
  | _ => some (false, g)

/-- The directional part of `handle_action`, `selected.location` is `WASTE` or `STOCK`. -/
def handle_waste_stock (fuel : Nat) (direction : Action) (g : Game) : Option (Bool × Game) :=
  let g := { g with selected := { g.selected with row := 0 } }
  match direction with
  | UP => some (false, g)
  | RIGHT =>
    if g.selected.location = WASTE then
      some (true, { g with selected := { g.selected with column := 3, location := STOCK } })
    else some (false, g)
  | DOWN =>
    let g := { g with selected :=
      { g.selected with column := if g.selected.location = WASTE then 5 else 6 } }
    (fix_selected_tableau fuel
      { g with selected := { g.selected with location := TABLEAU } }).map (fun g => (true, g))
  | LEFT =>
    if (g.mem WASTE_BASE).rank = NO_RANK ∨ g.selected.location = WASTE then
      some (true, { g with selected := { g.selected with column := 3, location := FOUNDATION } })
    else
      some (true, { g with selected := { g.selected with column := 0, location := WASTE } })
  | _ => some (false, g)

def handle_action (fuel : Nat) (direction : Action) (g : Game) : Option (Bool × Game) :=
  let g := update_visible g
  match direction with
  | CONFIRM => handle_confirm fuel g
  | CANCEL =>
    if g.moving.active then some (true, { g with moving := { g.moving with active := false } })
    else some (false, g)
  | UP | RIGHT | DOWN | LEFT =>
    if !g.selected.active then some (false, g) else
    match g.selected.location with
    | TABLEAU => handle_tableau fuel direction g
    | FOUNDATION => handle_foundation fuel direction g
    | WASTE => handle_waste_stock fuel direction g
    | STOCK => handle_waste_stock fuel direction g
  | _ => some (false, g)

/-! ## Deal -/

/-- The zero-initialised local array `Card cards[52] = {}` of `reset_game`. -/
def cards_zero : Nat → Card :=
  fun _ => { visible := false, highlight := NO_HIGHLIGHT, suite := HEARTS, rank := NO_RANK }

/-- The deck initialisation loops of `reset_game`; the state is `(i, cards)`. -/
def init_deck : Nat → Card :=
  ((List.range 4).foldl (fun (st : Nat × (Nat → Card)) suite =>
    (List.range' 1 13).foldl (fun (st : Nat × (Nat → Card)) rank =>
      (st.1 + 1, Function.update st.2 st.1
        { visible := false, highlight := NO_HIGHLIGHT, suite := suite_of_int suite, rank := rank }))
      st) (0, cards_zero)).2

/-- The shuffle loop of `reset_game`, entered with loop variable `i`; `rand i` is the value
that `rand()` returns in the iteration with loop variable `i`. -/
def shuffle (rand : Nat → Nat) : Nat → (Nat → Card) → (Nat → Card)
  | 0, cards => cards
  | i + 1, cards =>
    let j := rand (i + 1) % (i + 1 + 1)
    let temp := cards (i + 1)
    let cards := Function.update cards (i + 1) (cards j)
    let cards := Function.update cards j temp
    shuffle rand i cards

/-- The loops of `reset_game` that clear the foundation, the stock and the waste. -/
def clear_piles (g : Game) : Game :=
  { g with mem := fun a =>
      if FOUNDATION_BASE ≤ a ∧ a < WASTE_BASE then
        { g.mem a with rank := NO_RANK, visible := true, highlight := NO_HIGHLIGHT }
      else if WASTE_BASE ≤ a ∧ a < GAME_CELLS then
        { g.mem a with rank := NO_RANK, visible := false, highlight := NO_HIGHLIGHT }
      else g.mem a }

/-- Row loop of the deal: `n` iterations left, at `row`; the state is `(i, game)`. -/
def deal_col (cards : Nat → Card) (column : Nat) : Nat → Nat → Nat × Game → Nat × Game
  | 0, _, st => st
  | n + 1, row, st =>
    let g := st.2.write (tab column row)
      { st.2.mem (tab column row) with rank := NO_RANK, visible := false,
                                       highlight := NO_HIGHLIGHT }
    let st := if row ≤ column then (st.1 + 1, g.write (tab column row) (cards st.1)) else (st.1, g)
    deal_col cards column n (row + 1) st

/-- The loop that puts the rest of the cards on the stock: `n` iterations left. -/
def deal_stock (cards : Nat → Card) : Nat → Nat → Nat → Game → Game
  | 0, _, _, g => g
  | n + 1, i, j, g => deal_stock cards n (i + 1) (j + 1) (g.write (STOCK_BASE + j) (cards i))

/-- The function `reset_game`: `g` is the memory it is called on (`create_game` passes a fresh
`malloc` block), `rand` the values returned by `rand()`. -/
def reset_game (fuel : Nat) (rand : Nat → Nat) (g : Game) : Option Game :=
  match reset_selected fuel g with
  | none => none
  | some g =>
    let cards := shuffle rand 51 init_deck
    let g := clear_piles g
    let st := (List.range 7).foldl (fun st column => deal_col cards column 64 0 st) (0, g)
    let g := deal_stock cards (52 - st.1) st.1 0 st.2
    some (update_display g)

/-! The loops run 64 times over symbolic cells; they are opened in proofs through their
equations only. -/
attribute [irreducible] update_visible_col update_visible get_waste_top_loop get_waste_top
  get_stock_top_loop get_stock_top highlight_foundations highlight_col highlight_stackable
  get_amount_loop draw_loop recycle_loop find_highlighted_col find_highlighted deal_col
  deal_stock shuffle init_deck fix_selected_loop clear_source_loop


/-! ## Vocabulary of the specification -/

/-- Colour named by the specification: Hearts and Diamonds are red, Clubs and Spades black. -/
def is_red : Suite → Bool
  | .HEARTS => true
  | .DIAMONDS => true
  | .CLUBS => false
  | .SPADES => false

/-- Index of the first slot with `NO_RANK` among the slots `base + i`, ..., `base + i + n - 1`
of the card block `m`, and `i + n` when all of them are occupied. -/
def first_empty (m : Nat → Card) (base : Nat) : Nat → Nat → Nat
  | 0, i => i
  | n + 1, i => if (m (base + i)).rank = NO_RANK then i else first_empty m base n (i + 1)

/-- Number of occupied slots at the start of the 64-slot pile that begins at cell `base`. -/
def pile_len (g : Game) (base : Nat) : Nat := first_empty g.mem base 64 0

attribute [irreducible] first_empty

/-- The game with `visible` set in the cells `base`, ..., `base + len - 1`. -/
def mark_visible (g : Game) (base len : Nat) : Game :=
  { g with mem := fun a =>
      if base ≤ a ∧ a < base + len then { g.mem a with visible := true } else g.mem a }

/-- State left behind by `get_card pos`: looking up the waste or the stock top marks the
occupied start of that pile visible. -/
def touch (pos : CardPos) (g : Game) : Game :=
  if pos.active then
    match pos.location with
    | WASTE => mark_visible g WASTE_BASE (pile_len g WASTE_BASE)
    | STOCK => mark_visible g STOCK_BASE (pile_len g STOCK_BASE)
    | _ => g
  else g


/-- Pointer returned by `get_card pos`. -/
def card_ptr (pos : CardPos) (g : Game) (no_rank : Bool) : Option Nat :=
  (get_card pos g no_rank).1

/-- The game `g'` is `g` up to `visible` flags set in occupied waste and stock cells. -/
def VisRel (g g' : Game) : Prop :=
  g'.selected = g.selected ∧ g'.moving = g.moving ∧
  ∀ a, g'.mem a = g.mem a ∨
    (WASTE_BASE ≤ a ∧ a < GAME_CELLS ∧ (g.mem a).rank ≠ NO_RANK ∧
      g'.mem a = { g.mem a with visible := true })

/-- The card of an empty slot, as `reset_game` leaves it in the waste. -/
def no_card : Card := { visible := false, highlight := NO_HIGHLIGHT, suite := HEARTS, rank := NO_RANK }

/-- A game whose cells are empty except for the listed ones. -/
def game_of (cells : List (Nat × Card)) (selected moving : CardPos) : Game :=
  { mem := fun a => (cells.lookup a).getD no_card, selected := selected, moving := moving }


/-- The game `g'` results from `g` by card lookups (`get_card`) at positions whose location
satisfies `L`. -/
inductive Touched (L : CardLocation → Prop) : Game → Game → Prop
  | refl (g : Game) : Touched L g g
  | step {g g1 : Game} (pos : CardPos) : Touched L g g1 → L pos.location →
      Touched L g (touch pos g1)


/-- Example: a held tableau five and the cursor on a stock whose top card is hidden. -/
def ex_reject : Game :=
  game_of [(tab 0 0, ⟨true, NO_HIGHLIGHT, HEARTS, 5⟩), (STOCK_BASE, ⟨false, NO_HIGHLIGHT, CLUBS, 9⟩)]
    ⟨true, STOCK, 0, 0⟩ ⟨true, TABLEAU, 0, 0⟩

/-- Example: a held run of two cards in column 0 and the cursor on foundation pile 0. -/
def ex_run : Game :=
  game_of [(tab 0 0, ⟨true, NO_HIGHLIGHT, SPADES, 2⟩), (tab 0 1, ⟨true, NO_HIGHLIGHT, HEARTS, 1⟩)]
    ⟨true, FOUNDATION, 0, 0⟩ ⟨true, TABLEAU, 0, 0⟩


/-- Cell `a` holds the top card of tableau column `c`, and the column is not full. -/
def col_top (g : Game) (c a : Nat) : Prop :=
  0 < pile_len g (tab c 0) ∧ pile_len g (tab c 0) < 64 ∧ a = tab c (pile_len g (tab c 0) - 1)

instance (g : Game) (c a : Nat) : Decidable (col_top g c a) := by
  unfold col_top; infer_instance

/-- Cell `a` is a tableau cell that `update_visible` marks visible: the slot after it is the
first empty slot of its column. -/
def flips (g : Game) (a : Nat) : Prop :=
  a < FOUNDATION_BASE ∧ a % 64 + 1 = pile_len g (tab (a / 64) 0) ∧ a % 64 + 1 < 64

instance (g : Game) (a : Nat) : Decidable (flips g a) := by
  unfold flips; infer_instance


/-- The occupied slots of the waste are its first `pile_len` slots. -/
def waste_contiguous (g : Game) : Prop :=
  ∀ i, i < 64 → pile_len g WASTE_BASE ≤ i → (g.waste i).rank = NO_RANK

/-- Outcome of drawing the stock top `t` onto waste slot `w`: that card is the new waste top,
marked visible; the other waste cards and the foundations are as in `g`; the other stock cards
keep rank, suite and highlight, those below the drawn card being marked visible; the tableau
is as `update_visible` leaves it; the cursor is on the waste. -/
def draw_outcome (g g' : Game) : Prop :=
  g'.selected = { g.selected with location := WASTE } ∧ g'.moving = g.moving ∧
  g'.waste (pile_len g WASTE_BASE) = { g.stock (pile_len g STOCK_BASE - 1) with visible := true } ∧
  (g'.stock (pile_len g STOCK_BASE - 1)).rank = NO_RANK ∧
  pile_len g' WASTE_BASE = pile_len g WASTE_BASE + 1 ∧
  pile_len g' STOCK_BASE = pile_len g STOCK_BASE - 1 ∧
  (∀ i, i < 64 → i ≠ pile_len g WASTE_BASE → g'.waste i = g.waste i) ∧
  (∀ i, i < 64 → i ≠ pile_len g STOCK_BASE - 1 →
    g'.stock i = if i < pile_len g STOCK_BASE - 1 then { g.stock i with visible := true }
      else g.stock i) ∧
  (∀ i, i < 4 → g'.foundation i = g.foundation i) ∧
  (∀ c r, c < 7 → r < 64 → g'.tableau c r = (update_visible g).tableau c r)

/-- Outcome of recycling a waste of `n` cards into an empty stock: the waste is empty, the
stock holds the `n` cards in reverse order (stock slot `i` holds the card of waste slot
`n - 1 - i`), all marked visible, and the cursor stays where it was. -/
def recycle_outcome (g : Game) (n : Nat) (g' : Game) : Prop :=
  g'.selected = g.selected ∧ g'.moving = g.moving ∧
  (∀ i, i < 64 → (g'.waste i).rank = NO_RANK) ∧
  (∀ i, i < n → g'.stock i = { g.waste (n - 1 - i) with visible := true }) ∧
  (∀ i, i < 64 → n ≤ i → (g'.stock i).rank = NO_RANK) ∧
  pile_len g' WASTE_BASE = 0 ∧ pile_len g' STOCK_BASE = n

/-- Example: the cursor on a stock of two hidden cards, the waste empty. -/
def ex_draw : Game :=
  game_of [(STOCK_BASE, ⟨false, NO_HIGHLIGHT, CLUBS, 3⟩),
           (STOCK_BASE + 1, ⟨false, NO_HIGHLIGHT, DIAMONDS, 7⟩)]
    ⟨true, STOCK, 0, 0⟩ ⟨false, TABLEAU, 0, 0⟩

/-- Example: the cursor on an empty stock, the waste holding the Ace of Hearts below the
2 of Spades. -/
def ex_recycle : Game :=
  game_of [(WASTE_BASE, ⟨true, NO_HIGHLIGHT, HEARTS, 1⟩),
           (WASTE_BASE + 1, ⟨true, NO_HIGHLIGHT, SPADES, 2⟩)]
    ⟨true, STOCK, 0, 0⟩ ⟨false, TABLEAU, 0, 0⟩


/-- Exit condition of the loop of `fix_selected_tableau`: the cursor is on row 0 with no card
under it, or on a visible card. -/
def snapped (g : Game) : Prop :=
  (card_ptr g.selected g false = none ∧ g.selected.row = 0) ∨
  ∃ c, card_ptr g.selected g false = some c ∧ (g.mem c).visible = true

/-- Every tableau column is contiguous, in the adjacent form: the slot after an empty slot
is empty. -/
def columns_contiguous (g : Game) : Prop :=
  ∀ c, c < 7 → ∀ r, r < 63 → (g.tableau c r).rank = NO_RANK → (g.tableau c (r + 1)).rank = NO_RANK

instance (g : Game) : Decidable (columns_contiguous g) := by
  unfold columns_contiguous; infer_instance


/-- The pair `(column, row)` names a slot of the tableau. -/
def in_tab (column row : Int) : Prop := 0 ≤ column ∧ column < 7 ∧ 0 ≤ row ∧ row < 64

instance (column row : Int) : Decidable (in_tab column row) := by
  unfold in_tab; infer_instance

/-- The tableau cell named by `(column, row)`. -/
def cell (column row : Int) : Nat := tab column.toNat row.toNat


/-- The cards of `h` are those of `g` after the `n` cards from cell `src` on were copied to
the cells from `dst` on and the source cells were given rank `nr`. Ranks and suites are
compared in every cell, `visible` flags in the tableau and the foundations. -/
def moved (g h : Game) (src dst n nr : Nat) : Prop :=
  h.selected = g.selected ∧
  ∀ a,
    (h.mem a).rank =
      (if dst ≤ a ∧ a < dst + n then (g.mem (src + (a - dst))).rank
       else if src ≤ a ∧ a < src + n then nr else (g.mem a).rank) ∧
    (h.mem a).suite =
      (if dst ≤ a ∧ a < dst + n then (g.mem (src + (a - dst))).suite else (g.mem a).suite) ∧
    (a < WASTE_BASE → (h.mem a).visible =
      (if dst ≤ a ∧ a < dst + n then (g.mem (src + (a - dst))).visible
       else (g.mem a).visible))


/-- Example: column 0 holds 64 cards, the held King of Spades in its last row; the cursor is
on the empty column 1. -/
def ex_king_full : Game :=
  game_of ((List.range 64).map (fun r =>
      (tab 0 r, ⟨true, NO_HIGHLIGHT, SPADES, if r = 63 then KING else 2⟩)))
    ⟨true, TABLEAU, 1, 0⟩ ⟨true, TABLEAU, 0, 63⟩

/-- Example: column 0 holds a hidden five below the held King of Spades and the Queen of
Hearts; the cursor is on the empty column 2. -/
def ex_king : Game :=
  game_of [(tab 0 0, ⟨false, NO_HIGHLIGHT, HEARTS, 5⟩), (tab 0 1, ⟨true, NO_HIGHLIGHT, SPADES, KING⟩),
           (tab 0 2, ⟨true, NO_HIGHLIGHT, HEARTS, 12⟩)]
    ⟨true, TABLEAU, 2, 0⟩ ⟨true, TABLEAU, 0, 1⟩


/-- The slot initialisation of the deal: rank, `visible` and highlight are reset, the suite
is whatever the slot held. -/
def blank (x : Card) : Card :=
  { x with rank := NO_RANK, visible := false, highlight := NO_HIGHLIGHT }

/-- Number of cards dealt to the columns before column `k`. -/
def tri : Nat → Nat
  | 0 => 0
  | k + 1 => tri k + (k + 1)

/-- The board that `reset_game` deals onto the game `g` from the deck `cards`, before the
display update. -/
def dealt (cards : Nat → Card) (g : Game) : Game :=
  let st := (List.range 7).foldl (fun st column => deal_col cards column 64 0 st)
    (0, clear_piles g)
  deal_stock cards (52 - st.1) st.1 0 st.2


/-- The board of a fresh deal: column `c` holds cards exactly in its rows `0..c`, of which
exactly the one in row `c` is visible; the stock holds cards exactly in its slots `0..23`,
none visible; the foundations and the waste are empty; no slot is highlighted. -/
def fresh_deal (g : Game) : Prop :=
  (∀ c, c < 7 → ∀ r, r < 64 →
    ((g.tableau c r).rank ≠ NO_RANK ↔ r ≤ c) ∧ ((g.tableau c r).visible = true ↔ r = c)) ∧
  (∀ i, i < 64 → ((g.stock i).rank ≠ NO_RANK ↔ i < 24) ∧ (g.stock i).visible = false) ∧
  (∀ i, i < 4 → (g.foundation i).rank = NO_RANK) ∧
  (∀ i, i < 64 → (g.waste i).rank = NO_RANK) ∧
  (∀ a, a < GAME_CELLS → (g.mem a).highlight = NO_HIGHLIGHT)

/-- Example: a zero-filled game block. -/
def ex_zero : Game := game_of [] ⟨false, TABLEAU, 0, 0⟩ ⟨false, TABLEAU, 0, 0⟩


/-- Example: the cursor on the only card of column 6, one card on the waste. -/
def ex_up : Game :=
  game_of [(tab 6 0, ⟨true, NO_HIGHLIGHT, CLUBS, 9⟩), (WASTE_BASE, ⟨true, NO_HIGHLIGHT, HEARTS, 4⟩)]
    ⟨true, TABLEAU, 6, 0⟩ ⟨false, TABLEAU, 0, 0⟩


/-- Example: the cursor on foundation pile 0, column 0 holding one face-down card. -/
def ex_foundation : Game :=
  game_of [(tab 0 0, ⟨false, NO_HIGHLIGHT, CLUBS, 9⟩)]
    ⟨true, FOUNDATION, 0, 0⟩ ⟨false, TABLEAU, 0, 0⟩


/-- Example: the held King of Spades is the only card of column 0; the cursor is on row 0 of
the empty column 1, which is highlighted. -/
def ex_king_drop : Game :=
  game_of [(tab 0 0, ⟨true, SOURCE, SPADES, KING⟩), (tab 1 0, ⟨false, HIGHLIGHTED, HEARTS, NO_RANK⟩)]
    ⟨true, TABLEAU, 1, 0⟩ ⟨true, TABLEAU, 0, 0⟩

/-- Example: the held King of Spades is the only card of column 0; the cursor is on the
highlighted Ace of Hearts of foundation pile 2. -/
def ex_drop : Game :=
  game_of [(tab 0 0, ⟨true, SOURCE, SPADES, KING⟩),
           (FOUNDATION_BASE + 2, ⟨true, HIGHLIGHTED, HEARTS, ACE⟩)]
    ⟨true, FOUNDATION, 2, 0⟩ ⟨true, TABLEAU, 0, 0⟩


/-- The game with the cells listed in `T` tagged Highlighted. -/
def hl_state (g : Game) (T : List Nat) : Game :=
  { g with mem := fun a =>
      if a ∈ T then { g.mem a with highlight := HIGHLIGHTED } else g.mem a }

/-- Foundation cells that `highlight_stackable` tags for the card in cell `card`. -/
def foundation_targets (g : Game) (card : Nat) : List Nat :=
  ((List.range 4).filter
    (fun i => can_stack (g.mem card) (g.mem (FOUNDATION_BASE + i)) true)).map
    (fun i => FOUNDATION_BASE + i)

/-- The cell of tableau column `c` that `highlight_stackable` tags for the card in cell
`card`, if any: the slot before the first empty slot of the column, when that slot is visible
and the card stacks on it, or row 0 of an empty column for a King. -/
def column_target (g : Game) (card c : Nat) : Option Nat :=
  if pile_len g (tab c 0) < 64 then
    if 0 < pile_len g (tab c 0) then
      if (g.mem (tab c (pile_len g (tab c 0) - 1))).visible = true ∧
          can_stack (g.mem card) (g.mem (tab c (pile_len g (tab c 0) - 1))) false = true then
        some (tab c (pile_len g (tab c 0) - 1))
      else none
    else if (g.mem card).rank = KING then some (tab c 0) else none
  else none

/-- All the cells that `highlight_stackable card tableau` tags. -/
def stack_targets (g : Game) (card : Nat) (tableau : Bool) : List Nat :=
  ((List.range 7).filterMap (column_target g card)).reverse ++
    (if !tableau || decide ((g.mem (card + 1)).rank = NO_RANK) then
      (foundation_targets g card).reverse else [])


/-- The card in the tableau cell `card` has another card directly on top of it. -/
def on_top_of (g : Game) (card : Nat) : Prop :=
  ∃ c, c < 7 ∧ ∃ r, r < 63 ∧ card = tab c r ∧ (g.tableau c (r + 1)).rank ≠ NO_RANK

/-- The slots that the specification lets `highlight_stackable` tag for a held card: the
foundation piles on which the card stacks, none if it is a tableau card with a card on top
of it; the top card of a non-empty column if it is visible and the card stacks on it; row 0
of an empty column for a King. -/
def stackable_slot (g : Game) (card : Nat) (tableau : Bool) (a : Nat) : Prop :=
  (∃ i, i < 4 ∧ a = FOUNDATION_BASE + i ∧ ¬ (tableau = true ∧ on_top_of g card) ∧
      can_stack (g.mem card) (g.foundation i) true = true) ∨
  (∃ c, c < 7 ∧ ∃ t, t < 64 ∧ a = tab c t ∧ (g.tableau c t).rank ≠ NO_RANK ∧
      (t = 63 ∨ (g.tableau c (t + 1)).rank = NO_RANK) ∧ (g.tableau c t).visible = true ∧
      can_stack (g.mem card) (g.tableau c t) false = true) ∨
  (∃ c, c < 7 ∧ a = tab c 0 ∧ (g.tableau c 0).rank = NO_RANK ∧ (g.mem card).rank = KING)

/-- Example: column 0 holds 64 cards, the visible King of Spades in its last row; the Queen
of Hearts is on the waste. -/
def ex_full_column : Game :=
  game_of ((WASTE_BASE, ⟨true, NO_HIGHLIGHT, HEARTS, 12⟩) :: (List.range 64).map (fun r =>
      (tab 0 r, ⟨true, NO_HIGHLIGHT, SPADES, if r = 63 then KING else 2⟩)))
    ⟨true, WASTE, 0, 0⟩ ⟨false, TABLEAU, 0, 0⟩

/-- Example: the Queen of Hearts on the waste, the visible King of Spades alone in column 0
and the visible King of Clubs alone in column 3. -/
def ex_queen : Game :=
  game_of [(WASTE_BASE, ⟨true, NO_HIGHLIGHT, HEARTS, 12⟩),
           (tab 0 0, ⟨true, NO_HIGHLIGHT, SPADES, KING⟩),
           (tab 3 0, ⟨true, NO_HIGHLIGHT, CLUBS, KING⟩)]
    ⟨true, WASTE, 0, 0⟩ ⟨false, TABLEAU, 0, 0⟩


/-- Example: the cursor on the 2 of Hearts, the only card of the tableau, with the Ace of
Hearts on foundation pile 0 and nothing held. -/
def ex_auto_foundation : Game :=
  game_of [(tab 0 0, ⟨true, NO_HIGHLIGHT, HEARTS, 2⟩),
           (FOUNDATION_BASE, ⟨true, NO_HIGHLIGHT, HEARTS, ACE⟩)]
    ⟨true, TABLEAU, 0, 0⟩ ⟨false, TABLEAU, 0, 0⟩

/-- Example: the cursor on the Queen of Hearts, the only card of column 0, with the King of
Spades alone in column 2 and nothing held. -/
def ex_auto_tableau : Game :=
  game_of [(tab 0 0, ⟨true, NO_HIGHLIGHT, HEARTS, 12⟩),
           (tab 2 0, ⟨true, NO_HIGHLIGHT, SPADES, KING⟩)]
    ⟨true, TABLEAU, 0, 0⟩ ⟨false, TABLEAU, 0, 0⟩


/-- Cell `a` is one that the lookup `get_card pos` marks visible: an occupied slot at the
start of the waste or of the stock, whichever `pos` names. -/
def touch_marks (pos : CardPos) (g : Game) (a : Nat) : Prop :=
  pos.active = true ∧
  ((pos.location = WASTE ∧ WASTE_BASE ≤ a ∧ a < WASTE_BASE + pile_len g WASTE_BASE) ∨
   (pos.location = STOCK ∧ STOCK_BASE ≤ a ∧ a < STOCK_BASE + pile_len g STOCK_BASE))

instance (pos : CardPos) (g : Game) (a : Nat) : Decidable (touch_marks pos g a) := by
  unfold touch_marks; infer_instance


/-- The `visible` flag of cell `a` after the display update: set already, or set by the flip
pass, or set by the lookup of the held position. -/
def display_visible (g : Game) (a : Nat) : Bool :=
  (g.mem a).visible || decide (flips g a) || decide (touch_marks g.moving g a)

/-- The cells that the display update tags Highlighted for the held card in cell `c`. -/
def display_targets (g : Game) (c : Nat) : List Nat :=
  stack_targets (touch g.moving (clear_highlight (update_visible g))) c
    (g.moving.location == TABLEAU)

/-- The highlight of cell `a` after the display update. -/
def display_highlight (g : Game) (a : Nat) : Highlight :=
  match card_ptr g.moving g false with
  | some c =>
    if a = c then SOURCE
    else if a ∈ display_targets g c then HIGHLIGHTED
    else if a < GAME_CELLS then NO_HIGHLIGHT else (g.mem a).highlight
  | none => if a < GAME_CELLS then NO_HIGHLIGHT else (g.mem a).highlight


/-- Cell `a` accounts for the card of suite `s` and rank `k`: a foundation cell whose stored
top is `(s, r)` stands for the cards `(s, 1), ..., (s, r)`, every other cell for the card it
stores. -/
def cell_holds (g : Game) (a : Nat) (s : Suite) (k : Nat) : Prop :=
  if FOUNDATION_BASE ≤ a ∧ a < WASTE_BASE then (g.mem a).suite = s ∧ k ≤ (g.mem a).rank
  else (g.mem a).suite = s ∧ (g.mem a).rank = k

instance (g : Game) (a : Nat) (s : Suite) (k : Nat) : Decidable (cell_holds g a s k) := by
  unfold cell_holds; infer_instance

/-- Number of cells of the board that account for the card `(s, k)`. -/
def card_count (g : Game) (s : Suite) (k : Nat) : Nat :=
  Finset.sum (Finset.range GAME_CELLS) (fun a => if cell_holds g a s k then 1 else 0)

/-- The board holds exactly the 52 cards: every card of rank 1..13 once, no other rank. -/
def full_deck (g : Game) : Prop :=
  ∀ s k, 1 ≤ k → card_count g s k = if k ≤ 13 then 1 else 0

/-- The pile of 64 slots that starts at cell `base` is contiguous (adjacent form). -/
def pile_contiguous (g : Game) (base : Nat) : Prop :=
  ∀ i, i < 63 → (g.mem (base + i)).rank = NO_RANK → (g.mem (base + i + 1)).rank = NO_RANK

instance (g : Game) (base : Nat) : Decidable (pile_contiguous g base) := by
  unfold pile_contiguous; infer_instance


/-- A column of cards `f` (row to card) is well formed: the slot after an empty slot is empty,
and a face-up card is followed only by face-up cards, each one rank below the card it lies on
and of the opposite colour. -/
def run_ok (f : Nat → Card) : Prop :=
  (∀ r, r < 63 → (f r).rank = NO_RANK → (f (r + 1)).rank = NO_RANK) ∧
  (∀ r, r < 63 → (f (r + 1)).rank ≠ NO_RANK → (f r).visible = true →
    (f (r + 1)).visible = true ∧ (f r).rank = (f (r + 1)).rank + 1 ∧
      is_opposite_color (f (r + 1)).suite (f r).suite = true)

/-- A position on the tableau that resolves to a card resolves to a face-up card. -/
def pos_visible (g : Game) (pos : CardPos) : Prop :=
  pos.location = TABLEAU → ∀ a, card_ptr pos g false = some a → (g.mem a).visible = true

/-- The invariant of the cards: the board holds the 52 cards once each, every pile is
contiguous, face-up tableau cards form descending runs of alternating colour at the end of
their column, column `c` holds face-down cards only in its rows before row `c`, and
foundation slots and waste cards are face up. -/
structure cards_ok (g : Game) : Prop where
  deck : full_deck g
  columns : ∀ c, c < 7 → run_ok (fun r => g.mem (tab c r))
  waste : pile_contiguous g WASTE_BASE
  stock : pile_contiguous g STOCK_BASE
  dealt_up : ∀ c, c < 7 → ∀ r, c ≤ r → r < 64 → (g.mem (tab c r)).rank ≠ NO_RANK →
    (g.mem (tab c r)).visible = true
  foundations : ∀ i, i < 4 → (g.mem (FOUNDATION_BASE + i)).visible = true
  waste_up : ∀ i, i < 64 → (g.mem (WASTE_BASE + i)).rank ≠ NO_RANK →
    (g.mem (WASTE_BASE + i)).visible = true

/-- The invariant of the game: the cards are well formed, the cursor and the held position do
not rest on a face-down tableau card, and the held position is never on the stock. -/
structure board_ok (g : Game) : Prop where
  cards : cards_ok g
  cursor : pos_visible g g.selected
  held : pos_visible g g.moving
  held_stock : g.moving.active = true → g.moving.location ≠ STOCK

/-- The states the program can be in: the result of `reset_game`, and from any such state the
result of `handle_action` and the result of `update_display`. -/
inductive Reachable : Game → Prop
  | reset (fuel : Nat) (rand : Nat → Nat) (g0 g : Game) :
      reset_game fuel rand g0 = some g → Reachable g
  | action (fuel : Nat) (a : Action) (g : Game) (b : Bool) (g' : Game) :
      Reachable g → handle_action fuel a g = some (b, g') → Reachable g'
  | display (g : Game) : Reachable g → Reachable (update_display g)

/-- One pass of the main loop: `handle_action`, then `update_display`. -/
def step (fuel : Nat) (a : Action) (g : Game) : Option Game :=
  (handle_action fuel a g).map (fun r => update_display r.2)

/-- The passes of the main loop for a list of actions. -/
def play (fuel : Nat) : List Action → Game → Option Game
  | [], g => some g
  | a :: l, g => (step fuel a g).bind (play fuel l)

/-- The states at the top of the main loop: the result of `reset_game`, and from any such
state the result of `handle_action` followed by `update_display`. -/
inductive Playing : Game → Prop
  | reset (fuel : Nat) (rand : Nat → Nat) (g0 g : Game) :
      reset_game fuel rand g0 = some g → Playing g
  | step (fuel : Nat) (a : Action) (g : Game) (b : Bool) (g' : Game) :
      Playing g → handle_action fuel a g = some (b, g') → Playing (update_display g')


/-- Cell to which the deal puts the card with deck index `i`. -/
def deal_cell (i : Nat) : Nat :=
  if i < 1 then tab 0 i else if i < 3 then tab 1 (i - 1) else if i < 6 then tab 2 (i - 3)
  else if i < 10 then tab 3 (i - 6) else if i < 15 then tab 4 (i - 10)
  else if i < 21 then tab 5 (i - 15) else if i < 28 then tab 6 (i - 21)
  else STOCK_BASE + (i - 28)


/-- The game that `reset_game` deals from the unshuffled deck onto a zero-filled block. -/
def start_game : Game := (reset_game 1 (fun i => i) ex_zero).getD ex_zero

/-- The game `g` after the main loop has handled the actions `l`, and `g` itself when an
action does not return. -/
def after (l : List Action) (g : Game) : Game := (play 2 l g).getD g


/-- Example: a game block whose column 0 holds a face-down card under a face-up one, as a
block that `reset_game` is called on. -/
def ex_stale : Game :=
  game_of [(tab 0 0, ⟨false, NO_HIGHLIGHT, SPADES, 5⟩), (tab 0 1, ⟨true, NO_HIGHLIGHT, HEARTS, 4⟩)]
    ⟨false, TABLEAU, 0, 0⟩ ⟨false, TABLEAU, 0, 0⟩

/-- Example: values of `rand()` for which the shuffle swaps the cards 39 and 0 of the deck and
nothing else, so that the Ace of Spades is dealt to column 0. -/
def rand_ace_spades : Nat → Nat := fun i => if i = 39 then 0 else i

/-- Example: values of `rand()` for which the shuffle swaps the cards 50 and 0 of the deck and
nothing else, so that the second card drawn from the stock is the Ace of Hearts. -/
def rand_ace_hearts : Nat → Nat := fun i => if i = 50 then 0 else i


/-- The games `g` and `g'` are the same Board State: the same cursor, the same held position
and the same card in every slot of every pile. -/
def same_board (g g' : Game) : Prop :=
  g'.selected = g.selected ∧ g'.moving = g.moving ∧ ∀ a, a < GAME_CELLS → g'.mem a = g.mem a

instance (g g' : Game) : Decidable (same_board g g') := by
  unfold same_board; infer_instance


/-- Example: the cursor on the waste, column 5 holding 64 face-down cards. -/
def ex_hidden_column : Game :=
  game_of ((List.range 64).map (fun r => (tab 5 r, ⟨false, NO_HIGHLIGHT, SPADES, 1⟩)))
    ⟨true, WASTE, 0, 0⟩ ⟨false, TABLEAU, 0, 0⟩

/-- Example: the cursor on the waste, which holds a card; the stock holds a card too. -/
def ex_waste_cursor : Game :=
  game_of [(WASTE_BASE, ⟨true, NO_HIGHLIGHT, HEARTS, 3⟩), (STOCK_BASE, ⟨false, NO_HIGHLIGHT, CLUBS, 7⟩)]
    ⟨true, WASTE, 0, 0⟩ ⟨false, TABLEAU, 0, 0⟩

/-- Row `r` is the first unoccupied slot of tableau column `c`. -/
def first_free (g : Game) (c r : Nat) : Prop :=
  r < 64 ∧ (g.tableau c r).rank = NO_RANK ∧ ∀ j, j < r → (g.tableau c j).rank ≠ NO_RANK

instance (g : Game) (c r : Nat) : Decidable (first_free g c r) := by
  unfold first_free; infer_instance


/-- A column of two face-down cards under a face-up one, with the cursor on its first card. -/
def ex_snap : Game :=
  game_of [(tab 2 0, ⟨false, NO_HIGHLIGHT, SPADES, 5⟩), (tab 2 1, ⟨false, NO_HIGHLIGHT, HEARTS, 4⟩),
    (tab 2 2, ⟨true, NO_HIGHLIGHT, CLUBS, 3⟩)] ⟨true, TABLEAU, 2, 0⟩ ⟨false, TABLEAU, 0, 0⟩

/-- The game with the cursor row replaced. -/
def at_row (g : Game) (r : Nat) : Game :=
  { g with selected := { g.selected with row := (r : Int) } }

/-- The actions that draw `n` cards in a row: the cursor is brought (back) to the stock with
Right before each Confirm. -/
def redraws : Nat → List Action
  | 0 => []
  | n + 1 => RIGHT :: CONFIRM :: redraws n

/-- The first `k` of the `n` cards `w 0, ..., w (n - 1)` lie on the waste in this order and the
other `n - k` lie in the stock in reverse order (`w k` on top); the cursor is on the waste or
the stock and nothing is held. -/
def redrawn (w : Nat → Card) (n k : Nat) (g : Game) : Prop :=
  g.selected.active = true ∧ (g.selected.location = WASTE ∨ g.selected.location = STOCK) ∧
  g.moving.active = false ∧
  (∀ i, i < 64 → (g.waste i).rank = if i < k then (w i).rank else NO_RANK) ∧
  (∀ i, i < k → (g.waste i).suite = (w i).suite) ∧
  (∀ i, i < 64 → (g.stock i).rank = if i < n - k then (w (n - 1 - i)).rank else NO_RANK) ∧
  (∀ i, i < n - k → (g.stock i).suite = (w (n - 1 - i)).suite)


/-- Result of Confirm on the first card of the deal of the identity shuffle. -/
def ex_picked : Bool × Game := (handle_action 1 CONFIRM start_game).getD (false, start_game)


/-- The card `(s, k)` lies face up on the board: a cell that accounts for it has its
`visible` flag set. -/
def card_visible (g : Game) (s : Suite) (k : Nat) : Prop :=
  ∃ a, a < GAME_CELLS ∧ cell_holds g a s k ∧ (g.mem a).visible = true

/-- Every occupied face-down cell of `h` held the same card, face down, in `g`. -/
def hid_frame (g h : Game) : Prop :=
  ∀ a, a < GAME_CELLS → (h.mem a).rank ≠ NO_RANK → (h.mem a).visible = false →
    (g.mem a).rank = (h.mem a).rank ∧ (g.mem a).suite = (h.mem a).suite ∧
      (g.mem a).visible = false


/-! ## Stores -/

@[simp] theorem write_mem (g : Game) (a : Nat) (c : Card) (b : Nat) :
    (g.write a c).mem b = if b = a then c else g.mem b := by
  simp [Game.write, Function.update_apply]

@[simp] theorem write_selected (g : Game) (a : Nat) (c : Card) :
    (g.write a c).selected = g.selected := rfl

@[simp] theorem write_moving (g : Game) (a : Nat) (c : Card) :
    (g.write a c).moving = g.moving := rfl

@[simp] theorem set_visible_selected (g : Game) (a : Nat) (v : Bool) :
    (g.set_visible a v).selected = g.selected := rfl

@[simp] theorem set_visible_moving (g : Game) (a : Nat) (v : Bool) :
    (g.set_visible a v).moving = g.moving := rfl

@[simp] theorem set_highlight_selected (g : Game) (a : Nat) (h : Highlight) :
    (g.set_highlight a h).selected = g.selected := rfl

@[simp] theorem set_highlight_moving (g : Game) (a : Nat) (h : Highlight) :
    (g.set_highlight a h).moving = g.moving := rfl

@[simp] theorem set_rank_selected (g : Game) (a : Nat) (k : Nat) :
    (g.set_rank a k).selected = g.selected := rfl

@[simp] theorem set_rank_moving (g : Game) (a : Nat) (k : Nat) :
    (g.set_rank a k).moving = g.moving := rfl

theorem set_visible_mem (g : Game) (a : Nat) (v : Bool) (b : Nat) :
    (g.set_visible a v).mem b = if b = a then { g.mem a with visible := v } else g.mem b := by
  simp [Game.set_visible]

theorem set_highlight_mem (g : Game) (a : Nat) (h : Highlight) (b : Nat) :
    (g.set_highlight a h).mem b = if b = a then { g.mem a with highlight := h } else g.mem b := by
  simp [Game.set_highlight]

theorem set_rank_mem (g : Game) (a : Nat) (k : Nat) (b : Nat) :
    (g.set_rank a k).mem b = if b = a then { g.mem a with rank := k } else g.mem b := by
  simp [Game.set_rank]

@[simp] theorem set_visible_rank (g : Game) (a : Nat) (v : Bool) (b : Nat) :
    ((g.set_visible a v).mem b).rank = (g.mem b).rank := by
  rw [set_visible_mem]; split <;> simp_all

@[simp] theorem set_visible_suite (g : Game) (a : Nat) (v : Bool) (b : Nat) :
    ((g.set_visible a v).mem b).suite = (g.mem b).suite := by
  rw [set_visible_mem]; split <;> simp_all

@[simp] theorem set_visible_highlight (g : Game) (a : Nat) (v : Bool) (b : Nat) :
    ((g.set_visible a v).mem b).highlight = (g.mem b).highlight := by
  rw [set_visible_mem]; split <;> simp_all

@[simp] theorem set_highlight_rank (g : Game) (a : Nat) (h : Highlight) (b : Nat) :
    ((g.set_highlight a h).mem b).rank = (g.mem b).rank := by
  rw [set_highlight_mem]; split <;> simp_all

@[simp] theorem set_highlight_suite (g : Game) (a : Nat) (h : Highlight) (b : Nat) :
    ((g.set_highlight a h).mem b).suite = (g.mem b).suite := by
  rw [set_highlight_mem]; split <;> simp_all

@[simp] theorem set_highlight_visible (g : Game) (a : Nat) (h : Highlight) (b : Nat) :
    ((g.set_highlight a h).mem b).visible = (g.mem b).visible := by
  rw [set_highlight_mem]; split <;> simp_all

theorem game_ext {g g' : Game} (hm : ∀ a, g'.mem a = g.mem a) (hs : g'.selected = g.selected)
    (hv : g'.moving = g.moving) : g' = g := by
  cases g; cases g'
  simp only [Game.mk.injEq]
  exact ⟨funext hm, hs, hv⟩

/-! ## First empty slot -/

theorem first_empty_ge (m : Nat → Card) (base n i : Nat) : i ≤ first_empty m base n i := by
  induction n generalizing i with
  | zero => simp [first_empty]
  | succ n ih =>
    simp only [first_empty]
    split
    · exact Nat.le_refl _
    · exact Nat.le_trans (Nat.le_succ i) (ih (i + 1))

theorem first_empty_le (m : Nat → Card) (base n i : Nat) : first_empty m base n i ≤ i + n := by
  induction n generalizing i with
  | zero => simp [first_empty]
  | succ n ih =>
    simp only [first_empty]
    split
    · omega
    · have := ih (i + 1); omega

theorem first_empty_occupied (m : Nat → Card) (base n i j : Nat)
    (h1 : i ≤ j) (h2 : j < first_empty m base n i) : (m (base + j)).rank ≠ 0 := by
  induction n generalizing i with
  | zero => simp [first_empty] at h2; omega
  | succ n ih =>
    simp only [first_empty] at h2
    split at h2
    · omega
    · rename_i h
      by_cases hij : i = j
      · subst hij; exact h
      · exact ih (i + 1) (by omega) h2

theorem first_empty_empty (m : Nat → Card) (base n i : Nat)
    (h : first_empty m base n i < i + n) : (m (base + first_empty m base n i)).rank = 0 := by
  induction n generalizing i with
  | zero => simp [first_empty] at h
  | succ n ih =>
    simp only [first_empty] at h ⊢
    split
    · assumption
    · rename_i h0
      rw [if_neg h0] at h
      exact ih (i + 1) (by omega)

/-- The first empty slot is determined by the ranks alone. -/
theorem first_empty_congr (m m' : Nat → Card) (base n i : Nat)
    (h : ∀ j, i ≤ j → j < i + n → (m' (base + j)).rank = (m (base + j)).rank) :
    first_empty m' base n i = first_empty m base n i := by
  induction n generalizing i with
  | zero => simp [first_empty]
  | succ n ih =>
    simp only [first_empty]
    rw [h i (Nat.le_refl _) (by omega)]
    split
    · rfl
    · exact ih (i + 1) (fun j h1 h2 => h j (by omega) (by omega))

/-- Characterisation of the first empty slot. -/
theorem first_empty_eq (m : Nat → Card) (base n i k : Nat) (h1 : i ≤ k) (h2 : k ≤ i + n)
    (hocc : ∀ j, i ≤ j → j < k → (m (base + j)).rank ≠ 0)
    (hemp : k < i + n → (m (base + k)).rank = 0) : first_empty m base n i = k := by
  induction n generalizing i with
  | zero => simp [first_empty]; omega
  | succ n ih =>
    simp only [first_empty]
    split
    · rename_i h0
      by_contra hne
      exact hocc i (Nat.le_refl _) (by omega) h0
    · rename_i h0
      have hik : i ≠ k := by
        intro h; subst h
        exact h0 (hemp (by omega))
      exact ih (i + 1) (by omega) (by omega) (fun j hj1 hj2 => hocc j (by omega) hj2)
        (fun hk => hemp (by omega))

theorem pile_len_le (g : Game) (base : Nat) : pile_len g base ≤ 64 := by
  have := first_empty_le g.mem base 64 0
  simpa [pile_len] using this

theorem pile_len_occupied (g : Game) (base j : Nat) (h : j < pile_len g base) :
    (g.mem (base + j)).rank ≠ 0 :=
  first_empty_occupied g.mem base 64 0 j (Nat.zero_le _) h

theorem pile_len_empty (g : Game) (base : Nat) (h : pile_len g base < 64) :
    (g.mem (base + pile_len g base)).rank = 0 :=
  first_empty_empty g.mem base 64 0 (by simpa [pile_len] using h)

theorem pile_len_congr (g g' : Game) (base : Nat)
    (h : ∀ j, j < 64 → (g'.mem (base + j)).rank = (g.mem (base + j)).rank) :
    pile_len g' base = pile_len g base :=
  first_empty_congr g.mem g'.mem base 64 0 (fun j _ h2 => h j (by omega))

theorem pile_len_eq (g : Game) (base k : Nat) (h2 : k ≤ 64)
    (hocc : ∀ j, j < k → (g.mem (base + j)).rank ≠ 0)
    (hemp : k < 64 → (g.mem (base + k)).rank = 0) : pile_len g base = k :=
  first_empty_eq g.mem base 64 0 k (Nat.zero_le _) (by omega) (fun j _ h => hocc j h)
    (fun h => hemp (by omega))


/-! ## Marking visible -/

@[simp] theorem mark_visible_selected (g : Game) (b l : Nat) :
    (mark_visible g b l).selected = g.selected := rfl
@[simp] theorem mark_visible_moving (g : Game) (b l : Nat) :
    (mark_visible g b l).moving = g.moving := rfl

theorem mark_visible_mem (g : Game) (b l a : Nat) :
    (mark_visible g b l).mem a =
      if b ≤ a ∧ a < b + l then { g.mem a with visible := true } else g.mem a := rfl

@[simp] theorem mark_visible_rank (g : Game) (b l a : Nat) :
    ((mark_visible g b l).mem a).rank = (g.mem a).rank := by
  rw [mark_visible_mem]; split <;> rfl

@[simp] theorem mark_visible_suite (g : Game) (b l a : Nat) :
    ((mark_visible g b l).mem a).suite = (g.mem a).suite := by
  rw [mark_visible_mem]; split <;> rfl

@[simp] theorem mark_visible_highlight (g : Game) (b l a : Nat) :
    ((mark_visible g b l).mem a).highlight = (g.mem a).highlight := by
  rw [mark_visible_mem]; split <;> rfl

theorem mark_visible_zero (g : Game) (b : Nat) : mark_visible g b 0 = g := by
  apply game_ext <;> simp [mark_visible_mem]

@[simp] theorem pile_len_mark_visible (g : Game) (b l base : Nat) :
    pile_len (mark_visible g b l) base = pile_len g base :=
  pile_len_congr _ _ _ (fun _ _ => by simp)

theorem mark_visible_idem (g : Game) (b l : Nat) :
    mark_visible (mark_visible g b l) b l = mark_visible g b l := by
  apply game_ext
  · intro a
    simp only [mark_visible_mem]
    split <;> simp_all
  · rfl
  · rfl

/-! ## `get_waste_top`, `get_stock_top` -/

theorem get_waste_top_loop_eq (nr : Bool) (n i : Nat) (card : Option Nat) (g : Game) :
    get_waste_top_loop nr n i card g =
      (if first_empty g.mem WASTE_BASE n i = i then
          (if 0 < n ∧ nr = true ∧ card = none then some (WASTE_BASE + i) else card)
        else some (WASTE_BASE + first_empty g.mem WASTE_BASE n i - 1),
       mark_visible g (WASTE_BASE + i) (first_empty g.mem WASTE_BASE n i - i)) := by
  induction n generalizing i card g with
  | zero => simp [get_waste_top_loop, first_empty, mark_visible_zero]
  | succ n ih =>
    simp only [get_waste_top_loop, first_empty]
    by_cases h0 : (g.mem (WASTE_BASE + i)).rank = NO_RANK
    · simp only [h0, if_true, Nat.sub_self, mark_visible_zero]
      cases nr <;> cases card <;> simp
    · simp only [h0, if_false]
      rw [ih]
      have hfe : first_empty (g.set_visible (WASTE_BASE + i) true).mem WASTE_BASE n (i + 1)
          = first_empty g.mem WASTE_BASE n (i + 1) :=
        first_empty_congr _ _ _ _ _ (fun _ _ _ => by simp)
      rw [hfe]
      have hge := first_empty_ge g.mem WASTE_BASE n (i + 1)
      have hne : first_empty g.mem WASTE_BASE n (i + 1) ≠ i := by omega
      simp only [hne, if_false]
      congr 1
      · split
        · rename_i h; rw [h]; simp
        · rfl
      · apply game_ext
        · intro a
          simp only [mark_visible_mem, set_visible_mem]
          by_cases ha : a = WASTE_BASE + i
          · subst ha
            have h1 : ¬ (WASTE_BASE + (i + 1) ≤ WASTE_BASE + i ∧ WASTE_BASE + i <
              WASTE_BASE + (i + 1) + (first_empty g.mem WASTE_BASE n (i + 1) - (i + 1))) := by omega
            have h2 : (WASTE_BASE + i ≤ WASTE_BASE + i ∧ WASTE_BASE + i <
              WASTE_BASE + i + (first_empty g.mem WASTE_BASE n (i + 1) - i)) := by omega
            simp [h1, h2]
          · simp only [ha, if_false]
            have : (WASTE_BASE + (i + 1) ≤ a ∧
                a < WASTE_BASE + (i + 1) + (first_empty g.mem WASTE_BASE n (i + 1) - (i + 1))) ↔
                (WASTE_BASE + i ≤ a ∧
                a < WASTE_BASE + i + (first_empty g.mem WASTE_BASE n (i + 1) - i)) := by omega
            simp only [this]
        · rfl
        · rfl

theorem get_stock_top_loop_eq (nr : Bool) (n i : Nat) (card : Option Nat) (g : Game) :
    get_stock_top_loop nr n i card g =
      (if first_empty g.mem STOCK_BASE n i = i then
          (if 0 < n ∧ nr = true ∧ card = none then some (STOCK_BASE + i) else card)
        else some (STOCK_BASE + first_empty g.mem STOCK_BASE n i - 1),
       mark_visible g (STOCK_BASE + i) (first_empty g.mem STOCK_BASE n i - i)) := by
  induction n generalizing i card g with
  | zero => simp [get_stock_top_loop, first_empty, mark_visible_zero]
  | succ n ih =>
    simp only [get_stock_top_loop, first_empty]
    by_cases h0 : (g.mem (STOCK_BASE + i)).rank = NO_RANK
    · simp only [h0, if_true, Nat.sub_self, mark_visible_zero]
      cases nr <;> cases card <;> simp
    · simp only [h0, if_false]
      rw [ih]
      have hfe : first_empty (g.set_visible (STOCK_BASE + i) true).mem STOCK_BASE n (i + 1)
          = first_empty g.mem STOCK_BASE n (i + 1) :=
        first_empty_congr _ _ _ _ _ (fun _ _ _ => by simp)
      rw [hfe]
      have hge := first_empty_ge g.mem STOCK_BASE n (i + 1)
      have hne : first_empty g.mem STOCK_BASE n (i + 1) ≠ i := by omega
      simp only [hne, if_false]
      congr 1
      · split
        · rename_i h; rw [h]; simp
        · rfl
      · apply game_ext
        · intro a
          simp only [mark_visible_mem, set_visible_mem]
          by_cases ha : a = STOCK_BASE + i
          · subst ha
            have h1 : ¬ (STOCK_BASE + (i + 1) ≤ STOCK_BASE + i ∧ STOCK_BASE + i <
              STOCK_BASE + (i + 1) + (first_empty g.mem STOCK_BASE n (i + 1) - (i + 1))) := by omega
            have h2 : (STOCK_BASE + i ≤ STOCK_BASE + i ∧ STOCK_BASE + i <
              STOCK_BASE + i + (first_empty g.mem STOCK_BASE n (i + 1) - i)) := by omega
            simp [h1, h2]
          · simp only [ha, if_false]
            have : (STOCK_BASE + (i + 1) ≤ a ∧
                a < STOCK_BASE + (i + 1) + (first_empty g.mem STOCK_BASE n (i + 1) - (i + 1))) ↔
                (STOCK_BASE + i ≤ a ∧
                a < STOCK_BASE + i + (first_empty g.mem STOCK_BASE n (i + 1) - i)) := by omega
            simp only [this]
        · rfl
        · rfl

/-- Pointer returned by a top-of-pile lookup on the pile at `base`. -/
theorem get_waste_top_eq (g : Game) (nr : Bool) :
    get_waste_top g nr =
      (if pile_len g WASTE_BASE = 0 then (if nr = true then some WASTE_BASE else none)
        else some (WASTE_BASE + (pile_len g WASTE_BASE - 1)),
       mark_visible g WASTE_BASE (pile_len g WASTE_BASE)) := by
  simp only [get_waste_top, get_waste_top_loop_eq, pile_len]
  by_cases h : first_empty g.mem WASTE_BASE 64 0 = 0
  · simp [h]
  · have e : WASTE_BASE + first_empty g.mem WASTE_BASE 64 0 - 1
        = WASTE_BASE + (first_empty g.mem WASTE_BASE 64 0 - 1) := by omega
    simp [h, e]

theorem get_stock_top_eq (g : Game) (nr : Bool) :
    get_stock_top g nr =
      (if pile_len g STOCK_BASE = 0 then (if nr = true then some STOCK_BASE else none)
        else some (STOCK_BASE + (pile_len g STOCK_BASE - 1)),
       mark_visible g STOCK_BASE (pile_len g STOCK_BASE)) := by
  simp only [get_stock_top, get_stock_top_loop_eq, pile_len]
  by_cases h : first_empty g.mem STOCK_BASE 64 0 = 0
  · simp [h]
  · have e : STOCK_BASE + first_empty g.mem STOCK_BASE 64 0 - 1
        = STOCK_BASE + (first_empty g.mem STOCK_BASE 64 0 - 1) := by omega
    simp [h, e]


/-! ## `get_card` -/

@[simp] theorem touch_selected (pos : CardPos) (g : Game) : (touch pos g).selected = g.selected := by
  unfold touch; split
  · split <;> rfl
  · rfl

@[simp] theorem touch_moving (pos : CardPos) (g : Game) : (touch pos g).moving = g.moving := by
  unfold touch; split
  · split <;> rfl
  · rfl

@[simp] theorem touch_rank (pos : CardPos) (g : Game) (a : Nat) :
    ((touch pos g).mem a).rank = (g.mem a).rank := by
  unfold touch; split
  · split <;> simp
  · rfl

@[simp] theorem touch_suite (pos : CardPos) (g : Game) (a : Nat) :
    ((touch pos g).mem a).suite = (g.mem a).suite := by
  unfold touch; split
  · split <;> simp
  · rfl

@[simp] theorem touch_highlight (pos : CardPos) (g : Game) (a : Nat) :
    ((touch pos g).mem a).highlight = (g.mem a).highlight := by
  unfold touch; split
  · split <;> simp
  · rfl

theorem touch_tableau (pos : CardPos) (g : Game) (h : pos.location = TABLEAU) :
    touch pos g = g := by
  unfold touch; simp [h]

theorem touch_foundation (pos : CardPos) (g : Game) (h : pos.location = FOUNDATION) :
    touch pos g = g := by
  unfold touch; simp [h]

theorem touch_inactive (pos : CardPos) (g : Game) (h : pos.active = false) :
    touch pos g = g := by
  unfold touch; simp [h]

theorem get_card_snd (pos : CardPos) (g : Game) (nr : Bool) :
    (get_card pos g nr).2 = touch pos g := by
  unfold get_card touch
  cases hact : pos.active
  · simp
  · simp only [Bool.not_true, Bool.false_eq_true, if_false, if_true]
    cases hloc : pos.location
    · simp only []
      split
      · split <;> rfl
      · rfl
    · simp [get_waste_top_eq]
    · simp [get_stock_top_eq]
    · simp only []
      split <;> rfl

theorem get_card_eq (pos : CardPos) (g : Game) (nr : Bool) :
    get_card pos g nr = (card_ptr pos g nr, touch pos g) := by
  rw [← get_card_snd pos g nr]; rfl

theorem card_ptr_inactive (pos : CardPos) (g : Game) (nr : Bool) (h : pos.active = false) :
    card_ptr pos g nr = none := by
  simp [card_ptr, get_card, h]

theorem card_ptr_tableau (pos : CardPos) (g : Game) (nr : Bool) (ha : pos.active = true)
    (h : pos.location = TABLEAU) :
    card_ptr pos g nr =
      if 0 ≤ pos.column ∧ pos.column < 7 ∧ 0 ≤ pos.row ∧ pos.row < 64 then
        if nr = false ∧ (g.mem (tab pos.column.toNat pos.row.toNat)).rank = 0 then none
        else some (tab pos.column.toNat pos.row.toNat)
      else none := by
  simp only [card_ptr, get_card, ha, h, Bool.not_true, Bool.false_eq_true, if_false]
  by_cases hr : 0 ≤ pos.column ∧ pos.column < 7 ∧ 0 ≤ pos.row ∧ pos.row < 64
  · simp only [ge_iff_le, hr, and_self, if_true]
    cases nr <;> simp
    split <;> simp_all
  · simp only [ge_iff_le, hr, if_false]

theorem card_ptr_foundation (pos : CardPos) (g : Game) (nr : Bool) (ha : pos.active = true)
    (h : pos.location = FOUNDATION) :
    card_ptr pos g nr =
      if 0 ≤ pos.column ∧ pos.column < 4 then some (FOUNDATION_BASE + pos.column.toNat)
      else none := by
  simp only [card_ptr, get_card, ha, h, Bool.not_true, Bool.false_eq_true, if_false]
  split <;> simp_all

theorem card_ptr_waste (pos : CardPos) (g : Game) (nr : Bool) (ha : pos.active = true)
    (h : pos.location = WASTE) :
    card_ptr pos g nr =
      if pile_len g WASTE_BASE = 0 then (if nr = true then some WASTE_BASE else none)
      else some (WASTE_BASE + (pile_len g WASTE_BASE - 1)) := by
  simp only [card_ptr, get_card, ha, h, get_waste_top_eq, Bool.not_true, Bool.false_eq_true,
    if_false]

theorem card_ptr_stock (pos : CardPos) (g : Game) (nr : Bool) (ha : pos.active = true)
    (h : pos.location = STOCK) :
    card_ptr pos g nr =
      if pile_len g STOCK_BASE = 0 then (if nr = true then some STOCK_BASE else none)
      else some (STOCK_BASE + (pile_len g STOCK_BASE - 1)) := by
  simp only [card_ptr, get_card, ha, h, get_stock_top_eq, Bool.not_true, Bool.false_eq_true,
    if_false]

/-- The pointer returned by `get_card` depends on the ranks only. -/
theorem card_ptr_congr (pos : CardPos) (g g' : Game) (nr : Bool)
    (h : ∀ a, (g'.mem a).rank = (g.mem a).rank) : card_ptr pos g' nr = card_ptr pos g nr := by
  cases ha : pos.active
  · simp [card_ptr_inactive, ha]
  · cases hl : pos.location
    · simp [card_ptr_tableau, ha, hl, h]
    · simp [card_ptr_waste, ha, hl, pile_len_congr g g' WASTE_BASE (fun _ _ => h _)]
    · simp [card_ptr_stock, ha, hl, pile_len_congr g g' STOCK_BASE (fun _ _ => h _)]
    · simp [card_ptr_foundation, ha, hl]

@[simp] theorem card_ptr_touch (pos q : CardPos) (g : Game) (nr : Bool) :
    card_ptr pos (touch q g) nr = card_ptr pos g nr :=
  card_ptr_congr _ _ _ _ (fun _ => by simp)

/-- A pointer returned with `no_rank = false` points to an occupied cell, unless it points
to a foundation pile. -/
theorem card_ptr_false_rank (pos : CardPos) (g : Game) (c : Nat)
    (h : card_ptr pos g false = some c) (hl : pos.location ≠ FOUNDATION) :
    (g.mem c).rank ≠ 0 := by
  cases ha : pos.active
  · simp [card_ptr_inactive, ha] at h
  · cases hloc : pos.location
    · rw [card_ptr_tableau _ _ _ ha hloc] at h
      split at h
      · split at h
        · simp at h
        · rename_i h2
          simp at h; subst h; simpa using h2
      · simp at h
    · rw [card_ptr_waste _ _ _ ha hloc] at h
      split at h
      · simp at h
      · rename_i h0
        have h := Option.some.inj h
        subst h
        exact pile_len_occupied g WASTE_BASE (pile_len g WASTE_BASE - 1) (by omega)
    · rw [card_ptr_stock _ _ _ ha hloc] at h
      split at h
      · simp at h
      · rename_i h0
        have h := Option.some.inj h
        subst h
        exact pile_len_occupied g STOCK_BASE (pile_len g STOCK_BASE - 1) (by omega)
    · exact absurd hloc hl

/-! ## The relation `VisRel` -/

theorem visrel_refl (g : Game) : VisRel g g := ⟨rfl, rfl, fun _ => Or.inl rfl⟩

theorem visrel_trans {g1 g2 g3 : Game} (h12 : VisRel g1 g2) (h23 : VisRel g2 g3) :
    VisRel g1 g3 := by
  obtain ⟨s12, m12, c12⟩ := h12
  obtain ⟨s23, m23, c23⟩ := h23
  refine ⟨s23.trans s12, m23.trans m12, fun a => ?_⟩
  rcases c12 a with e12 | ⟨l, u, r, e12⟩ <;> rcases c23 a with e23 | ⟨l', u', r', e23⟩
  · exact Or.inl (e23.trans e12)
  · exact Or.inr ⟨l', u', by rw [← e12]; exact r', by rw [e23, e12]⟩
  · exact Or.inr ⟨l, u, r, by rw [e23, e12]⟩
  · exact Or.inr ⟨l, u, r, by rw [e23, e12]⟩

theorem visrel_mark (g : Game) (b : Nat) (hb : b = WASTE_BASE ∨ b = STOCK_BASE) :
    VisRel g (mark_visible g b (pile_len g b)) := by
  refine ⟨rfl, rfl, fun a => ?_⟩
  rw [mark_visible_mem]
  have hle := pile_len_le g b
  split
  · rename_i h
    have ho := pile_len_occupied g b (a - b) (by omega)
    have e : b + (a - b) = a := by omega
    rw [e] at ho
    refine Or.inr ⟨?_, ?_, ho, rfl⟩
    · rcases hb with hb | hb <;> simp only [WASTE_BASE, STOCK_BASE] at * <;> omega
    · rcases hb with hb | hb <;> simp only [WASTE_BASE, STOCK_BASE, GAME_CELLS] at * <;> omega
  · exact Or.inl rfl

theorem visrel_touch (pos : CardPos) (g : Game) : VisRel g (touch pos g) := by
  unfold touch
  split
  · split
    · exact visrel_mark _ _ (Or.inl rfl)
    · exact visrel_mark _ _ (Or.inr rfl)
    · exact visrel_refl g
  · exact visrel_refl g

theorem visrel_touch_right {g g' : Game} (pos : CardPos) (h : VisRel g g') :
    VisRel g (touch pos g') :=
  visrel_trans h (visrel_touch pos g')


/-! ## `get_amount_stacked_cards` -/

theorem get_amount_loop_eq (g : Game) (column n row i : Nat) :
    get_amount_loop g column n row i = i + (first_empty g.mem (tab column 0) n row - row) := by
  induction n generalizing row i with
  | zero => simp [get_amount_loop, first_empty]
  | succ n ih =>
    simp only [get_amount_loop, first_empty]
    have e : tab column row = tab column 0 + row := by simp [tab]
    rw [e]
    split
    · simp
    · rw [ih]
      have := first_empty_ge g.mem (tab column 0) n (row + 1)
      omega

/-- Number of occupied slots at the start of tableau column `c`. -/
theorem col_len_def (g : Game) (c : Nat) :
    pile_len g (tab c 0) = first_empty g.mem (tab c 0) 64 0 := rfl

theorem first_empty_from (m : Nat → Card) (base n i : Nat) (h : i ≤ first_empty m base (i + n) 0) :
    first_empty m base n i = first_empty m base (i + n) 0 := by
  have hle := first_empty_le m base (i + n) 0
  apply first_empty_eq
  · exact h
  · omega
  · intro j hj1 hj2
    exact first_empty_occupied m base (i + n) 0 j (Nat.zero_le _) hj2
  · intro hlt
    exact first_empty_empty m base (i + n) 0 (by omega)


theorem card_ptr_mk_tableau (c r : Int) (g : Game) (nr : Bool) :
    card_ptr ⟨true, TABLEAU, c, r⟩ g nr =
      if 0 ≤ c ∧ c < 7 ∧ 0 ≤ r ∧ r < 64 then
        if nr = false ∧ (g.mem (tab c.toNat r.toNat)).rank = 0 then none
        else some (tab c.toNat r.toNat)
      else none :=
  card_ptr_tableau ⟨true, TABLEAU, c, r⟩ g nr rfl rfl

theorem card_ptr_mk_foundation (c r : Int) (g : Game) (nr : Bool) :
    card_ptr ⟨true, FOUNDATION, c, r⟩ g nr =
      if 0 ≤ c ∧ c < 4 then some (FOUNDATION_BASE + c.toNat) else none :=
  card_ptr_foundation ⟨true, FOUNDATION, c, r⟩ g nr rfl rfl

theorem touch_mk_tableau (a : Bool) (c r : Int) (g : Game) :
    touch ⟨a, TABLEAU, c, r⟩ g = g := touch_tableau _ _ rfl

theorem touch_mk_foundation (a : Bool) (c r : Int) (g : Game) :
    touch ⟨a, FOUNDATION, c, r⟩ g = g := touch_foundation _ _ rfl


/-! ## Lookup traces -/

theorem touched_trans {L : CardLocation → Prop} {g1 g2 g3 : Game} (h12 : Touched L g1 g2)
    (h23 : Touched L g2 g3) : Touched L g1 g3 := by
  induction h23 with
  | refl => exact h12
  | step pos _ hl ih => exact Touched.step pos ih hl

theorem touched_touch {L : CardLocation → Prop} (g : Game) (pos : CardPos)
    (hl : L pos.location) : Touched L g (touch pos g) :=
  Touched.step pos (Touched.refl g) hl

theorem touched_visrel {L : CardLocation → Prop} {g g' : Game} (h : Touched L g g') :
    VisRel g g' := by
  induction h with
  | refl => exact visrel_refl _
  | step pos _ _ ih => exact visrel_touch_right pos ih

theorem touched_moving {L : CardLocation → Prop} {g g' : Game} (h : Touched L g g') :
    g'.moving = g.moving := (touched_visrel h).2.1

theorem touched_selected {L : CardLocation → Prop} {g g' : Game} (h : Touched L g g') :
    g'.selected = g.selected := (touched_visrel h).1

/-- Lookups on the tableau and the foundation leave the game as it is. -/
theorem touched_eq {L : CardLocation → Prop} {g g' : Game} (h : Touched L g g')
    (hL : ∀ l, L l → l = TABLEAU ∨ l = FOUNDATION) : g' = g := by
  induction h with
  | refl => rfl
  | step pos _ hl ih =>
    rcases hL _ hl with h | h
    · rw [touch_tableau _ _ h, ih]
    · rw [touch_foundation _ _ h, ih]

/-! ## `move_card`: the rejecting paths -/

theorem move_card_finish_true (fuel : Nat) (g : Game) (d : CardPos) (b : Bool) (g' : Game)
    (h : move_card_finish fuel g d = some (b, g')) : b = true := by
  simp only [move_card_finish, Option.map_eq_some'] at h
  obtain ⟨x, _, hx⟩ := h
  exact (Prod.mk.inj hx).1.symm

theorem move_card_destination_snd (L : CardLocation → Prop) (g : Game) (d : CardPos) (oc : Nat)
    (hd : L d.location) : Touched L g (move_card_destination g d oc).2 := by
  unfold move_card_destination
  simp only [get_card_eq]
  split
  · split
    · exact touched_touch _ _ hd
    · split <;> exact touched_touch _ _ hd
  · exact Touched.refl g

theorem move_card_destination_location (g : Game) (d : CardPos) (oc : Nat) (d' : CardPos)
    (dc : Nat) (h : (move_card_destination g d oc).1 = some (d', dc)) :
    d'.location = d.location := by
  unfold move_card_destination at h
  simp only [get_card_eq] at h
  split at h
  · split at h
    · simp at h
    · split at h
      · simp at h
      · simp only [Option.some.injEq, Prod.mk.injEq] at h
        rw [← h.1]
  · simp only [Option.some.injEq, Prod.mk.injEq] at h
    rw [← h.1]

theorem move_card_check_source_snd (L : CardLocation → Prop) (g : Game) (sc : Nat)
    (p : CardPos) (hp : L p.location) : Touched L g (move_card_check_source g sc p).2 := by
  unfold move_card_check_source
  simp only [get_card_eq]
  split
  · split
    · exact touched_touch _ _ hp
    · split <;> exact touched_touch _ _ hp
  · split
    · split <;> exact Touched.refl g
    · exact Touched.refl g

theorem move_card_check_above_snd (L : CardLocation → Prop) (g : Game)
    (hp : L g.moving.location) : Touched L g (move_card_check_above g).2 := by
  unfold move_card_check_above
  simp only [get_card_eq]
  split
  · split <;> exact touched_touch _ _ hp
  · exact Touched.refl g

theorem move_card_tableau_false (L : CardLocation → Prop) (fuel : Nat) (g g' : Game) (sc : Nat)
    (d : CardPos) (dc n : Nat) (hd : L d.location) (hm : L g.moving.location)
    (h : move_card_tableau fuel g sc d dc n = some (false, g')) : Touched L g g' := by
  unfold move_card_tableau at h
  simp only [get_card_eq] at h
  have t1 : Touched L g (touch { d with row := d.row + ((n : Int) - 1) } g) :=
    touched_touch _ _ hd
  split at h
  · cases h; exact t1
  · split at h
    · cases h; exact t1
    · have t2 := Touched.step (L := L) { (touch { d with row := d.row + ((n : Int) - 1) } g).moving
        with row := (touch { d with row := d.row + ((n : Int) - 1) } g).moving.row + ((n : Int) - 1) }
        t1 (by simpa using hm)
      split at h
      · cases h; exact t2
      · split at h
        · cases h
          exact touched_trans t2 (move_card_check_source_snd L _ _ _ (by simpa using hm))
        · exact absurd (move_card_finish_true _ _ _ _ _ h) (by simp)

theorem move_card_foundation_false (L : CardLocation → Prop) (fuel : Nat) (g g' : Game)
    (sc : Nat) (d : CardPos) (dc : Nat) (hm : L g.moving.location)
    (h : move_card_foundation fuel g sc d dc = some (false, g')) : Touched L g g' := by
  unfold move_card_foundation at h
  simp only [] at h
  split at h
  · cases h; exact move_card_check_above_snd L g hm
  · exact absurd (move_card_finish_true _ _ _ _ _ h) (by simp)

/-- A rejected `move_card` has only looked up cards at the held and at the selected
position. -/
theorem move_card_false_touched (fuel : Nat) (g g' : Game)
    (h : move_card fuel g = some (false, g')) :
    Touched (fun l => l = g.moving.location ∨ l = g.selected.location) g g' := by
  unfold move_card at h
  simp only [get_card_eq] at h
  have h1 : Touched (fun l => l = g.moving.location ∨ l = g.selected.location) g
      (touch g.moving g) := touched_touch _ _ (Or.inl rfl)
  have h2 := Touched.step (touch g.moving g).selected h1 (Or.inr (by simp))
  have h3 := fun oc => touched_trans h2 (move_card_destination_snd _
    (touch (touch g.moving g).selected (touch g.moving g)) (touch g.moving g).selected oc
    (Or.inr (by simp)))
  split at h
  · cases h; exact Touched.refl g
  · split at h
    · cases h; exact h1
    · split at h
      · cases h; exact h2
      · rename_i oc _
        split at h
        · cases h; exact h3 oc
        · rename_i d dc hstep
          have hdl := move_card_destination_location _ _ _ _ _ hstep
          simp only [touch_selected] at hdl
          split at h
          · cases h; exact h3 oc
          · split at h
            · cases h; exact h3 oc
            · split at h
              · exact touched_trans (h3 oc) (move_card_tableau_false _ _ _ _ _ _ _ _
                  (Or.inr hdl) (Or.inl (by rw [touched_moving (h3 oc)])) h)
              · split at h
                · exact touched_trans (h3 oc) (move_card_foundation_false _ _ _ _ _ _ _
                    (Or.inl (by rw [touched_moving (h3 oc)])) h)
                · cases h; exact h3 oc

theorem move_card_false_visrel (fuel : Nat) (g g' : Game)
    (h : move_card fuel g = some (false, g')) : VisRel g g' :=
  touched_visrel (move_card_false_touched fuel g g' h)

/-! ## `move_card`: runs do not go to a foundation -/

/-- Facts carried by a tableau run of two or more cards. -/
theorem run_two_facts (g : Game) (hm : g.moving.location = TABLEAU)
    (hrun : 2 ≤ get_amount_stacked_cards g.moving g) :
    g.moving.active = true ∧ 0 ≤ g.moving.column ∧ g.moving.column < 7 ∧ 0 ≤ g.moving.row ∧
      g.moving.row + 1 < 64 ∧
      (g.mem (tab g.moving.column.toNat g.moving.row.toNat)).rank ≠ 0 ∧
      (g.mem (tab g.moving.column.toNat (g.moving.row + 1).toNat)).rank ≠ 0 := by
  unfold get_amount_stacked_cards at hrun
  cases ha : g.moving.active
  · simp [ha] at hrun
  · simp only [ha, hm, Bool.not_true, Bool.false_eq_true, if_false, ne_eq, not_true_eq_false] at hrun
    split at hrun
    · omega
    · rename_i hr
      rw [get_amount_loop_eq] at hrun
      have hc0 : 0 ≤ g.moving.column := by omega
      have hr0 : 0 ≤ g.moving.row := by omega
      have hr1 : g.moving.row < 64 := by omega
      have hfe : g.moving.row.toNat + 2 ≤
          first_empty g.mem (tab g.moving.column.toNat 0) (64 - g.moving.row.toNat)
            g.moving.row.toNat := by omega
      have hle := first_empty_le g.mem (tab g.moving.column.toNat 0) (64 - g.moving.row.toNat)
            g.moving.row.toNat
      have o1 := first_empty_occupied g.mem (tab g.moving.column.toNat 0)
        (64 - g.moving.row.toNat) g.moving.row.toNat g.moving.row.toNat (Nat.le_refl _) (by omega)
      have o2 := first_empty_occupied g.mem (tab g.moving.column.toNat 0)
        (64 - g.moving.row.toNat) g.moving.row.toNat (g.moving.row.toNat + 1) (by omega) (by omega)
      have e1 : tab g.moving.column.toNat 0 + g.moving.row.toNat
          = tab g.moving.column.toNat g.moving.row.toNat := by simp [tab]
      have e2 : tab g.moving.column.toNat 0 + (g.moving.row.toNat + 1)
          = tab g.moving.column.toNat (g.moving.row + 1).toNat := by
        simp only [tab]; omega
      rw [e1] at o1
      rw [e2] at o2
      exact ⟨rfl, hc0, by omega, hr0, by omega, o1, o2⟩

theorem move_run_to_foundation_rejected (fuel : Nat) (g : Game) (hm : g.moving.location = TABLEAU)
    (hs : g.selected.location = FOUNDATION)
    (hrun : 2 ≤ get_amount_stacked_cards g.moving g) :
    move_card fuel g = some (false, g) := by
  obtain ⟨ha, hc0, hc1, hr0, hr1, o1, o2⟩ := run_two_facts g hm hrun
  have habove : card_ptr ⟨true, TABLEAU, g.moving.column, g.moving.row + 1⟩
      g false = some (tab g.moving.column.toNat (g.moving.row + 1).toNat) := by
    rw [card_ptr_mk_tableau, if_pos ⟨hc0, hc1, by omega, hr1⟩]
    simp [o2]
  have hsrc : card_ptr g.moving g false = some (tab g.moving.column.toNat g.moving.row.toNat) := by
    rw [card_ptr_tableau _ _ _ ha hm]
    rw [if_pos ⟨hc0, hc1, hr0, by omega⟩]
    simp [o1]
  unfold move_card
  simp only [get_card_eq, touch_tableau _ _ hm, hsrc, touch_foundation _ _ hs]
  split
  · rfl
  · split
    · rfl
    · have hd : ∀ oc, move_card_destination g g.selected oc = (some (g.selected, oc), g) := by
        intro oc; simp [move_card_destination, hs]
      simp only [hd, hs]
      split
      · rfl
      · split
        · rfl
        · simp only [reduceCtorEq, if_false, if_true]
          unfold move_card_foundation
          simp only [move_card_check_above, if_pos hm, get_card_eq, ha, hm, habove,
            touch_mk_tableau]
          rfl



/-! ## `update_visible` -/

theorem tab_zero_add (c r : Nat) : tab c 0 + r = tab c r := by simp [tab]

theorem update_visible_col_loop (c n row : Nat) (g : Game) :
    update_visible_col c n row g =
      if first_empty g.mem (tab c 0) n row < row + n ∧ 0 < first_empty g.mem (tab c 0) n row then
        g.set_visible (tab c (first_empty g.mem (tab c 0) n row - 1)) true
      else g := by
  induction n generalizing row with
  | zero => simp [update_visible_col, first_empty]
  | succ n ih =>
    simp only [update_visible_col, first_empty, tab_zero_add]
    by_cases h0 : (g.mem (tab c row)).rank = NO_RANK
    · simp only [h0, if_true]
      by_cases hr : row > 0
      · rw [if_pos hr, if_pos ⟨by omega, hr⟩]
      · rw [if_neg hr, if_neg (by omega)]
    · simp only [h0, if_false]
      rw [ih]
      have : row + 1 + n = row + (n + 1) := by omega
      rw [this]

theorem update_visible_col_eq (c : Nat) (g : Game) :
    update_visible_col c 64 0 g =
      if 0 < pile_len g (tab c 0) ∧ pile_len g (tab c 0) < 64 then
        g.set_visible (tab c (pile_len g (tab c 0) - 1)) true
      else g := by
  rw [update_visible_col_loop]
  simp only [pile_len, Nat.zero_add]
  by_cases h : first_empty g.mem (tab c 0) 64 0 < 64 ∧ 0 < first_empty g.mem (tab c 0) 64 0
  · rw [if_pos h, if_pos ⟨h.2, h.1⟩]
  · rw [if_neg h, if_neg (fun h' => h ⟨h'.2, h'.1⟩)]

theorem update_visible_col_mem (c : Nat) (g : Game) (a : Nat) :
    (update_visible_col c 64 0 g).mem a =
      if col_top g c a then { g.mem a with visible := true } else g.mem a := by
  rw [update_visible_col_eq]
  unfold col_top
  by_cases h : 0 < pile_len g (tab c 0) ∧ pile_len g (tab c 0) < 64
  · rw [if_pos h, set_visible_mem]
    by_cases ha : a = tab c (pile_len g (tab c 0) - 1)
    · rw [if_pos ha, if_pos ⟨h.1, h.2, ha⟩, ha]
    · rw [if_neg ha, if_neg (fun h' => ha h'.2.2)]
  · rw [if_neg h, if_neg (fun h' => h ⟨h'.1, h'.2.1⟩)]

theorem update_visible_col_selected (c : Nat) (g : Game) :
    (update_visible_col c 64 0 g).selected = g.selected := by
  rw [update_visible_col_eq]; split <;> rfl

theorem update_visible_col_moving (c : Nat) (g : Game) :
    (update_visible_col c 64 0 g).moving = g.moving := by
  rw [update_visible_col_eq]; split <;> rfl

theorem update_visible_col_rank (c : Nat) (g : Game) (a : Nat) :
    ((update_visible_col c 64 0 g).mem a).rank = (g.mem a).rank := by
  rw [update_visible_col_mem]; split <;> rfl

theorem col_top_congr (g g' : Game) (c a : Nat) (h : ∀ b, (g'.mem b).rank = (g.mem b).rank) :
    col_top g' c a ↔ col_top g c a := by
  unfold col_top
  rw [pile_len_congr g g' (tab c 0) (fun _ _ => h _)]

theorem update_visible_fold (cs : List Nat) (g : Game) :
    ((cs.foldl (fun g column => update_visible_col column 64 0 g) g).selected = g.selected ∧
     (cs.foldl (fun g column => update_visible_col column 64 0 g) g).moving = g.moving) ∧
    ∀ a, (cs.foldl (fun g column => update_visible_col column 64 0 g) g).mem a =
      if ∃ c ∈ cs, col_top g c a then { g.mem a with visible := true } else g.mem a := by
  induction cs generalizing g with
  | nil => simp
  | cons c cs ih =>
    simp only [List.foldl_cons]
    obtain ⟨⟨hs, hm⟩, hmem⟩ := ih (update_visible_col c 64 0 g)
    refine ⟨⟨by rw [hs, update_visible_col_selected], by rw [hm, update_visible_col_moving]⟩, ?_⟩
    intro a
    rw [hmem a]
    have hct : ∀ c', col_top (update_visible_col c 64 0 g) c' a ↔ col_top g c' a :=
      fun c' => col_top_congr _ _ _ _ (update_visible_col_rank c g)
    simp only [hct, update_visible_col_mem, List.mem_cons, exists_eq_or_imp]
    by_cases h1 : col_top g c a <;> by_cases h2 : ∃ c' ∈ cs, col_top g c' a <;> simp [h1, h2]

theorem col_top_iff_flips (g : Game) (a : Nat) :
    (∃ c ∈ List.range 7, col_top g c a) ↔ flips g a := by
  unfold col_top flips
  simp only [List.mem_range, tab, FOUNDATION_BASE]
  constructor
  · rintro ⟨c, hc, h1, h2, h3⟩
    have e1 : a / 64 = c := by omega
    have e2 : a % 64 = pile_len g (64 * c + 0) - 1 := by omega
    rw [e1]
    omega
  · rintro ⟨h1, h2, h3⟩
    refine ⟨a / 64, by omega, by omega, by omega, ?_⟩
    omega

theorem update_visible_mem (g : Game) (a : Nat) :
    (update_visible g).mem a =
      if flips g a then { g.mem a with visible := true } else g.mem a := by
  unfold update_visible
  rw [(update_visible_fold (List.range 7) g).2 a]
  by_cases h : flips g a
  · rw [if_pos h, if_pos ((col_top_iff_flips g a).2 h)]
  · rw [if_neg h, if_neg (fun h' => h ((col_top_iff_flips g a).1 h'))]

@[simp] theorem update_visible_selected (g : Game) : (update_visible g).selected = g.selected := by
  unfold update_visible
  exact (update_visible_fold (List.range 7) g).1.1

@[simp] theorem update_visible_moving (g : Game) : (update_visible g).moving = g.moving := by
  unfold update_visible
  exact (update_visible_fold (List.range 7) g).1.2

@[simp] theorem update_visible_rank (g : Game) (a : Nat) :
    ((update_visible g).mem a).rank = (g.mem a).rank := by
  rw [update_visible_mem]; split <;> rfl

@[simp] theorem update_visible_suite (g : Game) (a : Nat) :
    ((update_visible g).mem a).suite = (g.mem a).suite := by
  rw [update_visible_mem]; split <;> rfl

@[simp] theorem update_visible_highlight (g : Game) (a : Nat) :
    ((update_visible g).mem a).highlight = (g.mem a).highlight := by
  rw [update_visible_mem]; split <;> rfl

theorem update_visible_mem_of_ge (g : Game) (a : Nat) (h : FOUNDATION_BASE ≤ a) :
    (update_visible g).mem a = g.mem a := by
  rw [update_visible_mem, if_neg]
  unfold flips
  omega

@[simp] theorem pile_len_update_visible (g : Game) (base : Nat) :
    pile_len (update_visible g) base = pile_len g base :=
  pile_len_congr _ _ _ (fun _ _ => by simp)

theorem update_visible_visible_mono (g : Game) (a : Nat) (h : (g.mem a).visible = true) :
    ((update_visible g).mem a).visible = true := by
  rw [update_visible_mem]; split
  · rfl
  · exact h

/-! ## `clear_highlight` -/

@[simp] theorem clear_highlight_selected (g : Game) : (clear_highlight g).selected = g.selected :=
  rfl
@[simp] theorem clear_highlight_moving (g : Game) : (clear_highlight g).moving = g.moving := rfl

theorem clear_highlight_mem (g : Game) (a : Nat) :
    (clear_highlight g).mem a =
      if a < GAME_CELLS then { g.mem a with highlight := NO_HIGHLIGHT } else g.mem a := rfl

@[simp] theorem clear_highlight_rank (g : Game) (a : Nat) :
    ((clear_highlight g).mem a).rank = (g.mem a).rank := by
  rw [clear_highlight_mem]; split <;> rfl

@[simp] theorem clear_highlight_suite (g : Game) (a : Nat) :
    ((clear_highlight g).mem a).suite = (g.mem a).suite := by
  rw [clear_highlight_mem]; split <;> rfl

@[simp] theorem clear_highlight_visible (g : Game) (a : Nat) :
    ((clear_highlight g).mem a).visible = (g.mem a).visible := by
  rw [clear_highlight_mem]; split <;> rfl

@[simp] theorem pile_len_clear_highlight (g : Game) (base : Nat) :
    pile_len (clear_highlight g) base = pile_len g base :=
  pile_len_congr _ _ _ (fun _ _ => by simp)


/-! ## Drawing from the stock -/

theorem draw_loop_eq (card n i : Nat) (g : Game) :
    draw_loop card n i g =
      if first_empty g.mem WASTE_BASE n i < i + n then
        draw_card card (first_empty g.mem WASTE_BASE n i) g
      else g := by
  induction n generalizing i with
  | zero => simp [draw_loop, first_empty]
  | succ n ih =>
    simp only [draw_loop, first_empty]
    by_cases h0 : (g.mem (WASTE_BASE + i)).rank = NO_RANK
    · simp only [h0, if_true]
      rw [if_pos (by omega)]
    · simp only [h0, if_false]
      rw [ih]
      have : i + 1 + n = i + (n + 1) := by omega
      rw [this]

theorem draw_loop_full (card : Nat) (g : Game) :
    draw_loop card 64 0 g =
      if pile_len g WASTE_BASE < 64 then draw_card card (pile_len g WASTE_BASE) g else g := by
  rw [draw_loop_eq]; simp [pile_len]

@[simp] theorem draw_card_selected (card i : Nat) (g : Game) :
    (draw_card card i g).selected = g.selected := by
  unfold draw_card; split <;> rfl

@[simp] theorem draw_card_moving (card i : Nat) (g : Game) :
    (draw_card card i g).moving = g.moving := by
  unfold draw_card; split <;> rfl

/-- Cells of the game after `draw_card`, when the slot after the first empty waste slot is
empty too and `card` is another cell. -/
theorem draw_card_mem (card i : Nat) (g : Game) (a : Nat)
    (hc1 : card ≠ WASTE_BASE + i)
    (hnext : i < 63 → (g.mem (WASTE_BASE + (i + 1))).rank = 0) :
    (draw_card card i g).mem a =
      if a = card then { g.mem card with visible := true, rank := NO_RANK }
      else if a = WASTE_BASE + i then { g.mem card with visible := true }
      else g.mem a := by
  have hid : (if i < 63 then g.set_rank (WASTE_BASE + (i + 1)) NO_RANK else g) = g := by
    split
    · rename_i h
      apply game_ext
      · intro b
        rw [set_rank_mem]
        split
        · rename_i hb
          subst hb
          have := hnext h
          cases hm : g.mem (WASTE_BASE + (i + 1))
          rw [hm] at this
          simp only at this
          simp [this]
        · rfl
      · rfl
      · rfl
    · rfl
  unfold draw_card
  simp only [hid, set_rank_mem, write_mem, set_visible_mem, if_true]
  by_cases h1 : a = card
  · simp [h1, hc1]
  · by_cases h2 : a = WASTE_BASE + i
    · simp [h1, h2]
    · simp [h1, h2]

/-! ## Recycling the waste -/

/-- One iteration of the recycle loop. -/
theorem recycle_step_mem (i : Nat) (g : Game) (a : Nat) (hL : pile_len g WASTE_BASE ≠ 0) :
    (((mark_visible g WASTE_BASE (pile_len g WASTE_BASE)).write
          (STOCK_BASE + i) ((mark_visible g WASTE_BASE (pile_len g WASTE_BASE)).mem
            (WASTE_BASE + (pile_len g WASTE_BASE - 1)))).set_rank
            (WASTE_BASE + (pile_len g WASTE_BASE - 1)) NO_RANK).mem a =
      if a = WASTE_BASE + (pile_len g WASTE_BASE - 1) then
        { g.mem a with visible := true, rank := NO_RANK }
      else if a = STOCK_BASE + i then
        { g.mem (WASTE_BASE + (pile_len g WASTE_BASE - 1)) with visible := true }
      else if WASTE_BASE ≤ a ∧ a < WASTE_BASE + pile_len g WASTE_BASE then
        { g.mem a with visible := true }
      else g.mem a := by
  have hle := pile_len_le g WASTE_BASE
  simp only [set_rank_mem, write_mem, mark_visible_mem]
  simp only [WASTE_BASE, STOCK_BASE, NO_RANK] at *
  by_cases c2 : a = 452 + (pile_len g 452 - 1)
  · subst c2
    rw [if_pos rfl, if_pos rfl, if_neg (by omega), if_pos ⟨by omega, by omega⟩]
  · rw [if_neg c2, if_neg c2]
    by_cases c3 : a = 516 + i
    · rw [if_pos c3, if_pos c3, if_pos ⟨by omega, by omega⟩]
    · rw [if_neg c3, if_neg c3]

theorem recycle_loop_mem (n i : Nat) (g : Game) (hn : pile_len g WASTE_BASE < n) :
    ((recycle_loop n i g).selected = g.selected ∧ (recycle_loop n i g).moving = g.moving) ∧
    ∀ a, (recycle_loop n i g).mem a =
      if WASTE_BASE ≤ a ∧ a < WASTE_BASE + pile_len g WASTE_BASE then
        { g.mem a with visible := true, rank := NO_RANK }
      else if STOCK_BASE + i ≤ a ∧ a < STOCK_BASE + i + pile_len g WASTE_BASE then
        { g.mem (WASTE_BASE + (pile_len g WASTE_BASE - 1 - (a - (STOCK_BASE + i)))) with
          visible := true }
      else g.mem a := by
  induction n generalizing i g with
  | zero => omega
  | succ n ih =>
    simp only [recycle_loop, get_waste_top_eq]
    by_cases hL : pile_len g WASTE_BASE = 0
    · rw [if_pos hL]
      simp only [Bool.false_eq_true, if_false, hL, mark_visible_zero]
      refine ⟨⟨trivial, trivial⟩, fun a => ?_⟩
      rw [if_neg (by omega), if_neg (by omega)]
    · rw [if_neg hL]
      simp only []
      have hle := pile_len_le g WASTE_BASE
      have hlen : pile_len (((mark_visible g WASTE_BASE (pile_len g WASTE_BASE)).write
          (STOCK_BASE + i) ((mark_visible g WASTE_BASE (pile_len g WASTE_BASE)).mem
            (WASTE_BASE + (pile_len g WASTE_BASE - 1)))).set_rank
            (WASTE_BASE + (pile_len g WASTE_BASE - 1)) NO_RANK) WASTE_BASE
          = pile_len g WASTE_BASE - 1 := by
        apply pile_len_eq
        · omega
        · intro j hj
          rw [set_rank_mem, if_neg (by omega), write_mem,
            if_neg (by simp only [WASTE_BASE, STOCK_BASE]; omega), mark_visible_rank]
          exact pile_len_occupied g WASTE_BASE j (by omega)
        · intro _
          rw [set_rank_mem, if_pos rfl]
      obtain ⟨⟨hs, hm⟩, hmem⟩ := ih (i + 1) _ (by rw [hlen]; omega)
      refine ⟨⟨by rw [hs]; rfl, by rw [hm]; rfl⟩, fun a => ?_⟩
      rw [hmem a, hlen]
      simp only [recycle_step_mem _ _ _ hL]
      simp only [WASTE_BASE, STOCK_BASE, NO_RANK] at *
      by_cases c1 : 452 ≤ a ∧ a < 452 + (pile_len g 452 - 1)
      · rw [if_pos c1, if_neg (by omega), if_neg (by omega), if_pos ⟨c1.1, by omega⟩,
          if_pos ⟨c1.1, by omega⟩]
      · rw [if_neg c1]
        by_cases c2 : a = 452 + (pile_len g 452 - 1)
        · subst c2
          rw [if_neg (by omega), if_pos rfl, if_pos ⟨by omega, by omega⟩]
        · by_cases c3 : a = 516 + i
          · subst c3
            rw [if_neg (by omega), if_neg (by omega), if_pos rfl, if_neg (by omega),
              if_pos ⟨by omega, by omega⟩]
            simp
          · by_cases c4 : 516 + (i + 1) ≤ a ∧ a < 516 + (i + 1) + (pile_len g 452 - 1)
            · rw [if_pos c4, if_neg (by omega), if_neg (by omega), if_pos ⟨by omega, by omega⟩,
                if_neg (by omega), if_pos ⟨by omega, by omega⟩]
              have : pile_len g 452 - 1 - 1 - (a - (516 + (i + 1)))
                  = pile_len g 452 - 1 - (a - (516 + i)) := by omega
              rw [this]
            · rw [if_neg c4, if_neg c2, if_neg c3, if_neg (by omega), if_neg (by omega),
                if_neg (by omega)]

/-! ## `CONFIRM` on the stock -/

theorem handle_confirm_stock_eq (fuel : Nat) (g : Game) (ha : g.selected.active = true)
    (hl : g.selected.location = STOCK) (hm : g.moving.active = false) :
    handle_confirm fuel g =
      if pile_len g STOCK_BASE = 0 then some (true, recycle_loop 65 0 g)
      else
        some (true,
          { draw_loop (STOCK_BASE + (pile_len g STOCK_BASE - 1)) 64 0
              (mark_visible g STOCK_BASE (pile_len g STOCK_BASE)) with
            selected := { g.selected with location := WASTE } }) := by
  unfold handle_confirm
  rw [if_pos ha, if_pos hl, hm, get_stock_top_eq]
  by_cases hp : pile_len g STOCK_BASE = 0
  · simp only [hp, if_true, mark_visible_zero, Bool.false_eq_true, if_false]
  · simp only [hp, if_false, Bool.false_eq_true]
    congr 2
    rw [draw_loop_full]
    split <;> simp [hl]

theorem handle_action_confirm (fuel : Nat) (g : Game) :
    handle_action fuel CONFIRM g = handle_confirm fuel (update_visible g) := rfl

/-- Cells of the game after a draw. -/
theorem confirm_draw_mem (g : Game) (hp0 : pile_len g STOCK_BASE ≠ 0)
    (hw : pile_len g WASTE_BASE < 64)
    (hnext : pile_len g WASTE_BASE < 63 →
      (g.mem (WASTE_BASE + (pile_len g WASTE_BASE + 1))).rank = 0) (a : Nat) :
    (draw_card (STOCK_BASE + (pile_len g STOCK_BASE - 1)) (pile_len g WASTE_BASE)
      (mark_visible (update_visible g) STOCK_BASE (pile_len g STOCK_BASE))).mem a =
      if a = STOCK_BASE + (pile_len g STOCK_BASE - 1) then
        { g.mem a with visible := true, rank := NO_RANK }
      else if a = WASTE_BASE + pile_len g WASTE_BASE then
        { g.mem (STOCK_BASE + (pile_len g STOCK_BASE - 1)) with visible := true }
      else if STOCK_BASE ≤ a ∧ a < STOCK_BASE + pile_len g STOCK_BASE then
        { g.mem a with visible := true }
      else (update_visible g).mem a := by
  have hS : STOCK_BASE = 516 := rfl
  have hW : WASTE_BASE = 452 := rfl
  have hF : FOUNDATION_BASE = 448 := rfl
  have hple := pile_len_le g STOCK_BASE
  have hwle := pile_len_le g WASTE_BASE
  have hne : STOCK_BASE + (pile_len g STOCK_BASE - 1) ≠ WASTE_BASE + pile_len g WASTE_BASE := by
    omega
  rw [draw_card_mem (STOCK_BASE + (pile_len g STOCK_BASE - 1)) (pile_len g WASTE_BASE)
    (mark_visible (update_visible g) STOCK_BASE (pile_len g STOCK_BASE)) a hne
    (by intro h; rw [mark_visible_rank, update_visible_rank]; exact hnext h)]
  have htop : (mark_visible (update_visible g) STOCK_BASE (pile_len g STOCK_BASE)).mem
      (STOCK_BASE + (pile_len g STOCK_BASE - 1)) =
      { g.mem (STOCK_BASE + (pile_len g STOCK_BASE - 1)) with visible := true } := by
    rw [mark_visible_mem, if_pos ⟨by omega, by omega⟩, update_visible_mem_of_ge _ _ (by omega)]
  rw [htop]
  by_cases h1 : a = STOCK_BASE + (pile_len g STOCK_BASE - 1)
  · rw [if_pos h1, if_pos h1, h1]
  · rw [if_neg h1, if_neg h1]
    by_cases h2 : a = WASTE_BASE + pile_len g WASTE_BASE
    · rw [if_pos h2, if_pos h2]
    · rw [if_neg h2, if_neg h2, mark_visible_mem]
      by_cases h3 : STOCK_BASE ≤ a ∧ a < STOCK_BASE + pile_len g STOCK_BASE
      · rw [if_pos h3, if_pos h3, update_visible_mem_of_ge _ _ (by omega)]
      · rw [if_neg h3, if_neg h3]


/-! ## Cursor snapping -/

theorem fix_selected_loop_spec (fuel : Nat) : ∀ (g g' : Game),
    g.selected.location = TABLEAU → fix_selected_loop fuel g = some g' →
    g'.mem = g.mem ∧ g'.moving = g.moving ∧ g'.selected.active = g.selected.active ∧
    g'.selected.location = TABLEAU ∧ g'.selected.column = g.selected.column ∧ snapped g' := by
  induction fuel with
  | zero => intro g g' _ h; unfold fix_selected_loop at h; simp at h
  | succ fuel ih =>
    intro g g' hl h
    unfold fix_selected_loop at h
    simp only [get_card_eq, touch_tableau _ _ hl] at h
    cases hp : card_ptr g.selected g false with
    | none =>
      rw [hp] at h
      simp only at h
      split at h
      · rename_i hr
        cases h
        exact ⟨rfl, rfl, rfl, hl, rfl, Or.inl ⟨hp, hr⟩⟩
      · exact ih { g with selected := { g.selected with row := g.selected.row - 1 } } g' hl h
    | some c =>
      rw [hp] at h
      simp only at h
      split at h
      · exact ih { g with selected := { g.selected with row := g.selected.row + 1 } } g' hl h
      · rename_i hv
        cases h
        refine ⟨rfl, rfl, rfl, hl, rfl, Or.inr ⟨c, hp, ?_⟩⟩
        simpa using hv

/-- Cursor snapping changes no card and leaves the held position alone. -/
theorem fix_selected_tableau_spec (fuel : Nat) (g g' : Game)
    (h : fix_selected_tableau fuel g = some g') :
    g'.mem = g.mem ∧ g'.moving = g.moving ∧ g'.selected.active = g.selected.active ∧
    g'.selected.location = g.selected.location ∧ g'.selected.column = g.selected.column ∧
    (g.selected.active = true → g.selected.location = TABLEAU → snapped g') := by
  unfold fix_selected_tableau at h
  split at h
  · rename_i hc
    cases h
    refine ⟨rfl, rfl, rfl, rfl, rfl, ?_⟩
    intro ha hl
    simp [ha, hl] at hc
  · rename_i hc
    simp only [Bool.or_eq_true, Bool.not_eq_true', decide_eq_true_eq, not_or, Bool.not_eq_false,
      ne_eq, Decidable.not_not] at hc
    obtain ⟨h1, h2, h3, h4, h5, h6⟩ := fix_selected_loop_spec fuel g g' hc.2 h
    exact ⟨h1, h2, h3, by rw [h4, hc.2], h5, fun _ _ => h6⟩

/-- A snapped cursor on the tableau is inside the tableau once its column is. -/
theorem snapped_row (g : Game) (ha : g.selected.active = true)
    (hl : g.selected.location = TABLEAU) (h : snapped g) :
    0 ≤ g.selected.row ∧ g.selected.row < 64 ∧
      ((g.mem (tab g.selected.column.toNat g.selected.row.toNat)).rank ≠ NO_RANK →
        0 ≤ g.selected.column → g.selected.column < 7 →
        (g.mem (tab g.selected.column.toNat g.selected.row.toNat)).visible = true) := by
  rw [snapped, card_ptr_tableau _ _ _ ha hl] at h
  rcases h with ⟨h1, h2⟩ | ⟨c, h1, h2⟩
  · refine ⟨by omega, by omega, ?_⟩
    intro hr h0 h7
    rw [if_pos ⟨h0, h7, by omega, by omega⟩] at h1
    simp [hr] at h1
  · split at h1
    · rename_i hb
      split at h1
      · cases h1
      · cases h1
        exact ⟨hb.2.2.1, hb.2.2.2, fun _ _ _ => h2⟩
    · cases h1

/-- Cursor snapping returns when the cursor column holds cards in the rows from the cursor
row to `top`, the one at `top` visible. -/
theorem fix_selected_loop_returns (c top : Nat) (hc : c < 7) (ht : top < 64) :
    ∀ (k : Nat) (g : Game) (fuel : Nat), g.selected.active = true →
      g.selected.location = TABLEAU → g.selected.column = c → 0 ≤ g.selected.row →
      g.selected.row.toNat + k = top →
      (∀ r, g.selected.row.toNat ≤ r → r ≤ top → (g.mem (tab c r)).rank ≠ NO_RANK) →
      (g.mem (tab c top)).visible = true → k < fuel →
      ∃ g', fix_selected_loop fuel g = some g' := by
  intro k
  induction k with
  | zero =>
    intro g fuel ha hl hcol h0 hk hocc hvis hf
    obtain ⟨fuel, rfl⟩ : ∃ f, fuel = f + 1 := ⟨fuel - 1, by omega⟩
    unfold fix_selected_loop
    simp only [get_card_eq, touch_tableau _ _ hl]
    rw [card_ptr_tableau _ _ _ ha hl, if_pos ⟨by omega, by omega, h0, by omega⟩]
    have hrow : g.selected.row.toNat = top := by omega
    have hcc : g.selected.column.toNat = c := by omega
    rw [hcc, hrow, if_neg (by simp [hocc top (by omega) (le_refl _)])]
    simp [hvis]
  | succ k ih =>
    intro g fuel ha hl hcol h0 hk hocc hvis hf
    obtain ⟨fuel, rfl⟩ : ∃ f, fuel = f + 1 := ⟨fuel - 1, by omega⟩
    unfold fix_selected_loop
    simp only [get_card_eq, touch_tableau _ _ hl]
    rw [card_ptr_tableau _ _ _ ha hl, if_pos ⟨by omega, by omega, h0, by omega⟩]
    have hcc : g.selected.column.toNat = c := by omega
    rw [hcc, if_neg (by simp [hocc g.selected.row.toNat (le_refl _) (by omega)])]
    simp only
    split
    · apply ih { g with selected := { g.selected with row := g.selected.row + 1 } } fuel ha hl hcol
      · show 0 ≤ g.selected.row + 1
        omega
      · show (g.selected.row + 1).toNat + k = top
        omega
      · intro r hr hr2
        apply hocc r _ hr2
        have : (g.selected.row + 1).toNat ≤ r := hr
        omega
      · exact hvis
      · omega
    · exact ⟨_, rfl⟩

/-! ## Copying and clearing cards -/

@[simp] theorem memcpy_cards_selected (g : Game) (dst src n : Nat) :
    (memcpy_cards g dst src n).selected = g.selected := rfl

@[simp] theorem memcpy_cards_moving (g : Game) (dst src n : Nat) :
    (memcpy_cards g dst src n).moving = g.moving := rfl

theorem memcpy_cards_mem (g : Game) (dst src n a : Nat) :
    (memcpy_cards g dst src n).mem a =
      if dst ≤ a ∧ a < dst + n then g.mem (src + (a - dst)) else g.mem a := rfl

/-- The clearing loop of `move_card` on a tableau source: it empties the `n` occupied slots
from the held position on. -/
theorem clear_source_loop_tableau (c : Nat) (hc : c < 7) : ∀ (n : Nat) (g : Game) (r : Nat),
    g.moving.active = true → g.moving.location = TABLEAU → g.moving.column = (c : Int) →
    g.moving.row = (r : Int) → r + n ≤ 64 →
    (∀ i, i < n → (g.mem (tab c (r + i))).rank ≠ NO_RANK) →
    (clear_source_loop n g).selected = g.selected ∧
    ∀ a, (clear_source_loop n g).mem a =
      if tab c r ≤ a ∧ a < tab c r + n then { g.mem a with rank := NO_RANK } else g.mem a := by
  intro n
  induction n with
  | zero =>
    intro g r _ _ _ _ _ _
    unfold clear_source_loop
    refine ⟨rfl, fun a => ?_⟩
    rw [if_neg (by omega)]
  | succ n ih =>
    intro g r ha hl hcol hrow hb hocc
    unfold clear_source_loop
    simp only [get_card_eq, touch_tableau _ _ hl]
    rw [card_ptr_tableau _ _ _ ha hl, if_pos ⟨by omega, by omega, by omega, by omega⟩]
    have hcc : g.moving.column.toNat = c := by omega
    have hrr : g.moving.row.toNat = r := by omega
    have h0 := hocc 0 (by omega)
    rw [hcc, hrr, if_neg (by simpa using h0)]
    simp only
    obtain ⟨h1, h2⟩ := ih { g.set_rank (tab c r) NO_RANK with
        moving := { (g.set_rank (tab c r) NO_RANK).moving with
          row := (g.set_rank (tab c r) NO_RANK).moving.row + 1 } } (r + 1) ha hl hcol
      (by show g.moving.row + 1 = ((r + 1 : Nat) : Int); omega) (by omega)
      (by
        intro i hi
        show ((g.set_rank (tab c r) NO_RANK).mem (tab c (r + 1 + i))).rank ≠ NO_RANK
        rw [set_rank_mem, if_neg (by simp only [tab]; omega)]
        have := hocc (i + 1) (by omega)
        rwa [show r + (i + 1) = r + 1 + i by omega] at this)
    refine ⟨h1, fun a => ?_⟩
    rw [h2 a]
    show (if tab c (r + 1) ≤ a ∧ a < tab c (r + 1) + n then
        { (g.set_rank (tab c r) NO_RANK).mem a with rank := NO_RANK }
      else (g.set_rank (tab c r) NO_RANK).mem a) = _
    rw [set_rank_mem]
    simp only [tab]
    by_cases e : a = 64 * c + r
    · subst e
      rw [if_neg (by omega), if_pos rfl, if_pos ⟨le_refl _, by omega⟩]
    · rw [if_neg e]
      by_cases e2 : 64 * c + (r + 1) ≤ a ∧ a < 64 * c + (r + 1) + n
      · rw [if_pos e2, if_pos ⟨by omega, by omega⟩]
      · rw [if_neg e2, if_neg (by omega)]

theorem card_ptr_tab (pos : CardPos) (g : Game) (nr : Bool) (ha : pos.active = true)
    (h : pos.location = TABLEAU) :
    card_ptr pos g nr =
      if in_tab pos.column pos.row then
        if nr = false ∧ (g.mem (cell pos.column pos.row)).rank = 0 then none
        else some (cell pos.column pos.row)
      else none := card_ptr_tableau pos g nr ha h

theorem card_ptr_mk_tab (c r : Int) (g : Game) (nr : Bool) :
    card_ptr ⟨true, TABLEAU, c, r⟩ g nr =
      if in_tab c r then
        if nr = false ∧ (g.mem (cell c r)).rank = 0 then none else some (cell c r)
      else none := card_ptr_mk_tableau c r g nr

/-- The tableau branch of `move_card` for a held tableau position: its guards, then the copy,
the clearing loop and the common tail. -/
theorem move_card_tableau_from_tableau (fuel : Nat) (g : Game) (src : Nat) (dest : CardPos)
    (dst n : Nat) (hma : g.moving.active = true) (hml : g.moving.location = TABLEAU)
    (hda : dest.active = true) (hdl : dest.location = TABLEAU) :
    move_card_tableau fuel g src dest dst n =
      if (in_tab dest.column (dest.row + ((n : Int) - 1)) ∧
          (g.mem (cell dest.column (dest.row + ((n : Int) - 1)))).rank = NO_RANK) ∧
         (in_tab g.moving.column (g.moving.row + ((n : Int) - 1)) ∧
          (g.mem (cell g.moving.column (g.moving.row + ((n : Int) - 1)))).rank ≠ NO_RANK) ∧
         (in_tab g.moving.column (g.moving.row + ((n : Int) - 1) + 1) ∧
          (g.mem (cell g.moving.column (g.moving.row + ((n : Int) - 1) + 1))).rank = NO_RANK)
      then move_card_finish fuel (clear_source_loop n (memcpy_cards g dst src n)) dest
      else some (false, g) := by
  unfold move_card_tableau move_card_check_source
  simp only [get_card_eq, hda, hdl, touch_mk_tableau, hma, hml, card_ptr_mk_tab,
    if_true, reduceCtorEq, if_false, Bool.true_eq_false, false_and, true_and]
  by_cases h1 : in_tab dest.column (dest.row + ((n : Int) - 1))
  swap
  · simp [h1]
  rw [if_pos h1]
  simp only
  by_cases h2 : (g.mem (cell dest.column (dest.row + ((n : Int) - 1)))).rank = NO_RANK
  swap
  · simp [h2]
  rw [if_neg (by simpa using h2)]
  by_cases h3 : in_tab g.moving.column (g.moving.row + ((n : Int) - 1))
  swap
  · simp [h3]
  simp only [h3, if_true, true_and]
  by_cases h4 : (g.mem (cell g.moving.column (g.moving.row + ((n : Int) - 1)))).rank = NO_RANK
  · simp [h4]
  simp only [h4, if_false, and_false]
  by_cases h5 : in_tab g.moving.column (g.moving.row + ((n : Int) - 1) + 1)
  swap
  · simp [h5, h1, h2]
  simp only [h5, if_true, true_and, Bool.true_eq_false, false_and, if_false]
  by_cases h6 : (g.mem (cell g.moving.column (g.moving.row + ((n : Int) - 1) + 1))).rank = NO_RANK
  · simp [h6, h1, h2, h4]
  · simp [h6]

theorem touch_mk_waste (g : Game) (c r : Int) (hma : g.moving.active = true)
    (hml : g.moving.location = WASTE) (ht : touch g.moving g = g) :
    touch ⟨true, WASTE, c, r⟩ g = g := by
  have : touch ⟨true, WASTE, c, r⟩ g = touch g.moving g := by
    unfold touch; simp [hma, hml]
  rw [this, ht]

theorem card_ptr_mk_waste (c r : Int) (g : Game) (nr : Bool) :
    card_ptr ⟨true, WASTE, c, r⟩ g nr =
      if pile_len g WASTE_BASE = 0 then (if nr = true then some WASTE_BASE else none)
      else some (WASTE_BASE + (pile_len g WASTE_BASE - 1)) :=
  card_ptr_waste _ g nr rfl rfl

/-- The tableau branch of `move_card` for a held waste position, after the waste top has
been looked up once. -/
theorem move_card_tableau_from_waste (fuel : Nat) (g : Game) (src : Nat) (dest : CardPos)
    (dst n : Nat) (hma : g.moving.active = true) (hml : g.moving.location = WASTE)
    (ht : touch g.moving g = g) (hda : dest.active = true) (hdl : dest.location = TABLEAU) :
    move_card_tableau fuel g src dest dst n =
      if (in_tab dest.column (dest.row + ((n : Int) - 1)) ∧
          (g.mem (cell dest.column (dest.row + ((n : Int) - 1)))).rank = NO_RANK) ∧
         pile_len g WASTE_BASE ≠ 0
      then move_card_finish fuel (clear_source_loop n (memcpy_cards g dst src n)) dest
      else some (false, g) := by
  unfold move_card_tableau move_card_check_source
  simp only [get_card_eq, hda, hdl, touch_mk_tableau, hma, hml, card_ptr_mk_tab,
    if_true, reduceCtorEq, if_false, Bool.true_eq_false, false_and, true_and,
    touch_mk_waste g _ _ hma hml ht, card_ptr_mk_waste]
  by_cases h1 : in_tab dest.column (dest.row + ((n : Int) - 1))
  swap
  · simp [h1]
  rw [if_pos h1]
  simp only
  by_cases h2 : (g.mem (cell dest.column (dest.row + ((n : Int) - 1)))).rank = NO_RANK
  swap
  · simp [h2]
  rw [if_neg (by simpa using h2)]
  by_cases h3 : pile_len g WASTE_BASE = 0
  · simp [h3]
  · simp [h3, h1, h2]

/-- The tableau branch of `move_card` for a held foundation position. -/
theorem move_card_tableau_from_foundation (fuel : Nat) (g : Game) (src : Nat) (dest : CardPos)
    (dst n : Nat) (hma : g.moving.active = true) (hml : g.moving.location = FOUNDATION)
    (hda : dest.active = true) (hdl : dest.location = TABLEAU) :
    move_card_tableau fuel g src dest dst n =
      if (in_tab dest.column (dest.row + ((n : Int) - 1)) ∧
          (g.mem (cell dest.column (dest.row + ((n : Int) - 1)))).rank = NO_RANK) ∧
         (0 ≤ g.moving.column ∧ g.moving.column < 4) ∧ (g.mem src).rank ≠ NO_RANK
      then move_card_finish fuel
        ((memcpy_cards g dst src n).set_rank src (((memcpy_cards g dst src n).mem src).rank - 1))
        dest
      else some (false, g) := by
  unfold move_card_tableau move_card_check_source
  simp only [get_card_eq, hda, hdl, touch_mk_tableau, hma, hml, card_ptr_mk_tab,
    if_true, reduceCtorEq, if_false, Bool.true_eq_false, false_and, true_and,
    touch_mk_foundation, card_ptr_mk_foundation]
  by_cases h1 : in_tab dest.column (dest.row + ((n : Int) - 1))
  swap
  · simp [h1]
  rw [if_pos h1]
  simp only
  by_cases h2 : (g.mem (cell dest.column (dest.row + ((n : Int) - 1)))).rank = NO_RANK
  swap
  · simp [h2]
  rw [if_neg (by simpa using h2)]
  by_cases h3 : 0 ≤ g.moving.column ∧ g.moving.column < 4
  swap
  · simp [h3]
  rw [if_pos h3]
  simp only
  by_cases h4 : (g.mem src).rank = NO_RANK
  · simp [h4]
  · simp [h4, h1, h2, h3]

/-- The foundation branch of `move_card` for a held tableau position. -/
theorem move_card_foundation_from_tableau (fuel : Nat) (g : Game) (src : Nat) (dest : CardPos)
    (dst : Nat) (hma : g.moving.active = true) (hml : g.moving.location = TABLEAU) :
    move_card_foundation fuel g src dest dst =
      if in_tab g.moving.column (g.moving.row + 1) ∧
          (g.mem (cell g.moving.column (g.moving.row + 1))).rank ≠ NO_RANK
      then some (false, g)
      else move_card_finish fuel ((g.write dst (g.mem src)).set_rank src NO_RANK) dest := by
  unfold move_card_foundation move_card_check_above
  simp only [get_card_eq, touch_mk_tableau, hma, hml, card_ptr_mk_tab, if_true, true_and]
  by_cases h1 : in_tab g.moving.column (g.moving.row + 1)
  swap
  · simp [h1]
  rw [if_pos h1]
  by_cases h2 : (g.mem (cell g.moving.column (g.moving.row + 1))).rank = NO_RANK
  · simp [h2]
  · simp [h2, h1]

/-- The foundation branch of `move_card` for a held position off the tableau. -/
theorem move_card_foundation_from_other (fuel : Nat) (g : Game) (src : Nat) (dest : CardPos)
    (dst : Nat) (hml : g.moving.location ≠ TABLEAU) :
    move_card_foundation fuel g src dest dst =
      move_card_finish fuel ((g.write dst (g.mem src)).set_rank src NO_RANK) dest := by
  unfold move_card_foundation move_card_check_above
  simp [hml]

theorem touch_idem (pos : CardPos) (g : Game) : touch pos (touch pos g) = touch pos g := by
  unfold touch
  cases pos.active with
  | false => rfl
  | true =>
    cases pos.location with
    | TABLEAU => rfl
    | FOUNDATION => rfl
    | WASTE => simp only [if_true]; rw [pile_len_mark_visible, mark_visible_idem]
    | STOCK => simp only [if_true]; rw [pile_len_mark_visible, mark_visible_idem]

/-- The function `move_card` looks the held position up first; doing that lookup beforehand
changes nothing. -/
theorem move_card_touch (fuel : Nat) (g : Game) (hsa : g.selected.active = true)
    (hma : g.moving.active = true) :
    move_card fuel g = move_card fuel (touch g.moving g) := by
  conv_lhs => unfold move_card
  conv_rhs => unfold move_card
  simp only [get_card_eq, touch_selected, touch_moving, hsa, hma, touch_idem, card_ptr_touch,
    Bool.not_true, Bool.or_self, Bool.false_eq_true, if_false]

/-- The function `move_card` with the cursor on an occupied tableau slot. -/
theorem move_card_on_card (fuel : Nat) (g : Game) (src : Nat)
    (hsa : g.selected.active = true) (hma : g.moving.active = true)
    (ht : touch g.moving g = g) (hsl : g.selected.location = TABLEAU)
    (hsrc : card_ptr g.moving g false = some src)
    (hin : in_tab g.selected.column g.selected.row)
    (hocc : (g.mem (cell g.selected.column g.selected.row)).rank ≠ NO_RANK) :
    move_card fuel g =
      if (in_tab g.selected.column (g.selected.row + 1) ∧
          (g.mem (cell g.selected.column (g.selected.row + 1))).rank = NO_RANK) ∧
         can_stack (g.mem src) (g.mem (cell g.selected.column g.selected.row)) false = true ∧
         1 ≤ get_amount_stacked_cards g.moving g
      then move_card_tableau fuel g src { g.selected with row := g.selected.row + 1 }
        (cell g.selected.column (g.selected.row + 1)) (get_amount_stacked_cards g.moving g)
      else some (false, g) := by
  unfold move_card move_card_destination
  simp only [get_card_eq, hsa, hma, ht, hsrc, Bool.not_true, Bool.or_self, Bool.false_eq_true,
    if_false, hsl, touch_mk_tableau, touch_tableau _ _ hsl, card_ptr_tab _ _ _ hsa hsl, hin,
    if_true, Bool.true_eq_false, false_and, hocc, ne_eq, not_false_eq_true, and_self,
    card_ptr_mk_tab]
  by_cases h1 : in_tab g.selected.column (g.selected.row + 1)
  swap
  · simp [h1]
  simp only [h1, if_true, true_and]
  by_cases h2 : (g.mem (cell g.selected.column (g.selected.row + 1))).rank = NO_RANK
  swap
  · simp [h2]
  simp only [h2, not_true_eq_false, if_false, true_and]
  have hb : (TABLEAU == FOUNDATION) = false := by decide
  simp only [hb]
  by_cases h3 : can_stack (g.mem src) (g.mem (cell g.selected.column g.selected.row)) false = true
  swap
  · simp [h3]
  by_cases h4 : 1 ≤ get_amount_stacked_cards g.moving g
  swap
  · simp [h4, h3]
    omega
  have h5 : ¬ get_amount_stacked_cards g.moving g = 0 := by omega
  simp [h3, h4, h5]

/-- The function `move_card` with the cursor on an empty tableau slot. -/
theorem move_card_on_empty (fuel : Nat) (g : Game) (src : Nat)
    (hsa : g.selected.active = true) (hma : g.moving.active = true)
    (ht : touch g.moving g = g) (hsl : g.selected.location = TABLEAU)
    (hsrc : card_ptr g.moving g false = some src)
    (hin : in_tab g.selected.column g.selected.row)
    (hocc : (g.mem (cell g.selected.column g.selected.row)).rank = NO_RANK) :
    move_card fuel g =
      if can_stack (g.mem src) (g.mem (cell g.selected.column g.selected.row)) false = true ∧
         1 ≤ get_amount_stacked_cards g.moving g
      then move_card_tableau fuel g src g.selected
        (cell g.selected.column g.selected.row) (get_amount_stacked_cards g.moving g)
      else some (false, g) := by
  unfold move_card move_card_destination
  simp only [get_card_eq, hsa, hma, ht, hsrc, Bool.not_true, Bool.or_self, Bool.false_eq_true,
    if_false, hsl, touch_mk_tableau, touch_tableau _ _ hsl, card_ptr_tab _ _ _ hsa hsl, hin,
    if_true, Bool.true_eq_false, false_and, hocc, ne_eq, not_true_eq_false, and_self,
    card_ptr_mk_tab]
  have hb : (TABLEAU == FOUNDATION) = false := by decide
  simp only [hb]
  by_cases h3 : can_stack (g.mem src) (g.mem (cell g.selected.column g.selected.row)) false = true
  swap
  · simp [h3]
  by_cases h4 : 1 ≤ get_amount_stacked_cards g.moving g
  swap
  · simp [h4, h3]
    omega
  have h5 : ¬ get_amount_stacked_cards g.moving g = 0 := by omega
  simp [h3, h4, h5]

/-- The function `move_card` with the cursor on a foundation. -/
theorem move_card_on_foundation (fuel : Nat) (g : Game) (src : Nat)
    (hsa : g.selected.active = true) (hma : g.moving.active = true)
    (ht : touch g.moving g = g) (hsl : g.selected.location = FOUNDATION)
    (hsrc : card_ptr g.moving g false = some src)
    (hin : 0 ≤ g.selected.column ∧ g.selected.column < 4) :
    move_card fuel g =
      if can_stack (g.mem src) (g.mem (FOUNDATION_BASE + g.selected.column.toNat)) true = true ∧
         1 ≤ get_amount_stacked_cards g.moving g
      then move_card_foundation fuel g src g.selected
        (FOUNDATION_BASE + g.selected.column.toNat)
      else some (false, g) := by
  unfold move_card move_card_destination
  simp only [get_card_eq, hsa, hma, ht, hsrc, Bool.not_true, Bool.or_self, Bool.false_eq_true,
    if_false, hsl, touch_foundation _ _ hsl, card_ptr_foundation _ _ _ hsa hsl, hin,
    if_true, reduceCtorEq, and_false, and_self]
  have hb : (FOUNDATION == FOUNDATION) = true := by decide
  simp only [hb]
  by_cases h3 : can_stack (g.mem src) (g.mem (FOUNDATION_BASE + g.selected.column.toNat)) true
      = true
  swap
  · simp [h3]
  by_cases h4 : 1 ≤ get_amount_stacked_cards g.moving g
  swap
  · simp [h4, h3]
    omega
  have h5 : ¬ get_amount_stacked_cards g.moving g = 0 := by omega
  simp [h3, h4, h5]

/-- A move that succeeds has an active cursor on the tableau or on a foundation and an
active held position that resolves to a card. -/
theorem move_card_true_facts (fuel : Nat) (g g' : Game)
    (h : move_card fuel g = some (true, g')) :
    g.selected.active = true ∧ g.moving.active = true ∧
    (∃ src, card_ptr g.moving g false = some src) ∧
    ((g.selected.location = TABLEAU ∧ in_tab g.selected.column g.selected.row) ∨
     (g.selected.location = FOUNDATION ∧ 0 ≤ g.selected.column ∧ g.selected.column < 4)) := by
  unfold move_card at h
  by_cases hsa : g.selected.active = true
  swap
  · simp [hsa] at h
  by_cases hma : g.moving.active = true
  swap
  · simp [hma] at h
  simp only [get_card_eq, hsa, hma, Bool.not_true, Bool.or_self, Bool.false_eq_true, if_false,
    touch_selected, touch_moving, card_ptr_touch] at h
  refine ⟨hsa, hma, ?_⟩
  cases hp : card_ptr g.moving g false with
  | none => simp [hp] at h
  | some src =>
    refine ⟨⟨src, rfl⟩, ?_⟩
    simp only [hp] at h
    cases hq : card_ptr g.selected g true with
    | none => simp [hq] at h
    | some odc =>
      simp only [hq] at h
      split at h
      · cases h
      · rename_i dest dc hd
        have hdl := move_card_destination_location _ _ _ _ _ hd
        rw [hdl] at h
        cases hl : g.selected.location with
        | TABLEAU =>
          left
          refine ⟨rfl, ?_⟩
          rw [card_ptr_tab _ _ _ hsa hl] at hq
          by_contra hn
          simp [hn] at hq
        | FOUNDATION =>
          right
          refine ⟨rfl, ?_⟩
          rw [card_ptr_foundation _ _ _ hsa hl] at hq
          by_contra hn
          simp [hn] at hq
        | WASTE =>
          rw [hl] at h
          simp at h
        | STOCK =>
          rw [hl] at h
          simp at h

/-- The run counted by `get_amount_stacked_cards` from a tableau position: it stays inside
the column, its slots are occupied, and the slot after it, if any, is empty. -/
theorem amount_tableau (pos : CardPos) (g : Game) (c r : Nat) (ha : pos.active = true)
    (hl : pos.location = TABLEAU) (hc : pos.column = (c : Int)) (hr : pos.row = (r : Int))
    (hc7 : c < 7) (hr64 : r < 64) :
    r + get_amount_stacked_cards pos g ≤ 64 ∧
    (∀ i, i < get_amount_stacked_cards pos g → (g.mem (tab c (r + i))).rank ≠ NO_RANK) ∧
    (r + get_amount_stacked_cards pos g < 64 →
      (g.mem (tab c (r + get_amount_stacked_cards pos g))).rank = NO_RANK) := by
  have hn : get_amount_stacked_cards pos g = first_empty g.mem (tab c 0) (64 - r) r - r := by
    unfold get_amount_stacked_cards
    simp only [ha, hl, Bool.not_true, Bool.false_eq_true, if_false, ne_eq, not_true_eq_false]
    rw [if_neg (by omega), get_amount_loop_eq]
    have h1 : pos.column.toNat = c := by omega
    have h2 : pos.row.toNat = r := by omega
    rw [h1, h2]
    omega
  have hge := first_empty_ge g.mem (tab c 0) (64 - r) r
  have hle := first_empty_le g.mem (tab c 0) (64 - r) r
  rw [hn]
  refine ⟨by omega, ?_, ?_⟩
  · intro i hi
    have := first_empty_occupied g.mem (tab c 0) (64 - r) r (r + i) (by omega) (by omega)
    rwa [tab_zero_add] at this
  · intro hlt
    have := first_empty_empty g.mem (tab c 0) (64 - r) r (by omega)
    rw [tab_zero_add] at this
    rwa [show r + (first_empty g.mem (tab c 0) (64 - r) r - r)
      = first_empty g.mem (tab c 0) (64 - r) r by omega]

theorem amount_other (pos : CardPos) (g : Game) (ha : pos.active = true)
    (hl : pos.location ≠ TABLEAU) : get_amount_stacked_cards pos g = 1 := by
  unfold get_amount_stacked_cards
  simp [ha, hl]

/-- Copy and clearing loop of a tableau run whose cells are apart from the target cells. -/
theorem moved_run (g : Game) (c r dst n : Nat) (hc : c < 7)
    (hma : g.moving.active = true) (hml : g.moving.location = TABLEAU)
    (hcol : g.moving.column = (c : Int)) (hrow : g.moving.row = (r : Int)) (hb : r + n ≤ 64)
    (hocc : ∀ i, i < n → (g.mem (tab c (r + i))).rank ≠ NO_RANK)
    (hdis : dst + n ≤ tab c r ∨ tab c r + n ≤ dst) :
    moved g (clear_source_loop n (memcpy_cards g dst (tab c r) n)) (tab c r) dst n NO_RANK := by
  obtain ⟨h1, h2⟩ := clear_source_loop_tableau c hc n (memcpy_cards g dst (tab c r) n) r hma hml
    hcol hrow hb (by
      intro i hi
      rw [memcpy_cards_mem, if_neg (by simp only [tab] at hdis ⊢; omega)]
      exact hocc i hi)
  refine ⟨h1, fun a => ?_⟩
  rw [h2 a, memcpy_cards_mem]
  by_cases e1 : dst ≤ a ∧ a < dst + n
  · rw [if_neg (by omega)]
    simp only [e1, and_self, if_true, implies_true]
  · by_cases e2 : tab c r ≤ a ∧ a < tab c r + n
    · simp only [e1, e2, and_self, if_true, if_false, implies_true]
    · simp only [e1, e2, if_false, implies_true, and_self]

theorem clear_source_loop_waste (k : Game) (hma : k.moving.active = true)
    (hml : k.moving.location = WASTE) (hL : pile_len k WASTE_BASE ≠ 0) :
    (clear_source_loop 1 k).selected = k.selected ∧
    ∀ a, (clear_source_loop 1 k).mem a =
      ((touch k.moving k).set_rank (WASTE_BASE + (pile_len k WASTE_BASE - 1)) NO_RANK).mem a := by
  unfold clear_source_loop
  simp only [get_card_eq]
  rw [card_ptr_waste _ _ _ hma hml, if_neg hL]
  simp only
  unfold clear_source_loop
  exact ⟨by simp, fun a => rfl⟩

/-- Copy and clearing loop for the waste top. -/
theorem moved_waste (g : Game) (dst : Nat) (hma : g.moving.active = true)
    (hml : g.moving.location = WASTE) (hL : pile_len g WASTE_BASE ≠ 0)
    (hdst : dst < FOUNDATION_BASE) :
    moved g (clear_source_loop 1 (memcpy_cards g dst (WASTE_BASE + (pile_len g WASTE_BASE - 1)) 1))
      (WASTE_BASE + (pile_len g WASTE_BASE - 1)) dst 1 NO_RANK := by
  have hlen : pile_len (memcpy_cards g dst (WASTE_BASE + (pile_len g WASTE_BASE - 1)) 1)
      WASTE_BASE = pile_len g WASTE_BASE := by
    apply pile_len_congr
    intro j hj
    have hF : FOUNDATION_BASE = 448 := rfl
    have hW : WASTE_BASE = 452 := rfl
    rw [memcpy_cards_mem, if_neg (by omega)]
  have hle := pile_len_le g WASTE_BASE
  have hF : FOUNDATION_BASE = 448 := rfl
  have hW : WASTE_BASE = 452 := rfl
  obtain ⟨h1, h2⟩ := clear_source_loop_waste
    (memcpy_cards g dst (WASTE_BASE + (pile_len g WASTE_BASE - 1)) 1) hma hml (by rw [hlen]; exact hL)
  refine ⟨h1, fun a => ?_⟩
  rw [h2 a, hlen]
  simp only [set_rank_mem]
  by_cases e1 : dst ≤ a ∧ a < dst + 1
  · have e : a = dst := by omega
    subst e
    rw [if_neg (by omega)]
    simp only [touch_rank, touch_suite, memcpy_cards_mem, le_refl, Nat.lt_add_one, and_self,
      if_true, Nat.sub_self, Nat.add_zero, true_and]
    intro _
    have hv := (visrel_touch (memcpy_cards g a (WASTE_BASE + (pile_len g WASTE_BASE - 1)) 1).moving
      (memcpy_cards g a (WASTE_BASE + (pile_len g WASTE_BASE - 1)) 1)).2.2 a
    rcases hv with hv | hv
    · rw [hv, memcpy_cards_mem]
      simp
    · omega
  · by_cases e2 : a = WASTE_BASE + (pile_len g WASTE_BASE - 1)
    · subst e2
      simp only [if_true, e1, if_false, le_refl, Nat.lt_add_one, and_self, touch_suite,
        memcpy_cards_mem, true_and]
      intro h
      omega
    · rw [if_neg e2]
      simp only [touch_rank, touch_suite, memcpy_cards_mem, e1, if_false]
      rw [if_neg (by omega)]
      refine ⟨rfl, trivial, ?_⟩
      intro ha
      have hv := (visrel_touch
        (memcpy_cards g dst (WASTE_BASE + (pile_len g WASTE_BASE - 1)) 1).moving
        (memcpy_cards g dst (WASTE_BASE + (pile_len g WASTE_BASE - 1)) 1)).2.2 a
      rcases hv with hv | hv
      · rw [hv, memcpy_cards_mem, if_neg e1]
      · omega

/-- Copy of a foundation top with the decrement of its rank. -/
theorem moved_foundation (g : Game) (src dst : Nat) (hne : dst ≠ src) :
    moved g ((memcpy_cards g dst src 1).set_rank src (((memcpy_cards g dst src 1).mem src).rank - 1))
      src dst 1 ((g.mem src).rank - 1) := by
  refine ⟨rfl, fun a => ?_⟩
  simp only [set_rank_mem, memcpy_cards_mem]
  by_cases e1 : dst ≤ a ∧ a < dst + 1
  · have e : a = dst := by omega
    subst e
    simp [hne]
  · by_cases e2 : a = src
    · subst e2
      have : ¬ (dst ≤ a ∧ a < dst + 1) := e1
      simp [this]
    · have : ¬ (src ≤ a ∧ a < src + 1) := by omega
      simp [e1, e2, this]

/-- Assignment of the source card to the target cell, the source cell emptied. -/
theorem moved_single (g : Game) (src dst : Nat) (hne : dst ≠ src) :
    moved g ((g.write dst (g.mem src)).set_rank src NO_RANK) src dst 1 NO_RANK := by
  refine ⟨rfl, fun a => ?_⟩
  simp only [set_rank_mem, write_mem]
  by_cases e1 : dst ≤ a ∧ a < dst + 1
  · have e : a = dst := by omega
    subst e
    simp [hne]
  · by_cases e2 : a = src
    · subst e2
      have : ¬ (dst ≤ a ∧ a < dst + 1) := e1
      have h3 : a ≠ dst := by omega
      simp [this, h3]
    · have : ¬ (src ≤ a ∧ a < src + 1) := by omega
      have h3 : a ≠ dst := by omega
      simp [e1, e2, this, h3]

/-- The common tail of `move_card`: the cards keep rank and suite, the top card of every
tableau column is marked visible, the highlights are cleared, the held position is released
and the cursor is snapped from the destination. -/
theorem move_card_finish_spec (fuel : Nat) (h : Game) (dest : CardPos) (b : Bool) (g' : Game)
    (hf : move_card_finish fuel h dest = some (b, g')) :
    b = true ∧ g'.moving.active = false ∧
    (∀ a, (g'.mem a).rank = (h.mem a).rank ∧ (g'.mem a).suite = (h.mem a).suite ∧
      (g'.mem a).visible = (if flips h a then true else (h.mem a).visible) ∧
      (a < GAME_CELLS → (g'.mem a).highlight = NO_HIGHLIGHT)) ∧
    g'.selected.active = dest.active ∧ g'.selected.location = dest.location ∧
    g'.selected.column = dest.column ∧
    (dest.active = true → dest.location = TABLEAU → snapped g') := by
  unfold move_card_finish at hf
  simp only [Option.map_eq_some', Prod.mk.injEq] at hf
  obtain ⟨k, hk, hb, rfl⟩ := hf
  obtain ⟨h1, h2, h3, h4, h5, h6⟩ := fix_selected_tableau_spec fuel _ _ hk
  refine ⟨hb.symm, ?_, ?_, ?_, ?_, ?_, ?_⟩
  · rw [h2]; simp
  · intro a
    rw [h1, clear_highlight_mem, update_visible_mem]
    show _ ∧ _ ∧ _ = (if flips h a then true else (h.mem a).visible) ∧ _
    have e : flips { h with selected := dest, moving := { h.moving with active := false } } a
        = flips h a := rfl
    simp only [e]
    by_cases hfl : flips h a <;> by_cases ha : a < GAME_CELLS <;> simp [hfl, ha]
  · rw [h3]; simp
  · rw [h4]; simp
  · rw [h5]; simp
  · intro ha hl
    apply h6
    · simpa using ha
    · simpa using hl

/-- The common tail of `move_card` returns when the destination lies in a tableau column
that holds a card at the destination row and is not full. -/
theorem move_card_finish_returns (fuel : Nat) (h : Game) (dest : CardPos) (c r : Nat)
    (hda : dest.active = true) (hdl : dest.location = TABLEAU)
    (hcol : dest.column = (c : Int)) (hrow : dest.row = (r : Int)) (hc : c < 7)
    (hr : r < pile_len h (tab c 0)) (hL : pile_len h (tab c 0) < 64) (hfuel : 64 < fuel) :
    ∃ g', move_card_finish fuel h dest = some (true, g') := by
  have hF : FOUNDATION_BASE = 448 := rfl
  have e1 : ∀ L, 0 < L → L < 64 → tab c (L - 1) % 64 = L - 1 := by
    intro L _ _; simp only [tab]; omega
  have e2 : ∀ L, 0 < L → L < 64 → tab c (L - 1) / 64 = c := by
    intro L _ _; simp only [tab]; omega
  have e3 : ∀ L, 0 < L → L < 64 → tab c (L - 1) < 448 := by
    intro L _ _; simp only [tab]; omega
  have hflip : flips h (tab c (pile_len h (tab c 0) - 1)) := by
    unfold flips
    rw [e1 _ (by omega) hL, e2 _ (by omega) hL]
    exact ⟨e3 _ (by omega) hL, by omega, by omega⟩
  obtain ⟨g', hg'⟩ := fix_selected_loop_returns c (pile_len h (tab c 0) - 1) hc (by omega)
    (pile_len h (tab c 0) - 1 - r)
    (clear_highlight (update_visible
      { h with selected := dest, moving := { h.moving with active := false } })) fuel
    (by simpa using hda) (by simpa using hdl) (by simpa using hcol)
    (by simp only [clear_highlight_selected, update_visible_selected]; omega)
    (by simp only [clear_highlight_selected, update_visible_selected]; omega)
    (by
      intro j _ hj
      rw [clear_highlight_rank, update_visible_rank]
      have := pile_len_occupied h (tab c 0) j (by omega)
      rwa [tab_zero_add] at this)
    (by
      rw [clear_highlight_visible, update_visible_mem]
      rw [if_pos (show flips
        { h with selected := dest, moving := { h.moving with active := false } }
        (tab c (pile_len h (tab c 0) - 1)) from hflip)])
    (by omega)
  refine ⟨g', ?_⟩
  unfold move_card_finish fix_selected_tableau
  simp only [clear_highlight_selected, update_visible_selected, hda, hdl, Bool.not_true,
    ne_eq, not_true_eq_false, decide_False, Bool.or_self, Bool.false_eq_true, if_false]
  rw [hg']
  rfl

/-- In a contiguous column every slot after an empty slot is empty. -/
theorem contiguous_from (g : Game) (h : columns_contiguous g) (c : Nat) (hc : c < 7)
    (r : Nat) (hr : (g.mem (tab c r)).rank = NO_RANK) :
    ∀ r', r ≤ r' → r' < 64 → (g.mem (tab c r')).rank = NO_RANK := by
  intro r' hle
  induction r', hle using Nat.le_induction with
  | base => intro _; exact hr
  | succ k hk ih =>
    intro hk64
    exact h c hc k (by omega) (ih (by omega))

/-- The common tail of `move_card` after a run of `n` cards has been moved to the start of
an empty tableau column. -/
theorem moved_to_empty_column_finish (fuel : Nat) (g h : Game) (src n dc : Nat)
    (dest : CardPos) (hm : moved g h src (tab dc 0) n NO_RANK) (hda : dest.active = true)
    (hdl : dest.location = TABLEAU) (hdc : dest.column = (dc : Int)) (hdr : dest.row = 0)
    (hdc7 : dc < 7) (hn1 : 1 ≤ n) (hn : n < 64)
    (hocc : ∀ i, i < n → (g.mem (src + i)).rank ≠ NO_RANK)
    (hemp : ∀ r, r < 64 → (g.mem (tab dc r)).rank = NO_RANK)
    (hdis : tab dc 0 + 64 ≤ src ∨ src + n ≤ tab dc 0) (hfuel : 64 < fuel) :
    ∃ g', move_card_finish fuel h dest = some (true, g') ∧
      ∀ i, i < n → (g'.mem (tab dc i)).rank = (g.mem (src + i)).rank ∧
        (g'.mem (tab dc i)).suite = (g.mem (src + i)).suite ∧
        (g'.mem (src + i)).rank = NO_RANK := by
  have hlen : pile_len h (tab dc 0) = n := by
    apply pile_len_eq _ _ _ (by omega)
    · intro j hj
      rw [(hm.2 _).1, if_pos ⟨by omega, by omega⟩]
      rw [show tab dc 0 + j - tab dc 0 = j by omega]
      exact hocc j hj
    · intro _
      rw [(hm.2 _).1, if_neg (by omega), if_neg (by omega), tab_zero_add]
      exact hemp n hn
  obtain ⟨g', hg'⟩ := move_card_finish_returns fuel h dest dc 0 hda hdl hdc (by simpa using hdr)
    hdc7 (by omega) (by omega) hfuel
  refine ⟨g', hg', ?_⟩
  obtain ⟨_, _, hflds, _⟩ := move_card_finish_spec fuel h dest true g' hg'
  intro i hi
  refine ⟨?_, ?_, ?_⟩
  · rw [← tab_zero_add dc i, (hflds _).1, (hm.2 _).1, if_pos ⟨by omega, by omega⟩]
    rw [show tab dc 0 + i - tab dc 0 = i by omega]
  · rw [← tab_zero_add dc i, (hflds _).2.1, (hm.2 _).2.1, if_pos ⟨by omega, by omega⟩]
    rw [show tab dc 0 + i - tab dc 0 = i by omega]
  · rw [(hflds _).1, (hm.2 _).1, if_neg (by omega), if_pos ⟨by omega, by omega⟩]

theorem cell_eq (c r : Int) (c' r' : Nat) (hc : c = (c' : Int)) (hr : r = (r' : Int)) :
    cell c r = tab c' r' := by
  subst hc hr
  simp [cell]

/-- A King that starts a tableau run ending before row 63 moves to an empty column. -/
theorem king_from_tableau (fuel : Nat) (g : Game) (src n : Nat)
    (hcont : columns_contiguous g)
    (hsa : g.selected.active = true) (hsl : g.selected.location = TABLEAU)
    (hsc : 0 ≤ g.selected.column ∧ g.selected.column < 7) (hsr : g.selected.row = 0)
    (hemp : (g.tableau g.selected.column.toNat 0).rank = NO_RANK)
    (hma : g.moving.active = true)
    (hsrc : card_ptr g.moving g false = some src) (hking : (g.mem src).rank = KING)
    (hn : get_amount_stacked_cards g.moving g = n)
    (hml : g.moving.location = TABLEAU) (hne : g.moving.column ≠ g.selected.column)
    (hend : g.moving.row + n < 64) (hfuel : 64 < fuel) :
    ∃ g', move_card fuel g = some (true, g') ∧
      ∀ i, i < n →
        (g'.tableau g.selected.column.toNat i).rank = (g.mem (src + i)).rank ∧
        (g'.tableau g.selected.column.toNat i).suite = (g.mem (src + i)).suite ∧
        (g'.mem (src + i)).rank = NO_RANK := by
  have ht : touch g.moving g = g := touch_tableau _ _ hml
  rw [card_ptr_tab _ _ _ hma hml] at hsrc
  by_cases hin : in_tab g.moving.column g.moving.row
  swap
  · simp [hin] at hsrc
  rw [if_pos hin] at hsrc
  by_cases hrk : (g.mem (cell g.moving.column g.moving.row)).rank = 0
  · simp [hrk] at hsrc
  rw [if_neg (by simp [hrk])] at hsrc
  simp only [Option.some.injEq] at hsrc
  obtain ⟨hc0, hc7, hr0, hr64⟩ := hin
  obtain ⟨c, hc⟩ : ∃ c : Nat, g.moving.column = (c : Int) := ⟨g.moving.column.toNat, by omega⟩
  obtain ⟨r, hr⟩ : ∃ r : Nat, g.moving.row = (r : Int) := ⟨g.moving.row.toNat, by omega⟩
  obtain ⟨dc, hdc⟩ : ∃ c : Nat, g.selected.column = (c : Int) :=
    ⟨g.selected.column.toNat, by omega⟩
  have hsrc' : src = tab c r := by rw [← hsrc]; exact cell_eq _ _ _ _ hc hr
  obtain ⟨hb, hocc, hempty⟩ := amount_tableau g.moving g c r hma hml hc hr (by omega) (by omega)
  rw [hn] at hb hocc hempty
  have hdcn : g.selected.column.toNat = dc := by omega
  rw [hdcn] at hemp ⊢
  have hn1 : 1 ≤ n := by
    rcases Nat.eq_zero_or_pos n with h0 | h0
    · subst h0
      have := hempty (by omega)
      rw [Nat.add_zero, ← hsrc', hking] at this
      cases this
    · exact h0
  have hcol : ∀ r', r' < 64 → (g.mem (tab dc r')).rank = NO_RANK :=
    fun r' hr' => contiguous_from g hcont dc (by omega) 0 hemp r' (Nat.zero_le _) hr'
  have hsel : cell g.selected.column g.selected.row = tab dc 0 :=
    cell_eq _ _ _ _ hdc (by simpa using hsr)
  rw [move_card_on_empty fuel g src hsa hma ht hsl (by rw [card_ptr_tab _ _ _ hma hml,
      if_pos ⟨hc0, hc7, hr0, hr64⟩, if_neg (by simp [hrk]), hsrc])
    ⟨hsc.1, hsc.2, by omega, by omega⟩ (by rw [hsel]; exact hemp)]
  rw [if_pos ⟨by rw [hsel]; simp [can_stack, hking, show (g.mem (tab dc 0)).rank = 0 from hemp],
    by omega⟩, hn]
  rw [move_card_tableau_from_tableau fuel g src g.selected _ n hma hml hsa hsl]
  have e1 : cell g.selected.column (g.selected.row + ((n : Int) - 1)) = tab dc (n - 1) :=
    cell_eq _ _ _ _ hdc (by omega)
  have e2 : cell g.moving.column (g.moving.row + ((n : Int) - 1)) = tab c (r + (n - 1)) :=
    cell_eq _ _ _ _ hc (by omega)
  have e3 : cell g.moving.column (g.moving.row + ((n : Int) - 1) + 1) = tab c (r + n) :=
    cell_eq _ _ _ _ hc (by omega)
  rw [if_pos ⟨⟨⟨hsc.1, hsc.2, by omega, by omega⟩, by rw [e1]; exact hcol _ (by omega)⟩,
    ⟨⟨hc0, hc7, by omega, by omega⟩, by rw [e2]; exact hocc _ (by omega)⟩,
    ⟨⟨hc0, hc7, by omega, by omega⟩, by rw [e3]; exact hempty (by omega)⟩⟩]
  rw [hsel, hsrc']
  have hm := moved_run g c r (tab dc 0) n (by omega) hma hml hc hr hb hocc (by
    have : c ≠ dc := by intro h; apply hne; rw [hc, hdc, h]
    simp only [tab]; omega)
  obtain ⟨g', h1, h2⟩ := moved_to_empty_column_finish fuel g _ (tab c r) n dc g.selected hm hsa
    hsl hdc hsr (by omega) hn1 (by omega)
    (by
      intro i hi
      rw [show tab c r + i = tab c (r + i) by simp only [tab]; omega]
      exact hocc i hi) hcol
    (by
      have : c ≠ dc := by intro h; apply hne; rw [hc, hdc, h]
      simp only [tab]; omega) hfuel
  exact ⟨g', h1, h2⟩

@[simp] theorem pile_len_touch (pos : CardPos) (g : Game) (base : Nat) :
    pile_len (touch pos g) base = pile_len g base :=
  pile_len_congr _ _ _ (fun _ _ => by simp)

/-- A King on top of the waste moves to an empty column; the waste top has been looked up
before. -/
theorem king_from_waste_touched (fuel : Nat) (g : Game) (src : Nat)
    (hcont : columns_contiguous g)
    (hsa : g.selected.active = true) (hsl : g.selected.location = TABLEAU)
    (hsc : 0 ≤ g.selected.column ∧ g.selected.column < 7) (hsr : g.selected.row = 0)
    (hemp : (g.tableau g.selected.column.toNat 0).rank = NO_RANK)
    (hma : g.moving.active = true)
    (hsrc : card_ptr g.moving g false = some src) (hking : (g.mem src).rank = KING)
    (hml : g.moving.location = WASTE) (ht : touch g.moving g = g) (hfuel : 64 < fuel) :
    ∃ g', move_card fuel g = some (true, g') ∧
      ∀ i, i < 1 →
        (g'.tableau g.selected.column.toNat i).rank = (g.mem (src + i)).rank ∧
        (g'.tableau g.selected.column.toNat i).suite = (g.mem (src + i)).suite ∧
        (g'.mem (src + i)).rank = NO_RANK := by
  have hF : FOUNDATION_BASE = 448 := rfl
  have hW : WASTE_BASE = 452 := rfl
  have hsrc0 := hsrc
  rw [card_ptr_waste _ _ _ hma hml] at hsrc
  by_cases hL : pile_len g WASTE_BASE = 0
  · simp [hL] at hsrc
  rw [if_neg hL] at hsrc
  simp only [Option.some.injEq] at hsrc
  obtain ⟨dc, hdc⟩ : ∃ c : Nat, g.selected.column = (c : Int) :=
    ⟨g.selected.column.toNat, by omega⟩
  have hdcn : g.selected.column.toNat = dc := by omega
  rw [hdcn] at hemp ⊢
  have hcol : ∀ r', r' < 64 → (g.mem (tab dc r')).rank = NO_RANK :=
    fun r' hr' => contiguous_from g hcont dc (by omega) 0 hemp r' (Nat.zero_le _) hr'
  have hsel : cell g.selected.column g.selected.row = tab dc 0 :=
    cell_eq _ _ _ _ hdc (by simpa using hsr)
  have hamt : get_amount_stacked_cards g.moving g = 1 := amount_other _ _ hma (by simp [hml])
  rw [move_card_on_empty fuel g src hsa hma ht hsl hsrc0
    ⟨hsc.1, hsc.2, by omega, by omega⟩ (by rw [hsel]; exact hemp)]
  rw [if_pos ⟨by rw [hsel]; simp [can_stack, hking, show (g.mem (tab dc 0)).rank = 0 from hemp],
    by omega⟩, hamt]
  rw [move_card_tableau_from_waste fuel g src g.selected _ 1 hma hml ht hsa hsl]
  have e1 : cell g.selected.column (g.selected.row + (((1 : Nat) : Int) - 1)) = tab dc 0 :=
    cell_eq _ _ _ _ hdc (by omega)
  rw [if_pos ⟨⟨⟨hsc.1, hsc.2, by omega, by omega⟩, by rw [e1]; exact hcol _ (by omega)⟩, hL⟩]
  rw [hsel, ← hsrc]
  have hm := moved_waste g (tab dc 0) hma hml hL (by simp only [tab]; omega)
  have hle := pile_len_le g WASTE_BASE
  obtain ⟨g', h1, h2⟩ := moved_to_empty_column_finish fuel g _
    (WASTE_BASE + (pile_len g WASTE_BASE - 1)) 1 dc g.selected hm hsa
    hsl hdc hsr (by omega) (le_refl _) (by omega)
    (by
      intro i hi
      obtain rfl : i = 0 := by omega
      rw [Nat.add_zero, hsrc, hking]
      decide) hcol
    (by simp only [tab]; omega) hfuel
  exact ⟨g', h1, h2⟩


/-! ## The deal -/

theorem deal_col_loop (cards : Nat → Card) (c : Nat) : ∀ (n row : Nat) (st : Nat × Game),
    (deal_col cards c n row st).1 = st.1 + (min (row + n) (c + 1) - min row (c + 1)) ∧
    (deal_col cards c n row st).2.selected = st.2.selected ∧
    (deal_col cards c n row st).2.moving = st.2.moving ∧
    ∀ a, (deal_col cards c n row st).2.mem a =
      if tab c row ≤ a ∧ a < tab c row + n then
        (if a - tab c 0 ≤ c then cards (st.1 + (a - tab c row)) else blank (st.2.mem a))
      else st.2.mem a := by
  intro n
  induction n with
  | zero =>
    intro row st
    unfold deal_col
    refine ⟨by omega, rfl, rfl, fun a => ?_⟩
    rw [if_neg (by omega)]
  | succ n ih =>
    intro row st
    unfold deal_col
    simp only
    by_cases hrc : row ≤ c
    · rw [if_pos hrc]
      obtain ⟨h1, h2, h3, h4⟩ := ih (row + 1)
        (st.1 + 1, (st.2.write (tab c row) (blank (st.2.mem (tab c row)))).write (tab c row)
          (cards st.1))
      refine ⟨h1.trans ?_, h2.trans rfl, h3.trans rfl, fun a => (h4 a).trans ?_⟩
      · simp only
        omega
      · simp only [write_mem, tab]
        by_cases e : a = 64 * c + row
        · have c1 : ¬ (64 * c + (row + 1) ≤ a ∧ a < 64 * c + (row + 1) + n) := by omega
          have c2 : 64 * c + row ≤ a ∧ a < 64 * c + row + (n + 1) := by omega
          have c3 : a - (64 * c + 0) ≤ c := by omega
          have c4 : a - (64 * c + row) = 0 := by omega
          have c5 : a - 64 * c ≤ c := by omega
          simp only [c1, c2, c3, c4, c5, if_true, if_false, and_self, Nat.add_zero]
          simp only [e, if_true]
        · by_cases e2 : 64 * c + (row + 1) ≤ a ∧ a < 64 * c + (row + 1) + n
          · have c2 : 64 * c + row ≤ a ∧ a < 64 * c + row + (n + 1) := by omega
            by_cases c3 : a - (64 * c + 0) ≤ c
            · have c4 : st.1 + 1 + (a - (64 * c + (row + 1))) = st.1 + (a - (64 * c + row)) := by
                omega
              simp only [e2, c2, c3, c4, e, if_true, if_false, and_self]
            · simp only [e2, c2, c3, e, if_true, if_false, and_self]
          · have c2 : ¬ (64 * c + row ≤ a ∧ a < 64 * c + row + (n + 1)) := by omega
            simp only [e2, c2, e, if_false]
    · rw [if_neg hrc]
      obtain ⟨h1, h2, h3, h4⟩ := ih (row + 1)
        (st.1, st.2.write (tab c row) (blank (st.2.mem (tab c row))))
      refine ⟨h1.trans ?_, h2.trans rfl, h3.trans rfl, fun a => (h4 a).trans ?_⟩
      · simp only
        omega
      · simp only [write_mem, tab]
        by_cases e : a = 64 * c + row
        · have c1 : ¬ (64 * c + (row + 1) ≤ a ∧ a < 64 * c + (row + 1) + n) := by omega
          have c2 : 64 * c + row ≤ a ∧ a < 64 * c + row + (n + 1) := by omega
          have c3 : ¬ a - (64 * c + 0) ≤ c := by omega
          simp only [c1, c2, c3, if_true, if_false, and_self]
          simp only [e, if_true]
        · by_cases e2 : 64 * c + (row + 1) ≤ a ∧ a < 64 * c + (row + 1) + n
          · have c2 : 64 * c + row ≤ a ∧ a < 64 * c + row + (n + 1) := by omega
            have c3 : ¬ a - (64 * c + 0) ≤ c := by omega
            simp only [e2, c2, c3, e, if_true, if_false, and_self]
          · have c2 : ¬ (64 * c + row ≤ a ∧ a < 64 * c + row + (n + 1)) := by omega
            simp only [e2, c2, e, if_false]

theorem deal_fold (cards : Nat → Card) (g : Game) : ∀ k, k ≤ 7 →
    ((List.range k).foldl (fun st column => deal_col cards column 64 0 st) (0, g)).1 = tri k ∧
    ((List.range k).foldl (fun st column => deal_col cards column 64 0 st) (0, g)).2.selected
      = g.selected ∧
    ((List.range k).foldl (fun st column => deal_col cards column 64 0 st) (0, g)).2.moving
      = g.moving ∧
    ∀ a, ((List.range k).foldl (fun st column => deal_col cards column 64 0 st) (0, g)).2.mem a =
      if a < 64 * k then
        (if a % 64 ≤ a / 64 then cards (tri (a / 64) + a % 64) else blank (g.mem a))
      else g.mem a := by
  intro k
  induction k with
  | zero =>
    intro _
    refine ⟨rfl, rfl, rfl, fun a => ?_⟩
    rw [if_neg (by omega)]
    rfl
  | succ k ih =>
    intro hk
    obtain ⟨h1, h2, h3, h4⟩ := ih (by omega)
    rw [List.range_succ, List.foldl_append]
    simp only [List.foldl_cons, List.foldl_nil]
    obtain ⟨d1, d2, d3, d4⟩ := deal_col_loop cards k 64 0
      ((List.range k).foldl (fun st column => deal_col cards column 64 0 st) (0, g))
    refine ⟨d1.trans ?_, d2.trans h2, d3.trans h3, fun a => (d4 a).trans ?_⟩
    · rw [h1]
      simp only [tri]
      omega
    · rw [h1, h4 a]
      simp only [tab]
      by_cases e : 64 * k + 0 ≤ a ∧ a < 64 * k + 0 + 64
      · have e1 : a / 64 = k := by omega
        have e2 : a % 64 = a - (64 * k + 0) := by omega
        have e3 : ¬ a < 64 * k := by omega
        have e4 : a < 64 * (k + 1) := by omega
        rw [if_pos e, if_neg e3, if_pos e4, e1, e2]
      · rw [if_neg e]
        by_cases e3 : a < 64 * k
        · have e4 : a < 64 * (k + 1) := by omega
          simp only [e3, e4, if_true]
        · have e4 : ¬ a < 64 * (k + 1) := by omega
          simp only [e3, e4, if_false]

theorem deal_stock_loop (cards : Nat → Card) : ∀ (n i j : Nat) (g : Game),
    (deal_stock cards n i j g).selected = g.selected ∧
    (deal_stock cards n i j g).moving = g.moving ∧
    ∀ a, (deal_stock cards n i j g).mem a =
      if STOCK_BASE + j ≤ a ∧ a < STOCK_BASE + j + n then cards (i + (a - (STOCK_BASE + j)))
      else g.mem a := by
  intro n
  induction n with
  | zero =>
    intro i j g
    unfold deal_stock
    refine ⟨rfl, rfl, fun a => ?_⟩
    rw [if_neg (by omega)]
  | succ n ih =>
    intro i j g
    unfold deal_stock
    obtain ⟨h1, h2, h3⟩ := ih (i + 1) (j + 1) (g.write (STOCK_BASE + j) (cards i))
    refine ⟨h1.trans rfl, h2.trans rfl, fun a => (h3 a).trans ?_⟩
    rw [write_mem]
    by_cases e : a = STOCK_BASE + j
    · have c1 : ¬ (STOCK_BASE + (j + 1) ≤ a ∧ a < STOCK_BASE + (j + 1) + n) := by omega
      have c2 : STOCK_BASE + j ≤ a ∧ a < STOCK_BASE + j + (n + 1) := by omega
      have c3 : a - (STOCK_BASE + j) = 0 := by omega
      rw [if_neg c1, if_pos e, if_pos c2, c3, Nat.add_zero]
    · rw [if_neg e]
      by_cases e2 : STOCK_BASE + (j + 1) ≤ a ∧ a < STOCK_BASE + (j + 1) + n
      · have c2 : STOCK_BASE + j ≤ a ∧ a < STOCK_BASE + j + (n + 1) := by omega
        rw [if_pos e2, if_pos c2]
        congr 1
        omega
      · have c2 : ¬ (STOCK_BASE + j ≤ a ∧ a < STOCK_BASE + j + (n + 1)) := by omega
        rw [if_neg e2, if_neg c2]

/-- The dealt board, cell by cell: column `c` holds the cards `tri c`, ..., `tri c + c` of the
deck in its rows `0..c`, the stock holds the cards 28..51 in its slots `0..23`, and every
other slot is empty. -/
theorem dealt_mem (cards : Nat → Card) (g : Game) (a : Nat) :
    (dealt cards g).mem a =
      if a < FOUNDATION_BASE then
        (if a % 64 ≤ a / 64 then cards (tri (a / 64) + a % 64) else blank (g.mem a))
      else if a < WASTE_BASE then
        { g.mem a with rank := NO_RANK, visible := true, highlight := NO_HIGHLIGHT }
      else if STOCK_BASE ≤ a ∧ a < STOCK_BASE + 24 then cards (28 + (a - STOCK_BASE))
      else if a < GAME_CELLS then blank (g.mem a)
      else g.mem a := by
  have hF : FOUNDATION_BASE = 448 := rfl
  have hW : WASTE_BASE = 452 := rfl
  have hS : STOCK_BASE = 516 := rfl
  have hG : GAME_CELLS = 580 := rfl
  obtain ⟨h1, _, _, h4⟩ := deal_fold cards (clear_piles g) 7 (le_refl _)
  obtain ⟨_, _, s3⟩ := deal_stock_loop cards
    (52 - ((List.range 7).foldl (fun st column => deal_col cards column 64 0 st)
      (0, clear_piles g)).1)
    ((List.range 7).foldl (fun st column => deal_col cards column 64 0 st) (0, clear_piles g)).1 0
    ((List.range 7).foldl (fun st column => deal_col cards column 64 0 st) (0, clear_piles g)).2
  unfold dealt
  refine (s3 a).trans ?_
  rw [h1, h4 a]
  have ht : tri 7 = 28 := rfl
  rw [ht]
  simp only [clear_piles, Nat.add_zero, Nat.reduceSub, Nat.reduceMul]
  split_ifs <;> first | (exfalso; omega) | rfl

theorem dealt_selected (cards : Nat → Card) (g : Game) : (dealt cards g).selected = g.selected := by
  obtain ⟨_, h2, _, _⟩ := deal_fold cards (clear_piles g) 7 (le_refl _)
  obtain ⟨s1, _, _⟩ := deal_stock_loop cards
    (52 - ((List.range 7).foldl (fun st column => deal_col cards column 64 0 st)
      (0, clear_piles g)).1)
    ((List.range 7).foldl (fun st column => deal_col cards column 64 0 st) (0, clear_piles g)).1 0
    ((List.range 7).foldl (fun st column => deal_col cards column 64 0 st) (0, clear_piles g)).2
  exact s1.trans h2

theorem dealt_moving (cards : Nat → Card) (g : Game) : (dealt cards g).moving = g.moving := by
  obtain ⟨_, _, h3, _⟩ := deal_fold cards (clear_piles g) 7 (le_refl _)
  obtain ⟨_, s2, _⟩ := deal_stock_loop cards
    (52 - ((List.range 7).foldl (fun st column => deal_col cards column 64 0 st)
      (0, clear_piles g)).1)
    ((List.range 7).foldl (fun st column => deal_col cards column 64 0 st) (0, clear_piles g)).1 0
    ((List.range 7).foldl (fun st column => deal_col cards column 64 0 st) (0, clear_piles g)).2
  exact s2.trans h3

/-- The initial deck: card `i` has suite `i / 13` and rank `i % 13 + 1`. -/
theorem init_deck_eq : ∀ i, i < 52 → init_deck i =
    { visible := false, highlight := NO_HIGHLIGHT, suite := suite_of_int (i / 13),
      rank := i % 13 + 1 } := by
  decide!

/-- The shuffle permutes the 52 cards of the deck. -/
theorem shuffle_perm (rand : Nat → Nat) : ∀ (n : Nat) (cards : Nat → Card), n ≤ 51 →
    ∃ σ : Equiv.Perm Nat, (∀ i, 52 ≤ i → σ i = i) ∧ shuffle rand n cards = cards ∘ σ := by
  intro n
  induction n with
  | zero =>
    intro cards _
    refine ⟨Equiv.refl _, fun _ _ => rfl, ?_⟩
    unfold shuffle
    rfl
  | succ n ih =>
    intro cards hn
    unfold shuffle
    simp only
    obtain ⟨σ, h1, h2⟩ := ih (Function.update (Function.update cards (n + 1)
      (cards (rand (n + 1) % (n + 1 + 1)))) (rand (n + 1) % (n + 1 + 1)) (cards (n + 1)))
      (by omega)
    have hj : rand (n + 1) % (n + 1 + 1) < n + 1 + 1 := Nat.mod_lt _ (by omega)
    refine ⟨σ.trans (Equiv.swap (n + 1) (rand (n + 1) % (n + 1 + 1))), ?_, ?_⟩
    · intro i hi
      rw [Equiv.trans_apply, h1 i hi]
      exact Equiv.swap_apply_of_ne_of_ne (by omega) (by omega)
    · rw [h2]
      funext i
      simp only [Function.comp_apply, Equiv.trans_apply]
      generalize σ i = x
      by_cases e1 : x = rand (n + 1) % (n + 1 + 1)
      · subst e1
        rw [Function.update_same, Equiv.swap_apply_right]
      · rw [Function.update_noteq e1]
        by_cases e2 : x = n + 1
        · subst e2
          rw [Function.update_same, Equiv.swap_apply_left]
        · rw [Function.update_noteq e2, Equiv.swap_apply_of_ne_of_ne e2 e1]

theorem perm_lt (σ : Equiv.Perm Nat) (h : ∀ i, 52 ≤ i → σ i = i) (i : Nat) (hi : i < 52) :
    σ i < 52 := by
  by_contra hn
  have h1 := h (σ i) (by omega)
  have h2 := σ.injective h1
  omega

/-- Every card of the shuffled deck is a hidden card without highlight. -/
theorem shuffle_card (rand : Nat → Nat) (i : Nat) (hi : i < 52) :
    (shuffle rand 51 init_deck i).rank ≠ NO_RANK ∧
    (shuffle rand 51 init_deck i).visible = false ∧
    (shuffle rand 51 init_deck i).highlight = NO_HIGHLIGHT := by
  obtain ⟨σ, h1, h2⟩ := shuffle_perm rand 51 init_deck (le_refl _)
  rw [h2, Function.comp_apply, init_deck_eq _ (perm_lt σ h1 i hi)]
  simp

theorem reset_game_eq (fuel : Nat) (rand : Nat → Nat) (g0 : Game) :
    reset_game fuel rand g0 = (reset_selected fuel g0).map
      (fun g1 => update_display (dealt (shuffle rand 51 init_deck) g1)) := by
  unfold reset_game
  cases reset_selected fuel g0 <;> rfl

theorem reset_selected_spec (fuel : Nat) (g0 g1 : Game) (h : reset_selected fuel g0 = some g1) :
    g1.mem = g0.mem ∧ g1.moving.active = false ∧ g1.selected.active = true ∧
    g1.selected.location = TABLEAU ∧ g1.selected.column = 0 ∧ snapped g1 := by
  unfold reset_selected at h
  obtain ⟨h1, h2, h3, h4, h5, h6⟩ := fix_selected_tableau_spec fuel _ _ h
  exact ⟨h1, by rw [h2], by rw [h3], by rw [h4], by rw [h5], h6 rfl rfl⟩

/-- The display update with no held position marks the column tops visible and clears the
highlights. -/
theorem update_display_inactive (g : Game) (h : g.moving.active = false) :
    update_display g = clear_highlight (update_visible g) := by
  unfold update_display highlight_source
  simp [h]

theorem tri_le (c : Nat) (hc : c < 7) : tri c + c < 28 := by
  have h : ∀ c, c < 7 → tri c + c < 28 := by decide
  exact h c hc

theorem dealt_tableau (cards : Nat → Card) (g : Game) (c r : Nat) (hc : c < 7) (hr : r < 64) :
    (dealt cards g).mem (tab c r) =
      if r ≤ c then cards (tri c + r) else blank (g.mem (tab c r)) := by
  have hF : FOUNDATION_BASE = 448 := rfl
  have e1 : tab c r < FOUNDATION_BASE := by simp only [tab]; omega
  have e2 : tab c r % 64 = r := by simp only [tab]; omega
  have e3 : tab c r / 64 = c := by simp only [tab]; omega
  rw [dealt_mem, if_pos e1, e2, e3]

theorem dealt_pile_len (rand : Nat → Nat) (g : Game) (c : Nat) (hc : c < 7) :
    pile_len (dealt (shuffle rand 51 init_deck) g) (tab c 0) = c + 1 := by
  have ht := tri_le c hc
  apply pile_len_eq _ _ _ (by omega)
  · intro j hj
    rw [tab_zero_add, dealt_tableau _ _ _ _ hc (by omega), if_pos (by omega)]
    exact (shuffle_card rand _ (by omega)).1
  · intro _
    rw [tab_zero_add, dealt_tableau _ _ _ _ hc (by omega), if_neg (by omega)]
    rfl

theorem dealt_flips (rand : Nat → Nat) (g : Game) (c r : Nat) (hc : c < 7) (hr : r < 64) :
    flips (dealt (shuffle rand 51 init_deck) g) (tab c r) ↔ r = c := by
  have hF : FOUNDATION_BASE = 448 := rfl
  have e1 : tab c r < FOUNDATION_BASE := by simp only [tab]; omega
  have e2 : tab c r % 64 = r := by simp only [tab]; omega
  have e3 : tab c r / 64 = c := by simp only [tab]; omega
  unfold flips
  rw [e2, e3, dealt_pile_len rand g c hc]
  constructor
  · rintro ⟨_, h, _⟩; omega
  · rintro rfl; exact ⟨e1, rfl, by omega⟩

/-- The board that `reset_game` returns is a fresh deal, whatever the shuffle and the prior
content of the game block. -/
theorem reset_game_fresh (fuel : Nat) (rand : Nat → Nat) (g0 g : Game)
    (h : reset_game fuel rand g0 = some g) : fresh_deal g := by
  have hF : FOUNDATION_BASE = 448 := rfl
  have hW : WASTE_BASE = 452 := rfl
  have hS : STOCK_BASE = 516 := rfl
  have hG : GAME_CELLS = 580 := rfl
  rw [reset_game_eq] at h
  simp only [Option.map_eq_some'] at h
  obtain ⟨g1, hg1, rfl⟩ := h
  obtain ⟨_, hm, _⟩ := reset_selected_spec fuel g0 g1 hg1
  rw [update_display_inactive _ (by rw [dealt_moving]; exact hm)]
  refine ⟨?_, ?_, ?_, ?_, ?_⟩
  · intro c hc r hr
    have ht := tri_le c hc
    simp only [Game.tableau, clear_highlight_rank, update_visible_rank, clear_highlight_visible]
    rw [update_visible_mem, dealt_tableau _ _ _ _ hc hr]
    by_cases hrc : r ≤ c
    · rw [if_pos hrc]
      obtain ⟨s1, s2, _⟩ := shuffle_card rand (tri c + r) (by omega)
      refine ⟨⟨fun _ => hrc, fun _ => s1⟩, ?_⟩
      by_cases hf : flips (dealt (shuffle rand 51 init_deck) g1) (tab c r)
      · rw [if_pos hf]
        simp only [true_iff]
        exact (dealt_flips rand g1 c r hc hr).1 hf
      · rw [if_neg hf, s2]
        have := (dealt_flips rand g1 c r hc hr).not.1 hf
        simp [this]
    · rw [if_neg hrc]
      have hf : ¬ flips (dealt (shuffle rand 51 init_deck) g1) (tab c r) := by
        rw [dealt_flips rand g1 c r hc hr]; omega
      rw [if_neg hf]
      refine ⟨⟨fun hne => absurd rfl hne, fun hle => absurd hle hrc⟩, ?_⟩
      simp only [blank]
      constructor
      · intro hx; cases hx
      · intro hx; omega
  · intro i hi
    simp only [Game.stock, clear_highlight_rank, update_visible_rank, clear_highlight_visible]
    rw [update_visible_mem_of_ge _ _ (by omega), dealt_mem, if_neg (by omega), if_neg (by omega)]
    by_cases h24 : i < 24
    · rw [if_pos ⟨by omega, by omega⟩]
      obtain ⟨s1, s2, _⟩ := shuffle_card rand (28 + (STOCK_BASE + i - STOCK_BASE)) (by omega)
      exact ⟨⟨fun _ => h24, fun _ => s1⟩, s2⟩
    · rw [if_neg (by omega), if_pos (by omega)]
      exact ⟨⟨fun hne => absurd rfl hne, fun hlt => absurd hlt h24⟩, rfl⟩
  · intro i hi
    simp only [Game.foundation, clear_highlight_rank, update_visible_rank]
    rw [dealt_mem, if_neg (by omega), if_pos (by omega)]
  · intro i hi
    simp only [Game.waste, clear_highlight_rank, update_visible_rank]
    rw [dealt_mem, if_neg (by omega), if_neg (by omega), if_neg (by omega), if_pos (by omega)]
    rfl
  · intro a ha
    rw [clear_highlight_mem, if_pos ha]


/-! ## Recycling the waste -/

/-- Confirm on an empty stock with nothing held: the result and its cells. -/
theorem confirm_recycle_mem (fuel : Nat) (g : Game) (ha : g.selected.active = true)
    (hl : g.selected.location = STOCK) (hm : g.moving.active = false)
    (hs : (g.stock 0).rank = NO_RANK) :
    ∃ g', handle_action fuel CONFIRM g = some (true, g') ∧
      g'.selected = g.selected ∧ g'.moving = g.moving ∧
      ∀ a, g'.mem a =
        if WASTE_BASE ≤ a ∧ a < WASTE_BASE + pile_len g WASTE_BASE then
          { (update_visible g).mem a with visible := true, rank := NO_RANK }
        else if STOCK_BASE ≤ a ∧ a < STOCK_BASE + pile_len g WASTE_BASE then
          { (update_visible g).mem (WASTE_BASE + (pile_len g WASTE_BASE - 1 - (a - STOCK_BASE)))
            with visible := true }
        else (update_visible g).mem a := by
  have hp0 : pile_len g STOCK_BASE = 0 :=
    pile_len_eq g STOCK_BASE 0 (by omega) (fun j hj => by omega) (fun _ => hs)
  have hle := pile_len_le g WASTE_BASE
  rw [handle_action_confirm, handle_confirm_stock_eq fuel (update_visible g)
    (by rw [update_visible_selected]; exact ha) (by rw [update_visible_selected]; exact hl)
    (by rw [update_visible_moving]; exact hm)]
  rw [pile_len_update_visible, if_pos hp0]
  obtain ⟨⟨hsel, hmov⟩, hmem⟩ := recycle_loop_mem 65 0 (update_visible g)
    (by rw [pile_len_update_visible]; omega)
  refine ⟨_, rfl, by rw [hsel, update_visible_selected], by rw [hmov, update_visible_moving], ?_⟩
  intro a
  rw [hmem a, pile_len_update_visible]

/-! ## Navigation -/

@[simp] theorem card_ptr_update_visible (pos : CardPos) (g : Game) (nr : Bool) :
    card_ptr pos (update_visible g) nr = card_ptr pos g nr :=
  card_ptr_congr _ _ _ _ (fun _ => by simp)

theorem fix_selected_tableau_off (fuel : Nat) (g : Game) (h : g.selected.location ≠ TABLEAU) :
    fix_selected_tableau fuel g = some g := by
  unfold fix_selected_tableau
  simp [h]

/-- Up on the tableau when the cursor is in row 0 or the slot before it holds no visible
card: the cursor leaves the column as the nested conditions of `handle_action` say. -/
theorem handle_action_up_leave (fuel : Nat) (g : Game) (ha : g.selected.active = true)
    (hl : g.selected.location = TABLEAU)
    (hleave : g.selected.row ≤ 0 ∨
      card_ptr { g.selected with row := g.selected.row - 1 } g false = none ∨
      ∃ c, card_ptr { g.selected with row := g.selected.row - 1 } g false = some c ∧
        ((update_visible g).mem c).visible = false) :
    handle_action fuel UP g =
      (fix_selected_tableau fuel
        (if g.selected.column ≥ 4 then
          if ((update_visible g).mem WASTE_BASE).rank ≠ NO_RANK then
            { update_visible g with selected :=
              { g.selected with row := 0, column := 0, location := WASTE } }
          else if g.selected.column = 4 then
            { update_visible g with selected :=
              { g.selected with row := 0, column := 3, location := FOUNDATION } }
          else if g.selected.column ≥ 6 then
            { update_visible g with selected :=
              { g.selected with row := 0, column := 0, location := STOCK } }
          else { update_visible g with selected := { g.selected with row := 0 } }
        else { update_visible g with selected :=
          { g.selected with row := 0, location := FOUNDATION } })).map
        (fun g => (true, g)) := by
  unfold handle_action handle_tableau
  simp only [update_visible_selected, ha, hl, Bool.not_true, Bool.false_eq_true, if_false,
    get_card_eq, touch_selected, touch_mk_tableau, card_ptr_update_visible]
  simp only [ha, hl] at hleave
  split
  · simp only [ha]
  · rename_i hn
    exfalso
    apply hn
    rcases hleave with h | h | ⟨c, h1, h2⟩
    · simp [h]
    · simp [h]
    · simp [h1, h2]

/-- The directional actions with the cursor on a foundation. -/
theorem handle_action_foundation (fuel : Nat) (d : Action) (g : Game)
    (hd : d = UP ∨ d = RIGHT ∨ d = DOWN ∨ d = LEFT)
    (ha : g.selected.active = true) (hl : g.selected.location = FOUNDATION) :
    handle_action fuel d g = handle_foundation fuel d (update_visible g) := by
  unfold handle_action
  rcases hd with rfl | rfl | rfl | rfl <;>
    simp only [update_visible_selected, ha, hl, Bool.not_true, Bool.false_eq_true, if_false]

/-- Cursor snapping from row 0 of a column that is not full, after the flip pass. -/
theorem fix_selected_from_row_zero (fuel : Nat) (g : Game) (c : Nat) (hc : c < 7)
    (hfuel : 64 < fuel) (ha : g.selected.active = true) (hl : g.selected.location = TABLEAU)
    (hcol : g.selected.column = (c : Int)) (hrow : g.selected.row = 0)
    (hfull : (g.mem (tab c 63)).rank = NO_RANK)
    (htop : ∀ a, flips g a → (g.mem a).visible = true) :
    ∃ g', fix_selected_tableau fuel g = some g' := by
  have hle := pile_len_le g (tab c 0)
  have hlt : pile_len g (tab c 0) < 64 := by
    rcases Nat.lt_or_ge (pile_len g (tab c 0)) 64 with h | h
    · exact h
    · have := pile_len_occupied g (tab c 0) 63 (by omega)
      rw [tab_zero_add] at this
      exact absurd hfull this
  unfold fix_selected_tableau
  simp only [ha, hl, Bool.not_true, ne_eq, not_true_eq_false, decide_False, Bool.or_self,
    Bool.false_eq_true, if_false]
  rcases Nat.eq_zero_or_pos (pile_len g (tab c 0)) with h0 | h0
  · obtain ⟨f, rfl⟩ : ∃ f, fuel = f + 1 := ⟨fuel - 1, by omega⟩
    unfold fix_selected_loop
    simp only [get_card_eq, touch_tableau _ _ hl]
    rw [card_ptr_tableau _ _ _ ha hl, if_pos ⟨by omega, by omega, by omega, by omega⟩]
    have hcc : g.selected.column.toNat = c := by omega
    have hrr : g.selected.row.toNat = 0 := by omega
    have hemp := pile_len_empty g (tab c 0) (by omega)
    rw [h0, Nat.add_zero] at hemp
    rw [hcc, hrr, if_pos ⟨rfl, hemp⟩]
    simp only [hrow, if_true]
    exact ⟨_, rfl⟩
  · have hF : FOUNDATION_BASE = 448 := rfl
    have e1 : tab c (pile_len g (tab c 0) - 1) % 64 = pile_len g (tab c 0) - 1 := by
      generalize pile_len g (tab c 0) = L at *
      simp only [tab]; omega
    have e2 : tab c (pile_len g (tab c 0) - 1) / 64 = c := by
      generalize pile_len g (tab c 0) = L at *
      simp only [tab]; omega
    have e3 : tab c (pile_len g (tab c 0) - 1) < 448 := by
      generalize pile_len g (tab c 0) = L at *
      simp only [tab]; omega
    have hflip : flips g (tab c (pile_len g (tab c 0) - 1)) := by
      unfold flips
      rw [e1, e2]
      exact ⟨e3, by omega, by omega⟩
    exact fix_selected_loop_returns c (pile_len g (tab c 0) - 1) hc (by omega)
      (pile_len g (tab c 0) - 1) g fuel ha hl hcol (by omega) (by omega)
      (by
        intro j _ hj
        have := pile_len_occupied g (tab c 0) j (by omega)
        rwa [tab_zero_add] at this)
      (htop _ hflip) (by omega)

theorem update_visible_tops (g : Game) (a : Nat) (h : flips (update_visible g) a) :
    ((update_visible g).mem a).visible = true := by
  have h' : flips g a := by
    unfold flips at h ⊢
    rwa [pile_len_update_visible] at h
  rw [update_visible_mem, if_pos h']

/-! ## Confirm with a card held (C15) -/

/-- Confirm with a card held, the cursor on a highlighted card of the tableau or on a
highlighted foundation, away from the held position. -/
theorem handle_confirm_drop (fuel : Nat) (g : Game) (c : Nat)
    (hsa : g.selected.active = true) (hma : g.moving.active = true)
    (hl : g.selected.location = TABLEAU ∨ g.selected.location = FOUNDATION)
    (hc : card_ptr g.selected g false = some c)
    (hh : (g.mem c).highlight = HIGHLIGHTED)
    (hsame : is_same_pos g.moving g.selected = false) :
    handle_confirm fuel g = move_card fuel g := by
  have ht : touch g.selected g = g := by
    rcases hl with h | h
    · exact touch_tableau _ _ h
    · exact touch_foundation _ _ h
  have hns : g.selected.location ≠ STOCK := by
    rcases hl with h | h <;> simp [h]
  unfold handle_confirm
  simp only [hsa, hns, if_true, if_false, get_card_eq, ht, hc, hma, hsame, hh,
    Bool.false_eq_true]


/-! ## Highlighting -/

theorem can_stack_congr (c1 c2 a1 a2 : Card) (f : Bool) (hc : c1.rank = c2.rank)
    (hcs : c1.suite = c2.suite) (ha : a1.rank = a2.rank) (has : a1.suite = a2.suite) :
    can_stack c1 a1 f = can_stack c2 a2 f := by
  unfold can_stack
  rw [hc, hcs, ha, has]

@[simp] theorem hl_state_selected (g : Game) (T : List Nat) :
    (hl_state g T).selected = g.selected := rfl

@[simp] theorem hl_state_moving (g : Game) (T : List Nat) :
    (hl_state g T).moving = g.moving := rfl

theorem hl_state_mem (g : Game) (T : List Nat) (a : Nat) :
    (hl_state g T).mem a =
      if a ∈ T then { g.mem a with highlight := HIGHLIGHTED } else g.mem a := rfl

@[simp] theorem hl_state_rank (g : Game) (T : List Nat) (a : Nat) :
    ((hl_state g T).mem a).rank = (g.mem a).rank := by
  rw [hl_state_mem]; split <;> rfl

@[simp] theorem hl_state_suite (g : Game) (T : List Nat) (a : Nat) :
    ((hl_state g T).mem a).suite = (g.mem a).suite := by
  rw [hl_state_mem]; split <;> rfl

@[simp] theorem hl_state_visible (g : Game) (T : List Nat) (a : Nat) :
    ((hl_state g T).mem a).visible = (g.mem a).visible := by
  rw [hl_state_mem]; split <;> rfl

theorem hl_state_nil (g : Game) : hl_state g [] = g := by
  apply game_ext
  · intro a; simp [hl_state_mem]
  · rfl
  · rfl

theorem hl_state_cons (g : Game) (T : List Nat) (x : Nat) :
    (hl_state g T).set_highlight x HIGHLIGHTED = hl_state g (x :: T) := by
  apply game_ext
  · intro a
    simp only [set_highlight_mem, hl_state_mem]
    by_cases e : a = x
    · subst e
      rw [if_pos rfl, if_pos (List.mem_cons_self _ _)]
      by_cases e2 : a ∈ T
      · rw [if_pos e2]
      · rw [if_neg e2]
    · simp only [List.mem_cons, e, false_or, if_false]
  · rfl
  · rfl

@[simp] theorem pile_len_hl_state (g : Game) (T : List Nat) (base : Nat) :
    pile_len (hl_state g T) base = pile_len g base :=
  pile_len_congr _ _ _ (fun _ _ => by simp)

theorem can_stack_hl_state (g : Game) (T : List Nat) (card a : Nat) (f : Bool) :
    can_stack ((hl_state g T).mem card) ((hl_state g T).mem a) f
      = can_stack (g.mem card) (g.mem a) f :=
  can_stack_congr _ _ _ _ _ (by simp) (by simp) (by simp) (by simp)

/-- The foundation loop of `highlight_stackable`, started on a state with the cells `T`
tagged. -/
theorem highlight_foundations_fold (g : Game) (card : Nat) : ∀ (l : List Nat) (n : Nat)
    (T : List Nat),
    l.foldl (fun (st : Nat × Game) i =>
      if can_stack (st.2.mem card) (st.2.mem (FOUNDATION_BASE + i)) true then
        (st.1 + 1, st.2.set_highlight (FOUNDATION_BASE + i) HIGHLIGHTED)
      else st) (n, hl_state g T) =
    (n + (l.filter (fun i =>
        can_stack (g.mem card) (g.mem (FOUNDATION_BASE + i)) true)).length,
      hl_state g (((l.filter (fun i =>
        can_stack (g.mem card) (g.mem (FOUNDATION_BASE + i)) true)).map
          (fun i => FOUNDATION_BASE + i)).reverse ++ T)) := by
  intro l
  induction l with
  | nil => intro n T; simp
  | cons x l ih =>
    intro n T
    simp only [List.foldl_cons, can_stack_hl_state]
    by_cases h : can_stack (g.mem card) (g.mem (FOUNDATION_BASE + x)) true = true
    · rw [if_pos h, hl_state_cons, ih]
      simp only [List.filter_cons, h, if_true, List.length_cons, List.map_cons,
        List.reverse_cons, List.append_assoc, List.singleton_append]
      congr 1
      omega
    · rw [if_neg h, ih]
      simp only [List.filter_cons, h, if_false, Bool.false_eq_true]

theorem highlight_foundations_eq (g : Game) (card n : Nat) (T : List Nat) :
    highlight_foundations card (n, hl_state g T) =
      (n + (foundation_targets g card).length,
        hl_state g ((foundation_targets g card).reverse ++ T)) := by
  unfold highlight_foundations foundation_targets
  rw [highlight_foundations_fold g card (List.range 4) n T]
  simp only [List.length_map]

theorem highlight_col_loop (card c n row : Nat) (st : Nat × Game) :
    highlight_col card c n row st =
      if first_empty st.2.mem (tab c 0) n row < row + n then
        if first_empty st.2.mem (tab c 0) n row > 0 then
          if (st.2.mem (tab c (first_empty st.2.mem (tab c 0) n row - 1))).visible then
            if can_stack (st.2.mem card)
                (st.2.mem (tab c (first_empty st.2.mem (tab c 0) n row - 1))) false then
              (st.1 + 1,
                st.2.set_highlight (tab c (first_empty st.2.mem (tab c 0) n row - 1)) HIGHLIGHTED)
            else st
          else st
        else if (st.2.mem card).rank = KING then
          (st.1 + 1, st.2.set_highlight (tab c (first_empty st.2.mem (tab c 0) n row)) HIGHLIGHTED)
        else st
      else st := by
  induction n generalizing row with
  | zero => simp [highlight_col, first_empty]
  | succ n ih =>
    simp only [highlight_col, first_empty, tab_zero_add]
    by_cases h0 : (st.2.mem (tab c row)).rank = NO_RANK
    · have hlt : row < row + (n + 1) := by omega
      simp only [h0, if_true, hlt]
    · simp only [h0, if_false]
      rw [ih]
      have : row + 1 + n = row + (n + 1) := by omega
      rw [this]

/-- The column loop of `highlight_stackable` for one column, started on a state with the
cells `T` tagged. -/
theorem highlight_col_eq (g : Game) (card c n : Nat) (T : List Nat) :
    highlight_col card c 64 0 (n, hl_state g T) =
      match column_target g card c with
      | some x => (n + 1, hl_state g (x :: T))
      | none => (n, hl_state g T) := by
  rw [highlight_col_loop]
  have e : first_empty (hl_state g T).mem (tab c 0) 64 0 = pile_len g (tab c 0) :=
    pile_len_hl_state g T (tab c 0)
  simp only [e, can_stack_hl_state, hl_state_visible, hl_state_rank, hl_state_cons]
  unfold column_target
  by_cases h1 : pile_len g (tab c 0) < 64
  · rw [if_pos (by omega), if_pos h1]
    by_cases h2 : 0 < pile_len g (tab c 0)
    · rw [if_pos h2, if_pos h2]
      by_cases h3 : (g.mem (tab c (pile_len g (tab c 0) - 1))).visible = true
      · rw [if_pos h3]
        by_cases h4 : can_stack (g.mem card) (g.mem (tab c (pile_len g (tab c 0) - 1))) false
            = true
        · rw [if_pos h4, if_pos ⟨h3, h4⟩]
        · rw [if_neg h4, if_neg (fun h => h4 h.2)]
      · rw [if_neg h3, if_neg (fun h => h3 h.1)]
    · rw [if_neg h2, if_neg h2]
      have h0 : pile_len g (tab c 0) = 0 := by omega
      rw [h0]
      by_cases h5 : (g.mem card).rank = KING
      · rw [if_pos h5, if_pos h5]
      · rw [if_neg h5, if_neg h5]
  · rw [if_neg (by omega), if_neg h1]

theorem highlight_cols_fold (g : Game) (card : Nat) : ∀ (l : List Nat) (n : Nat) (T : List Nat),
    l.foldl (fun st column => highlight_col card column 64 0 st) (n, hl_state g T) =
      (n + (l.filterMap (column_target g card)).length,
        hl_state g ((l.filterMap (column_target g card)).reverse ++ T)) := by
  intro l
  induction l with
  | nil => intro n T; simp
  | cons x l ih =>
    intro n T
    simp only [List.foldl_cons]
    rw [highlight_col_eq]
    cases h : column_target g card x with
    | none =>
      simp only [List.filterMap_cons, h]
      exact ih n T
    | some y =>
      simp only [List.filterMap_cons, h, List.length_cons, List.reverse_cons,
        List.append_assoc, List.singleton_append]
      rw [ih (n + 1) (y :: T)]
      congr 1
      omega

theorem can_stack_clear_highlight (g : Game) (card a : Nat) (f : Bool) :
    can_stack ((clear_highlight g).mem card) ((clear_highlight g).mem a) f
      = can_stack (g.mem card) (g.mem a) f :=
  can_stack_congr _ _ _ _ _ (by simp) (by simp) (by simp) (by simp)

theorem foundation_targets_clear_highlight (g : Game) (card : Nat) :
    foundation_targets (clear_highlight g) card = foundation_targets g card := by
  unfold foundation_targets
  simp only [can_stack_clear_highlight]

theorem column_target_clear_highlight (g : Game) (card c : Nat) :
    column_target (clear_highlight g) card c = column_target g card c := by
  unfold column_target
  simp only [can_stack_clear_highlight, pile_len_clear_highlight, clear_highlight_visible,
    clear_highlight_rank]

theorem stack_targets_clear_highlight (g : Game) (card : Nat) (tableau : Bool) :
    stack_targets (clear_highlight g) card tableau = stack_targets g card tableau := by
  unfold stack_targets
  have e : column_target (clear_highlight g) card = column_target g card :=
    funext (column_target_clear_highlight g card)
  rw [e, foundation_targets_clear_highlight, clear_highlight_rank]

/-- The function `highlight_stackable` in closed form: it clears the highlights, tags the
cells of `stack_targets` and returns their number. -/
theorem highlight_stackable_eq (card : Nat) (tableau : Bool) (g : Game) :
    highlight_stackable card tableau g =
      ((stack_targets g card tableau).length,
        hl_state (clear_highlight g) (stack_targets g card tableau)) := by
  rw [← stack_targets_clear_highlight]
  unfold highlight_stackable stack_targets
  simp only
  by_cases h : (!tableau || decide (((clear_highlight g).mem (card + 1)).rank = NO_RANK)) = true
  · rw [if_pos h, if_pos h]
    have e := highlight_foundations_eq (clear_highlight g) card 0 []
    rw [hl_state_nil] at e
    rw [e, highlight_cols_fold]
    simp only [List.length_append, List.length_reverse, List.append_nil, Nat.zero_add]
    congr 1
    omega
  · rw [if_neg h, if_neg h]
    have e := highlight_cols_fold (clear_highlight g) card (List.range 7) 0 []
    rw [hl_state_nil] at e
    rw [e]
    simp only [List.length_append, List.length_reverse, List.append_nil, Nat.zero_add,
      List.length_nil, Nat.add_zero]

theorem mem_foundation_targets (g : Game) (card a : Nat) :
    a ∈ foundation_targets g card ↔
      ∃ i, i < 4 ∧ a = FOUNDATION_BASE + i ∧
        can_stack (g.mem card) (g.mem (FOUNDATION_BASE + i)) true = true := by
  unfold foundation_targets
  simp only [List.mem_map, List.mem_filter, List.mem_range]
  constructor
  · rintro ⟨i, ⟨h1, h2⟩, rfl⟩
    exact ⟨i, h1, rfl, h2⟩
  · rintro ⟨i, h1, rfl, h2⟩
    exact ⟨i, ⟨h1, h2⟩, rfl⟩

theorem mem_stack_targets (g : Game) (card : Nat) (tableau : Bool) (a : Nat) :
    a ∈ stack_targets g card tableau ↔
      (∃ c, c < 7 ∧ column_target g card c = some a) ∨
      ((tableau = false ∨ (g.mem (card + 1)).rank = NO_RANK) ∧
        ∃ i, i < 4 ∧ a = FOUNDATION_BASE + i ∧
          can_stack (g.mem card) (g.mem (FOUNDATION_BASE + i)) true = true) := by
  unfold stack_targets
  rw [List.mem_append, List.mem_reverse, List.mem_filterMap]
  simp only [List.mem_range]
  apply or_congr Iff.rfl
  by_cases h : (!tableau || decide ((g.mem (card + 1)).rank = NO_RANK)) = true
  · rw [if_pos h, List.mem_reverse, mem_foundation_targets]
    have h' : tableau = false ∨ (g.mem (card + 1)).rank = NO_RANK := by
      simpa using h
    simp only [h', true_and]
  · rw [if_neg h]
    have h' : ¬ (tableau = false ∨ (g.mem (card + 1)).rank = NO_RANK) := by
      simpa using h
    simp only [h', false_and, List.not_mem_nil]

/-- A column target lies in its column. -/
theorem column_target_range (g : Game) (card c a : Nat) (h : column_target g card c = some a) :
    tab c 0 ≤ a ∧ a < tab c 0 + 64 := by
  unfold column_target at h
  have hle := pile_len_le g (tab c 0)
  generalize pile_len g (tab c 0) = L at h hle
  split_ifs at h <;> simp only [Option.some.injEq, reduceCtorEq] at h <;> subst h <;>
    simp only [tab] <;> omega

theorem column_target_iff (g : Game) (card c a : Nat) :
    column_target g card c = some a ↔
      pile_len g (tab c 0) < 64 ∧
      ((0 < pile_len g (tab c 0) ∧ a = tab c (pile_len g (tab c 0) - 1) ∧
          (g.mem a).visible = true ∧ can_stack (g.mem card) (g.mem a) false = true) ∨
       (pile_len g (tab c 0) = 0 ∧ a = tab c 0 ∧ (g.mem card).rank = KING)) := by
  unfold column_target
  constructor
  · intro h
    split_ifs at h with h1 h2 h3 h4
    · simp only [Option.some.injEq] at h
      subst h
      exact ⟨h1, Or.inl ⟨h2, rfl, h3.1, h3.2⟩⟩
    · simp only [Option.some.injEq] at h
      subst h
      exact ⟨h1, Or.inr ⟨by omega, rfl, h4⟩⟩
  · rintro ⟨h1, ⟨h2, rfl, h3, h4⟩ | ⟨h2, rfl, h3⟩⟩
    · rw [if_pos h1, if_pos h2, if_pos ⟨h3, h4⟩]
    · rw [if_pos h1, if_neg (by omega), if_pos h3]

theorem stack_targets_nodup (g : Game) (card : Nat) (tableau : Bool) :
    (stack_targets g card tableau).Nodup := by
  have hF : FOUNDATION_BASE = 448 := rfl
  unfold stack_targets
  have h1 : ((List.range 7).filterMap (column_target g card)).Nodup := by
    apply List.Nodup.filterMap _ (List.nodup_range 7)
    intro c c' x hx hx'
    have r1 := column_target_range g card c x hx
    have r2 := column_target_range g card c' x hx'
    simp only [tab] at r1 r2
    omega
  have h2 : (foundation_targets g card).Nodup := by
    unfold foundation_targets
    apply List.Nodup.map
    · intro i j h
      simpa using h
    · exact List.Nodup.filter _ (List.nodup_range 4)
  rw [List.nodup_append]
  refine ⟨List.nodup_reverse.2 h1, ?_, ?_⟩
  · split
    · exact List.nodup_reverse.2 h2
    · exact List.nodup_nil
  · intro a ha hb
    rw [List.mem_reverse, List.mem_filterMap] at ha
    obtain ⟨c, hc, hx⟩ := ha
    have r1 := column_target_range g card c a hx
    have hc7 : c < 7 := List.mem_range.1 hc
    split at hb
    · rw [List.mem_reverse, mem_foundation_targets] at hb
      obtain ⟨i, _, rfl, _⟩ := hb
      simp only [tab] at r1
      omega
    · cases hb

theorem stack_targets_lt (g : Game) (card : Nat) (tableau : Bool) (a : Nat)
    (h : a ∈ stack_targets g card tableau) : a < GAME_CELLS := by
  have hF : FOUNDATION_BASE = 448 := rfl
  have hG : GAME_CELLS = 580 := rfl
  rw [mem_stack_targets] at h
  rcases h with ⟨c, hc, hx⟩ | ⟨_, i, hi, rfl, _⟩
  · have r1 := column_target_range g card c a hx
    simp only [tab] at r1
    omega
  · omega

/-- After `highlight_stackable` a cell is tagged Highlighted exactly when it is a target. -/
theorem highlight_stackable_tag (card : Nat) (tableau : Bool) (g : Game) (a : Nat)
    (ha : a < GAME_CELLS) :
    ((highlight_stackable card tableau g).2.mem a).highlight = HIGHLIGHTED ↔
      a ∈ stack_targets g card tableau := by
  rw [highlight_stackable_eq]
  simp only [hl_state_mem, clear_highlight_mem, ha, if_true]
  by_cases h : a ∈ stack_targets g card tableau
  · simp [h]
  · simp [h]

/-- The value returned by `highlight_stackable` is the number of cells it tagged. -/
theorem highlight_stackable_count (card : Nat) (tableau : Bool) (g : Game) :
    (highlight_stackable card tableau g).1 =
      ((Finset.range GAME_CELLS).filter
        (fun a => ((highlight_stackable card tableau g).2.mem a).highlight = HIGHLIGHTED)).card := by
  have e : (Finset.range GAME_CELLS).filter
      (fun a => ((highlight_stackable card tableau g).2.mem a).highlight = HIGHLIGHTED)
      = (stack_targets g card tableau).toFinset := by
    ext a
    simp only [Finset.mem_filter, Finset.mem_range, List.mem_toFinset]
    constructor
    · rintro ⟨h1, h2⟩
      exact (highlight_stackable_tag card tableau g a h1).1 h2
    · intro h
      have h1 := stack_targets_lt g card tableau a h
      exact ⟨h1, (highlight_stackable_tag card tableau g a h1).2 h⟩
  rw [e, List.toFinset_card_of_nodup (stack_targets_nodup g card tableau),
    highlight_stackable_eq]

/-- On a board with contiguous columns none of which is full, the targets of
`highlight_stackable` are the slots that the specification names. -/
theorem stack_targets_iff (g : Game) (card : Nat) (tableau : Bool) (a : Nat)
    (hcont : columns_contiguous g)
    (hroom : ∀ c, c < 7 → (g.tableau c 63).rank = NO_RANK)
    (hcard : tableau = true → ∃ c, c < 7 ∧ ∃ r, r < 64 ∧ card = tab c r ∧
      (g.mem card).rank ≠ NO_RANK) :
    a ∈ stack_targets g card tableau ↔ stackable_slot g card tableau a := by
  have hlen : ∀ c, c < 7 → pile_len g (tab c 0) < 64 := by
    intro c hc
    have hle := pile_len_le g (tab c 0)
    rcases Nat.lt_or_ge (pile_len g (tab c 0)) 64 with h | h
    · exact h
    · have := pile_len_occupied g (tab c 0) 63 (by omega)
      rw [tab_zero_add] at this
      exact absurd (hroom c hc) this
  have hon : tableau = true → (on_top_of g card ↔ (g.mem (card + 1)).rank ≠ NO_RANK) := by
    intro ht
    obtain ⟨c, hc, r, hr, rfl, hrk⟩ := hcard ht
    have hr63 : r < 63 := by
      rcases Nat.lt_or_ge r 63 with h | h
      · exact h
      · have : r = 63 := by omega
        subst this
        exact absurd (hroom c hc) hrk
    have e : tab c r + 1 = tab c (r + 1) := by simp only [tab]; omega
    rw [e]
    constructor
    · rintro ⟨c', hc', r', hr', he, h⟩
      have : c' = c ∧ r' = r := by simp only [tab] at he; omega
      rw [this.1, this.2] at h
      exact h
    · intro h
      exact ⟨c, hc, r, hr63, rfl, h⟩
  rw [mem_stack_targets]
  unfold stackable_slot
  simp only [Game.tableau, Game.foundation]
  constructor
  · rintro (⟨c, hc, hx⟩ | ⟨hcond, i, hi, rfl, hs⟩)
    · rw [column_target_iff] at hx
      obtain ⟨h1, ⟨h2, rfl, h3, h4⟩ | ⟨h2, rfl, h3⟩⟩ := hx
      · right; left
        refine ⟨c, hc, pile_len g (tab c 0) - 1, by omega, rfl, ?_, ?_, h3, h4⟩
        · have := pile_len_occupied g (tab c 0) (pile_len g (tab c 0) - 1) (by omega)
          rwa [tab_zero_add] at this
        · right
          have := pile_len_empty g (tab c 0) h1
          rw [tab_zero_add] at this
          rwa [show pile_len g (tab c 0) - 1 + 1 = pile_len g (tab c 0) by omega]
      · right; right
        refine ⟨c, hc, rfl, ?_, h3⟩
        have := pile_len_empty g (tab c 0) h1
        rwa [h2] at this
    · left
      refine ⟨i, hi, rfl, ?_, hs⟩
      rintro ⟨ht, hot⟩
      rcases hcond with h | h
      · rw [ht] at h; cases h
      · exact (hon ht).1 hot h
  · rintro (⟨i, hi, rfl, hno, hs⟩ | ⟨c, hc, t, ht, rfl, hocc, hnext, hv, hs⟩ | ⟨c, hc, rfl, h0, hk⟩)
    · right
      refine ⟨?_, i, hi, rfl, hs⟩
      cases htab : tableau with
      | false => exact Or.inl rfl
      | true =>
        right
        by_contra hne
        exact hno ⟨htab, (hon htab).2 hne⟩
    · left
      refine ⟨c, hc, ?_⟩
      rw [column_target_iff]
      have hL := hlen c hc
      have ht63 : t ≠ 63 := by
        rintro rfl
        exact hocc (hroom c hc)
      have hnext' : (g.mem (tab c (t + 1))).rank = NO_RANK := by
        rcases hnext with h | h
        · exact absurd h ht63
        · exact h
      have h1 : t < pile_len g (tab c 0) := by
        by_contra hge
        have hemp := pile_len_empty g (tab c 0) hL
        rw [tab_zero_add] at hemp
        exact hocc (contiguous_from g hcont c hc _ hemp t (by omega) ht)
      have h2 : pile_len g (tab c 0) ≤ t + 1 := by
        by_contra hgt
        have := pile_len_occupied g (tab c 0) (t + 1) (by omega)
        rw [tab_zero_add] at this
        exact this hnext'
      have e : pile_len g (tab c 0) - 1 = t := by omega
      refine ⟨hL, Or.inl ⟨by omega, by rw [e], hv, hs⟩⟩
    · left
      refine ⟨c, hc, ?_⟩
      rw [column_target_iff]
      refine ⟨hlen c hc, Or.inr ⟨?_, rfl, hk⟩⟩
      rcases Nat.eq_zero_or_pos (pile_len g (tab c 0)) with h | h
      · exact h
      · have := pile_len_occupied g (tab c 0) 0 h
        exact absurd h0 this

/-! ## The auto-move scan -/

theorem find_highlighted_col_none (g : Game) (c : Nat) : ∀ (n row : Nat),
    (∀ r, row ≤ r → r < row + n → (g.mem (tab c r)).highlight ≠ HIGHLIGHTED) →
    find_highlighted_col g c n row = none := by
  intro n
  induction n with
  | zero => intro row _; unfold find_highlighted_col; rfl
  | succ n ih =>
    intro row h
    unfold find_highlighted_col
    rw [if_neg (h row (le_refl _) (by omega))]
    split
    · rfl
    · exact ih (row + 1) (fun r h1 h2 => h r (by omega) (by omega))

theorem find_highlighted_col_some (g : Game) (c r : Nat) : ∀ (n row : Nat),
    row ≤ r → r < row + n →
    (∀ j, row ≤ j → j < r →
      (g.mem (tab c j)).highlight ≠ HIGHLIGHTED ∧ (g.mem (tab c j)).rank ≠ NO_RANK) →
    (g.mem (tab c r)).highlight = HIGHLIGHTED →
    find_highlighted_col g c n row = some r := by
  intro n
  induction n with
  | zero => intro row h1 h2; omega
  | succ n ih =>
    intro row h1 h2 hb hr
    unfold find_highlighted_col
    by_cases e : row = r
    · subst e
      rw [if_pos hr]
    · obtain ⟨b1, b2⟩ := hb row (le_refl _) (by omega)
      rw [if_neg b1, if_neg b2]
      exact ih (row + 1) (by omega) (by omega) (fun j h3 h4 => hb j (by omega) h4) hr

theorem find_highlighted_none (g : Game) : ∀ (n column : Nat),
    (∀ c, column ≤ c → c < column + n → ∀ r, r < 64 →
      (g.mem (tab c r)).highlight ≠ HIGHLIGHTED) →
    find_highlighted g n column = none := by
  intro n
  induction n with
  | zero => intro column _; unfold find_highlighted; rfl
  | succ n ih =>
    intro column h
    unfold find_highlighted
    rw [find_highlighted_col_none g column 64 0
      (fun r _ hr => h column (le_refl _) (by omega) r (by omega))]
    exact ih (column + 1) (fun c h1 h2 => h c (by omega) (by omega))

theorem find_highlighted_some (g : Game) (c r : Nat) (hr : r < 64) : ∀ (n column : Nat),
    column ≤ c → c < column + n →
    (∀ c', column ≤ c' → c' < c → ∀ r', r' < 64 →
      (g.mem (tab c' r')).highlight ≠ HIGHLIGHTED) →
    (∀ j, j < r →
      (g.mem (tab c j)).highlight ≠ HIGHLIGHTED ∧ (g.mem (tab c j)).rank ≠ NO_RANK) →
    (g.mem (tab c r)).highlight = HIGHLIGHTED →
    find_highlighted g n column = some (c, r) := by
  intro n
  induction n with
  | zero => intro column h1 h2; omega
  | succ n ih =>
    intro column h1 h2 hb hrow hh
    unfold find_highlighted
    by_cases e : column = c
    · subst e
      rw [find_highlighted_col_some g column r 64 0 (Nat.zero_le _) (by omega)
        (fun j _ hj => hrow j hj) hh]
    · rw [find_highlighted_col_none g column 64 0
        (fun r' _ hr' => hb column (le_refl _) (by omega) r' (by omega))]
      exact ih (column + 1) (by omega) (by omega)
        (fun c' h3 h4 => hb c' (by omega) h4) hrow hh

theorem highlight_source_inactive (g : Game) (h : g.moving.active = false) :
    highlight_source g = g := by
  unfold highlight_source
  simp [h]

/-- Confirm with nothing held and the cursor on a card away from the stock: the candidate
destinations are tagged, the card becomes the held card, and a single candidate found by the
scan of the tableau is moved to at once. -/
theorem handle_confirm_pickup (fuel : Nat) (g : Game) (c : Nat)
    (hsa : g.selected.active = true) (hns : g.selected.location ≠ STOCK)
    (hma : g.moving.active = false) (hc : card_ptr g.selected g false = some c) :
    handle_confirm fuel g =
      if (stack_targets (touch g.selected g) c (g.selected.location == TABLEAU)).length < 1 then
        some (false, hl_state (clear_highlight (touch g.selected g))
          (stack_targets (touch g.selected g) c (g.selected.location == TABLEAU)))
      else if (stack_targets (touch g.selected g) c (g.selected.location == TABLEAU)).length = 1
      then
        match find_highlighted
          { hl_state (clear_highlight (touch g.selected g))
              (stack_targets (touch g.selected g) c (g.selected.location == TABLEAU)) with
            moving := { g.selected with active := true } } 7 0 with
        | some (column, row) =>
          move_card fuel
            { hl_state (clear_highlight (touch g.selected g))
                (stack_targets (touch g.selected g) c (g.selected.location == TABLEAU)) with
              moving := { g.selected with active := true },
              selected := { active := true, location := TABLEAU, column := column, row := row } }
        | none => some (false,
          { hl_state (clear_highlight (touch g.selected g))
              (stack_targets (touch g.selected g) c (g.selected.location == TABLEAU)) with
            moving := { g.selected with active := true } })
      else some (false,
        { hl_state (clear_highlight (touch g.selected g))
            (stack_targets (touch g.selected g) c (g.selected.location == TABLEAU)) with
          moving := { g.selected with active := true } }) := by
  unfold handle_confirm
  simp only [hsa, hns, if_true, if_false, get_card_eq, hc, touch_moving, touch_selected, hma,
    Bool.false_eq_true, highlight_stackable_eq]
  rw [highlight_source_inactive _ (by simpa using hma)]
  try simp only [hl_state_selected, clear_highlight_selected, touch_selected, hsa]
  try rfl

theorem hl_single_highlight (g : Game) (a b : Nat) (hb : b < GAME_CELLS) :
    ((hl_state (clear_highlight g) [a]).mem b).highlight = HIGHLIGHTED ↔ b = a := by
  simp only [hl_state_mem, clear_highlight_mem, hb, if_true, List.mem_singleton]
  by_cases h : b = a
  · simp [h]
  · simp [h]

/-- Confirm with nothing held when `highlight_stackable` finds the single candidate `a`. -/
theorem handle_confirm_single (fuel : Nat) (g : Game) (c a : Nat)
    (hsa : g.selected.active = true) (hns : g.selected.location ≠ STOCK)
    (hma : g.moving.active = false) (hc : card_ptr g.selected g false = some c)
    (hT : stack_targets (touch g.selected g) c (g.selected.location == TABLEAU) = [a]) :
    (a < FOUNDATION_BASE → handle_confirm fuel g = move_card fuel
      { hl_state (clear_highlight (touch g.selected g)) [a] with
        moving := { g.selected with active := true },
        selected := { active := true, location := TABLEAU, column := ((a / 64 : Nat) : Int),
                      row := ((a % 64 : Nat) : Int) } }) ∧
    (FOUNDATION_BASE ≤ a → handle_confirm fuel g = some (false,
      { hl_state (clear_highlight (touch g.selected g)) [a] with
        moving := { g.selected with active := true } })) := by
  have hF : FOUNDATION_BASE = 448 := rfl
  have hG : GAME_CELLS = 580 := rfl
  have hmem : a ∈ stack_targets (touch g.selected g) c (g.selected.location == TABLEAU) := by
    rw [hT]; exact List.mem_singleton_self a
  rw [handle_confirm_pickup fuel g c hsa hns hma hc, hT]
  simp only [List.length_singleton, Nat.lt_irrefl, if_false, if_true]
  constructor
  · intro ha
    rw [mem_stack_targets] at hmem
    rcases hmem with ⟨c', hc', hx⟩ | ⟨_, i, _, rfl, _⟩
    swap
    · omega
    have hrange := column_target_range _ _ _ _ hx
    simp only [tab] at hrange
    have e1 : a / 64 = c' := by omega
    have e2 : a = tab c' (a % 64) := by simp only [tab]; omega
    rw [column_target_iff] at hx
    have hrows : ∀ j, j < a % 64 → (((touch g.selected g).mem (tab c' j)).rank ≠ NO_RANK) := by
      intro j hj
      obtain ⟨h1, ⟨h2, h3, _⟩ | ⟨h2, h3, _⟩⟩ := hx
      · have : a % 64 = pile_len (touch g.selected g) (tab c' 0) - 1 := by
          generalize pile_len (touch g.selected g) (tab c' 0) = L at *
          simp only [tab] at h3; omega
        have := pile_len_occupied (touch g.selected g) (tab c' 0) j (by omega)
        rwa [tab_zero_add] at this
      · simp only [tab] at h3; omega
    rw [find_highlighted_some _ c' (a % 64) (Nat.mod_lt _ (by omega)) 7 0 (Nat.zero_le _)
      (by omega)
      (by
        intro c'' _ h2 r' hr'
        show ((hl_state (clear_highlight (touch g.selected g)) [a]).mem (tab c'' r')).highlight
          ≠ HIGHLIGHTED
        rw [Ne, hl_single_highlight _ _ _ (by simp only [tab]; omega)]
        simp only [tab]; omega)
      (by
        intro j hj
        constructor
        · show ((hl_state (clear_highlight (touch g.selected g)) [a]).mem (tab c' j)).highlight
            ≠ HIGHLIGHTED
          rw [Ne, hl_single_highlight _ _ _ (by simp only [tab]; omega)]
          simp only [tab]; omega
        · show ((hl_state (clear_highlight (touch g.selected g)) [a]).mem (tab c' j)).rank
            ≠ NO_RANK
          rw [hl_state_rank, clear_highlight_rank]
          exact hrows j hj)
      (by
        show ((hl_state (clear_highlight (touch g.selected g)) [a]).mem (tab c' (a % 64))).highlight
          = HIGHLIGHTED
        rw [hl_single_highlight _ _ _ (by simp only [tab]; omega)]
        exact e2.symm)]
    simp only [e1]
  · intro ha
    rw [find_highlighted_none _ 7 0
      (by
        intro c' _ hc' r hr
        show ((hl_state (clear_highlight (touch g.selected g)) [a]).mem (tab c' r)).highlight
          ≠ HIGHLIGHTED
        rw [Ne, hl_single_highlight _ _ _ (by simp only [tab]; omega)]
        simp only [tab]; omega)]


/-! ## The display update -/

theorem card_ext (x y : Card) (h1 : x.rank = y.rank) (h2 : x.suite = y.suite)
    (h3 : x.visible = y.visible) (h4 : x.highlight = y.highlight) : x = y := by
  cases x; cases y
  simp only at h1 h2 h3 h4
  subst h1 h2 h3 h4
  rfl

theorem game_ext_fields {g g' : Game}
    (hm : ∀ a, (g'.mem a).rank = (g.mem a).rank ∧ (g'.mem a).suite = (g.mem a).suite ∧
      (g'.mem a).visible = (g.mem a).visible ∧ (g'.mem a).highlight = (g.mem a).highlight)
    (hs : g'.selected = g.selected) (hv : g'.moving = g.moving) : g' = g :=
  game_ext (fun a => card_ext _ _ (hm a).1 (hm a).2.1 (hm a).2.2.1 (hm a).2.2.2) hs hv

theorem touch_mem (pos : CardPos) (g : Game) (a : Nat) :
    (touch pos g).mem a =
      if touch_marks pos g a then { g.mem a with visible := true } else g.mem a := by
  by_cases ha : pos.active = true
  · cases hl : pos.location with
    | TABLEAU =>
      rw [touch_tableau _ _ hl, if_neg (by unfold touch_marks; simp [hl])]
    | FOUNDATION =>
      rw [touch_foundation _ _ hl, if_neg (by unfold touch_marks; simp [hl])]
    | WASTE =>
      have e : touch pos g = mark_visible g WASTE_BASE (pile_len g WASTE_BASE) := by
        unfold touch; simp [ha, hl]
      rw [e, mark_visible_mem]
      unfold touch_marks
      simp [ha, hl]
    | STOCK =>
      have e : touch pos g = mark_visible g STOCK_BASE (pile_len g STOCK_BASE) := by
        unfold touch; simp [ha, hl]
      rw [e, mark_visible_mem]
      unfold touch_marks
      simp [ha, hl]
  · rw [touch_inactive _ _ (by simpa using ha), if_neg (fun h => ha h.1)]

theorem touch_visible (pos : CardPos) (g : Game) (a : Nat) :
    ((touch pos g).mem a).visible = ((g.mem a).visible || decide (touch_marks pos g a)) := by
  rw [touch_mem]
  by_cases h : touch_marks pos g a
  · simp [h]
  · simp [h]

theorem update_visible_visible (g : Game) (a : Nat) :
    ((update_visible g).mem a).visible = ((g.mem a).visible || decide (flips g a)) := by
  rw [update_visible_mem]
  by_cases h : flips g a
  · simp [h]
  · simp [h]

theorem flips_congr (g g' : Game) (a : Nat) (h : ∀ b, (g'.mem b).rank = (g.mem b).rank) :
    flips g' a ↔ flips g a := by
  unfold flips
  rw [pile_len_congr g g' _ (fun _ _ => h _)]

theorem touch_marks_congr (pos : CardPos) (g g' : Game) (a : Nat)
    (h : ∀ b, (g'.mem b).rank = (g.mem b).rank) :
    touch_marks pos g' a ↔ touch_marks pos g a := by
  unfold touch_marks
  rw [pile_len_congr g g' _ (fun _ _ => h _), pile_len_congr g g' _ (fun _ _ => h _)]

theorem touch_marks_lt (pos : CardPos) (g : Game) (a : Nat) (h : touch_marks pos g a) :
    a < GAME_CELLS := by
  have hW : WASTE_BASE = 452 := rfl
  have hS : STOCK_BASE = 516 := rfl
  have hG : GAME_CELLS = 580 := rfl
  have h1 := pile_len_le g WASTE_BASE
  have h2 := pile_len_le g STOCK_BASE
  unfold touch_marks at h
  omega

/-- Every pointer returned by `get_card` points into the 580 card cells. -/
theorem card_ptr_lt (pos : CardPos) (g : Game) (nr : Bool) (c : Nat)
    (h : card_ptr pos g nr = some c) : c < GAME_CELLS := by
  have hF : FOUNDATION_BASE = 448 := rfl
  have hW : WASTE_BASE = 452 := rfl
  have hS : STOCK_BASE = 516 := rfl
  have hG : GAME_CELLS = 580 := rfl
  have h1 := pile_len_le g WASTE_BASE
  have h2 := pile_len_le g STOCK_BASE
  cases ha : pos.active with
  | false => rw [card_ptr_inactive _ _ _ ha] at h; cases h
  | true =>
    cases hl : pos.location with
    | TABLEAU =>
      rw [card_ptr_tableau _ _ _ ha hl] at h
      by_cases hb : 0 ≤ pos.column ∧ pos.column < 7 ∧ 0 ≤ pos.row ∧ pos.row < 64
      · rw [if_pos hb] at h
        by_cases hc : nr = false ∧ (g.mem (tab pos.column.toNat pos.row.toNat)).rank = 0
        · rw [if_pos hc] at h; cases h
        · rw [if_neg hc] at h
          simp only [Option.some.injEq] at h
          subst h
          simp only [tab]
          omega
      · rw [if_neg hb] at h; cases h
    | FOUNDATION =>
      rw [card_ptr_foundation _ _ _ ha hl] at h
      by_cases hb : 0 ≤ pos.column ∧ pos.column < 4
      · rw [if_pos hb] at h
        simp only [Option.some.injEq] at h
        omega
      · rw [if_neg hb] at h; cases h
    | WASTE =>
      rw [card_ptr_waste _ _ _ ha hl] at h
      by_cases hb : pile_len g WASTE_BASE = 0
      · rw [if_pos hb] at h
        by_cases hn : nr = true
        · rw [if_pos hn] at h
          simp only [Option.some.injEq] at h
          omega
        · rw [if_neg hn] at h; cases h
      · rw [if_neg hb] at h
        simp only [Option.some.injEq] at h
        omega
    | STOCK =>
      rw [card_ptr_stock _ _ _ ha hl] at h
      by_cases hb : pile_len g STOCK_BASE = 0
      · rw [if_pos hb] at h
        by_cases hn : nr = true
        · rw [if_pos hn] at h
          simp only [Option.some.injEq] at h
          omega
        · rw [if_neg hn] at h; cases h
      · rw [if_neg hb] at h
        simp only [Option.some.injEq] at h
        omega

/-- A lookup that finds a card finds the same slot when empty slots are allowed. -/
theorem card_ptr_true_of_false (pos : CardPos) (g : Game) (c : Nat)
    (h : card_ptr pos g false = some c) : card_ptr pos g true = some c := by
  cases ha : pos.active with
  | false => rw [card_ptr_inactive _ _ _ ha] at h; cases h
  | true =>
    cases hl : pos.location with
    | TABLEAU =>
      rw [card_ptr_tableau _ _ _ ha hl] at h ⊢
      by_cases hb : 0 ≤ pos.column ∧ pos.column < 7 ∧ 0 ≤ pos.row ∧ pos.row < 64
      · rw [if_pos hb] at h ⊢
        by_cases hc : (g.mem (tab pos.column.toNat pos.row.toNat)).rank = 0
        · rw [if_pos ⟨rfl, hc⟩] at h; cases h
        · rw [if_neg (fun x => hc x.2)] at h
          rw [if_neg (by simp)]
          exact h
      · rw [if_neg hb] at h; cases h
    | FOUNDATION =>
      rw [card_ptr_foundation _ _ _ ha hl] at h ⊢
      exact h
    | WASTE =>
      rw [card_ptr_waste _ _ _ ha hl] at h ⊢
      by_cases hb : pile_len g WASTE_BASE = 0
      · rw [if_pos hb] at h
        simp at h
      · rw [if_neg hb] at h ⊢
        exact h
    | STOCK =>
      rw [card_ptr_stock _ _ _ ha hl] at h ⊢
      by_cases hb : pile_len g STOCK_BASE = 0
      · rw [if_pos hb] at h
        simp at h
      · rw [if_neg hb] at h ⊢
        exact h

theorem stack_targets_congr (g g' : Game) (card : Nat) (tb : Bool)
    (h : ∀ a, (g'.mem a).rank = (g.mem a).rank ∧ (g'.mem a).suite = (g.mem a).suite ∧
      (g'.mem a).visible = (g.mem a).visible) :
    stack_targets g' card tb = stack_targets g card tb := by
  have hcs : ∀ a f, can_stack (g'.mem card) (g'.mem a) f = can_stack (g.mem card) (g.mem a) f :=
    fun a f => can_stack_congr _ _ _ _ _ (h card).1 (h card).2.1 (h a).1 (h a).2.1
  have hpl : ∀ b, pile_len g' b = pile_len g b :=
    fun b => pile_len_congr g g' b (fun _ _ => (h _).1)
  have e1 : column_target g' card = column_target g card := by
    funext c
    unfold column_target
    simp only [hcs, hpl, (h _).2.2, (h _).1]
  have e2 : foundation_targets g' card = foundation_targets g card := by
    unfold foundation_targets
    simp only [hcs]
  unfold stack_targets
  rw [e1, e2, (h _).1]

/-- The display update with a held position that resolves to no card. -/
theorem update_display_none (g : Game) (ha : g.moving.active = true)
    (hc : card_ptr g.moving g false = none) :
    update_display g =
      { touch g.moving (clear_highlight (update_visible g)) with
        moving := { g.moving with active := false } } := by
  unfold update_display
  simp only [clear_highlight_moving, update_visible_moving, ha, if_true, get_card_eq]
  have e : card_ptr g.moving (clear_highlight (update_visible g)) false = none := by
    rw [card_ptr_congr _ g _ _ (fun _ => by simp)]; exact hc
  rw [e]
  simp only
  rw [highlight_source_inactive _ rfl]
  simp only [touch_moving, clear_highlight_moving, update_visible_moving]

/-- The display update with a held position that resolves to the card in cell `c`. -/
theorem update_display_some (g : Game) (c : Nat) (hc : card_ptr g.moving g false = some c) :
    update_display g =
      (touch g.moving (hl_state (clear_highlight
        (touch g.moving (clear_highlight (update_visible g)))) (display_targets g c))).set_highlight
        c SOURCE := by
  have ha : g.moving.active = true := by
    cases h : g.moving.active
    · rw [card_ptr_inactive _ _ _ h] at hc; cases hc
    · rfl
  unfold update_display
  simp only [clear_highlight_moving, update_visible_moving, ha, if_true, get_card_eq]
  have e : card_ptr g.moving (clear_highlight (update_visible g)) false = some c := by
    rw [card_ptr_congr _ g _ _ (fun _ => by simp)]; exact hc
  rw [e]
  simp only [touch_moving, clear_highlight_moving, update_visible_moving, highlight_stackable_eq]
  unfold highlight_source
  simp only [hl_state_moving, clear_highlight_moving, touch_moving, update_visible_moving, ha,
    Bool.not_true, Bool.false_eq_true, if_false, get_card_eq]
  have e2 : card_ptr g.moving (hl_state (clear_highlight
      (touch g.moving (clear_highlight (update_visible g))))
      (stack_targets (touch g.moving (clear_highlight (update_visible g))) c
        (g.moving.location == TABLEAU))) true = some c := by
    rw [card_ptr_congr _ g _ _ (fun _ => by simp)]
    exact card_ptr_true_of_false _ _ _ hc
  rw [e2]
  rfl

theorem update_display_cases (g : Game) :
    (g.moving.active = false ∧ update_display g = clear_highlight (update_visible g)) ∨
    (g.moving.active = true ∧ card_ptr g.moving g false = none ∧
      update_display g = { touch g.moving (clear_highlight (update_visible g)) with
        moving := { g.moving with active := false } }) ∨
    (∃ c, g.moving.active = true ∧ card_ptr g.moving g false = some c ∧
      update_display g = (touch g.moving (hl_state (clear_highlight
        (touch g.moving (clear_highlight (update_visible g)))) (display_targets g c))).set_highlight
        c SOURCE) := by
  cases ha : g.moving.active with
  | false => exact Or.inl ⟨rfl, update_display_inactive g ha⟩
  | true =>
    cases hc : card_ptr g.moving g false with
    | none => exact Or.inr (Or.inl ⟨rfl, rfl, update_display_none g ha hc⟩)
    | some c => exact Or.inr (Or.inr ⟨c, rfl, rfl, update_display_some g c hc⟩)

@[simp] theorem update_display_selected (g : Game) :
    (update_display g).selected = g.selected := by
  rcases update_display_cases g with ⟨_, h⟩ | ⟨_, _, h⟩ | ⟨c, _, _, h⟩ <;> rw [h] <;> simp

@[simp] theorem update_display_rank (g : Game) (a : Nat) :
    ((update_display g).mem a).rank = (g.mem a).rank := by
  rcases update_display_cases g with ⟨_, h⟩ | ⟨_, _, h⟩ | ⟨c, _, _, h⟩ <;> rw [h] <;> simp

@[simp] theorem update_display_suite (g : Game) (a : Nat) :
    ((update_display g).mem a).suite = (g.mem a).suite := by
  rcases update_display_cases g with ⟨_, h⟩ | ⟨_, _, h⟩ | ⟨c, _, _, h⟩ <;> rw [h] <;> simp

theorem update_display_moving (g : Game) :
    (update_display g).moving =
      if g.moving.active = true ∧ card_ptr g.moving g false = none then
        { g.moving with active := false }
      else g.moving := by
  rcases update_display_cases g with ⟨h0, h⟩ | ⟨h0, h1, h⟩ | ⟨c, h0, h1, h⟩
  · rw [h, if_neg (by simp [h0])]; simp
  · rw [h, if_pos ⟨h0, h1⟩]
  · rw [h, if_neg (by simp [h1])]; simp

theorem touch_marks_touch (pos q : CardPos) (g : Game) (a : Nat) :
    touch_marks pos (touch q g) a ↔ touch_marks pos g a :=
  touch_marks_congr _ _ _ _ (fun _ => by simp)

theorem update_display_visible (g : Game) (a : Nat) :
    ((update_display g).mem a).visible = display_visible g a := by
  unfold display_visible
  have e1 : ∀ k : Game, (∀ b, (k.mem b).rank = (g.mem b).rank) →
      decide (touch_marks g.moving k a) = decide (touch_marks g.moving g a) :=
    fun k hk => decide_eq_decide.2 (touch_marks_congr _ _ _ _ hk)
  rcases update_display_cases g with ⟨h0, h⟩ | ⟨h0, h1, h⟩ | ⟨c, h0, h1, h⟩
  · rw [h, clear_highlight_visible, update_visible_visible]
    have : ¬ touch_marks g.moving g a := fun x => by rw [x.1] at h0; cases h0
    simp [this]
  · rw [h]
    show ((touch g.moving (clear_highlight (update_visible g))).mem a).visible = _
    rw [touch_visible, clear_highlight_visible, update_visible_visible,
      e1 _ (fun _ => by simp)]
  · rw [h, set_highlight_visible, touch_visible, hl_state_visible, clear_highlight_visible,
      touch_visible, clear_highlight_visible, update_visible_visible,
      e1 (hl_state (clear_highlight (touch g.moving (clear_highlight (update_visible g))))
        (display_targets g c)) (fun _ => by simp),
      e1 (clear_highlight (update_visible g)) (fun _ => by simp)]
    cases (g.mem a).visible <;> cases decide (flips g a) <;>
      cases decide (touch_marks g.moving g a) <;> rfl

theorem update_display_highlight (g : Game) (a : Nat) :
    ((update_display g).mem a).highlight = display_highlight g a := by
  unfold display_highlight
  rcases update_display_cases g with ⟨h0, h⟩ | ⟨h0, h1, h⟩ | ⟨c, h0, h1, h⟩
  · rw [h, card_ptr_inactive _ _ _ h0, clear_highlight_mem]
    simp only
    split <;> simp
  · rw [h, h1]
    show ((touch g.moving (clear_highlight (update_visible g))).mem a).highlight = _
    rw [touch_highlight, clear_highlight_mem]
    simp only
    split <;> simp
  · rw [h, h1]
    simp only
    rw [set_highlight_mem]
    by_cases e : a = c
    · rw [if_pos e, if_pos e]
    · rw [if_neg e, if_neg e, touch_highlight, hl_state_mem]
      by_cases e2 : a ∈ display_targets g c
      · rw [if_pos e2, if_pos e2]
      · rw [if_neg e2, if_neg e2, clear_highlight_mem]
        by_cases e3 : a < GAME_CELLS
        · rw [if_pos e3, if_pos e3]
        · rw [if_neg e3, if_neg e3, touch_highlight, clear_highlight_mem, if_neg e3,
            update_visible_highlight]

/-- The held position after the display update resolves as it did before. -/
theorem card_ptr_update_display (g : Game) :
    card_ptr (update_display g).moving (update_display g) false = card_ptr g.moving g false := by
  rw [update_display_moving]
  by_cases hc : g.moving.active = true ∧ card_ptr g.moving g false = none
  · rw [if_pos hc, card_ptr_inactive _ _ _ rfl, hc.2]
  · rw [if_neg hc]
    exact card_ptr_congr _ _ _ _ (fun _ => by simp)

theorem touch_marks_update_display (g : Game) (a : Nat)
    (h : touch_marks (update_display g).moving g a) : touch_marks g.moving g a := by
  rw [update_display_moving] at h
  by_cases hc : g.moving.active = true ∧ card_ptr g.moving g false = none
  · rw [if_pos hc] at h
    exact absurd h.1 (by simp)
  · rw [if_neg hc] at h
    exact h

theorem display_visible_update_display (g : Game) (a : Nat) :
    display_visible (update_display g) a = display_visible g a := by
  have e1 : decide (flips (update_display g) a) = decide (flips g a) :=
    decide_eq_decide.2 (flips_congr _ _ _ (fun _ => by simp))
  have e2 : decide (touch_marks (update_display g).moving (update_display g) a)
      = decide (touch_marks (update_display g).moving g a) :=
    decide_eq_decide.2 (touch_marks_congr _ _ _ _ (fun _ => by simp))
  conv_lhs => unfold display_visible
  rw [update_display_visible, e1, e2]
  by_cases h : touch_marks (update_display g).moving g a
  · have h' := touch_marks_update_display g a h
    unfold display_visible
    simp [h, h']
  · unfold display_visible
    simp only [h, decide_False, Bool.or_false]
    cases (g.mem a).visible <;> cases decide (flips g a) <;>
      cases decide (touch_marks g.moving g a) <;> rfl

theorem display_targets_update_display (g : Game) (c : Nat)
    (hc : card_ptr g.moving g false = some c) :
    display_targets (update_display g) c = display_targets g c := by
  have hm : (update_display g).moving = g.moving := by
    rw [update_display_moving, if_neg (by simp [hc])]
  unfold display_targets
  rw [hm]
  apply stack_targets_congr
  intro a
  refine ⟨by simp, by simp, ?_⟩
  have e1 : decide (flips (update_display g) a) = decide (flips g a) :=
    decide_eq_decide.2 (flips_congr _ _ _ (fun _ => by simp))
  have e2 : decide (touch_marks g.moving (clear_highlight (update_visible (update_display g))) a)
      = decide (touch_marks g.moving g a) :=
    decide_eq_decide.2 (touch_marks_congr _ _ _ _ (fun _ => by simp))
  have e3 : decide (touch_marks g.moving (clear_highlight (update_visible g)) a)
      = decide (touch_marks g.moving g a) :=
    decide_eq_decide.2 (touch_marks_congr _ _ _ _ (fun _ => by simp))
  rw [touch_visible, clear_highlight_visible, update_visible_visible, update_display_visible,
    touch_visible, clear_highlight_visible, update_visible_visible, e1, e2, e3]
  unfold display_visible
  cases (g.mem a).visible <;> cases decide (flips g a) <;>
    cases decide (touch_marks g.moving g a) <;> rfl

theorem display_highlight_update_display (g : Game) (a : Nat) :
    display_highlight (update_display g) a = display_highlight g a := by
  have hG : ¬ a < GAME_CELLS → ((update_display g).mem a).highlight = (g.mem a).highlight := by
    intro ha
    rw [update_display_highlight]
    unfold display_highlight
    cases hc : card_ptr g.moving g false with
    | none => simp only; rw [if_neg ha]
    | some c =>
      simp only
      have h1 := card_ptr_lt _ _ _ _ hc
      have h2 : a ∉ display_targets g c := fun h => ha (stack_targets_lt _ _ _ _ h)
      rw [if_neg (by omega), if_neg h2, if_neg ha]
  conv_lhs => unfold display_highlight
  rw [card_ptr_update_display]
  unfold display_highlight
  cases hc : card_ptr g.moving g false with
  | none =>
    simp only
    by_cases ha : a < GAME_CELLS
    · rw [if_pos ha, if_pos ha]
    · rw [if_neg ha, if_neg ha, hG ha]
  | some c =>
    simp only
    rw [display_targets_update_display g c hc]
    by_cases e : a = c
    · rw [if_pos e, if_pos e]
    · rw [if_neg e, if_neg e]
      by_cases e2 : a ∈ display_targets g c
      · rw [if_pos e2, if_pos e2]
      · rw [if_neg e2, if_neg e2]
        by_cases ha : a < GAME_CELLS
        · rw [if_pos ha, if_pos ha]
        · rw [if_neg ha, if_neg ha, hG ha]

/-- The display update is idempotent. -/
theorem update_display_idem (g : Game) :
    update_display (update_display g) = update_display g := by
  apply game_ext_fields
  · intro a
    refine ⟨by simp, by simp, ?_, ?_⟩
    · rw [update_display_visible, update_display_visible, display_visible_update_display]
    · rw [update_display_highlight, update_display_highlight, display_highlight_update_display]
  · simp
  · rw [update_display_moving (update_display g), card_ptr_update_display]
    by_cases hc : (update_display g).moving.active = true ∧ card_ptr g.moving g false = none
    · exfalso
      have h1 := hc.1
      rw [update_display_moving] at h1
      by_cases hc' : g.moving.active = true ∧ card_ptr g.moving g false = none
      · rw [if_pos hc'] at h1
        cases h1
      · rw [if_neg hc'] at h1
        exact hc' ⟨h1, hc.2⟩
    · rw [if_neg hc]


/-! ## Counting cards -/

theorem cell_holds_congr (g g' : Game) (a : Nat) (s : Suite) (k : Nat)
    (h1 : (g'.mem a).rank = (g.mem a).rank) (h2 : (g'.mem a).suite = (g.mem a).suite) :
    cell_holds g' a s k ↔ cell_holds g a s k := by
  unfold cell_holds
  rw [h1, h2]

theorem card_count_congr (g g' : Game) (s : Suite) (k : Nat)
    (h : ∀ a, a < GAME_CELLS → (cell_holds g' a s k ↔ cell_holds g a s k)) :
    card_count g' s k = card_count g s k := by
  unfold card_count
  apply Finset.sum_congr rfl
  intro a ha
  have := h a (Finset.mem_range.1 ha)
  by_cases hc : cell_holds g a s k
  · rw [if_pos hc, if_pos (this.2 hc)]
  · rw [if_neg hc, if_neg (fun x => hc (this.1 x))]

/-- The count is unchanged when the cells are permuted by an involution. -/
theorem card_count_perm (g g' : Game) (s : Suite) (k : Nat) (σ : Nat → Nat)
    (h1 : ∀ a, a < GAME_CELLS → σ a < GAME_CELLS)
    (h2 : ∀ a, a < GAME_CELLS → σ (σ a) = a)
    (h3 : ∀ a, a < GAME_CELLS → (cell_holds g' a s k ↔ cell_holds g (σ a) s k)) :
    card_count g' s k = card_count g s k := by
  unfold card_count
  apply Finset.sum_nbij' σ σ
  · intro a ha
    exact Finset.mem_range.2 (h1 a (Finset.mem_range.1 ha))
  · intro a ha
    exact Finset.mem_range.2 (h1 a (Finset.mem_range.1 ha))
  · intro a ha
    exact h2 a (Finset.mem_range.1 ha)
  · intro a ha
    exact h2 a (Finset.mem_range.1 ha)
  · intro a ha
    have := h3 a (Finset.mem_range.1 ha)
    by_cases hc : cell_holds g (σ a) s k
    · rw [if_pos hc, if_pos (this.2 hc)]
    · rw [if_neg hc, if_neg (fun x => hc (this.1 x))]

theorem sum_split_two (S : Finset Nat) (f : Nat → Nat) (x y : Nat)
    (hx : x ∈ S) (hy : y ∈ S) (hxy : x ≠ y) :
    S.sum f = f x + f y + ((S.erase x).erase y).sum f := by
  rw [← Finset.add_sum_erase _ _ hx,
    ← Finset.add_sum_erase _ _ (Finset.mem_erase.2 ⟨hxy.symm, hy⟩), Nat.add_assoc]

theorem sum_two_cells (S : Finset Nat) (f f' : Nat → Nat) (x y : Nat)
    (hx : x ∈ S) (hy : y ∈ S) (hxy : x ≠ y)
    (hrest : ∀ a, a ∈ S → a ≠ x → a ≠ y → f' a = f a)
    (hsum : f' x + f' y = f x + f y) : S.sum f' = S.sum f := by
  rw [sum_split_two S f' x y hx hy hxy, sum_split_two S f x y hx hy hxy, hsum]
  have e : ((S.erase x).erase y).sum f' = ((S.erase x).erase y).sum f := by
    apply Finset.sum_congr rfl
    intro a ha
    rw [Finset.mem_erase, Finset.mem_erase] at ha
    exact hrest a ha.2.2 ha.2.1 ha.1
  rw [e]

/-- The count as the contribution of two cells plus the rest. -/
theorem card_count_split (g : Game) (s : Suite) (k : Nat) (x y : Nat)
    (hx : x < GAME_CELLS) (hy : y < GAME_CELLS) (hxy : x ≠ y) :
    card_count g s k =
      (if cell_holds g x s k then 1 else 0) + (if cell_holds g y s k then 1 else 0) +
        Finset.sum (((Finset.range GAME_CELLS).erase x).erase y)
          (fun a => if cell_holds g a s k then 1 else 0) :=
  sum_split_two _ _ x y (Finset.mem_range.2 hx) (Finset.mem_range.2 hy) hxy

/-- The count is unchanged when two cells change so that their joint contribution stays. -/
theorem card_count_two (g g' : Game) (s : Suite) (k : Nat) (x y : Nat)
    (hx : x < GAME_CELLS) (hy : y < GAME_CELLS) (hxy : x ≠ y)
    (hrest : ∀ a, a < GAME_CELLS → a ≠ x → a ≠ y →
      (cell_holds g' a s k ↔ cell_holds g a s k))
    (hsum : (if cell_holds g' x s k then 1 else 0) + (if cell_holds g' y s k then 1 else 0)
      = (if cell_holds g x s k then 1 else 0) + (if cell_holds g y s k then 1 else 0)) :
    card_count g' s k = card_count g s k := by
  refine sum_two_cells _ _ _ x y (Finset.mem_range.2 hx) (Finset.mem_range.2 hy) hxy ?_ hsum
  intro a ha hax hay
  have := hrest a (Finset.mem_range.1 ha) hax hay
  by_cases hc : cell_holds g a s k
  · rw [if_pos hc, if_pos (this.2 hc)]
  · rw [if_neg hc, if_neg (fun x => hc (this.1 x))]

/-- Two different cells that account for the same card make its count at least 2. -/
theorem card_count_ge_two (g : Game) (s : Suite) (k : Nat) (x y : Nat)
    (hx : x < GAME_CELLS) (hy : y < GAME_CELLS) (hxy : x ≠ y)
    (h1 : cell_holds g x s k) (h2 : cell_holds g y s k) : 2 ≤ card_count g s k := by
  rw [card_count_split g s k x y hx hy hxy, if_pos h1, if_pos h2]
  omega

theorem card_count_pos (g : Game) (s : Suite) (k : Nat) (x : Nat)
    (hx : x < GAME_CELLS) (h1 : cell_holds g x s k) : 1 ≤ card_count g s k := by
  unfold card_count
  rw [← Finset.add_sum_erase _ _ (Finset.mem_range.2 hx), if_pos h1]
  omega

/-! ## The invariant under changes of flags and positions -/

theorem full_deck_congr (g g' : Game) (hr : ∀ a, (g'.mem a).rank = (g.mem a).rank)
    (hsu : ∀ a, (g'.mem a).suite = (g.mem a).suite) (h : full_deck g) : full_deck g' := by
  intro s k hk
  rw [card_count_congr g g' s k (fun a _ => cell_holds_congr g g' a s k (hr a) (hsu a))]
  exact h s k hk

theorem columns_contiguous_congr (g g' : Game) (hr : ∀ a, (g'.mem a).rank = (g.mem a).rank)
    (h : columns_contiguous g) : columns_contiguous g' := by
  intro c hc r hr1
  simp only [Game.tableau, hr]
  exact h c hc r hr1

theorem pile_contiguous_congr (g g' : Game) (base : Nat)
    (hr : ∀ a, (g'.mem a).rank = (g.mem a).rank)
    (h : pile_contiguous g base) : pile_contiguous g' base := by
  intro i hi
  simp only [hr]
  exact h i hi

theorem pos_visible_congr (g g' : Game) (pos : CardPos)
    (hr : ∀ a, (g'.mem a).rank = (g.mem a).rank)
    (hmono : ∀ a, (g.mem a).visible = true → (g'.mem a).visible = true)
    (h : pos_visible g pos) : pos_visible g' pos := by
  intro hl a ha
  rw [card_ptr_congr pos g g' false hr] at ha
  exact hmono a (h hl a ha)

/-- The invariant of the cards survives a change of flags that leaves ranks and suites
alone, hides nothing, and in the tableau and the foundations shows only what the flip pass
shows. -/
theorem cards_ok_congr (g g' : Game)
    (hr : ∀ a, (g'.mem a).rank = (g.mem a).rank)
    (hsu : ∀ a, (g'.mem a).suite = (g.mem a).suite)
    (hv : ∀ a, a < WASTE_BASE → (g'.mem a).visible = true →
      (g.mem a).visible = true ∨ flips g a)
    (hmono : ∀ a, (g.mem a).visible = true → (g'.mem a).visible = true)
    (h : cards_ok g) : cards_ok g' where
  deck := full_deck_congr g g' hr hsu h.deck
  columns := by
    intro c hc
    obtain ⟨k1, k2⟩ := h.columns c hc
    refine ⟨?_, ?_⟩
    · intro r hr1
      simp only [hr]
      exact k1 r hr1
    · intro r hr1 hocc hvis
      simp only [hr, hsu] at hocc ⊢
      have hW : WASTE_BASE = 452 := rfl
      rcases hv (tab c r) (by simp only [tab]; omega) hvis with h1 | h1
      · obtain ⟨h2, h3⟩ := k2 r hr1 hocc h1
        exact ⟨hmono _ h2, h3⟩
      · exfalso
        obtain ⟨_, h2, h3⟩ := h1
        have e1 : tab c r % 64 = r := by simp only [tab]; omega
        have e2 : tab c r / 64 = c := by simp only [tab]; omega
        rw [e1, e2] at h2
        have := pile_len_empty g (tab c 0) (by omega)
        rw [← h2, tab_zero_add] at this
        exact hocc this
  dealt_up := fun c hc r h1 h2 hocc =>
    hmono _ (h.dealt_up c hc r h1 h2 (by rw [hr] at hocc; exact hocc))
  waste := pile_contiguous_congr g g' _ hr h.waste
  stock := pile_contiguous_congr g g' _ hr h.stock
  foundations := fun i hi => hmono _ (h.foundations i hi)
  waste_up := fun i hi hocc => hmono _ (h.waste_up i hi (by rw [hr] at hocc; exact hocc))

theorem cards_ok_mem (g g' : Game) (hm : g'.mem = g.mem) (h : cards_ok g) : cards_ok g' :=
  cards_ok_congr g g' (fun _ => by rw [hm]) (fun _ => by rw [hm])
    (fun _ _ hv => Or.inl (by rw [hm] at hv; exact hv)) (fun _ hv => by rw [hm]; exact hv) h

theorem board_ok_congr (g g' : Game) (hs : g'.selected = g.selected)
    (hm : g'.moving = g.moving)
    (hr : ∀ a, (g'.mem a).rank = (g.mem a).rank)
    (hsu : ∀ a, (g'.mem a).suite = (g.mem a).suite)
    (hv : ∀ a, a < WASTE_BASE → (g'.mem a).visible = true →
      (g.mem a).visible = true ∨ flips g a)
    (hmono : ∀ a, (g.mem a).visible = true → (g'.mem a).visible = true)
    (h : board_ok g) : board_ok g' where
  cards := cards_ok_congr g g' hr hsu hv hmono h.cards
  cursor := by rw [hs]; exact pos_visible_congr g g' _ hr hmono h.cursor
  held := by rw [hm]; exact pos_visible_congr g g' _ hr hmono h.held
  held_stock := by rw [hm]; exact h.held_stock

theorem board_ok_update_visible (g : Game) (h : board_ok g) : board_ok (update_visible g) := by
  refine board_ok_congr g _ (by simp) (by simp) (by simp) (by simp) ?_ ?_ h
  · intro a _ hvis
    rw [update_visible_mem] at hvis
    by_cases hf : flips g a
    · exact Or.inr hf
    · rw [if_neg hf] at hvis
      exact Or.inl hvis
  · exact update_visible_visible_mono g

theorem board_ok_touch (pos : CardPos) (g : Game) (h : board_ok g) : board_ok (touch pos g) := by
  refine board_ok_congr g _ (by simp) (by simp) (by simp) (by simp) ?_ ?_ h
  · intro a ha hvis
    rw [touch_visible] at hvis
    simp only [Bool.or_eq_true, decide_eq_true_eq] at hvis
    rcases hvis with h1 | h1
    · exact Or.inl h1
    · exfalso
      have hW : WASTE_BASE = 452 := rfl
      have hS : STOCK_BASE = 516 := rfl
      unfold touch_marks at h1
      omega
  · intro a hvis
    rw [touch_visible, hvis]
    rfl

theorem board_ok_selected (g : Game) (pos : CardPos) (h : board_ok g)
    (hp : pos_visible g pos) : board_ok { g with selected := pos } where
  cards := cards_ok_mem g _ rfl h.cards
  cursor := fun hl a ha =>
    hp hl a ((card_ptr_congr pos { g with selected := pos } g false (fun _ => rfl)).trans ha)
  held := fun hl a ha =>
    h.held hl a
      ((card_ptr_congr g.moving { g with selected := pos } g false (fun _ => rfl)).trans ha)
  held_stock := h.held_stock

theorem board_ok_moving (g : Game) (pos : CardPos) (h : board_ok g)
    (hp : pos_visible g pos) (hst : pos.active = true → pos.location ≠ STOCK) :
    board_ok { g with moving := pos } where
  cards := cards_ok_mem g _ rfl h.cards
  cursor := fun hl a ha =>
    h.cursor hl a
      ((card_ptr_congr g.selected { g with moving := pos } g false (fun _ => rfl)).trans ha)
  held := fun hl a ha =>
    hp hl a ((card_ptr_congr pos { g with moving := pos } g false (fun _ => rfl)).trans ha)
  held_stock := hst

theorem pos_visible_inactive (g : Game) (pos : CardPos) (h : pos.active = false) :
    pos_visible g pos := by
  intro _ a ha
  rw [card_ptr_inactive _ _ _ h] at ha
  exact absurd ha (by simp)

theorem board_ok_drop (g : Game) (h : board_ok g) :
    board_ok { g with moving := { g.moving with active := false } } :=
  board_ok_moving g _ h (pos_visible_inactive _ _ rfl) (fun h => absurd h (by simp))

theorem board_ok_update_display (g : Game) (h : board_ok g) : board_ok (update_display g) := by
  have hW : WASTE_BASE = 452 := rfl
  have hS : STOCK_BASE = 516 := rfl
  have h1 : board_ok { update_display g with moving := g.moving } := by
    refine board_ok_congr g _ (by simp) rfl (by simp) (by simp) ?_ ?_ h
    · intro a ha hvis
      have hvis2 : ((update_display g).mem a).visible = true := hvis
      rw [update_display_visible] at hvis2
      unfold display_visible at hvis2
      simp only [Bool.or_eq_true, decide_eq_true_eq] at hvis2
      rcases hvis2 with (h1 | h1) | h1
      · exact Or.inl h1
      · exact Or.inr h1
      · exfalso
        unfold touch_marks at h1
        omega
    · intro a hvis
      show ((update_display g).mem a).visible = true
      rw [update_display_visible]
      unfold display_visible
      rw [hvis]
      rfl
  have e : update_display g =
      { ({ update_display g with moving := g.moving } : Game) with
        moving := (update_display g).moving } := rfl
  rw [e]
  by_cases hc : g.moving.active = true ∧ card_ptr g.moving g false = none
  · rw [update_display_moving, if_pos hc]
    exact board_ok_drop _ h1
  · rw [update_display_moving, if_neg hc]
    exact h1

/-! ## The deal holds the 52 cards -/

theorem deal_cell_lt (i : Nat) (hi : i < 52) : deal_cell i < GAME_CELLS := by
  have hS : STOCK_BASE = 516 := rfl
  have hG : GAME_CELLS = 580 := rfl
  unfold deal_cell
  split_ifs <;> first | (simp only [tab]; omega) | omega

theorem deal_cell_not_foundation (i : Nat) (hi : i < 52) :
    ¬ (FOUNDATION_BASE ≤ deal_cell i ∧ deal_cell i < WASTE_BASE) := by
  have hS : STOCK_BASE = 516 := rfl
  have hF : FOUNDATION_BASE = 448 := rfl
  have hW : WASTE_BASE = 452 := rfl
  unfold deal_cell
  split_ifs <;> first | (simp only [tab]; omega) | omega

theorem deal_cell_tab : ∀ c, c < 7 → ∀ r, r ≤ c → deal_cell (tri c + r) = tab c r := by
  decide

theorem deal_cell_stock (j : Nat) : deal_cell (28 + j) = STOCK_BASE + j := by
  unfold deal_cell
  rw [if_neg (by omega), if_neg (by omega), if_neg (by omega), if_neg (by omega),
    if_neg (by omega), if_neg (by omega), if_neg (by omega)]
  omega

theorem deal_cell_mem (cards : Nat → Card) (g : Game) (i : Nat) (hi : i < 52) :
    (dealt cards g).mem (deal_cell i) = cards i := by
  have hS : STOCK_BASE = 516 := rfl
  have hF : FOUNDATION_BASE = 448 := rfl
  have hW : WASTE_BASE = 452 := rfl
  have key : ∀ c r, c < 7 → r ≤ c → (dealt cards g).mem (deal_cell (tri c + r)) =
      cards (tri c + r) := by
    intro c r hc hr
    rw [deal_cell_tab c hc r hr, dealt_tableau _ _ _ _ hc (by omega), if_pos hr]
  by_cases h28 : i < 28
  · have hcs : i < 1 ∨ (1 ≤ i ∧ i < 3) ∨ (3 ≤ i ∧ i < 6) ∨ (6 ≤ i ∧ i < 10) ∨
        (10 ≤ i ∧ i < 15) ∨ (15 ≤ i ∧ i < 21) ∨ (21 ≤ i ∧ i < 28) := by omega
    rcases hcs with h | h | h | h | h | h | h
    · have := key 0 i (by omega) (by omega)
      rwa [show tri 0 + i = i by simp only [tri]; omega] at this
    · have := key 1 (i - 1) (by omega) (by omega)
      rwa [show tri 1 + (i - 1) = i by simp only [tri]; omega] at this
    · have := key 2 (i - 3) (by omega) (by omega)
      rwa [show tri 2 + (i - 3) = i by simp only [tri]; omega] at this
    · have := key 3 (i - 6) (by omega) (by omega)
      rwa [show tri 3 + (i - 6) = i by simp only [tri]; omega] at this
    · have := key 4 (i - 10) (by omega) (by omega)
      rwa [show tri 4 + (i - 10) = i by simp only [tri]; omega] at this
    · have := key 5 (i - 15) (by omega) (by omega)
      rwa [show tri 5 + (i - 15) = i by simp only [tri]; omega] at this
    · have := key 6 (i - 21) (by omega) (by omega)
      rwa [show tri 6 + (i - 21) = i by simp only [tri]; omega] at this
  · have e : i = 28 + (i - 28) := by omega
    rw [e, deal_cell_stock, dealt_mem, if_neg (by omega), if_neg (by omega),
      if_pos ⟨by omega, by omega⟩]
    rw [show 28 + (STOCK_BASE + (i - 28) - STOCK_BASE) = 28 + (i - 28) by omega]

theorem deal_cell_surj (cards : Nat → Card) (g : Game) (a : Nat) (ha : a < GAME_CELLS)
    (hocc : ((dealt cards g).mem a).rank ≠ NO_RANK) : ∃ i, i < 52 ∧ a = deal_cell i := by
  have hS : STOCK_BASE = 516 := rfl
  have hF : FOUNDATION_BASE = 448 := rfl
  have hW : WASTE_BASE = 452 := rfl
  have hG : GAME_CELLS = 580 := rfl
  rw [dealt_mem] at hocc
  by_cases h1 : a < FOUNDATION_BASE
  · rw [if_pos h1] at hocc
    by_cases h2 : a % 64 ≤ a / 64
    · have hc : a / 64 < 7 := by omega
      have ht := tri_le (a / 64) hc
      refine ⟨tri (a / 64) + a % 64, by omega, ?_⟩
      rw [deal_cell_tab _ hc _ h2]
      simp only [tab]
      omega
    · rw [if_neg h2] at hocc
      exact absurd rfl hocc
  · rw [if_neg h1] at hocc
    by_cases h2 : a < WASTE_BASE
    · rw [if_pos h2] at hocc
      exact absurd rfl hocc
    · rw [if_neg h2] at hocc
      by_cases h3 : STOCK_BASE ≤ a ∧ a < STOCK_BASE + 24
      · refine ⟨28 + (a - STOCK_BASE), by omega, ?_⟩
        rw [deal_cell_stock]
        omega
      · rw [if_neg h3, if_pos ha] at hocc
        exact absurd rfl hocc

theorem init_deck_index (j : Nat) (hj : j < 52) (s : Suite) (k : Nat) :
    (suite_of_int (j / 13) = s ∧ j % 13 + 1 = k) ↔ (j = 13 * s.toNat + (k - 1) ∧ 1 ≤ k ∧ k ≤ 13) := by
  have hq : j / 13 = 0 ∨ j / 13 = 1 ∨ j / 13 = 2 ∨ j / 13 = 3 := by omega
  rcases hq with h | h | h | h <;> rw [h] <;> cases s <;>
    simp only [suite_of_int, Suite.toNat, reduceCtorEq, false_and, true_and, false_iff] <;>
    omega

theorem dealt_deck (rand : Nat → Nat) (g : Game) :
    full_deck (dealt (shuffle rand 51 init_deck) g) := by
  have hG : GAME_CELLS = 580 := rfl
  have hF : FOUNDATION_BASE = 448 := rfl
  have hW : WASTE_BASE = 452 := rfl
  obtain ⟨σ, hσ, hsh⟩ := shuffle_perm rand 51 init_deck (by omega)
  have hσlt : ∀ i, i < 52 → σ i < 52 := perm_lt σ hσ
  have hσs : ∀ i, 52 ≤ i → σ.symm i = i := by
    intro i hi
    have := hσ i hi
    rw [Equiv.symm_apply_eq]
    exact this.symm
  have hcard : ∀ i, i < 52 → shuffle rand 51 init_deck i =
      { visible := false, highlight := NO_HIGHLIGHT, suite := suite_of_int (σ i / 13),
        rank := σ i % 13 + 1 } := by
    intro i hi
    rw [hsh]
    exact init_deck_eq (σ i) (hσlt i hi)
  -- a cell that accounts for a card of rank at least 1 is a dealt cell with the right index
  have hkey : ∀ s k, 1 ≤ k → ∀ b, b < GAME_CELLS →
      cell_holds (dealt (shuffle rand 51 init_deck) g) b s k →
      ∃ i, i < 52 ∧ b = deal_cell i ∧ σ i = 13 * s.toNat + (k - 1) ∧ k ≤ 13 := by
    intro s k hk b hb hh
    unfold cell_holds at hh
    by_cases hf : FOUNDATION_BASE ≤ b ∧ b < WASTE_BASE
    · rw [if_pos hf] at hh
      rw [dealt_mem, if_neg (by omega), if_pos (by omega)] at hh
      simp only [NO_RANK] at hh
      omega
    · rw [if_neg hf] at hh
      obtain ⟨i, hi, rfl⟩ := deal_cell_surj _ g b hb (by rw [hh.2]; simp only [NO_RANK]; omega)
      rw [deal_cell_mem _ _ _ hi, hcard i hi] at hh
      have := (init_deck_index (σ i) (hσlt i hi) s k).1 hh
      exact ⟨i, hi, rfl, this.1, this.2.2⟩
  intro s k hk
  by_cases hk13 : k ≤ 13
  · rw [if_pos hk13]
    have hj : 13 * s.toNat + (k - 1) < 52 := by cases s <;> simp only [Suite.toNat] <;> omega
    have hi : σ.symm (13 * s.toNat + (k - 1)) < 52 :=
      perm_lt σ.symm hσs _ hj
    unfold card_count
    rw [Finset.sum_eq_single_of_mem (deal_cell (σ.symm (13 * s.toNat + (k - 1))))
      (Finset.mem_range.2 (deal_cell_lt _ hi))]
    · rw [if_pos]
      unfold cell_holds
      rw [if_neg (deal_cell_not_foundation _ hi), deal_cell_mem _ _ _ hi, hcard _ hi]
      simp only [Equiv.apply_symm_apply]
      exact (init_deck_index _ hj s k).2 ⟨rfl, hk, hk13⟩
    · intro b hb hne
      rw [if_neg]
      intro hh
      obtain ⟨i, _, rfl, h3, _⟩ := hkey s k hk b (Finset.mem_range.1 hb) hh
      apply hne
      rw [← h3, Equiv.symm_apply_apply]
  · rw [if_neg hk13]
    unfold card_count
    apply Finset.sum_eq_zero
    intro b hb
    rw [if_neg]
    intro hh
    obtain ⟨i, _, _, _, h4⟩ := hkey s k hk b (Finset.mem_range.1 hb) hh
    exact hk13 h4

/-! ## The invariant holds after `reset_game` -/

theorem board_ok_reset (fuel : Nat) (rand : Nat → Nat) (g0 g : Game)
    (h : reset_game fuel rand g0 = some g) : board_ok g := by
  have hF : FOUNDATION_BASE = 448 := rfl
  have hW : WASTE_BASE = 452 := rfl
  have hS : STOCK_BASE = 516 := rfl
  have hG : GAME_CELLS = 580 := rfl
  obtain ⟨ft, fs, ff, fw, _⟩ := reset_game_fresh fuel rand g0 g h
  rw [reset_game_eq] at h
  simp only [Option.map_eq_some'] at h
  obtain ⟨g1, hg1, rfl⟩ := h
  obtain ⟨_, hm, hsa, hsl, hsc, _⟩ := reset_selected_spec fuel g0 g1 hg1
  have hmov : (update_display (dealt (shuffle rand 51 init_deck) g1)).moving.active = false := by
    rw [update_display_moving]
    split
    · rfl
    · rw [dealt_moving]; exact hm
  refine ⟨⟨?_, ?_, ?_, ?_, ?_, ?_, ?_⟩, ?_, ?_, ?_⟩
  · exact full_deck_congr _ _ (by simp) (by simp) (dealt_deck rand g1)
  · intro c hc
    refine ⟨?_, ?_⟩
    · intro r hr h0
      by_contra h1
      have := ((ft c hc (r + 1) (by omega)).1.1 h1)
      exact ((ft c hc r (by omega)).1.2 (by omega)) h0
    · intro r hr hocc hvis
      exfalso
      have h1 := (ft c hc (r + 1) (by omega)).1.1 hocc
      have h2 := (ft c hc r (by omega)).2.1 hvis
      omega
  · intro i hi _
    exact fw (i + 1) (by omega)
  · intro i hi h0
    by_contra h1
    have := ((fs (i + 1) (by omega)).1.1 h1)
    exact ((fs i (by omega)).1.2 (by omega)) h0
  · intro c hc r h1 h2 hocc
    have h3 := (ft c hc r h2).1.1 hocc
    exact (ft c hc r h2).2.2 (by omega)
  · intro i hi
    rw [update_display_visible]
    unfold display_visible
    rw [dealt_mem, if_neg (by omega), if_pos (by omega)]
    rfl
  · intro i hi hocc
    exact absurd (fw i hi) hocc
  · intro hl a ha
    rw [update_display_selected, dealt_selected] at ha hl
    have hr := card_ptr_false_rank _ _ _ ha (by rw [hl]; simp)
    rw [card_ptr_tableau _ _ _ hsa hsl] at ha
    split at ha
    · rename_i hb
      split at ha
      · exact absurd ha (by simp)
      · simp only [Option.some.injEq] at ha
        subst ha
        rw [hsc] at hr ⊢
        have h1 := (ft 0 (by omega) g1.selected.row.toNat (by omega)).1.1 hr
        exact (ft 0 (by omega) g1.selected.row.toNat (by omega)).2.2 (by omega)
    · exact absurd ha (by simp)
  · exact pos_visible_inactive _ _ hmov
  · intro hx
    rw [hmov] at hx
    exact absurd hx (by simp)

/-! ## The invariant under navigation -/

theorem pos_visible_mem (g g' : Game) (pos : CardPos) (hm : g'.mem = g.mem)
    (h : pos_visible g pos) : pos_visible g' pos :=
  pos_visible_congr g g' pos (fun a => by rw [hm]) (fun a ha => by rw [hm]; exact ha) h

theorem board_ok_of_nav (g g' : Game) (h : board_ok g) (hm : g'.mem = g.mem)
    (hmv : g'.moving = g.moving) (hp : pos_visible g' g'.selected) : board_ok g' := by
  have e : g' = { g with selected := g'.selected } := by
    cases g'
    simp only at hm hmv
    subst hm hmv
    rfl
  rw [e]
  exact board_ok_selected g _ h (pos_visible_mem g' g _ hm.symm hp)

theorem pos_visible_other (g : Game) (pos : CardPos) (h : pos.location ≠ TABLEAU) :
    pos_visible g pos := fun hl => absurd hl h

theorem pos_visible_of_snapped (g : Game) (h : snapped g) : pos_visible g g.selected := by
  intro _ a ha
  rcases h with ⟨h1, _⟩ | ⟨c, h1, h2⟩
  · rw [h1] at ha
    exact absurd ha (by simp)
  · rw [h1] at ha
    simp only [Option.some.injEq] at ha
    subst ha
    exact h2

/-- After `fix_selected_tableau` the cursor does not rest on a face-down card. -/
theorem fix_selected_nav (fuel : Nat) (g g' : Game)
    (h : fix_selected_tableau fuel g = some g') :
    g'.mem = g.mem ∧ g'.moving = g.moving ∧ pos_visible g' g'.selected := by
  obtain ⟨h1, h2, h3, h4, _, h6⟩ := fix_selected_tableau_spec fuel g g' h
  refine ⟨h1, h2, ?_⟩
  intro hl a ha
  have hact : g'.selected.active = true := by
    cases hx : g'.selected.active
    · rw [card_ptr_inactive _ _ _ hx] at ha
      exact absurd ha (by simp)
    · rfl
  exact pos_visible_of_snapped g' (h6 (by rw [← h3]; exact hact) (by rw [← h4]; exact hl)) hl a ha

theorem map_eq_some_pair {α : Type} (o : Option α) (b : Bool) (x : α)
    (h : o.map (fun g => (true, g)) = some (b, x)) : o = some x := by
  cases o with
  | none => simp at h
  | some y =>
    simp only [Option.map_some', Option.some.injEq, Prod.mk.injEq] at h
    rw [h.2]

theorem handle_tableau_nav (fuel : Nat) (d : Action) (g : Game) (b : Bool) (g' : Game)
    (hc : pos_visible g g.selected) (hl : g.selected.location = TABLEAU)
    (h : handle_tableau fuel d g = some (b, g')) :
    g'.mem = g.mem ∧ g'.moving = g.moving ∧ pos_visible g' g'.selected := by
  unfold handle_tableau at h
  have ht : ∀ r, touch { g.selected with row := r } g = g := fun r => touch_tableau _ _ hl
  cases d
  case UP =>
    simp only [get_card_eq, ht] at h
    split at h
    · have h1 := map_eq_some_pair _ _ _ h
      obtain ⟨e1, e2, e3⟩ := fix_selected_nav fuel _ g' h1
      refine ⟨e1.trans ?_, e2.trans ?_, e3⟩
      · split <;> (try split) <;> (try split) <;> (try split) <;> rfl
      · split <;> (try split) <;> (try split) <;> (try split) <;> rfl
    · rename_i hcond
      simp only [Option.some.injEq, Prod.mk.injEq] at h
      obtain ⟨_, rfl⟩ := h
      refine ⟨rfl, rfl, ?_⟩
      intro _ a ha
      simp only [Bool.or_eq_true, decide_eq_true_eq, not_or] at hcond
      have ha2 : card_ptr { g.selected with row := g.selected.row - 1 } g false = some a := by
        rw [← ha]
        exact card_ptr_congr _ _ _ _ (fun _ => rfl)
      rw [ha2] at hcond
      simpa using hcond.2
  case RIGHT =>
    dsimp only at h
    split at h
    · simp only [Option.some.injEq, Prod.mk.injEq] at h
      obtain ⟨_, rfl⟩ := h
      exact ⟨rfl, rfl, pos_visible_other _ _ (by simp)⟩
    · have := fix_selected_nav fuel _ g' (map_eq_some_pair _ _ _ h)
      exact this
  case DOWN =>
    simp only [get_card_eq, ht] at h
    split at h
    · rename_i c hcp
      split at h
      · rename_i hv
        simp only [Option.some.injEq, Prod.mk.injEq] at h
        obtain ⟨_, rfl⟩ := h
        refine ⟨rfl, rfl, ?_⟩
        intro _ a ha
        have ha2 : card_ptr { g.selected with row := g.selected.row + 1 } g false = some a := by
          rw [← ha]
          exact card_ptr_congr _ _ _ _ (fun _ => rfl)
        rw [hcp] at ha2
        simp only [Option.some.injEq] at ha2
        subst ha2
        exact hv
      · simp only [Option.some.injEq, Prod.mk.injEq] at h
        obtain ⟨_, rfl⟩ := h
        exact ⟨rfl, rfl, hc⟩
    · simp only [Option.some.injEq, Prod.mk.injEq] at h
      obtain ⟨_, rfl⟩ := h
      exact ⟨rfl, rfl, hc⟩
  case LEFT =>
    dsimp only at h
    split at h
    · have := fix_selected_nav fuel _ g' (map_eq_some_pair _ _ _ h)
      exact this
    · simp only [Option.some.injEq, Prod.mk.injEq] at h
      obtain ⟨_, rfl⟩ := h
      exact ⟨rfl, rfl, hc⟩
  all_goals
    simp only [Option.some.injEq, Prod.mk.injEq] at h
    obtain ⟨_, rfl⟩ := h
    exact ⟨rfl, rfl, hc⟩

theorem handle_foundation_nav (fuel : Nat) (d : Action) (g : Game) (b : Bool) (g' : Game)
    (hl : g.selected.location = FOUNDATION)
    (h : handle_foundation fuel d g = some (b, g')) :
    g'.mem = g.mem ∧ g'.moving = g.moving ∧ pos_visible g' g'.selected := by
  unfold handle_foundation at h
  cases d
  case RIGHT =>
    dsimp only at h
    split at h
    · split at h <;>
      · simp only [Option.some.injEq, Prod.mk.injEq] at h
        obtain ⟨_, rfl⟩ := h
        exact ⟨rfl, rfl, pos_visible_other _ _ (by simp)⟩
    · simp only [Option.some.injEq, Prod.mk.injEq] at h
      obtain ⟨_, rfl⟩ := h
      exact ⟨rfl, rfl, pos_visible_other _ _ (by simp [hl])⟩
  case DOWN =>
    have := fix_selected_nav fuel _ g' (map_eq_some_pair _ _ _ h)
    exact this
  case LEFT =>
    dsimp only at h
    split at h <;>
    · simp only [Option.some.injEq, Prod.mk.injEq] at h
      obtain ⟨_, rfl⟩ := h
      exact ⟨rfl, rfl, pos_visible_other _ _ (by simp [hl])⟩
  all_goals
    simp only [Option.some.injEq, Prod.mk.injEq] at h
    obtain ⟨_, rfl⟩ := h
    exact ⟨rfl, rfl, pos_visible_other _ _ (by simp [hl])⟩

theorem handle_waste_stock_nav (fuel : Nat) (d : Action) (g : Game) (b : Bool) (g' : Game)
    (hl : g.selected.location ≠ TABLEAU)
    (h : handle_waste_stock fuel d g = some (b, g')) :
    g'.mem = g.mem ∧ g'.moving = g.moving ∧ pos_visible g' g'.selected := by
  unfold handle_waste_stock at h
  cases d
  case RIGHT =>
    dsimp only at h
    split at h
    · simp only [Option.some.injEq, Prod.mk.injEq] at h
      obtain ⟨_, rfl⟩ := h
      exact ⟨rfl, rfl, pos_visible_other _ _ (by simp)⟩
    · simp only [Option.some.injEq, Prod.mk.injEq] at h
      obtain ⟨_, rfl⟩ := h
      exact ⟨rfl, rfl, pos_visible_other _ _ (by simp [hl])⟩
  case DOWN =>
    have := fix_selected_nav fuel _ g' (map_eq_some_pair _ _ _ h)
    exact this
  case LEFT =>
    dsimp only at h
    split at h <;>
    · simp only [Option.some.injEq, Prod.mk.injEq] at h
      obtain ⟨_, rfl⟩ := h
      exact ⟨rfl, rfl, pos_visible_other _ _ (by simp)⟩
  all_goals
    simp only [Option.some.injEq, Prod.mk.injEq] at h
    obtain ⟨_, rfl⟩ := h
    exact ⟨rfl, rfl, pos_visible_other _ _ (by simp [hl])⟩

/-- The actions other than Confirm keep the cards and the held position, or drop the held
position (Cancel); the cursor does not come to rest on a face-down card. -/
theorem handle_action_nav (fuel : Nat) (d : Action) (g : Game) (b : Bool) (g' : Game)
    (hd : d ≠ CONFIRM) (hc : pos_visible g g.selected)
    (h : handle_action fuel d g = some (b, g')) :
    g'.mem = (update_visible g).mem ∧
    (g'.moving = g.moving ∨ (d = CANCEL ∧ g'.moving = { g.moving with active := false })) ∧
    pos_visible g' g'.selected := by
  have hc1 : pos_visible (update_visible g) (update_visible g).selected := by
    rw [update_visible_selected]
    exact pos_visible_congr g _ _ (by simp) (update_visible_visible_mono g) hc
  unfold handle_action at h
  cases d
  case CONFIRM => exact absurd rfl hd
  case CANCEL =>
    dsimp only at h
    split at h
    · simp only [Option.some.injEq, Prod.mk.injEq] at h
      obtain ⟨_, rfl⟩ := h
      refine ⟨rfl, Or.inr ⟨rfl, by simp⟩, ?_⟩
      exact pos_visible_congr (update_visible g) _ _ (fun _ => rfl) (fun _ hv => hv) hc1
    · simp only [Option.some.injEq, Prod.mk.injEq] at h
      obtain ⟨_, rfl⟩ := h
      exact ⟨rfl, Or.inl (by simp), hc1⟩
  case NO_ACTION =>
    simp only [Option.some.injEq, Prod.mk.injEq] at h
    obtain ⟨_, rfl⟩ := h
    exact ⟨rfl, Or.inl (by simp), hc1⟩
  case QUIT =>
    simp only [Option.some.injEq, Prod.mk.injEq] at h
    obtain ⟨_, rfl⟩ := h
    exact ⟨rfl, Or.inl (by simp), hc1⟩
  all_goals
    dsimp only at h
    split at h
    · simp only [Option.some.injEq, Prod.mk.injEq] at h
      obtain ⟨_, rfl⟩ := h
      exact ⟨rfl, Or.inl (by simp), hc1⟩
    · split at h
      · rename_i hl
        obtain ⟨e1, e2, e3⟩ := handle_tableau_nav fuel _ _ b g' hc1 hl h
        exact ⟨e1, Or.inl (by rw [e2]; simp), e3⟩
      · rename_i hl
        obtain ⟨e1, e2, e3⟩ := handle_foundation_nav fuel _ _ b g' hl h
        exact ⟨e1, Or.inl (by rw [e2]; simp), e3⟩
      · rename_i hl
        obtain ⟨e1, e2, e3⟩ := handle_waste_stock_nav fuel _ _ b g' (by rw [hl]; simp) h
        exact ⟨e1, Or.inl (by rw [e2]; simp), e3⟩
      · rename_i hl
        obtain ⟨e1, e2, e3⟩ := handle_waste_stock_nav fuel _ _ b g' (by rw [hl]; simp) h
        exact ⟨e1, Or.inl (by rw [e2]; simp), e3⟩

theorem board_ok_handle_nav (fuel : Nat) (d : Action) (g : Game) (b : Bool) (g' : Game)
    (hd : d ≠ CONFIRM) (hok : board_ok g)
    (h : handle_action fuel d g = some (b, g')) : board_ok g' := by
  obtain ⟨e1, e2, e3⟩ := handle_action_nav fuel d g b g' hd hok.cursor h
  have h1 := board_ok_update_visible g hok
  rcases e2 with e2 | ⟨_, e2⟩
  · exact board_ok_of_nav _ g' h1 e1 (by rw [e2]; simp) e3
  · have h2 := board_ok_drop _ h1
    exact board_ok_of_nav _ g' h2 e1 (by rw [e2]; simp) e3

/-! ## Columns of cards -/

theorem run_ok_empty_from (f : Nat → Card) (h : run_ok f) (r : Nat)
    (hr : (f r).rank = NO_RANK) : ∀ r0, r ≤ r0 → r0 < 64 → (f r0).rank = NO_RANK := by
  intro r0 h1 h2
  induction r0 with
  | zero =>
    have : r = 0 := by omega
    rw [← this]; exact hr
  | succ k ih =>
    by_cases hk : r = k + 1
    · rw [← hk]; exact hr
    · exact h.1 k (by omega) (ih (by omega) (by omega))

theorem run_ok_occupied_below (f : Nat → Card) (h : run_ok f) (r : Nat) (hr64 : r < 64)
    (hr : (f r).rank ≠ NO_RANK) : ∀ r0, r0 ≤ r → (f r0).rank ≠ NO_RANK := by
  intro r0 h1 h0
  exact hr (run_ok_empty_from f h r0 h0 r h1 hr64)

/-- From a face-up card on, the occupied slots hold face-up cards of descending rank. -/
theorem run_ok_descend (f : Nat → Card) (h : run_ok f) (r : Nat)
    (hv : (f r).visible = true) : ∀ i, r + i < 64 → (f (r + i)).rank ≠ NO_RANK →
      (f (r + i)).visible = true ∧ (f (r + i)).rank + i = (f r).rank := by
  intro i
  induction i with
  | zero => intro _ _; exact ⟨hv, rfl⟩
  | succ k ih =>
    intro h1 h2
    have hocc : (f (r + k)).rank ≠ NO_RANK :=
      run_ok_occupied_below f h (r + (k + 1)) h1 h2 (r + k) (by omega)
    obtain ⟨i1, i2⟩ := ih (by omega) hocc
    obtain ⟨j1, j2, _⟩ := h.2 (r + k) (by omega) h2 i1
    exact ⟨j1, by rw [← i2, j2]; show (f (r + k + 1)).rank + (k + 1) = _; omega⟩

theorem run_ok_same (f f' : Nat → Card) (h : run_ok f)
    (hr : ∀ r, r < 64 → (f' r).rank = (f r).rank)
    (hs : ∀ r, r < 64 → (f' r).suite = (f r).suite)
    (hv : ∀ r, r < 64 → (f' r).visible = (f r).visible) : run_ok f' := by
  refine ⟨?_, ?_⟩
  · intro r h1
    rw [hr r (by omega), hr (r + 1) (by omega)]
    exact h.1 r h1
  · intro r h1
    rw [hr r (by omega), hr (r + 1) (by omega), hv r (by omega), hv (r + 1) (by omega),
      hs r (by omega), hs (r + 1) (by omega)]
    exact h.2 r h1

/-- A column cut off at row `r` is well formed. -/
theorem run_ok_truncate (f f' : Nat → Card) (r : Nat) (h : run_ok f)
    (h1 : ∀ r0, r0 < r → r0 < 64 →
      (f' r0).rank = (f r0).rank ∧ (f' r0).visible = (f r0).visible ∧
        (f' r0).suite = (f r0).suite)
    (h2 : ∀ r0, r ≤ r0 → r0 < 64 → (f' r0).rank = NO_RANK) : run_ok f' := by
  refine ⟨?_, ?_⟩
  · intro r0 hr0 h0
    by_cases hc : r ≤ r0 + 1
    · exact h2 _ hc (by omega)
    · rw [(h1 (r0 + 1) (by omega) (by omega)).1]
      rw [(h1 r0 (by omega) (by omega)).1] at h0
      exact h.1 r0 hr0 h0
  · intro r0 hr0 hocc hvis
    by_cases hc : r ≤ r0 + 1
    · exact absurd (h2 _ hc (by omega)) hocc
    · rw [(h1 (r0 + 1) (by omega) (by omega)).1] at hocc
      rw [(h1 r0 (by omega) (by omega)).2.1] at hvis
      rw [(h1 (r0 + 1) (by omega) (by omega)).1, (h1 (r0 + 1) (by omega) (by omega)).2.1,
        (h1 r0 (by omega) (by omega)).1, (h1 (r0 + 1) (by omega) (by omega)).2.2,
        (h1 r0 (by omega) (by omega)).2.2]
      exact h.2 r0 hr0 hocc hvis

/-- A column with the run `s 0, ..., s (n - 1)` put on the slots from row `r` on is well
formed when the run is and its first card fits the card before row `r`. -/
theorem run_ok_append (f f' s : Nat → Card) (r n : Nat) (h : run_ok f) (hb : r + n ≤ 64)
    (h1 : ∀ r0, r0 < r → (f' r0).rank = (f r0).rank ∧ (f' r0).visible = (f r0).visible ∧
      (f' r0).suite = (f r0).suite)
    (h2 : ∀ i, i < n → (f' (r + i)).rank = (s i).rank ∧ (f' (r + i)).visible = (s i).visible ∧
      (f' (r + i)).suite = (s i).suite)
    (h3 : ∀ r0, r + n ≤ r0 → r0 < 64 → (f' r0).rank = NO_RANK)
    (hs1 : ∀ i, i < n → (s i).rank ≠ NO_RANK)
    (hs2 : ∀ i, i + 1 < n → (s i).visible = true →
      (s (i + 1)).visible = true ∧ (s i).rank = (s (i + 1)).rank + 1 ∧
        is_opposite_color (s (i + 1)).suite (s i).suite = true)
    (hj1 : 0 < r → 0 < n → (f (r - 1)).rank ≠ NO_RANK)
    (hj2 : 0 < r → 0 < n → (f (r - 1)).visible = true →
      (s 0).visible = true ∧ (f (r - 1)).rank = (s 0).rank + 1 ∧
        is_opposite_color (s 0).suite (f (r - 1)).suite = true) : run_ok f' := by
  refine ⟨?_, ?_⟩
  · intro r0 hr0 h0
    by_cases hc : r + n ≤ r0 + 1
    · exact h3 _ hc (by omega)
    · by_cases hc2 : r ≤ r0
      · exfalso
        have := (h2 (r0 - r) (by omega)).1
        rw [show r + (r0 - r) = r0 by omega] at this
        exact hs1 (r0 - r) (by omega) (by rw [← this]; exact h0)
      · rw [(h1 r0 (by omega)).1] at h0
        by_cases hc3 : r0 + 1 = r
        · exfalso
          have := hj1 (by omega) (by omega)
          rw [show r - 1 = r0 by omega] at this
          exact this h0
        · rw [(h1 (r0 + 1) (by omega)).1]
          exact h.1 r0 hr0 h0
  · intro r0 hr0 hocc hvis
    by_cases hc : r + n ≤ r0 + 1
    · exact absurd (h3 _ hc (by omega)) hocc
    · by_cases hc2 : r ≤ r0
      · have e1 := h2 (r0 - r) (by omega)
        have e2 := h2 (r0 - r + 1) (by omega)
        rw [show r + (r0 - r) = r0 by omega] at e1
        rw [show r + (r0 - r + 1) = r0 + 1 by omega] at e2
        rw [e1.2.1] at hvis
        rw [e2.1, e2.2.1, e2.2.2, e1.1, e1.2.2]
        exact hs2 (r0 - r) (by omega) hvis
      · by_cases hc3 : r0 + 1 = r
        · have e2 := h2 0 (by omega)
          rw [show r + 0 = r0 + 1 by omega] at e2
          rw [(h1 r0 (by omega)).2.1] at hvis
          rw [e2.1, e2.2.1, e2.2.2, (h1 r0 (by omega)).1, (h1 r0 (by omega)).2.2]
          have := hj2 (by omega) (by omega)
          rw [show r - 1 = r0 by omega] at this
          exact this hvis
        · rw [(h1 (r0 + 1) (by omega)).1] at hocc
          rw [(h1 r0 (by omega)).2.1] at hvis
          rw [(h1 (r0 + 1) (by omega)).1, (h1 (r0 + 1) (by omega)).2.1,
            (h1 (r0 + 1) (by omega)).2.2, (h1 r0 (by omega)).1, (h1 r0 (by omega)).2.2]
          exact h.2 r0 hr0 hocc hvis

theorem pile_contiguous_empty_from (g : Game) (base : Nat) (h : pile_contiguous g base)
    (i : Nat) (hi : (g.mem (base + i)).rank = NO_RANK) :
    ∀ j, i ≤ j → j < 64 → (g.mem (base + j)).rank = NO_RANK := by
  intro j h1 h2
  induction j with
  | zero =>
    have : i = 0 := by omega
    rw [← this]; exact hi
  | succ k ih =>
    by_cases hk : i = k + 1
    · rw [← hk]; exact hi
    · exact h k (by omega) (ih (by omega) (by omega))

/-! ## The deck under a move -/

theorem cell_holds_foundation (g : Game) (a : Nat) (s : Suite) (k : Nat)
    (h : FOUNDATION_BASE ≤ a ∧ a < WASTE_BASE) :
    cell_holds g a s k ↔ ((g.mem a).suite = s ∧ k ≤ (g.mem a).rank) := by
  unfold cell_holds
  rw [if_pos h]

theorem cell_holds_other (g : Game) (a : Nat) (s : Suite) (k : Nat)
    (h : ¬ (FOUNDATION_BASE ≤ a ∧ a < WASTE_BASE)) :
    cell_holds g a s k ↔ ((g.mem a).suite = s ∧ (g.mem a).rank = k) := by
  unfold cell_holds
  rw [if_neg h]

theorem can_stack_true_foundation (card top : Card) (h : can_stack card top true = true) :
    (top.rank = NO_RANK ∧ card.rank = ACE) ∨
    (top.rank ≠ NO_RANK ∧ card.suite = top.suite ∧ card.rank = top.rank + 1) := by
  unfold can_stack at h
  simp only [if_true] at h
  split at h
  · rename_i h0
    exact Or.inl ⟨h0, by simpa using h⟩
  · rename_i h0
    simp only [Bool.and_eq_true, decide_eq_true_eq] at h
    exact Or.inr ⟨h0, h.1, h.2⟩

theorem can_stack_true_tableau (card above : Card) (h : can_stack card above false = true) :
    (above.rank = NO_RANK ∧ card.rank = KING) ∨
    (is_opposite_color card.suite above.suite = true ∧ above.rank = card.rank + 1) := by
  unfold can_stack at h
  simp only [Bool.false_eq_true, if_false, Bool.or_eq_true, Bool.and_eq_true,
    decide_eq_true_eq] at h
  exact h

/-- A run moved between cells off the foundations, onto empty cells. -/
theorem full_deck_moved_run (g h : Game) (src dst n : Nat)
    (hm : moved g h src dst n NO_RANK) (hd : full_deck g)
    (hdis : dst + n ≤ src ∨ src + n ≤ dst)
    (hdst : dst + n ≤ FOUNDATION_BASE)
    (hsrc : src + n ≤ FOUNDATION_BASE ∨ (WASTE_BASE ≤ src ∧ src + n ≤ GAME_CELLS))
    (hemp : ∀ i, i < n → (g.mem (dst + i)).rank = NO_RANK) : full_deck h := by
  have hF : FOUNDATION_BASE = 448 := rfl
  have hW : WASTE_BASE = 452 := rfl
  have hG : GAME_CELLS = 580 := rfl
  intro s k hk
  rw [← hd s k hk]
  apply card_count_perm g h s k
    (fun a => if dst ≤ a ∧ a < dst + n then src + (a - dst)
      else if src ≤ a ∧ a < src + n then dst + (a - src) else a)
  · intro a ha
    all_goals (split_ifs <;> omega)
  · intro a ha
    all_goals (split_ifs <;> omega)
  · intro a ha
    obtain ⟨e1, e2, _⟩ := hm.2 a
    by_cases c1 : dst ≤ a ∧ a < dst + n
    · rw [if_pos c1] at e1 e2
      rw [if_pos c1, cell_holds_other _ _ _ _ (by omega), cell_holds_other _ _ _ _ (by omega),
        e1, e2]
    · rw [if_neg c1] at e1 e2
      rw [if_neg c1]
      by_cases c2 : src ≤ a ∧ a < src + n
      · rw [if_pos c2] at e1
        rw [if_pos c2, cell_holds_other _ _ _ _ (by omega), cell_holds_other _ _ _ _ (by omega),
          e1, hemp (a - src) (by omega)]
        simp only [NO_RANK]
        constructor
        · intro hx; omega
        · intro hx; omega
      · rw [if_neg c2] at e1
        rw [if_neg c2]
        exact cell_holds_congr g h a s k e1 e2

/-- The top card of a foundation moved onto an empty tableau cell. -/
theorem full_deck_from_foundation (g h : Game) (src dst : Nat)
    (hm : moved g h src dst 1 ((g.mem src).rank - 1)) (hd : full_deck g)
    (hsrc : FOUNDATION_BASE ≤ src ∧ src < WASTE_BASE) (hdst : dst < FOUNDATION_BASE)
    (hemp : (g.mem dst).rank = NO_RANK) : full_deck h := by
  have hF : FOUNDATION_BASE = 448 := rfl
  have hW : WASTE_BASE = 452 := rfl
  have hG : GAME_CELLS = 580 := rfl
  intro s k hk
  rw [← hd s k hk]
  apply card_count_two g h s k src dst (by omega) (by omega) (by omega)
  · intro a ha h1 h2
    obtain ⟨e1, e2, _⟩ := hm.2 a
    apply cell_holds_congr
    · rw [e1, if_neg (by omega), if_neg (by omega)]
    · rw [e2, if_neg (by omega)]
  · obtain ⟨e1, e2, _⟩ := hm.2 src
    obtain ⟨d1, d2, _⟩ := hm.2 dst
    rw [if_neg (by omega), if_pos (by omega)] at e1
    rw [if_neg (by omega)] at e2
    rw [if_pos (by omega), show src + (dst - dst) = src by omega] at d1 d2
    have hnd : ¬ (FOUNDATION_BASE ≤ dst ∧ dst < WASTE_BASE) := by omega
    simp only [cell_holds_foundation _ _ _ _ hsrc, cell_holds_other _ _ _ _ hnd, e1, e2, d1, d2,
      hemp]
    simp only [NO_RANK]
    by_cases hs : (g.mem src).suite = s
    · simp only [hs, true_and]
      all_goals (split_ifs <;> omega)
    · simp only [hs, false_and, if_false]
      all_goals (split_ifs <;> omega)

/-- A card moved onto a foundation that accepts it. -/
theorem full_deck_to_foundation (g h : Game) (src dst : Nat)
    (hm : moved g h src dst 1 NO_RANK) (hd : full_deck g)
    (hdst : FOUNDATION_BASE ≤ dst ∧ dst < WASTE_BASE) (hsrc : src < GAME_CELLS)
    (hocc : (g.mem src).rank ≠ NO_RANK)
    (hcs : can_stack (g.mem src) (g.mem dst) true = true) : full_deck h := by
  have hF : FOUNDATION_BASE = 448 := rfl
  have hW : WASTE_BASE = 452 := rfl
  have hG : GAME_CELLS = 580 := rfl
  have hne : src ≠ dst := by
    intro e
    rw [e] at hcs hocc
    rcases can_stack_true_foundation _ _ hcs with ⟨h1, _⟩ | ⟨_, _, h2⟩
    · exact hocc h1
    · omega
  have hrest : ∀ s k a, a < GAME_CELLS → a ≠ src → a ≠ dst →
      (cell_holds h a s k ↔ cell_holds g a s k) := by
    intro s k a ha h1 h2
    obtain ⟨e1, e2, _⟩ := hm.2 a
    apply cell_holds_congr
    · rw [e1, if_neg (by omega), if_neg (by omega)]
    · rw [e2, if_neg (by omega)]
  obtain ⟨e1, e2, _⟩ := hm.2 src
  obtain ⟨d1, d2, _⟩ := hm.2 dst
  rw [if_neg (by omega), if_pos (by omega)] at e1
  rw [if_neg (by omega)] at e2
  rw [if_pos (by omega), show src + (dst - dst) = src by omega] at d1 d2
  intro s k hk
  rw [← hd s k hk]
  apply card_count_two g h s k src dst hsrc (by omega) hne (hrest s k)
  by_cases hsf : FOUNDATION_BASE ≤ src ∧ src < WASTE_BASE
  · -- from another foundation: the target pile is empty
    rcases can_stack_true_foundation _ _ hcs with ⟨h1, h2⟩ | ⟨h1, h2, h3⟩
    · simp only [cell_holds_foundation _ _ _ _ hsf, cell_holds_foundation _ _ _ _ hdst, e1, e2,
        d1, d2, h1, h2]
      simp only [NO_RANK, ACE] at hocc ⊢
      by_cases hs : (g.mem src).suite = s
      · simp only [hs, true_and]
        all_goals (split_ifs <;> omega)
      · simp only [hs, false_and, if_false]
        all_goals (split_ifs <;> omega)
    · exfalso
      have hk1 : cell_holds g src (g.mem src).suite 1 :=
        (cell_holds_foundation _ _ _ _ hsf).2 ⟨rfl, by simp only [NO_RANK] at hocc; omega⟩
      have hk2 : cell_holds g dst (g.mem src).suite 1 :=
        (cell_holds_foundation _ _ _ _ hdst).2 ⟨h2.symm, by simp only [NO_RANK] at h1; omega⟩
      have := card_count_ge_two g _ 1 src dst hsrc (by omega) hne hk1 hk2
      rw [hd _ 1 (by omega)] at this
      simp at this
  · simp only [cell_holds_other _ _ _ _ hsf, cell_holds_foundation _ _ _ _ hdst, e1, e2, d1, d2]
    rcases can_stack_true_foundation _ _ hcs with ⟨h1, h2⟩ | ⟨h1, h2, h3⟩
    · rw [h1, h2]
      simp only [NO_RANK, ACE] at hocc ⊢
      by_cases hs : (g.mem src).suite = s
      · simp only [hs, true_and]
        all_goals (split_ifs <;> omega)
      · simp only [hs, false_and, if_false]
        all_goals (split_ifs <;> omega)
    · rw [h3, ← h2]
      simp only [NO_RANK] at hocc h1 ⊢
      by_cases hs : (g.mem src).suite = s
      · simp only [hs, true_and]
        all_goals (split_ifs <;> omega)
      · simp only [hs, false_and, if_false]

/-! ## Columns and piles under a move -/

/-- A column that the move does not touch. -/
theorem moved_col_other (g h : Game) (src dst n nr c : Nat) (hm : moved g h src dst n nr)
    (hc : c < 7) (hok : run_ok (fun r => g.mem (tab c r)))
    (h1 : dst + n ≤ tab c 0 ∨ tab c 64 ≤ dst) (h2 : src + n ≤ tab c 0 ∨ tab c 64 ≤ src) :
    run_ok (fun r => h.mem (tab c r)) := by
  have hW : WASTE_BASE = 452 := rfl
  simp only [tab] at h1 h2
  apply run_ok_same _ _ hok
  · intro r hr
    have := (hm.2 (tab c r)).1
    rw [if_neg (by simp only [tab]; omega), if_neg (by simp only [tab]; omega)] at this
    exact this
  · intro r hr
    have := (hm.2 (tab c r)).2.1
    rw [if_neg (by simp only [tab]; omega)] at this
    exact this
  · intro r hr
    have := (hm.2 (tab c r)).2.2 (by simp only [tab]; omega)
    rw [if_neg (by simp only [tab]; omega)] at this
    exact this

/-- The column from which the move takes the cards of the rows `r, ..., r + n - 1`, the rows
after them being empty. -/
theorem moved_col_source (g h : Game) (dst n c r : Nat)
    (hm : moved g h (tab c r) dst n NO_RANK)
    (hc : c < 7) (hok : run_ok (fun r => g.mem (tab c r))) (hb : r + n ≤ 64)
    (h1 : dst + n ≤ tab c 0 ∨ tab c 64 ≤ dst)
    (hend : r + n < 64 → (g.mem (tab c (r + n))).rank = NO_RANK) :
    run_ok (fun r => h.mem (tab c r)) := by
  have hW : WASTE_BASE = 452 := rfl
  simp only [tab] at h1
  apply run_ok_truncate _ _ r hok
  · intro r0 hr0 hr64
    have e1 := (hm.2 (tab c r0)).1
    have e2 := (hm.2 (tab c r0)).2.2 (by simp only [tab]; omega)
    have e3 := (hm.2 (tab c r0)).2.1
    rw [if_neg (by simp only [tab]; omega), if_neg (by simp only [tab]; omega)] at e1
    rw [if_neg (by simp only [tab]; omega)] at e2 e3
    exact ⟨e1, e2, e3⟩
  · intro r0 hr0 hr64
    have e1 := (hm.2 (tab c r0)).1
    rw [if_neg (by simp only [tab]; omega)] at e1
    by_cases hin : r0 < r + n
    · rw [if_pos (by simp only [tab]; omega)] at e1
      exact e1
    · rw [if_neg (by simp only [tab]; omega)] at e1
      show (h.mem (tab c r0)).rank = NO_RANK
      rw [e1]
      exact run_ok_empty_from _ hok (r + n) (hend (by omega)) r0 (by omega) hr64

/-- The column on which the move puts the cards, from the empty row `r` on. -/
theorem moved_col_target (g h : Game) (src n nr c r : Nat)
    (hm : moved g h src (tab c r) n nr)
    (hc : c < 7) (hok : run_ok (fun r => g.mem (tab c r))) (hb : r + n ≤ 64)
    (h2 : src + n ≤ tab c 0 ∨ tab c 64 ≤ src)
    (hemp : r < 64 → (g.mem (tab c r)).rank = NO_RANK)
    (hs1 : ∀ i, i < n → (g.mem (src + i)).rank ≠ NO_RANK)
    (hs2 : ∀ i, i + 1 < n → (g.mem (src + i)).visible = true →
      (g.mem (src + (i + 1))).visible = true ∧
        (g.mem (src + i)).rank = (g.mem (src + (i + 1))).rank + 1 ∧
        is_opposite_color (g.mem (src + (i + 1))).suite (g.mem (src + i)).suite = true)
    (hj1 : 0 < r → 0 < n → (g.mem (tab c (r - 1))).rank ≠ NO_RANK)
    (hj2 : 0 < r → 0 < n → (g.mem (tab c (r - 1))).visible = true →
      (g.mem src).visible = true ∧ (g.mem (tab c (r - 1))).rank = (g.mem src).rank + 1 ∧
        is_opposite_color (g.mem src).suite (g.mem (tab c (r - 1))).suite = true) :
    run_ok (fun r => h.mem (tab c r)) := by
  have hW : WASTE_BASE = 452 := rfl
  simp only [tab] at h2
  apply run_ok_append (fun r => g.mem (tab c r)) _ (fun i => g.mem (src + i)) r n hok hb
  · intro r0 hr0
    have e1 := (hm.2 (tab c r0)).1
    have e2 := (hm.2 (tab c r0)).2.2 (by simp only [tab]; omega)
    have e3 := (hm.2 (tab c r0)).2.1
    rw [if_neg (by simp only [tab]; omega), if_neg (by simp only [tab]; omega)] at e1
    rw [if_neg (by simp only [tab]; omega)] at e2 e3
    exact ⟨e1, e2, e3⟩
  · intro i hi
    have e1 := (hm.2 (tab c (r + i))).1
    have e2 := (hm.2 (tab c (r + i))).2.2 (by simp only [tab]; omega)
    have e3 := (hm.2 (tab c (r + i))).2.1
    rw [if_pos (by simp only [tab]; omega),
      show tab c (r + i) - tab c r = i by simp only [tab]; omega] at e1 e2 e3
    exact ⟨e1, e2, e3⟩
  · intro r0 hr0 hr64
    have e1 := (hm.2 (tab c r0)).1
    rw [if_neg (by simp only [tab]; omega), if_neg (by simp only [tab]; omega)] at e1
    show (h.mem (tab c r0)).rank = NO_RANK
    rw [e1]
    exact run_ok_empty_from _ hok r (hemp (by omega)) r0 (by omega) hr64
  · exact hs1
  · exact hs2
  · exact hj1
  · intro h1 h2 h3
    have := hj2 h1 h2 h3
    exact this

/-- Stock, foundation flags and waste flags after a move that takes no card from the stock
and puts none on the waste or the stock. -/
theorem cards_ok_moved (g h : Game) (src dst n nr : Nat) (hm : moved g h src dst n nr)
    (hw : ∀ a, WASTE_BASE ≤ a → (g.mem a).visible = true → (h.mem a).visible = true)
    (hok : cards_ok g) (hdeck : full_deck h)
    (hcols : ∀ c, c < 7 → run_ok (fun r => h.mem (tab c r)))
    (hwaste : pile_contiguous h WASTE_BASE)
    (hsrc : src + n ≤ STOCK_BASE)
    (hdst : dst + n ≤ FOUNDATION_BASE ∨ (FOUNDATION_BASE ≤ dst ∧ dst + n ≤ WASTE_BASE))
    (hnr : nr = NO_RANK ∨ (FOUNDATION_BASE ≤ src ∧ src + n ≤ WASTE_BASE))
    (hsv : ∀ i, i < n → (g.mem (src + i)).visible = true) :
    cards_ok h where
  deck := hdeck
  columns := hcols
  dealt_up := by
    have hF : FOUNDATION_BASE = 448 := rfl
    have hW : WASTE_BASE = 452 := rfl
    have hS : STOCK_BASE = 516 := rfl
    intro c hc r h1 h2 hocc
    have e1 := (hm.2 (tab c r)).1
    have e2 := (hm.2 (tab c r)).2.2 (by simp only [tab]; omega)
    rw [e2]
    rw [e1] at hocc
    by_cases hin : dst ≤ tab c r ∧ tab c r < dst + n
    · rw [if_pos hin]
      exact hsv _ (by omega)
    · rw [if_neg hin] at hocc ⊢
      apply hok.dealt_up c hc r h1 h2
      split at hocc
      · rename_i hin2
        rcases hnr with h3 | h3
        · exact absurd h3 hocc
        · simp only [tab] at hin2
          omega
      · exact hocc
  waste := hwaste
  stock := by
    have hF : FOUNDATION_BASE = 448 := rfl
    have hW : WASTE_BASE = 452 := rfl
    have hS : STOCK_BASE = 516 := rfl
    intro i hi
    rw [(hm.2 _).1, (hm.2 _).1, if_neg (by omega), if_neg (by omega), if_neg (by omega),
      if_neg (by omega)]
    exact hok.stock i hi
  foundations := by
    have hF : FOUNDATION_BASE = 448 := rfl
    have hW : WASTE_BASE = 452 := rfl
    intro i hi
    rw [(hm.2 _).2.2 (by omega)]
    split
    · rename_i hin
      exact hsv _ (by omega)
    · exact hok.foundations i hi
  waste_up := by
    have hF : FOUNDATION_BASE = 448 := rfl
    have hW : WASTE_BASE = 452 := rfl
    intro i hi hocc
    apply hw _ (by omega)
    apply hok.waste_up i hi
    rw [(hm.2 _).1, if_neg (by omega)] at hocc
    split at hocc
    · rcases hnr with h1 | h1
      · exact absurd h1 hocc
      · omega
    · exact hocc

/-! ## The cards after the copy and the clearing loop of a move -/

theorem set_rank_visible (g : Game) (a k b : Nat) :
    ((g.set_rank a k).mem b).visible = (g.mem b).visible := by
  rw [set_rank_mem]; split <;> simp_all

theorem pile_contiguous_ranks (g h : Game) (base : Nat) (hok : pile_contiguous g base)
    (hr : ∀ i, i < 64 → (h.mem (base + i)).rank = (g.mem (base + i)).rank) :
    pile_contiguous h base := by
  intro i hi
  rw [hr i (by omega), show base + i + 1 = base + (i + 1) by omega, hr (i + 1) (by omega)]
  exact hok i hi

/-- The columns of `g` written by rows. -/
theorem columns_empty_from (g : Game) (hok : cards_ok g) (c : Nat) (hc : c < 7) (r : Nat)
    (hr : (g.mem (tab c r)).rank = NO_RANK) :
    ∀ r0, r ≤ r0 → r0 < 64 → (g.mem (tab c r0)).rank = NO_RANK :=
  run_ok_empty_from (fun r => g.mem (tab c r)) (hok.columns c hc) r hr

/-- A run cannot be put on its own column. -/
theorem run_other_column (g : Game) (c r dr n : Nat) (hok : cards_ok g) (hc : c < 7)
    (hvis : (g.mem (tab c r)).visible = true) (hn : 1 ≤ n) (hb : r + n < 64)
    (hocc : ∀ i, i < n → (g.mem (tab c (r + i))).rank ≠ NO_RANK)
    (hend : (g.mem (tab c (r + n))).rank = NO_RANK)
    (hdr : dr < 64) (hemp : (g.mem (tab c dr)).rank = NO_RANK)
    (hj : dr = 0 ∨ (0 < dr ∧ (g.mem (tab c (dr - 1))).rank ≠ NO_RANK ∧
      can_stack (g.mem (tab c r)) (g.mem (tab c (dr - 1))) false = true)) : False := by
  have hrun := hok.columns c hc
  have h0 := hocc 0 hn
  rw [Nat.add_zero] at h0
  have h1 : r < dr := by
    by_contra hx
    exact h0 (columns_empty_from g hok c hc dr hemp r (by omega) (by omega))
  rcases hj with hj | ⟨_, hT, hcs⟩
  · omega
  · have h2 : r + n ≤ dr := by
      by_contra hx
      exact hocc (dr - r) (by omega) (by rw [show r + (dr - r) = dr by omega]; exact hemp)
    have h3 : dr - 1 < r + n := by
      by_contra hx
      exact hT (columns_empty_from g hok c hc (r + n) hend (dr - 1) (by omega) (by omega))
    have h4 : dr - 1 = r + (n - 1) := by omega
    rw [h4] at hcs hT
    obtain ⟨_, h5⟩ := run_ok_descend _ hrun r hvis (n - 1) (by omega) hT
    rcases can_stack_true_tableau _ _ hcs with ⟨h6, _⟩ | ⟨_, h6⟩
    · exact hT h6
    · have h7 : (g.mem (tab c (r + (n - 1)))).rank + (n - 1) = (g.mem (tab c r)).rank := h5
      omega

/-- The cards after a tableau run was copied to another column and cleared. -/
theorem cards_ok_run (g : Game) (c r dc dr n : Nat) (hok : cards_ok g) (hc : c < 7)
    (hdc : dc < 7) (hma : g.moving.active = true) (hml : g.moving.location = TABLEAU)
    (hcol : g.moving.column = (c : Int)) (hrow : g.moving.row = (r : Int))
    (hvis : (g.mem (tab c r)).visible = true) (hn : 1 ≤ n) (hb : r + n < 64)
    (hocc : ∀ i, i < n → (g.mem (tab c (r + i))).rank ≠ NO_RANK)
    (hend : (g.mem (tab c (r + n))).rank = NO_RANK)
    (hdb : dr + n ≤ 64) (hemp : (g.mem (tab dc dr)).rank = NO_RANK)
    (hj : dr = 0 ∨ (0 < dr ∧ (g.mem (tab dc (dr - 1))).rank ≠ NO_RANK ∧
      can_stack (g.mem (tab c r)) (g.mem (tab dc (dr - 1))) false = true)) :
    cards_ok (clear_source_loop n (memcpy_cards g (tab dc dr) (tab c r) n)) := by
  have hF : FOUNDATION_BASE = 448 := rfl
  have hW : WASTE_BASE = 452 := rfl
  have hS : STOCK_BASE = 516 := rfl
  have hG : GAME_CELLS = 580 := rfl
  have hne : c ≠ dc := by
    intro e
    subst e
    exact run_other_column g c r dr n hok hc hvis hn hb hocc hend (by omega) hemp hj
  have hdis : tab dc dr + n ≤ tab c r ∨ tab c r + n ≤ tab dc dr := by
    simp only [tab]; omega
  have hm := moved_run g c r (tab dc dr) n hc hma hml hcol hrow (by omega) hocc hdis
  have hrun := hok.columns c hc
  have hdesc := run_ok_descend _ hrun r hvis
  apply cards_ok_moved g _ _ _ n NO_RANK hm ?_ hok
  · apply full_deck_moved_run g _ _ _ n hm hok.deck hdis (by simp only [tab]; omega)
      (Or.inl (by simp only [tab]; omega))
    intro i hi
    rw [show tab dc dr + i = tab dc (dr + i) by simp only [tab]; omega]
    exact columns_empty_from g hok dc hdc dr hemp _ (by omega) (by omega)
  · intro c0 hc0
    by_cases e1 : c0 = dc
    · subst e1
      apply moved_col_target g _ _ n NO_RANK c0 dr hm hc0 (hok.columns c0 hc0) hdb
        (by simp only [tab]; omega) (fun _ => hemp)
      · intro i hi
        rw [show tab c r + i = tab c (r + i) by simp only [tab]; omega]
        exact hocc i hi
      · intro i hi hv
        rw [show tab c r + i = tab c (r + i) by simp only [tab]; omega] at hv ⊢
        rw [show tab c r + (i + 1) = tab c (r + i + 1) by simp only [tab]; omega]
        exact hrun.2 (r + i) (by omega) (hocc (i + 1) (by omega)) hv
      · intro h1 _
        rcases hj with hj | hj
        · omega
        · exact hj.2.1
      · intro h1 _ hv
        rcases hj with hj | ⟨_, hT, hcs⟩
        · omega
        · refine ⟨hvis, ?_⟩
          rcases can_stack_true_tableau _ _ hcs with ⟨h6, _⟩ | ⟨h7, h6⟩
          · exact absurd h6 hT
          · exact ⟨h6, h7⟩
    · by_cases e2 : c0 = c
      · subst e2
        exact moved_col_source g _ _ n c0 r hm hc0 (hok.columns c0 hc0) (by omega)
          (by simp only [tab]; omega) (fun _ => hend)
      · exact moved_col_other g _ _ _ n NO_RANK c0 hm hc0 (hok.columns c0 hc0)
          (by simp only [tab]; omega) (by simp only [tab]; omega)
  · apply pile_contiguous_ranks g _ _ hok.waste
    intro i hi
    rw [(hm.2 _).1, if_neg (by simp only [tab]; omega), if_neg (by simp only [tab]; omega)]
  · simp only [tab]; omega
  · left; simp only [tab]; omega
  · left; rfl
  · intro i hi
    rw [show tab c r + i = tab c (r + i) by simp only [tab]; omega]
    exact (hdesc i (by omega) (hocc i hi)).1
  · -- waste and stock flags
    obtain ⟨_, h2⟩ := clear_source_loop_tableau c hc n (memcpy_cards g (tab dc dr) (tab c r) n) r
      hma hml hcol hrow (by omega) (by
        intro i hi
        rw [memcpy_cards_mem, if_neg (by simp only [tab] at hdis ⊢; omega)]
        exact hocc i hi)
    intro a ha hv
    rw [h2 a, if_neg (by simp only [tab]; omega), memcpy_cards_mem,
      if_neg (by simp only [tab]; omega)]
    exact hv

/-- The waste without its top card is contiguous. -/
theorem waste_contiguous_pop (g h : Game) (hok : pile_contiguous g WASTE_BASE)
    (hL : pile_len g WASTE_BASE ≠ 0)
    (hr : ∀ i, i < 64 → (h.mem (WASTE_BASE + i)).rank =
      if i = pile_len g WASTE_BASE - 1 then NO_RANK else (g.mem (WASTE_BASE + i)).rank) :
    pile_contiguous h WASTE_BASE := by
  have hle := pile_len_le g WASTE_BASE
  intro i hi h0
  rw [show WASTE_BASE + i + 1 = WASTE_BASE + (i + 1) by omega, hr (i + 1) (by omega)]
  rw [hr i (by omega)] at h0
  by_cases e1 : i + 1 = pile_len g WASTE_BASE - 1
  · rw [if_pos e1]
  · rw [if_neg e1]
    by_cases e2 : i = pile_len g WASTE_BASE - 1
    · have := pile_len_empty g WASTE_BASE (by omega)
      rw [show WASTE_BASE + (i + 1) = WASTE_BASE + pile_len g WASTE_BASE by omega]
      exact this
    · rw [if_neg e2] at h0
      exact hok i hi h0

/-- The cards after the waste top was copied to a tableau column and cleared. -/
theorem cards_ok_waste_to_tableau (g : Game) (dc dr : Nat) (hok : cards_ok g) (hdc : dc < 7)
    (hma : g.moving.active = true) (hml : g.moving.location = WASTE)
    (hL : pile_len g WASTE_BASE ≠ 0) (hdr : dr < 64)
    (hemp : (g.mem (tab dc dr)).rank = NO_RANK)
    (hj : dr = 0 ∨ (0 < dr ∧ (g.mem (tab dc (dr - 1))).rank ≠ NO_RANK ∧
      can_stack (g.mem (WASTE_BASE + (pile_len g WASTE_BASE - 1)))
        (g.mem (tab dc (dr - 1))) false = true)) :
    cards_ok (clear_source_loop 1
      (memcpy_cards g (tab dc dr) (WASTE_BASE + (pile_len g WASTE_BASE - 1)) 1)) := by
  have hF : FOUNDATION_BASE = 448 := rfl
  have hW : WASTE_BASE = 452 := rfl
  have hS : STOCK_BASE = 516 := rfl
  have hG : GAME_CELLS = 580 := rfl
  have hle := pile_len_le g WASTE_BASE
  have hm := moved_waste g (tab dc dr) hma hml hL (by simp only [tab]; omega)
  have hsocc := pile_len_occupied g WASTE_BASE (pile_len g WASTE_BASE - 1) (by omega)
  have hsvis := hok.waste_up (pile_len g WASTE_BASE - 1) (by omega) hsocc
  apply cards_ok_moved g _ _ _ 1 NO_RANK hm ?_ hok
  · apply full_deck_moved_run g _ _ _ 1 hm hok.deck (by simp only [tab]; omega)
      (by simp only [tab]; omega) (Or.inr (by omega))
    intro i hi
    rw [show i = 0 by omega]
    exact hemp
  · intro c0 hc0
    by_cases e1 : c0 = dc
    · subst e1
      apply moved_col_target g _ _ 1 NO_RANK c0 dr hm hc0 (hok.columns c0 hc0) (by omega)
        (by simp only [tab]; omega) (fun _ => hemp)
      · intro i hi
        rw [show i = 0 by omega]
        exact hsocc
      · intro i hi
        omega
      · intro h1 _
        rcases hj with hj | hj
        · omega
        · exact hj.2.1
      · intro h1 _ hv
        rcases hj with hj | ⟨_, hT, hcs⟩
        · omega
        · refine ⟨hsvis, ?_⟩
          rcases can_stack_true_tableau _ _ hcs with ⟨h6, _⟩ | ⟨h7, h6⟩
          · exact absurd h6 hT
          · exact ⟨h6, h7⟩
    · exact moved_col_other g _ _ _ 1 NO_RANK c0 hm hc0 (hok.columns c0 hc0)
        (by simp only [tab]; omega) (by simp only [tab]; omega)
  · apply waste_contiguous_pop g _ hok.waste hL
    intro i hi
    rw [(hm.2 _).1, if_neg (by simp only [tab]; omega)]
    by_cases e : i = pile_len g WASTE_BASE - 1
    · rw [if_pos e, if_pos (by omega)]
    · rw [if_neg e, if_neg (by omega)]
  · omega
  · left; simp only [tab]; omega
  · left; rfl
  · intro i hi
    rw [show i = 0 by omega]
    exact hsvis
  · have hlen : pile_len (memcpy_cards g (tab dc dr) (WASTE_BASE + (pile_len g WASTE_BASE - 1)) 1)
        WASTE_BASE = pile_len g WASTE_BASE := by
      apply pile_len_congr
      intro j hj
      rw [memcpy_cards_mem, if_neg (by simp only [tab]; omega)]
    obtain ⟨_, h2⟩ := clear_source_loop_waste
      (memcpy_cards g (tab dc dr) (WASTE_BASE + (pile_len g WASTE_BASE - 1)) 1) hma hml (by
        rw [hlen]; exact hL)
    intro a ha hv
    rw [h2 a, set_rank_visible, touch_visible, memcpy_cards_mem,
      if_neg (by simp only [tab]; omega), hv]
    rfl

/-- The cards after a foundation top was copied to a tableau column and its pile
decremented. -/
theorem cards_ok_foundation_to_tableau (g : Game) (j dc dr : Nat) (hok : cards_ok g)
    (hdc : dc < 7) (hj4 : j < 4) (hdr : dr < 64)
    (hemp : (g.mem (tab dc dr)).rank = NO_RANK)
    (hocc : (g.mem (FOUNDATION_BASE + j)).rank ≠ NO_RANK)
    (hj : dr = 0 ∨ (0 < dr ∧ (g.mem (tab dc (dr - 1))).rank ≠ NO_RANK ∧
      can_stack (g.mem (FOUNDATION_BASE + j)) (g.mem (tab dc (dr - 1))) false = true)) :
    cards_ok ((memcpy_cards g (tab dc dr) (FOUNDATION_BASE + j) 1).set_rank (FOUNDATION_BASE + j)
      (((memcpy_cards g (tab dc dr) (FOUNDATION_BASE + j) 1).mem (FOUNDATION_BASE + j)).rank
        - 1)) := by
  have hF : FOUNDATION_BASE = 448 := rfl
  have hW : WASTE_BASE = 452 := rfl
  have hS : STOCK_BASE = 516 := rfl
  have hG : GAME_CELLS = 580 := rfl
  have hm := moved_foundation g (FOUNDATION_BASE + j) (tab dc dr) (by simp only [tab]; omega)
  have hsvis := hok.foundations j hj4
  apply cards_ok_moved g _ _ _ 1 _ hm ?_ hok
  · exact full_deck_from_foundation g _ _ _ hm hok.deck (by omega) (by simp only [tab]; omega)
      hemp
  · intro c0 hc0
    by_cases e1 : c0 = dc
    · subst e1
      apply moved_col_target g _ _ 1 _ c0 dr hm hc0 (hok.columns c0 hc0) (by omega)
        (by simp only [tab]; omega) (fun _ => hemp)
      · intro i hi
        rw [show i = 0 by omega]
        exact hocc
      · intro i hi
        omega
      · intro h1 _
        rcases hj with hj | hj
        · omega
        · exact hj.2.1
      · intro h1 _ hv
        rcases hj with hj | ⟨_, hT, hcs⟩
        · omega
        · refine ⟨hsvis, ?_⟩
          rcases can_stack_true_tableau _ _ hcs with ⟨h6, _⟩ | ⟨h7, h6⟩
          · exact absurd h6 hT
          · exact ⟨h6, h7⟩
    · exact moved_col_other g _ _ _ 1 _ c0 hm hc0 (hok.columns c0 hc0)
        (by simp only [tab]; omega) (by simp only [tab]; omega)
  · apply pile_contiguous_ranks g _ _ hok.waste
    intro i hi
    rw [(hm.2 _).1, if_neg (by simp only [tab]; omega), if_neg (by omega)]
  · omega
  · left; simp only [tab]; omega
  · right; omega
  · intro i hi
    rw [show i = 0 by omega]
    exact hsvis
  · intro a ha hv
    rw [set_rank_visible, memcpy_cards_mem, if_neg (by simp only [tab]; omega)]
    exact hv

/-- The cards after a card was assigned to a foundation slot that accepts it and its cell
emptied; the columns and the waste are dealt with by the caller. -/
theorem cards_ok_to_foundation (g : Game) (src j : Nat) (hok : cards_ok g) (hj4 : j < 4)
    (hsrc : src < STOCK_BASE) (hocc : (g.mem src).rank ≠ NO_RANK)
    (hvis : (g.mem src).visible = true)
    (hcs : can_stack (g.mem src) (g.mem (FOUNDATION_BASE + j)) true = true)
    (hcols : ∀ c, c < 7 → run_ok (fun r =>
      (((g.write (FOUNDATION_BASE + j) (g.mem src)).set_rank src NO_RANK).mem (tab c r))))
    (hwaste : pile_contiguous ((g.write (FOUNDATION_BASE + j) (g.mem src)).set_rank src NO_RANK)
      WASTE_BASE) :
    cards_ok ((g.write (FOUNDATION_BASE + j) (g.mem src)).set_rank src NO_RANK) := by
  have hF : FOUNDATION_BASE = 448 := rfl
  have hW : WASTE_BASE = 452 := rfl
  have hS : STOCK_BASE = 516 := rfl
  have hG : GAME_CELLS = 580 := rfl
  have hne : FOUNDATION_BASE + j ≠ src := by
    intro e
    rw [← e] at hcs hocc
    rcases can_stack_true_foundation _ _ hcs with ⟨h1, _⟩ | ⟨_, _, h2⟩
    · exact hocc h1
    · omega
  have hm := moved_single g src (FOUNDATION_BASE + j) hne
  apply cards_ok_moved g _ _ _ 1 NO_RANK hm ?_ hok
  · exact full_deck_to_foundation g _ _ _ hm hok.deck (by omega) (by omega) hocc hcs
  · exact hcols
  · exact hwaste
  · omega
  · right; omega
  · left; rfl
  · intro i hi
    rw [show i = 0 by omega]
    exact hvis
  · intro a ha hv
    rw [set_rank_visible, write_mem, if_neg (by omega)]
    exact hv

/-! ## The invariant after a move -/

/-- The common tail of `move_card` establishes the invariant from well-formed cards. -/
theorem board_ok_finish (fuel : Nat) (h : Game) (dest : CardPos) (b : Bool) (g' : Game)
    (hok : cards_ok h) (hf : move_card_finish fuel h dest = some (b, g')) : board_ok g' := by
  obtain ⟨_, hmv, hflds, hsa, hsl, _, hsnap⟩ := move_card_finish_spec fuel h dest b g' hf
  refine ⟨?_, ?_, pos_visible_inactive _ _ hmv, fun hx => ?_⟩
  · apply cards_ok_congr h g' (fun a => (hflds a).1) (fun a => (hflds a).2.1) ?_ ?_ hok
    · intro a _ hv
      rw [(hflds a).2.2.1] at hv
      by_cases hfl : flips h a
      · exact Or.inr hfl
      · rw [if_neg hfl] at hv
        exact Or.inl hv
    · intro a hv
      rw [(hflds a).2.2.1, hv]
      split <;> rfl
  · intro hl a ha
    have hact : g'.selected.active = true := by
      cases hx : g'.selected.active
      · rw [card_ptr_inactive _ _ _ hx] at ha
        exact absurd ha (by simp)
      · rfl
    exact pos_visible_of_snapped g' (hsnap (by rw [← hsa]; exact hact) (by rw [← hsl]; exact hl))
      hl a ha
  · rw [hmv] at hx
    exact absurd hx (by simp)

/-- The tableau branch of `move_card` keeps the invariant. -/
theorem board_ok_move_tableau (fuel : Nat) (g g' : Game) (src : Nat) (dest : CardPos)
    (dc dr : Nat) (hok : board_ok g) (ht : touch g.moving g = g)
    (hma : g.moving.active = true) (hsrc : card_ptr g.moving g false = some src)
    (hn : 1 ≤ get_amount_stacked_cards g.moving g)
    (hda : dest.active = true) (hdl : dest.location = TABLEAU)
    (hdcol : dest.column = (dc : Int)) (hdrow : dest.row = (dr : Int)) (hdc : dc < 7)
    (hdr : dr < 64) (hemp : (g.mem (tab dc dr)).rank = NO_RANK)
    (hj : dr = 0 ∨ (0 < dr ∧ (g.mem (tab dc (dr - 1))).rank ≠ NO_RANK ∧
      can_stack (g.mem src) (g.mem (tab dc (dr - 1))) false = true))
    (h : move_card_tableau fuel g src dest (tab dc dr) (get_amount_stacked_cards g.moving g)
      = some (true, g')) : board_ok g' := by
  have hF : FOUNDATION_BASE = 448 := rfl
  have hW : WASTE_BASE = 452 := rfl
  cases hml : g.moving.location
  case STOCK => exact absurd hml (hok.held_stock hma)
  case TABLEAU =>
    have hvis := hok.held hml src hsrc
    rw [card_ptr_tab _ _ _ hma hml] at hsrc
    by_cases hin : in_tab g.moving.column g.moving.row
    swap
    · simp [hin] at hsrc
    rw [if_pos hin] at hsrc
    by_cases hrk : (g.mem (cell g.moving.column g.moving.row)).rank = 0
    · simp [hrk] at hsrc
    rw [if_neg (by simp [hrk])] at hsrc
    simp only [Option.some.injEq] at hsrc
    obtain ⟨hc0, hc7, hr0, hr64⟩ := hin
    obtain ⟨c, hc⟩ : ∃ c : Nat, g.moving.column = (c : Int) := ⟨g.moving.column.toNat, by omega⟩
    obtain ⟨r, hr⟩ : ∃ r : Nat, g.moving.row = (r : Int) := ⟨g.moving.row.toNat, by omega⟩
    have hsrc' : src = tab c r := by rw [← hsrc]; exact cell_eq _ _ _ _ hc hr
    subst hsrc'
    obtain ⟨hb, hocc, hempty⟩ := amount_tableau g.moving g c r hma hml hc hr (by omega) (by omega)
    generalize get_amount_stacked_cards g.moving g = n at *
    rw [move_card_tableau_from_tableau fuel g _ dest _ n hma hml hda hdl] at h
    split at h
    swap
    · simp at h
    rename_i hg
    obtain ⟨⟨hg1, hg2⟩, ⟨hg3, hg4⟩, ⟨hg5, hg6⟩⟩ := hg
    have e3 : cell g.moving.column (g.moving.row + ((n : Int) - 1) + 1) = tab c (r + n) :=
      cell_eq _ _ _ _ hc (by omega)
    rw [e3] at hg6
    obtain ⟨_, _, _, hg5'⟩ := hg5
    obtain ⟨_, _, _, hg1'⟩ := hg1
    have hk := cards_ok_run g c r dc dr n hok.cards (by omega) hdc hma hml hc hr hvis hn
      (by omega) hocc hg6 (by omega) hemp hj
    exact board_ok_finish fuel _ dest true g' hk h
  case WASTE =>
    rw [card_ptr_waste _ _ _ hma hml] at hsrc
    by_cases hL : pile_len g WASTE_BASE = 0
    · simp [hL] at hsrc
    rw [if_neg hL] at hsrc
    simp only [Option.some.injEq] at hsrc
    subst hsrc
    rw [amount_other _ _ hma (by rw [hml]; simp)] at h
    rw [move_card_tableau_from_waste fuel g _ dest _ 1 hma hml ht hda hdl] at h
    split at h
    swap
    · simp at h
    have hk := cards_ok_waste_to_tableau g dc dr hok.cards hdc hma hml hL hdr hemp hj
    exact board_ok_finish fuel _ dest true g' hk h
  case FOUNDATION =>
    rw [card_ptr_foundation _ _ _ hma hml] at hsrc
    split at hsrc
    swap
    · simp at hsrc
    rename_i hcol
    simp only [Option.some.injEq] at hsrc
    subst hsrc
    rw [amount_other _ _ hma (by rw [hml]; simp)] at h
    rw [move_card_tableau_from_foundation fuel g _ dest _ 1 hma hml hda hdl] at h
    split at h
    swap
    · simp at h
    rename_i hg
    have hk := cards_ok_foundation_to_tableau g g.moving.column.toNat dc dr hok.cards hdc
      (by omega) hdr hemp hg.2.2 hj
    exact board_ok_finish fuel _ dest true g' hk h

/-- The foundation branch of `move_card` keeps the invariant. -/
theorem board_ok_move_foundation (fuel : Nat) (g g' : Game) (src j : Nat) (dest : CardPos)
    (hok : board_ok g) (hma : g.moving.active = true)
    (hsrc : card_ptr g.moving g false = some src) (hj4 : j < 4)
    (hcs : can_stack (g.mem src) (g.mem (FOUNDATION_BASE + j)) true = true)
    (h : move_card_foundation fuel g src dest (FOUNDATION_BASE + j) = some (true, g')) :
    board_ok g' := by
  have hF : FOUNDATION_BASE = 448 := rfl
  have hW : WASTE_BASE = 452 := rfl
  have hS : STOCK_BASE = 516 := rfl
  have hne : FOUNDATION_BASE + j ≠ src := by
    intro e
    rw [← e] at hcs
    rcases can_stack_true_foundation _ _ hcs with ⟨h1, h2⟩ | ⟨_, _, h2⟩
    · rw [h1] at h2
      cases h2
    · omega
  have hrk : (g.mem src).rank ≠ NO_RANK := by
    rcases can_stack_true_foundation _ _ hcs with ⟨_, h2⟩ | ⟨_, _, h2⟩
    · rw [h2]; decide
    · rw [h2]; simp
  have hm := moved_single g src (FOUNDATION_BASE + j) hne
  cases hml : g.moving.location
  case STOCK => exact absurd hml (hok.held_stock hma)
  case TABLEAU =>
    have hvis := hok.held hml src hsrc
    rw [card_ptr_tab _ _ _ hma hml] at hsrc
    by_cases hin : in_tab g.moving.column g.moving.row
    swap
    · simp [hin] at hsrc
    rw [if_pos hin] at hsrc
    by_cases hrk0 : (g.mem (cell g.moving.column g.moving.row)).rank = 0
    · simp [hrk0] at hsrc
    rw [if_neg (by simp [hrk0])] at hsrc
    simp only [Option.some.injEq] at hsrc
    obtain ⟨hc0, hc7, hr0, hr64⟩ := hin
    obtain ⟨c, hc⟩ : ∃ c : Nat, g.moving.column = (c : Int) := ⟨g.moving.column.toNat, by omega⟩
    obtain ⟨r, hr⟩ : ∃ r : Nat, g.moving.row = (r : Int) := ⟨g.moving.row.toNat, by omega⟩
    have hsrc' : src = tab c r := by rw [← hsrc]; exact cell_eq _ _ _ _ hc hr
    subst hsrc'
    rw [move_card_foundation_from_tableau fuel g _ dest _ hma hml] at h
    split at h
    · simp at h
    rename_i hg
    have hend : r + 1 < 64 → (g.mem (tab c (r + 1))).rank = NO_RANK := by
      intro hlt
      by_contra hx
      apply hg
      refine ⟨⟨hc0, hc7, by omega, by omega⟩, ?_⟩
      rw [cell_eq _ _ c (r + 1) hc (by omega)]
      exact hx
    have hk := cards_ok_to_foundation g (tab c r) j hok.cards hj4 (by simp only [tab]; omega)
      hrk hvis hcs
      (by
        intro c0 hc0'
        by_cases e2 : c0 = c
        · subst e2
          exact moved_col_source g _ _ 1 c0 r hm hc0' (hok.cards.columns c0 hc0') (by omega)
            (by simp only [tab]; omega) hend
        · exact moved_col_other g _ _ _ 1 NO_RANK c0 hm hc0' (hok.cards.columns c0 hc0')
            (by simp only [tab]; omega) (by simp only [tab]; omega))
      (by
        apply pile_contiguous_ranks g _ _ hok.cards.waste
        intro i hi
        rw [(hm.2 _).1, if_neg (by omega), if_neg (by simp only [tab]; omega)])
    exact board_ok_finish fuel _ dest true g' hk h
  case WASTE =>
    rw [card_ptr_waste _ _ _ hma hml] at hsrc
    by_cases hL : pile_len g WASTE_BASE = 0
    · simp [hL] at hsrc
    rw [if_neg hL] at hsrc
    simp only [Option.some.injEq] at hsrc
    subst hsrc
    have hle := pile_len_le g WASTE_BASE
    rw [move_card_foundation_from_other fuel g _ dest _ (by rw [hml]; simp)] at h
    have hvis := hok.cards.waste_up (pile_len g WASTE_BASE - 1) (by omega) hrk
    have hk := cards_ok_to_foundation g _ j hok.cards hj4 (by omega) hrk hvis hcs
      (by
        intro c0 hc0'
        exact moved_col_other g _ _ _ 1 NO_RANK c0 hm hc0' (hok.cards.columns c0 hc0')
          (by simp only [tab]; omega) (by simp only [tab]; omega))
      (by
        apply waste_contiguous_pop g _ hok.cards.waste hL
        intro i hi
        rw [(hm.2 _).1, if_neg (by omega)]
        by_cases e : i = pile_len g WASTE_BASE - 1
        · rw [if_pos e, if_pos (by omega)]
        · rw [if_neg e, if_neg (by omega)])
    exact board_ok_finish fuel _ dest true g' hk h
  case FOUNDATION =>
    rw [card_ptr_foundation _ _ _ hma hml] at hsrc
    split at hsrc
    swap
    · simp at hsrc
    rename_i hcol
    simp only [Option.some.injEq] at hsrc
    subst hsrc
    rw [move_card_foundation_from_other fuel g _ dest _ (by rw [hml]; simp)] at h
    have hvis := hok.cards.foundations g.moving.column.toNat (by omega)
    have hk := cards_ok_to_foundation g _ j hok.cards hj4 (by omega) hrk hvis hcs
      (by
        intro c0 hc0'
        exact moved_col_other g _ _ _ 1 NO_RANK c0 hm hc0' (hok.cards.columns c0 hc0')
          (by simp only [tab]; omega) (by simp only [tab]; omega))
      (by
        apply pile_contiguous_ranks g _ _ hok.cards.waste
        intro i hi
        rw [(hm.2 _).1, if_neg (by omega), if_neg (by omega)])
    exact board_ok_finish fuel _ dest true g' hk h

theorem board_ok_visrel (g g' : Game) (hok : board_ok g) (h : VisRel g g') : board_ok g' := by
  obtain ⟨hs, hm, hmem⟩ := h
  have hW : WASTE_BASE = 452 := rfl
  refine board_ok_congr g g' hs hm ?_ ?_ ?_ ?_ hok
  · intro a
    rcases hmem a with h1 | ⟨_, _, _, h1⟩ <;> rw [h1]
  · intro a
    rcases hmem a with h1 | ⟨_, _, _, h1⟩ <;> rw [h1]
  · intro a ha hv
    rcases hmem a with h1 | ⟨h0, _⟩
    · rw [h1] at hv
      exact Or.inl hv
    · omega
  · intro a hv
    rcases hmem a with h1 | ⟨_, _, _, h1⟩
    · rw [h1]; exact hv
    · rw [h1]

/-- The function `move_card` keeps the invariant, provided that a cursor on an empty tableau
slot is in row 0. -/
theorem board_ok_move_card (fuel : Nat) (g : Game) (b : Bool) (g' : Game) (hok : board_ok g)
    (hdst : g.selected.location = TABLEAU → in_tab g.selected.column g.selected.row →
      (g.mem (cell g.selected.column g.selected.row)).rank = NO_RANK → g.selected.row = 0)
    (h : move_card fuel g = some (b, g')) : board_ok g' := by
  cases b
  · exact board_ok_visrel g g' hok (move_card_false_visrel fuel g g' h)
  have hsa := (move_card_true_facts fuel g g' h).1
  have hma := (move_card_true_facts fuel g g' h).2.1
  rw [move_card_touch fuel g hsa hma] at h
  have hok2 := board_ok_touch g.moving g hok
  have ht : touch (touch g.moving g).moving (touch g.moving g) = touch g.moving g := by
    rw [touch_moving]
    exact touch_idem _ _
  have hdst2 : (touch g.moving g).selected.location = TABLEAU →
      in_tab (touch g.moving g).selected.column (touch g.moving g).selected.row →
      ((touch g.moving g).mem (cell (touch g.moving g).selected.column
        (touch g.moving g).selected.row)).rank = NO_RANK →
      (touch g.moving g).selected.row = 0 := by
    simp only [touch_selected, touch_rank]
    exact hdst
  generalize touch g.moving g = k at h hok2 ht hdst2
  clear hsa hma hdst hok g
  obtain ⟨hsa, hma, ⟨src, hsrc⟩, hloc⟩ := move_card_true_facts fuel k g' h
  rcases hloc with ⟨hsl, hin⟩ | ⟨hsl, hin⟩
  · obtain ⟨hc0, hc7, hr0, hr64⟩ := hin
    obtain ⟨dc, hdc⟩ : ∃ c : Nat, k.selected.column = (c : Int) :=
      ⟨k.selected.column.toNat, by omega⟩
    obtain ⟨dr, hdr⟩ : ∃ r : Nat, k.selected.row = (r : Int) := ⟨k.selected.row.toNat, by omega⟩
    have hcell : cell k.selected.column k.selected.row = tab dc dr := cell_eq _ _ _ _ hdc hdr
    by_cases hocc : (k.mem (cell k.selected.column k.selected.row)).rank = NO_RANK
    · have hrow0 := hdst2 hsl ⟨hc0, hc7, hr0, hr64⟩ hocc
      rw [move_card_on_empty fuel k src hsa hma ht hsl hsrc ⟨hc0, hc7, hr0, hr64⟩ hocc] at h
      split at h
      swap
      · simp at h
      rename_i hg
      rw [hcell] at h hocc
      exact board_ok_move_tableau fuel k g' src k.selected dc dr hok2 ht hma hsrc hg.2 hsa hsl
        hdc hdr (by omega) (by omega) hocc (Or.inl (by omega)) h
    · rw [move_card_on_card fuel k src hsa hma ht hsl hsrc ⟨hc0, hc7, hr0, hr64⟩ hocc] at h
      split at h
      swap
      · simp at h
      rename_i hg
      obtain ⟨⟨⟨_, _, _, hg1⟩, hg2⟩, hg3, hg4⟩ := hg
      have hcell2 : cell k.selected.column (k.selected.row + 1) = tab dc (dr + 1) :=
        cell_eq _ _ _ _ hdc (by omega)
      rw [hcell2] at h hg2
      rw [hcell] at hocc hg3
      exact board_ok_move_tableau fuel k g' src { k.selected with row := k.selected.row + 1 }
        dc (dr + 1) hok2 ht hma hsrc hg4 hsa hsl hdc (by simp only; omega) (by omega) (by omega)
        hg2 (Or.inr ⟨by omega, by simpa using hocc, by simpa using hg3⟩) h
  · rw [move_card_on_foundation fuel k src hsa hma ht hsl hsrc hin] at h
    split at h
    swap
    · simp at h
    rename_i hg
    exact board_ok_move_foundation fuel k g' src k.selected.column.toNat k.selected hok2 hma hsrc
      (by omega) hg.1 h

/-! ## The cards after a draw and after recycling the waste -/

theorem pile_empty_from (g : Game) (base : Nat) (h : pile_contiguous g base) (i : Nat)
    (hi : pile_len g base ≤ i) (h64 : i < 64) : (g.mem (base + i)).rank = NO_RANK :=
  pile_contiguous_empty_from g base h (pile_len g base) (pile_len_empty g base (by omega)) i hi h64

/-- A pile without its top card is contiguous. -/
theorem pile_contiguous_pop (g h : Game) (base : Nat) (hok : pile_contiguous g base)
    (hL : pile_len g base ≠ 0)
    (hr : ∀ i, i < 64 → (h.mem (base + i)).rank =
      if i = pile_len g base - 1 then NO_RANK else (g.mem (base + i)).rank) :
    pile_contiguous h base := by
  have hle := pile_len_le g base
  intro i hi h0
  rw [show base + i + 1 = base + (i + 1) by omega, hr (i + 1) (by omega)]
  rw [hr i (by omega)] at h0
  by_cases e1 : i + 1 = pile_len g base - 1
  · rw [if_pos e1]
  · rw [if_neg e1]
    by_cases e2 : i = pile_len g base - 1
    · have := pile_len_empty g base (by omega)
      rw [show base + (i + 1) = base + pile_len g base by omega]
      exact this
    · rw [if_neg e2] at h0
      exact hok i hi h0

/-- A pile with a card put on its first empty slot is contiguous. -/
theorem pile_contiguous_push (g h : Game) (base : Nat) (hok : pile_contiguous g base)
    (hL : pile_len g base < 64)
    (hocc : (h.mem (base + pile_len g base)).rank ≠ NO_RANK)
    (hr : ∀ i, i < 64 → i ≠ pile_len g base →
      (h.mem (base + i)).rank = (g.mem (base + i)).rank) :
    pile_contiguous h base := by
  intro i hi h0
  by_cases e1 : i = pile_len g base
  · rw [e1] at h0
    exact absurd h0 hocc
  · rw [hr i (by omega) e1] at h0
    by_cases e2 : i + 1 = pile_len g base
    · exact absurd h0 (pile_len_occupied g base i (by omega))
    · rw [show base + i + 1 = base + (i + 1) by omega, hr (i + 1) (by omega) e2]
      exact hok i hi h0

/-- The cards after the stock top was drawn onto the first empty waste slot. -/
theorem cards_ok_draw_card (g : Game) (hok : cards_ok g) (hL : pile_len g STOCK_BASE ≠ 0)
    (hw : pile_len g WASTE_BASE < 64) :
    cards_ok (draw_card (STOCK_BASE + (pile_len g STOCK_BASE - 1)) (pile_len g WASTE_BASE) g) := by
  have hF : FOUNDATION_BASE = 448 := rfl
  have hW : WASTE_BASE = 452 := rfl
  have hS : STOCK_BASE = 516 := rfl
  have hG : GAME_CELLS = 580 := rfl
  have hle := pile_len_le g STOCK_BASE
  have hmem := fun a => draw_card_mem (STOCK_BASE + (pile_len g STOCK_BASE - 1))
    (pile_len g WASTE_BASE) g a (by omega) (by
      intro h
      exact pile_empty_from g WASTE_BASE hok.waste _ (by omega) (by omega))
  have hother : ∀ a, a ≠ STOCK_BASE + (pile_len g STOCK_BASE - 1) →
      a ≠ WASTE_BASE + pile_len g WASTE_BASE →
      (draw_card (STOCK_BASE + (pile_len g STOCK_BASE - 1)) (pile_len g WASTE_BASE) g).mem a
        = g.mem a := by
    intro a h1 h2
    rw [hmem a, if_neg h1, if_neg h2]
  have htop := hmem (STOCK_BASE + (pile_len g STOCK_BASE - 1))
  rw [if_pos rfl] at htop
  have hnew := hmem (WASTE_BASE + pile_len g WASTE_BASE)
  rw [if_neg (by omega), if_pos rfl] at hnew
  have hwe := pile_len_empty g WASTE_BASE hw
  refine ⟨?_, ?_, ?_, ?_, ?_, ?_, ?_⟩
  · intro s k hk
    rw [← hok.deck s k hk]
    apply card_count_two g _ s k (STOCK_BASE + (pile_len g STOCK_BASE - 1))
      (WASTE_BASE + pile_len g WASTE_BASE) (by omega) (by omega) (by omega)
    · intro a _ h1 h2
      rw [cell_holds_congr g _ a s k (by rw [hother a h1 h2]) (by rw [hother a h1 h2])]
    · simp only [cell_holds_other _ _ _ _ (show ¬ (FOUNDATION_BASE ≤ STOCK_BASE +
          (pile_len g STOCK_BASE - 1) ∧ STOCK_BASE + (pile_len g STOCK_BASE - 1) < WASTE_BASE)
          by omega),
        cell_holds_other _ _ _ _ (show ¬ (FOUNDATION_BASE ≤ WASTE_BASE + pile_len g WASTE_BASE ∧
          WASTE_BASE + pile_len g WASTE_BASE < WASTE_BASE) by omega), htop, hnew, hwe]
      simp only [NO_RANK]
      have e1 : ¬ ((g.mem (STOCK_BASE + (pile_len g STOCK_BASE - 1))).suite = s ∧ 0 = k) := by
        omega
      have e2 : ¬ ((g.mem (WASTE_BASE + pile_len g WASTE_BASE)).suite = s ∧ 0 = k) := by omega
      rw [if_neg e1, if_neg e2]
      omega
  · intro c hc
    apply run_ok_same _ _ (hok.columns c hc)
    · intro r hr
      rw [hother _ (by simp only [tab]; omega) (by simp only [tab]; omega)]
    · intro r hr
      rw [hother _ (by simp only [tab]; omega) (by simp only [tab]; omega)]
    · intro r hr
      rw [hother _ (by simp only [tab]; omega) (by simp only [tab]; omega)]
  · apply pile_contiguous_push g _ _ hok.waste hw
    · rw [hnew]
      exact pile_len_occupied g STOCK_BASE _ (by omega)
    · intro i hi hne
      rw [hother _ (by omega) (by omega)]
  · apply pile_contiguous_pop g _ _ hok.stock hL
    intro i hi
    by_cases e : i = pile_len g STOCK_BASE - 1
    · rw [if_pos e, e, htop]
    · rw [if_neg e, hother _ (by omega) (by omega)]
  · intro c hc r h1 h2
    rw [hother _ (by simp only [tab]; omega) (by simp only [tab]; omega)]
    exact hok.dealt_up c hc r h1 h2
  · intro i hi
    rw [hother _ (by omega) (by omega)]
    exact hok.foundations i hi
  · intro i hi
    by_cases e : i = pile_len g WASTE_BASE
    · intro _
      rw [e, hnew]
    · rw [hother _ (by omega) (by omega)]
      exact hok.waste_up i hi

/-- The cards after the waste was recycled onto the empty stock. -/
theorem cards_ok_recycle (g : Game) (hok : cards_ok g) (hs : pile_len g STOCK_BASE = 0) :
    cards_ok (recycle_loop 65 0 g) := by
  have hF : FOUNDATION_BASE = 448 := rfl
  have hW : WASTE_BASE = 452 := rfl
  have hS : STOCK_BASE = 516 := rfl
  have hG : GAME_CELLS = 580 := rfl
  have hle := pile_len_le g WASTE_BASE
  obtain ⟨_, hmem⟩ := recycle_loop_mem 65 0 g (by omega)
  generalize recycle_loop 65 0 g = h at hmem ⊢
  generalize hLd : pile_len g WASTE_BASE = L at hmem hle
  have hse : ∀ i, i < 64 → (g.mem (STOCK_BASE + i)).rank = NO_RANK :=
    fun i hi => pile_empty_from g STOCK_BASE hok.stock i (by omega) hi
  have hwe : ∀ i, L ≤ i → i < 64 → (g.mem (WASTE_BASE + i)).rank = NO_RANK :=
    fun i h1 hi => pile_empty_from g WASTE_BASE hok.waste i (by omega) hi
  have hwo : ∀ i, i < L → (g.mem (WASTE_BASE + i)).rank ≠ NO_RANK :=
    fun i hi => pile_len_occupied g WASTE_BASE i (by omega)
  have hother : ∀ a, a < WASTE_BASE → h.mem a = g.mem a := by
    intro a ha
    rw [hmem a, if_neg (by omega), if_neg (by omega)]
  refine ⟨?_, ?_, ?_, ?_, ?_, ?_, ?_⟩
  · intro s k hk
    rw [← hok.deck s k hk]
    apply card_count_perm g h s k
      (fun a => if WASTE_BASE ≤ a ∧ a < WASTE_BASE + L then STOCK_BASE + (L - 1 - (a - WASTE_BASE))
        else if STOCK_BASE ≤ a ∧ a < STOCK_BASE + L then WASTE_BASE + (L - 1 - (a - STOCK_BASE))
        else a)
    · intro a ha
      split_ifs <;> omega
    · intro a ha
      split_ifs <;> omega
    · intro a ha
      by_cases c1 : WASTE_BASE ≤ a ∧ a < WASTE_BASE + L
      · rw [if_pos c1, cell_holds_other _ _ _ _ (by omega), cell_holds_other _ _ _ _ (by omega),
          hmem a, if_pos c1, hse _ (by omega)]
        simp only [NO_RANK]
        constructor
        · intro hx; omega
        · intro hx; omega
      · rw [if_neg c1]
        by_cases c2 : STOCK_BASE ≤ a ∧ a < STOCK_BASE + L
        · rw [if_pos c2, cell_holds_other _ _ _ _ (by omega), cell_holds_other _ _ _ _ (by omega),
            hmem a, if_neg c1, if_pos (by omega)]
        · rw [if_neg c2]
          apply cell_holds_congr
          · rw [hmem a, if_neg c1, if_neg (by omega)]
          · rw [hmem a, if_neg c1, if_neg (by omega)]
  · intro c hc
    apply run_ok_same _ _ (hok.columns c hc)
    · intro r hr
      rw [hother _ (by simp only [tab]; omega)]
    · intro r hr
      rw [hother _ (by simp only [tab]; omega)]
    · intro r hr
      rw [hother _ (by simp only [tab]; omega)]
  · intro i hi _
    rw [hmem]
    by_cases c1 : WASTE_BASE ≤ WASTE_BASE + i + 1 ∧ WASTE_BASE + i + 1 < WASTE_BASE + L
    · rw [if_pos c1]
    · rw [if_neg c1, if_neg (by omega)]
      exact hwe (i + 1) (by omega) (by omega)
  · intro i hi h0
    rw [hmem] at h0 ⊢
    rw [if_neg (by omega)] at h0 ⊢
    by_cases c1 : STOCK_BASE + 0 ≤ STOCK_BASE + i ∧ STOCK_BASE + i < STOCK_BASE + 0 + L
    · rw [if_pos c1] at h0
      exact absurd h0 (hwo _ (by omega))
    · rw [if_neg (by omega)]
      exact hse (i + 1) (by omega)
  · intro c hc r h1 h2
    rw [hother _ (by simp only [tab]; omega)]
    exact hok.dealt_up c hc r h1 h2
  · intro i hi
    rw [hother _ (by omega)]
    exact hok.foundations i hi
  · intro i hi hocc
    exfalso
    rw [hmem] at hocc
    by_cases c1 : WASTE_BASE ≤ WASTE_BASE + i ∧ WASTE_BASE + i < WASTE_BASE + L
    · rw [if_pos c1] at hocc
      exact hocc rfl
    · rw [if_neg c1, if_neg (by omega)] at hocc
      exact hocc (hwe i (by omega) hi)

/-! ## The invariant under Confirm -/

/-- The state after the lookup of the cursor and the tagging of the candidates. -/
theorem board_ok_tagged (g : Game) (T : List Nat) (hok : board_ok g) :
    board_ok (hl_state (clear_highlight (touch g.selected g)) T) := by
  have h1 := board_ok_touch g.selected g hok
  refine board_ok_congr _ _ (by simp) (by simp) (by simp) (by simp) ?_ ?_ h1
  · intro a _ hv
    left
    simpa using hv
  · intro a hv
    simpa using hv

theorem board_ok_confirm_stock (fuel : Nat) (g : Game) (b : Bool) (g' : Game) (hok : board_ok g)
    (hsa : g.selected.active = true) (hsl : g.selected.location = STOCK)
    (hma : g.moving.active = false)
    (h : handle_confirm fuel g = some (b, g')) : board_ok g' := by
  rw [handle_confirm_stock_eq fuel g hsa hsl hma] at h
  have hX : board_ok (mark_visible g STOCK_BASE (pile_len g STOCK_BASE)) := by
    have := board_ok_touch ⟨true, STOCK, 0, 0⟩ g hok
    simpa [touch] using this
  split at h
  · rename_i hp
    simp only [Option.some.injEq, Prod.mk.injEq] at h
    obtain ⟨_, rfl⟩ := h
    obtain ⟨⟨hs, hm⟩, _⟩ := recycle_loop_mem 65 0 g (by have := pile_len_le g WASTE_BASE; omega)
    refine ⟨cards_ok_recycle g hok.cards hp, ?_, ?_, ?_⟩
    · exact pos_visible_other _ _ (by rw [hs, hsl]; simp)
    · exact pos_visible_inactive _ _ (by rw [hm]; exact hma)
    · intro hx
      rw [hm, hma] at hx
      exact absurd hx (by simp)
  · rename_i hp
    simp only [Option.some.injEq, Prod.mk.injEq] at h
    obtain ⟨_, rfl⟩ := h
    have hlenS : pile_len (mark_visible g STOCK_BASE (pile_len g STOCK_BASE)) STOCK_BASE =
        pile_len g STOCK_BASE := pile_len_congr _ _ _ (fun _ _ => by simp)
    have hlenW : pile_len (mark_visible g STOCK_BASE (pile_len g STOCK_BASE)) WASTE_BASE =
        pile_len g WASTE_BASE := pile_len_congr _ _ _ (fun _ _ => by simp)
    have hk : cards_ok (draw_loop (STOCK_BASE + (pile_len g STOCK_BASE - 1)) 64 0
        (mark_visible g STOCK_BASE (pile_len g STOCK_BASE))) := by
      rw [draw_loop_full]
      split
      · rename_i hw
        have := cards_ok_draw_card (mark_visible g STOCK_BASE (pile_len g STOCK_BASE)) hX.cards
          (by rw [hlenS]; exact hp) hw
        rw [hlenS] at this
        exact this
      · exact hX.cards
    have hmv : (draw_loop (STOCK_BASE + (pile_len g STOCK_BASE - 1)) 64 0
        (mark_visible g STOCK_BASE (pile_len g STOCK_BASE))).moving.active = false := by
      rw [draw_loop_full]
      split
      · simp [hma]
      · simp [hma]
    refine ⟨cards_ok_mem (draw_loop (STOCK_BASE + (pile_len g STOCK_BASE - 1)) 64 0
      (mark_visible g STOCK_BASE (pile_len g STOCK_BASE))) _ rfl hk, ?_, ?_, ?_⟩
    · exact pos_visible_other _ _ (by simp)
    · exact pos_visible_inactive _ _ hmv
    · intro hx
      have : (draw_loop (STOCK_BASE + (pile_len g STOCK_BASE - 1)) 64 0
        (mark_visible g STOCK_BASE (pile_len g STOCK_BASE))).moving.active = true := hx
      rw [hmv] at this
      exact absurd this (by simp)

/-- The state on which the auto-move runs `move_card`: the single candidate is a tableau
cell, the cursor has been put on it. -/
theorem board_ok_auto (g : Game) (c a : Nat) (hok : board_ok g)
    (hsa : g.selected.active = true) (hns : g.selected.location ≠ STOCK)
    (ha : a ∈ stack_targets (touch g.selected g) c (g.selected.location == TABLEAU))
    (hlt : a < FOUNDATION_BASE) :
    board_ok { hl_state (clear_highlight (touch g.selected g)) [a] with
      moving := { g.selected with active := true },
      selected := { active := true, location := TABLEAU, column := ((a / 64 : Nat) : Int),
                    row := ((a % 64 : Nat) : Int) } } ∧
    ((g.mem a).rank = NO_RANK → a % 64 = 0) := by
  have hF : FOUNDATION_BASE = 448 := rfl
  rw [mem_stack_targets] at ha
  have hcol : ∃ c0, c0 < 7 ∧ column_target (touch g.selected g) c c0 = some a := by
    rcases ha with h1 | ⟨_, i, _, h2, _⟩
    · exact h1
    · omega
  obtain ⟨c0, hc0, hct⟩ := hcol
  rw [column_target_iff] at hct
  obtain ⟨hL, hct⟩ := hct
  have hfact : True ∧
      ((g.mem a).rank = NO_RANK → a % 64 = 0) ∧
      ((g.mem a).rank ≠ NO_RANK → ((touch g.selected g).mem a).visible = true) := by
    rcases hct with ⟨h1, h2, h3, _⟩ | ⟨h1, h2, _⟩
    · refine ⟨trivial, ?_, fun _ => h3⟩
      intro h0
      exfalso
      have := pile_len_occupied (touch g.selected g) (tab c0 0)
        (pile_len (touch g.selected g) (tab c0 0) - 1) (by omega)
      rw [tab_zero_add, ← h2, touch_rank] at this
      exact this h0
    · refine ⟨trivial, ?_, ?_⟩
      · intro _
        rw [h2]
        simp only [tab]
        omega
      · intro hne
        exfalso
        have := pile_len_empty (touch g.selected g) (tab c0 0) (by omega)
        rw [h1, Nat.add_zero, ← h2, touch_rank] at this
        exact hne this
  refine ⟨?_, hfact.2.1⟩
  have h1 := board_ok_tagged g [a] hok
  have h2 := board_ok_moving _ { g.selected with active := true } h1 (by
    intro hl b hb
    have hb2 : card_ptr g.selected g false = some b := by
      rw [← hb]
      have e : ({ g.selected with active := true } : CardPos) = g.selected := by
        cases hs : g.selected
        rw [hs] at hsa
        simp only at hsa
        subst hsa
        rfl
      rw [e]
      exact (card_ptr_congr _ _ _ _ (fun _ => by simp)).symm
    have := hok.cursor hl b hb2
    simp only [hl_state_visible, clear_highlight_visible, touch_visible, this, Bool.true_or])
    (fun _ => hns)
  refine board_ok_selected _ _ h2 ?_
  intro _ b hb
  rw [card_ptr_mk_tab] at hb
  split at hb
  swap
  · simp at hb
  split at hb
  · simp at hb
  rename_i hrk
  simp only [Option.some.injEq] at hb
  have hcell : cell ((a / 64 : Nat) : Int) ((a % 64 : Nat) : Int) = a := by
    rw [cell_eq _ _ (a / 64) (a % 64) rfl rfl]
    simp only [tab]
    omega
  rw [hcell] at hb hrk
  subst hb
  simp only [false_and, not_false_eq_true, true_and, hl_state_rank, clear_highlight_rank,
    touch_rank] at hrk
  have := hfact.2.2 (by simpa using hrk)
  simpa using this

/-- The function `handle_confirm` keeps the invariant. -/
theorem board_ok_confirm (fuel : Nat) (g : Game) (b : Bool) (g' : Game) (hok : board_ok g)
    (h : handle_confirm fuel g = some (b, g')) : board_ok g' := by
  have hF : FOUNDATION_BASE = 448 := rfl
  by_cases hsa : g.selected.active = true
  swap
  · unfold handle_confirm at h
    rw [if_neg hsa] at h
    cases h
    exact hok
  by_cases hsl : g.selected.location = STOCK
  · by_cases hma : g.moving.active = true
    · unfold handle_confirm at h
      rw [if_pos hsa, if_pos hsl, if_pos hma] at h
      cases h
      exact hok
    · exact board_ok_confirm_stock fuel g b g' hok hsa hsl (by simpa using hma) h
  cases hcp : card_ptr g.selected g false with
  | none =>
    unfold handle_confirm at h
    simp only [hsa, hsl, if_true, if_false, get_card_eq, hcp] at h
    cases h
    exact board_ok_touch _ _ hok
  | some c =>
    by_cases hma : g.moving.active = true
    · unfold handle_confirm at h
      have hma2 : (touch g.selected g).moving.active = true := by rw [touch_moving]; exact hma
      simp only [hsa, hsl, if_true, if_false, get_card_eq, hcp, hma2] at h
      split at h
      · cases h
        exact board_ok_drop _ (board_ok_touch _ _ hok)
      · split at h
        · refine board_ok_move_card fuel _ b g' (board_ok_touch _ _ hok) ?_ h
          simp only [touch_selected, touch_rank]
          intro hl hin h0
          exfalso
          rw [card_ptr_tab _ _ _ hsa hl, if_pos hin] at hcp
          simp [h0] at hcp
        · cases h
          exact board_ok_touch _ _ hok
    · have hma' : g.moving.active = false := by simpa using hma
      have hpick : board_ok
          { hl_state (clear_highlight (touch g.selected g))
              (stack_targets (touch g.selected g) c (g.selected.location == TABLEAU)) with
            moving := { g.selected with active := true } } := by
        refine board_ok_moving _ _ (board_ok_tagged g _ hok) ?_ (fun _ => hsl)
        intro hl a ha
        have ha2 : card_ptr g.selected g false = some a := by
          rw [← ha]
          have e : ({ g.selected with active := true } : CardPos) = g.selected := by
            cases hs : g.selected
            rw [hs] at hsa
            simp only at hsa
            subst hsa
            rfl
          rw [e]
          exact (card_ptr_congr _ _ _ _ (fun _ => by simp)).symm
        have := hok.cursor hl a ha2
        simp only [hl_state_visible, clear_highlight_visible, touch_visible, this, Bool.true_or]
      by_cases hlen : (stack_targets (touch g.selected g) c
          (g.selected.location == TABLEAU)).length = 1
      · obtain ⟨a, hT⟩ := List.length_eq_one.1 hlen
        have hmem : a ∈ stack_targets (touch g.selected g) c (g.selected.location == TABLEAU) := by
          rw [hT]; exact List.mem_singleton_self a
        obtain ⟨s1, s2⟩ := handle_confirm_single fuel g c a hsa hsl hma' hcp hT
        by_cases hlt : a < FOUNDATION_BASE
        · rw [s1 hlt] at h
          obtain ⟨k1, k2⟩ := board_ok_auto g c a hok hsa hsl hmem hlt
          refine board_ok_move_card fuel _ b g' k1 ?_ h
          intro _ _ h0
          have hcell : cell ((a / 64 : Nat) : Int) ((a % 64 : Nat) : Int) = a := by
            rw [cell_eq _ _ (a / 64) (a % 64) rfl rfl]
            simp only [tab]
            omega
          have h0' : ((hl_state (clear_highlight (touch g.selected g)) [a]).mem
              (cell ((a / 64 : Nat) : Int) ((a % 64 : Nat) : Int))).rank = NO_RANK := h0
          rw [hcell] at h0'
          have := k2 (by simpa using h0')
          show ((a % 64 : Nat) : Int) = 0
          omega
        · rw [s2 (by omega)] at h
          cases h
          rw [← hT]
          exact hpick
      · rw [handle_confirm_pickup fuel g c hsa hsl hma' hcp, if_neg hlen] at h
        split at h
        · cases h
          exact board_ok_tagged g _ hok
        · cases h
          exact hpick

/-- The function `handle_action` keeps the invariant. -/
theorem board_ok_handle_action (fuel : Nat) (d : Action) (g : Game) (b : Bool) (g' : Game)
    (hok : board_ok g) (h : handle_action fuel d g = some (b, g')) : board_ok g' := by
  by_cases hd : d = CONFIRM
  · subst hd
    rw [handle_action_confirm] at h
    exact board_ok_confirm fuel _ b g' (board_ok_update_visible g hok) h
  · exact board_ok_handle_nav fuel d g b g' hd hok h

/-- Every reachable state satisfies the invariant. -/
theorem reachable_board_ok (g : Game) (h : Reachable g) : board_ok g := by
  induction h with
  | reset fuel rand g0 g h => exact board_ok_reset fuel rand g0 g h
  | action fuel a g b g' _ h ih => exact board_ok_handle_action fuel a g b g' ih h
  | display g _ ih => exact board_ok_update_display g ih

theorem playing_reachable (g : Game) (h : Playing g) : Reachable g := by
  induction h with
  | reset fuel rand g0 g h => exact Reachable.reset fuel rand g0 g h
  | step fuel a g b g' _ h ih =>
    exact Reachable.display _ (Reachable.action fuel a g b g' ih h)

/-! ## Reachable states: concrete games and consequences of the invariant -/

theorem getD_of_isSome {α : Type} (o : Option α) (d : α) (h : o.isSome = true) :
    o = some (o.getD d) := by
  cases o with
  | none => simp at h
  | some x => rfl

theorem start_game_eq : reset_game 1 (fun i => i) ex_zero = some start_game :=
  getD_of_isSome _ _ (by decide!)

theorem start_playing : Playing start_game :=
  Playing.reset 1 (fun i => i) ex_zero start_game start_game_eq

theorem start_reachable : Reachable start_game := playing_reachable _ start_playing

theorem playing_step (fuel : Nat) (a : Action) (g g' : Game) (h : Playing g)
    (hs : step fuel a g = some g') : Playing g' := by
  unfold step at hs
  cases hh : handle_action fuel a g with
  | none => rw [hh] at hs; simp at hs
  | some r =>
    rw [hh] at hs
    simp only [Option.map_some', Option.some.injEq] at hs
    subst hs
    exact Playing.step fuel a g r.1 r.2 h hh

theorem playing_play (fuel : Nat) (l : List Action) : ∀ (g g' : Game), Playing g →
    play fuel l g = some g' → Playing g' := by
  induction l with
  | nil =>
    intro g g' h hp
    simp only [play, Option.some.injEq] at hp
    subst hp
    exact h
  | cons a l ih =>
    intro g g' h hp
    simp only [play] at hp
    cases hs : step fuel a g with
    | none => rw [hs] at hp; simp at hp
    | some g1 =>
      rw [hs] at hp
      simp only [Option.some_bind] at hp
      exact ih g1 g' (playing_step fuel a g g1 h hs) hp

theorem playing_after (l : List Action) (g : Game) (h : Playing g) : Playing (after l g) := by
  unfold after
  cases hp : play 2 l g with
  | none => exact h
  | some g' => exact playing_play 2 l g g' h hp

/-- No card of the board has a rank above King. -/
theorem rank_le_king (g : Game) (hd : full_deck g) (a : Nat) (ha : a < GAME_CELLS) :
    (g.mem a).rank ≤ KING := by
  by_contra hx
  have hgt : 13 < (g.mem a).rank := by simp only [KING] at hx; omega
  have hh : cell_holds g a (g.mem a).suite (g.mem a).rank := by
    unfold cell_holds
    split
    · exact ⟨rfl, le_refl _⟩
    · exact ⟨rfl, rfl⟩
  have h1 := card_count_pos g _ _ a ha hh
  rw [hd _ _ (by omega), if_neg (by omega)] at h1
  omega

/-- No tableau column holds more than 19 cards. -/
theorem column_le_19 (g : Game) (hok : cards_ok g) (c : Nat) (hc : c < 7) (r : Nat)
    (h19 : 19 ≤ r) (hr : r < 64) : (g.mem (tab c r)).rank = NO_RANK := by
  have hG : GAME_CELLS = 580 := rfl
  by_contra hocc
  have hrun := hok.columns c hc
  have hoc : (g.mem (tab c c)).rank ≠ NO_RANK :=
    run_ok_occupied_below _ hrun r hr hocc c (by omega)
  have hv := hok.dealt_up c hc c (le_refl _) (by omega) hoc
  have := run_ok_descend _ hrun c hv (r - c) (by omega)
      (by rw [show c + (r - c) = r by omega]; exact hocc)
  rw [show c + (r - c) = r by omega] at this
  have h13 := rank_le_king g hok.deck (tab c c) (by simp only [tab]; omega)
  have h2 : (g.mem (tab c r)).rank + (r - c) = (g.mem (tab c c)).rank := this.2
  simp only [KING] at h13
  simp only [NO_RANK] at hocc
  omega

theorem playing_of_chain (fuel0 : Nat) (rand : Nat → Nat) (g0 : Game) (fuel : Nat)
    (l : List Action) (g : Game)
    (h : (reset_game fuel0 rand g0).bind (play fuel l) = some g) : Playing g := by
  cases h0 : reset_game fuel0 rand g0 with
  | none => rw [h0] at h; simp at h
  | some g1 =>
    rw [h0] at h
    exact playing_play fuel l g1 g (Playing.reset fuel0 rand g0 g1 h0) h

/-- A state at the top of the main loop is a result of `update_display`. -/
theorem playing_display (g : Game) (h : Playing g) : ∃ x, g = update_display x := by
  cases h with
  | reset fuel rand g0 g h =>
    rw [reset_game_eq] at h
    simp only [Option.map_eq_some'] at h
    obtain ⟨g1, _, rfl⟩ := h
    exact ⟨_, rfl⟩
  | step fuel a g b g' _ h => exact ⟨_, rfl⟩

theorem playing_steady (g : Game) (h : Playing g) : update_display g = g := by
  obtain ⟨x, rfl⟩ := playing_display g h
  exact update_display_idem x


/-! ## Rejected actions -/

/-- In a state that the display update leaves alone, the flip pass changes nothing. -/
theorem update_visible_steady (g : Game) (h : update_display g = g) : update_visible g = g := by
  apply game_ext
  · intro a
    rw [update_visible_mem]
    split
    · rename_i hf
      have hv : (g.mem a).visible = true := by
        have := update_display_visible g a
        rw [h] at this
        rw [this]
        unfold display_visible
        simp [hf]
      cases hc : g.mem a
      rw [hc] at hv
      simp only at hv
      subst hv
      rfl
    · rfl
  · simp
  · simp

theorem handle_action_left_edge (fuel : Nat) (g : Game) (ha : g.selected.active = true)
    (hl : g.selected.location = TABLEAU) (hc : g.selected.column ≤ 0) :
    handle_action fuel LEFT g = some (true, update_visible g) := by
  unfold handle_action
  simp only [update_visible_selected, ha, hl, Bool.not_true, Bool.false_eq_true, if_false]
  unfold handle_tableau
  simp only [update_visible_selected]
  rw [if_neg (by omega)]

/-- A rejected `handle_confirm` leaves the rank and the suite of every cell. -/
theorem handle_confirm_false_cards (fuel : Nat) (g g' : Game)
    (h : handle_confirm fuel g = some (false, g')) :
    ∀ x, (g'.mem x).rank = (g.mem x).rank ∧ (g'.mem x).suite = (g.mem x).suite := by
  have hvr : ∀ k k' : Game, VisRel k k' →
      ∀ x, (k'.mem x).rank = (k.mem x).rank ∧ (k'.mem x).suite = (k.mem x).suite := by
    intro k k' hv x
    rcases hv.2.2 x with h1 | ⟨_, _, _, h1⟩ <;> rw [h1] <;> exact ⟨rfl, rfl⟩
  by_cases hsa : g.selected.active = true
  swap
  · unfold handle_confirm at h
    rw [if_neg hsa] at h
    cases h
    exact fun _ => ⟨rfl, rfl⟩
  by_cases hsl : g.selected.location = STOCK
  · by_cases hma : g.moving.active = true
    · unfold handle_confirm at h
      rw [if_pos hsa, if_pos hsl, if_pos hma] at h
      cases h
      exact fun _ => ⟨rfl, rfl⟩
    · rw [handle_confirm_stock_eq fuel g hsa hsl (by simpa using hma)] at h
      split at h <;> simp at h
  cases hcp : card_ptr g.selected g false with
  | none =>
    unfold handle_confirm at h
    simp only [hsa, hsl, if_true, if_false, get_card_eq, hcp] at h
    cases h
    exact fun _ => ⟨by simp, by simp⟩
  | some c =>
    by_cases hma : g.moving.active = true
    · unfold handle_confirm at h
      have hma2 : (touch g.selected g).moving.active = true := by rw [touch_moving]; exact hma
      simp only [hsa, hsl, if_true, if_false, get_card_eq, hcp, hma2] at h
      split at h
      · simp at h
      · split at h
        · intro x
          have := hvr _ _ (move_card_false_visrel fuel _ g' h) x
          simpa using this
        · cases h
          exact fun _ => ⟨by simp, by simp⟩
    · have hma' : g.moving.active = false := by simpa using hma
      rw [handle_confirm_pickup fuel g c hsa hsl hma' hcp] at h
      split at h
      · cases h
        exact fun _ => ⟨by simp, by simp⟩
      · split at h
        · split at h
          · intro x
            have := hvr _ _ (move_card_false_visrel fuel _ g' h) x
            simpa using this
          · cases h
            exact fun _ => ⟨by simp, by simp⟩
        · cases h
          exact fun _ => ⟨by simp, by simp⟩

theorem map_true_ne_false {α : Type} (o : Option α) (x : α)
    (h : o.map (fun g => (true, g)) = some (false, x)) : False := by
  cases o with
  | none => simp at h
  | some y => simp at h

theorem handle_tableau_false (fuel : Nat) (d : Action) (g g' : Game)
    (hl : g.selected.location = TABLEAU)
    (h : handle_tableau fuel d g = some (false, g')) : g' = g := by
  unfold handle_tableau at h
  have ht : ∀ r, touch { g.selected with row := r } g = g := fun r => touch_tableau _ _ hl
  cases d
  case UP =>
    simp only [get_card_eq, ht] at h
    split at h
    · exact (map_true_ne_false _ _ h).elim
    · simp at h
  case RIGHT =>
    dsimp only at h
    split at h
    · simp at h
    · exact (map_true_ne_false _ _ h).elim
  case DOWN =>
    simp only [get_card_eq, ht] at h
    split at h
    · split at h
      · simp at h
      · simp only [Option.some.injEq, Prod.mk.injEq, true_and] at h
        exact h.symm
    · simp only [Option.some.injEq, Prod.mk.injEq, true_and] at h
      exact h.symm
  case LEFT =>
    dsimp only at h
    split at h
    · exact (map_true_ne_false _ _ h).elim
    · simp at h
  all_goals
    simp only [Option.some.injEq, Prod.mk.injEq, true_and] at h
    exact h.symm

theorem handle_foundation_false (fuel : Nat) (d : Action) (g g' : Game)
    (h : handle_foundation fuel d g = some (false, g')) :
    g' = { g with selected := { g.selected with row := 0 } } := by
  unfold handle_foundation at h
  cases d
  case RIGHT =>
    dsimp only at h
    split at h
    · split at h <;> simp at h
    · simp at h
  case DOWN => exact (map_true_ne_false _ _ h).elim
  case LEFT =>
    dsimp only at h
    split at h
    · simp only [Option.some.injEq, Prod.mk.injEq, true_and] at h
      exact h.symm
    · simp at h
  all_goals
    simp only [Option.some.injEq, Prod.mk.injEq, true_and] at h
    exact h.symm

theorem handle_waste_stock_false (fuel : Nat) (d : Action) (g g' : Game)
    (h : handle_waste_stock fuel d g = some (false, g')) :
    g' = { g with selected := { g.selected with row := 0 } } := by
  unfold handle_waste_stock at h
  cases d
  case RIGHT =>
    dsimp only at h
    split at h
    · simp at h
    · simp only [Option.some.injEq, Prod.mk.injEq, true_and] at h
      exact h.symm
  case DOWN => exact (map_true_ne_false _ _ h).elim
  case LEFT =>
    dsimp only at h
    split at h <;> simp at h
  all_goals
    simp only [Option.some.injEq, Prod.mk.injEq, true_and] at h
    exact h.symm

/-- A rejected action other than Confirm leaves the cards as the flip pass leaves them and
the held position, and the cursor except for its row, set to 0 off the tableau. -/
theorem handle_action_false_nav (fuel : Nat) (d : Action) (g g' : Game) (hd : d ≠ CONFIRM)
    (h : handle_action fuel d g = some (false, g')) :
    g'.mem = (update_visible g).mem ∧ g'.moving = g.moving ∧
    (g'.selected = g.selected ∨
      (g.selected.location ≠ TABLEAU ∧ g'.selected = { g.selected with row := 0 })) := by
  unfold handle_action at h
  cases d
  case CONFIRM => exact absurd rfl hd
  case CANCEL =>
    dsimp only at h
    split at h
    · simp at h
    · simp only [Option.some.injEq, Prod.mk.injEq, true_and] at h
      subst h
      exact ⟨rfl, by simp, Or.inl (by simp)⟩
  case NO_ACTION =>
    simp only [Option.some.injEq, Prod.mk.injEq, true_and] at h
    subst h
    exact ⟨rfl, by simp, Or.inl (by simp)⟩
  case QUIT =>
    simp only [Option.some.injEq, Prod.mk.injEq, true_and] at h
    subst h
    exact ⟨rfl, by simp, Or.inl (by simp)⟩
  all_goals
    dsimp only at h
    split at h
    · simp only [Option.some.injEq, Prod.mk.injEq, true_and] at h
      subst h
      exact ⟨rfl, by simp, Or.inl (by simp)⟩
    · split at h
      · rename_i hl
        rw [handle_tableau_false fuel _ _ g' hl h]
        exact ⟨rfl, by simp, Or.inl (by simp)⟩
      · rename_i hl
        rw [handle_foundation_false fuel _ _ g' h]
        rw [update_visible_selected] at hl
        exact ⟨rfl, by simp, Or.inr ⟨by rw [hl]; simp, by simp⟩⟩
      · rename_i hl
        rw [handle_waste_stock_false fuel _ _ g' h]
        rw [update_visible_selected] at hl
        exact ⟨rfl, by simp, Or.inr ⟨by rw [hl]; simp, by simp⟩⟩
      · rename_i hl
        rw [handle_waste_stock_false fuel _ _ g' h]
        rw [update_visible_selected] at hl
        exact ⟨rfl, by simp, Or.inr ⟨by rw [hl]; simp, by simp⟩⟩

/-! ## Navigation on the waste and the stock -/

/-- The directional actions with the cursor on the waste or the stock. -/
theorem handle_action_waste_stock (fuel : Nat) (d : Action) (g : Game)
    (hd : d = UP ∨ d = RIGHT ∨ d = DOWN ∨ d = LEFT)
    (ha : g.selected.active = true)
    (hl : g.selected.location = WASTE ∨ g.selected.location = STOCK) :
    handle_action fuel d g = handle_waste_stock fuel d (update_visible g) := by
  unfold handle_action
  rcases hl with hl | hl <;> rcases hd with rfl | rfl | rfl | rfl <;>
    simp only [update_visible_selected, ha, hl, Bool.not_true, Bool.false_eq_true, if_false]

/-- Cursor snapping does not return in a column of 64 face-down cards. -/
theorem fix_selected_loop_diverges (c : Nat) (hc : c < 7) : ∀ (fuel : Nat) (g : Game),
    g.selected.active = true → g.selected.location = TABLEAU → g.selected.column = (c : Int) →
    0 ≤ g.selected.row → g.selected.row ≤ 64 →
    (∀ r, r < 64 → (g.mem (tab c r)).rank ≠ NO_RANK ∧ (g.mem (tab c r)).visible = false) →
    fix_selected_loop fuel g = none := by
  intro fuel
  induction fuel with
  | zero => intro g _ _ _ _ _ _; unfold fix_selected_loop; rfl
  | succ n ih =>
    intro g ha hl hcol h0 h64 hcards
    unfold fix_selected_loop
    simp only [get_card_eq, touch_tableau _ _ hl]
    rw [card_ptr_tab _ _ _ ha hl]
    by_cases hr : g.selected.row < 64
    · obtain ⟨r, hr'⟩ : ∃ r : Nat, g.selected.row = (r : Int) := ⟨g.selected.row.toNat, by omega⟩
      have hcell : cell g.selected.column g.selected.row = tab c r := cell_eq _ _ _ _ hcol hr'
      rw [if_pos ⟨by omega, by omega, h0, hr⟩, hcell,
        if_neg (by simp [(hcards r (by omega)).1])]
      simp only [(hcards r (by omega)).2, Bool.not_false, if_true]
      exact ih _ ha hl hcol (by simp only; omega) (by simp only; omega) hcards
    · rw [if_neg (by unfold in_tab; omega)]
      simp only
      rw [if_neg (by omega)]
      exact ih _ ha hl hcol (by simp only; omega) (by simp only; omega) hcards

/-! ## Moves from an empty foundation pile -/

/-- The function `move_card` rejects a held foundation pile of rank `NO_RANK` when the cursor
is on a tableau slot. -/
theorem move_card_empty_foundation (fuel : Nat) (g : Game) (src : Nat)
    (hsa : g.selected.active = true) (hma : g.moving.active = true)
    (hml : g.moving.location = FOUNDATION) (hsl : g.selected.location = TABLEAU)
    (hin : in_tab g.selected.column g.selected.row)
    (hsrc : card_ptr g.moving g false = some src) (h0 : (g.mem src).rank = NO_RANK) :
    move_card fuel g = some (false, g) := by
  have ht : touch g.moving g = g := touch_foundation _ _ hml
  have hamt : get_amount_stacked_cards g.moving g = 1 :=
    amount_other _ _ hma (by rw [hml]; simp)
  by_cases hocc : (g.mem (cell g.selected.column g.selected.row)).rank = NO_RANK
  · rw [move_card_on_empty fuel g src hsa hma ht hsl hsrc hin hocc]
    split
    · rw [hamt, move_card_tableau_from_foundation fuel g src _ _ 1 hma hml hsa hsl]
      rw [if_neg (fun hg => hg.2.2 h0)]
    · rfl
  · rw [move_card_on_card fuel g src hsa hma ht hsl hsrc hin hocc]
    split
    · rw [hamt, move_card_tableau_from_foundation fuel g src
        { g.selected with row := g.selected.row + 1 } _ 1 hma hml hsa hsl]
      rw [if_neg (fun hg => hg.2.2 h0)]
    · rfl

theorem find_highlighted_col_lt (g : Game) (c : Nat) : ∀ (n row r : Nat),
    find_highlighted_col g c n row = some r → row ≤ r ∧ r < row + n := by
  intro n
  induction n with
  | zero => intro row r h; unfold find_highlighted_col at h; cases h
  | succ n ih =>
    intro row r h
    unfold find_highlighted_col at h
    split at h
    · simp only [Option.some.injEq] at h
      omega
    · split at h
      · cases h
      · have := ih (row + 1) r h
        omega

theorem find_highlighted_lt (g : Game) : ∀ (n column c r : Nat),
    find_highlighted g n column = some (c, r) → column ≤ c ∧ c < column + n ∧ r < 64 := by
  intro n
  induction n with
  | zero => intro column c r h; unfold find_highlighted at h; cases h
  | succ n ih =>
    intro column c r h
    unfold find_highlighted at h
    split at h
    · rename_i row hrow
      simp only [Option.some.injEq, Prod.mk.injEq] at h
      have := find_highlighted_col_lt g column 64 0 row hrow
      omega
    · have := ih (column + 1) c r h
      omega

/-- Confirm with nothing held on an empty foundation pile returns false. -/
theorem handle_confirm_empty_foundation (fuel : Nat) (g : Game)
    (hsa : g.selected.active = true) (hsl : g.selected.location = FOUNDATION)
    (hma : g.moving.active = false)
    (hr : ∀ c, card_ptr g.selected g false = some c → (g.mem c).rank = NO_RANK) :
    ∃ g', handle_confirm fuel g = some (false, g') := by
  have hns : g.selected.location ≠ STOCK := by rw [hsl]; simp
  cases hcp : card_ptr g.selected g false with
  | none =>
    unfold handle_confirm
    simp only [hsa, hns, if_true, if_false, get_card_eq, hcp]
    exact ⟨_, rfl⟩
  | some c =>
    rw [handle_confirm_pickup fuel g c hsa hns hma hcp]
    split
    · exact ⟨_, rfl⟩
    · split
      · split
        · rename_i column row hf
          obtain ⟨_, h2, h3⟩ := find_highlighted_lt _ 7 0 column row hf
          have e : ({ g.selected with active := true } : CardPos) = g.selected := by
            cases hs' : g.selected
            rw [hs'] at hsa
            simp only at hsa
            subst hsa
            rfl
          refine ⟨_, move_card_empty_foundation fuel _ c rfl rfl hsl rfl
            ⟨by simp only; omega, by simp only; omega, by simp only; omega,
              by simp only; omega⟩ ?_ ?_⟩
          · show card_ptr { g.selected with active := true } _ false = some c
            rw [e, ← hcp]
            exact card_ptr_congr _ _ _ _ (fun _ => by simp)
          · have := hr c hcp
            simpa using this
        · exact ⟨_, rfl⟩
      · exact ⟨_, rfl⟩


/-! ## Cursor snapping and redrawing: exact results -/

theorem at_row_up (g : Game) (r : Nat) :
    { at_row g r with selected := { (at_row g r).selected with row := (at_row g r).selected.row + 1 } }
      = at_row g (r + 1) := by
  simp [at_row]

theorem at_row_down (g : Game) (r : Nat) (h : 0 < r) :
    { at_row g r with selected := { (at_row g r).selected with row := (at_row g r).selected.row - 1 } }
      = at_row g (r - 1) := by
  obtain ⟨k, rfl⟩ : ∃ k, r = k + 1 := ⟨r - 1, by omega⟩
  simp [at_row]

theorem at_row_ptr (g : Game) (c r : Nat) (ha : g.selected.active = true)
    (hl : g.selected.location = TABLEAU) (hc : g.selected.column = (c : Int)) (hc7 : c < 7)
    (hr : r < 64) :
    card_ptr (at_row g r).selected (at_row g r) false =
      if (g.mem (tab c r)).rank = NO_RANK then none else some (tab c r) := by
  rw [card_ptr_tableau _ _ _ (by simpa [at_row] using ha) (by simpa [at_row] using hl)]
  have h1 : (at_row g r).selected.column = (c : Int) := by simpa [at_row] using hc
  have h2 : (at_row g r).selected.row = (r : Int) := by simp [at_row]
  rw [h1, h2, if_pos ⟨by omega, by omega, by omega, by omega⟩]
  simp [at_row]

/-- From a face-down card the snap loop walks forward to the first face-up card. -/
theorem fix_forward (g : Game) (c : Nat) (ha : g.selected.active = true)
    (hl : g.selected.location = TABLEAU) (hc : g.selected.column = (c : Int)) (hc7 : c < 7)
    (t : Nat) (ht : t < 64) (hocc : (g.mem (tab c t)).rank ≠ NO_RANK)
    (hvis : (g.mem (tab c t)).visible = true) :
    ∀ (k r fuel : Nat), r + k = t →
      (∀ j, r ≤ j → j < t → (g.mem (tab c j)).rank ≠ NO_RANK ∧ (g.mem (tab c j)).visible = false) →
      k < fuel → fix_selected_loop fuel (at_row g r) = some (at_row g t) := by
  intro k
  induction k with
  | zero =>
    intro r fuel hk _ hf
    obtain ⟨fuel, rfl⟩ : ∃ f, fuel = f + 1 := ⟨fuel - 1, by omega⟩
    have hrt : r = t := by omega
    subst hrt
    unfold fix_selected_loop
    simp only [get_card_eq, touch_tableau _ _ (show (at_row g r).selected.location = TABLEAU from hl)]
    rw [at_row_ptr g c r ha hl hc hc7 ht, if_neg hocc]
    have : ((at_row g r).mem (tab c r)).visible = true := hvis
    simp [this]
  | succ k ih =>
    intro r fuel hk hhid hf
    obtain ⟨fuel, rfl⟩ : ∃ f, fuel = f + 1 := ⟨fuel - 1, by omega⟩
    unfold fix_selected_loop
    simp only [get_card_eq, touch_tableau _ _ (show (at_row g r).selected.location = TABLEAU from hl)]
    rw [at_row_ptr g c r ha hl hc hc7 (by omega), if_neg (hhid r (le_refl _) (by omega)).1]
    have : ((at_row g r).mem (tab c r)).visible = false := (hhid r (le_refl _) (by omega)).2
    simp only [this, Bool.not_false, if_true]
    rw [at_row_up]
    exact ih (r + 1) fuel (by omega) (fun j h1 h2 => hhid j (by omega) h2) (by omega)

/-- From an empty slot the snap loop walks back to the top card of the column, or to row 0. -/
theorem fix_backward (g : Game) (c : Nat) (ha : g.selected.active = true)
    (hl : g.selected.location = TABLEAU) (hc : g.selected.column = (c : Int)) (hc7 : c < 7)
    (t : Nat)
    (htop : (t = 0 ∧ (g.mem (tab c 0)).rank = NO_RANK) ∨
      ((g.mem (tab c t)).rank ≠ NO_RANK ∧ (g.mem (tab c t)).visible = true)) :
    ∀ (k r fuel : Nat), r = t + k → r < 64 →
      (∀ j, t < j → j ≤ r → (g.mem (tab c j)).rank = NO_RANK) →
      k < fuel → fix_selected_loop fuel (at_row g r) = some (at_row g t) := by
  intro k
  induction k with
  | zero =>
    intro r fuel hk hr _ hf
    obtain ⟨fuel, rfl⟩ : ∃ f, fuel = f + 1 := ⟨fuel - 1, by omega⟩
    have hrt : r = t := by omega
    subst hrt
    unfold fix_selected_loop
    simp only [get_card_eq, touch_tableau _ _ (show (at_row g r).selected.location = TABLEAU from hl)]
    rw [at_row_ptr g c r ha hl hc hc7 hr]
    rcases htop with ⟨h0, he⟩ | ⟨ho, hv⟩
    · subst h0
      rw [if_pos he]
      simp [at_row]
    · rw [if_neg ho]
      have : ((at_row g r).mem (tab c r)).visible = true := hv
      simp [this]
  | succ k ih =>
    intro r fuel hk hr hemp hf
    obtain ⟨fuel, rfl⟩ : ∃ f, fuel = f + 1 := ⟨fuel - 1, by omega⟩
    unfold fix_selected_loop
    simp only [get_card_eq, touch_tableau _ _ (show (at_row g r).selected.location = TABLEAU from hl)]
    rw [at_row_ptr g c r ha hl hc hc7 hr, if_pos (hemp r (by omega) (le_refl _))]
    have hne : ¬ (at_row g r).selected.row = 0 := by
      show ¬ ((r : Int) = 0)
      omega
    simp only [hne, if_false]
    rw [at_row_down g r (by omega)]
    exact ih (r - 1) fuel (by omega) (by omega) (fun j h1 h2 => hemp j h1 (by omega)) (by omega)

/-- A cursor on a column that does not exist is walked back to row 0. -/
theorem fix_off_board (g : Game) (ha : g.selected.active = true)
    (hl : g.selected.location = TABLEAU) (hc : ¬ (0 ≤ g.selected.column ∧ g.selected.column < 7)) :
    ∀ (r fuel : Nat), r < fuel → fix_selected_loop fuel (at_row g r) = some (at_row g 0) := by
  intro r
  induction r with
  | zero =>
    intro fuel hf
    obtain ⟨fuel, rfl⟩ : ∃ f, fuel = f + 1 := ⟨fuel - 1, by omega⟩
    unfold fix_selected_loop
    simp only [get_card_eq, touch_tableau _ _ (show (at_row g 0).selected.location = TABLEAU from hl)]
    rw [card_ptr_tableau _ _ _ (show (at_row g 0).selected.active = true from ha)
      (show (at_row g 0).selected.location = TABLEAU from hl),
      if_neg (fun h => hc ⟨h.1, h.2.1⟩)]
    simp [at_row]
  | succ r ih =>
    intro fuel hf
    obtain ⟨fuel, rfl⟩ : ∃ f, fuel = f + 1 := ⟨fuel - 1, by omega⟩
    unfold fix_selected_loop
    simp only [get_card_eq, touch_tableau _ _ (show (at_row g (r + 1)).selected.location = TABLEAU from hl)]
    rw [card_ptr_tableau _ _ _ (show (at_row g (r + 1)).selected.active = true from ha)
      (show (at_row g (r + 1)).selected.location = TABLEAU from hl),
      if_neg (fun h => hc ⟨h.1, h.2.1⟩)]
    have hne : ¬ (at_row g (r + 1)).selected.row = 0 := by
      show ¬ (((r + 1 : Nat) : Int) = 0)
      omega
    simp only [hne, if_false]
    rw [at_row_down g (r + 1) (by omega)]
    exact ih fuel (by omega)

theorem at_row_self (g : Game) (r : Nat) (hr : g.selected.row = (r : Int)) : at_row g r = g := by
  unfold at_row
  rw [← hr]

theorem column_pile_contiguous (g : Game) (h : columns_contiguous g) (c : Nat) (hc : c < 7) :
    pile_contiguous g (tab c 0) := by
  intro i hi h0
  have := h c hc i hi
  simp only [Game.tableau] at this
  rw [tab_zero_add] at h0
  rw [show tab c 0 + i + 1 = tab c (i + 1) by simp only [tab]; omega]
  exact this h0

theorem step_eq (fuel : Nat) (a : Action) (g g' : Game) (b : Bool)
    (h : handle_action fuel a g = some (b, g')) : step fuel a g = some (update_display g') := by
  unfold step
  rw [h]
  rfl

/-- Right on the waste or the stock puts the cursor on the stock and moves no card. -/
theorem step_right_stock (fuel : Nat) (g : Game) (ha : g.selected.active = true)
    (hl : g.selected.location = WASTE ∨ g.selected.location = STOCK)
    (hm : g.moving.active = false) :
    ∃ g', step fuel RIGHT g = some g' ∧ g'.selected.active = true ∧
      g'.selected.location = STOCK ∧ g'.moving.active = false ∧
      ∀ a, (g'.mem a).rank = (g.mem a).rank ∧ (g'.mem a).suite = (g.mem a).suite := by
  have h := handle_action_waste_stock fuel RIGHT g (Or.inr (Or.inl rfl)) ha hl
  unfold handle_waste_stock at h
  simp only at h
  rcases hl with hl | hl
  · rw [if_pos (by rw [update_visible_selected]; exact hl)] at h
    refine ⟨_, step_eq _ _ _ _ _ h, ?_, ?_, ?_, ?_⟩
    · rw [update_display_selected]
      simpa using ha
    · rw [update_display_selected]
    · rw [update_display_moving, if_neg (by simp [hm])]
      simpa using hm
    · intro a
      rw [update_display_rank, update_display_suite]
      exact ⟨update_visible_rank g a, update_visible_suite g a⟩
  · rw [if_neg (by rw [update_visible_selected, hl]; decide)] at h
    refine ⟨_, step_eq _ _ _ _ _ h, ?_, ?_, ?_, ?_⟩
    · rw [update_display_selected]
      simpa using ha
    · rw [update_display_selected]
      simpa using hl
    · rw [update_display_moving, if_neg (by simp [hm])]
      simpa using hm
    · intro a
      rw [update_display_rank, update_display_suite]
      exact ⟨update_visible_rank g a, update_visible_suite g a⟩

/-- Confirm on a non-empty stock moves the stock top onto the first free waste slot. -/
theorem step_confirm_draw (fuel : Nat) (g : Game) (ha : g.selected.active = true)
    (hl : g.selected.location = STOCK) (hm : g.moving.active = false)
    (hp0 : pile_len g STOCK_BASE ≠ 0) (hw : pile_len g WASTE_BASE < 64)
    (hnext : pile_len g WASTE_BASE < 63 →
      (g.mem (WASTE_BASE + (pile_len g WASTE_BASE + 1))).rank = 0) :
    ∃ g', step fuel CONFIRM g = some g' ∧ g'.selected.active = true ∧
      g'.selected.location = WASTE ∧ g'.moving.active = false ∧
      ∀ a, (g'.mem a).rank =
          (if a = STOCK_BASE + (pile_len g STOCK_BASE - 1) then NO_RANK
           else if a = WASTE_BASE + pile_len g WASTE_BASE then
             (g.mem (STOCK_BASE + (pile_len g STOCK_BASE - 1))).rank
           else (g.mem a).rank) ∧
        (a ≠ STOCK_BASE + (pile_len g STOCK_BASE - 1) → (g'.mem a).suite =
          if a = WASTE_BASE + pile_len g WASTE_BASE then
            (g.mem (STOCK_BASE + (pile_len g STOCK_BASE - 1))).suite
          else (g.mem a).suite) := by
  have hmem := confirm_draw_mem g hp0 hw hnext
  have h : handle_action fuel CONFIRM g = some (true,
      { draw_card (STOCK_BASE + (pile_len g STOCK_BASE - 1)) (pile_len g WASTE_BASE)
          (mark_visible (update_visible g) STOCK_BASE (pile_len g STOCK_BASE)) with
        selected := { (update_visible g).selected with location := WASTE } }) := by
    rw [handle_action_confirm, handle_confirm_stock_eq fuel (update_visible g)
      (by rw [update_visible_selected]; exact ha) (by rw [update_visible_selected]; exact hl)
      (by rw [update_visible_moving]; exact hm)]
    rw [pile_len_update_visible, if_neg hp0, draw_loop_full, pile_len_mark_visible,
      pile_len_update_visible, if_pos hw]
  refine ⟨_, step_eq _ _ _ _ _ h, ?_, ?_, ?_, ?_⟩
  · rw [update_display_selected]
    simpa using ha
  · rw [update_display_selected]
  · rw [update_display_moving, if_neg (by simp [hm])]
    simpa using hm
  · intro a
    rw [update_display_rank, update_display_suite]
    show ((draw_card _ _ _).mem a).rank = _ ∧ (_ → ((draw_card _ _ _).mem a).suite = _)
    rw [hmem]
    by_cases h1 : a = STOCK_BASE + (pile_len g STOCK_BASE - 1)
    · rw [if_pos h1, if_pos h1]
      exact ⟨rfl, fun h => absurd h1 h⟩
    · rw [if_neg h1, if_neg h1]
      by_cases h2 : a = WASTE_BASE + pile_len g WASTE_BASE
      · rw [if_pos h2, if_pos h2, if_pos h2]
        exact ⟨rfl, fun _ => rfl⟩
      · rw [if_neg h2, if_neg h2, if_neg h2]
        split
        · exact ⟨rfl, fun _ => rfl⟩
        · exact ⟨update_visible_rank g a, fun _ => update_visible_suite g a⟩

/-- One more card is drawn by Right and Confirm. -/
theorem redrawn_step (fuel : Nat) (w : Nat → Card) (n k : Nat) (g : Game) (hn : n ≤ 64)
    (hw : ∀ i, i < n → (w i).rank ≠ NO_RANK) (hk : k < n) (h : redrawn w n k g) :
    ∃ g', play fuel [RIGHT, CONFIRM] g = some g' ∧ redrawn w n (k + 1) g' := by
  have hS : STOCK_BASE = 516 := rfl
  have hW : WASTE_BASE = 452 := rfl
  obtain ⟨ha, hl, hm, hwr, hws, hsr, hss⟩ := h
  obtain ⟨g1, hstep1, ha1, hl1, hm1, hmem1⟩ := step_right_stock fuel g ha hl hm
  have hpw : pile_len g1 WASTE_BASE = k := by
    apply pile_len_eq _ _ _ (by omega)
    · intro j hj
      rw [(hmem1 _).1]
      have := hwr j (by omega)
      simp only [Game.waste] at this
      rw [this, if_pos hj]
      exact hw j (by omega)
    · intro hj
      rw [(hmem1 _).1]
      have := hwr k (by omega)
      simp only [Game.waste] at this
      rw [this, if_neg (by omega)]
  have hps : pile_len g1 STOCK_BASE = n - k := by
    apply pile_len_eq _ _ _ (by omega)
    · intro j hj
      rw [(hmem1 _).1]
      have := hsr j (by omega)
      simp only [Game.stock] at this
      rw [this, if_pos hj]
      exact hw _ (by omega)
    · intro hj
      rw [(hmem1 _).1]
      have := hsr (n - k) (by omega)
      simp only [Game.stock] at this
      rw [this, if_neg (by omega)]
  obtain ⟨g2, hstep2, ha2, hl2, hm2, hmem2⟩ := step_confirm_draw fuel g1 ha1 hl1 hm1
    (by omega) (by omega) (by
      intro hlt
      rw [hpw, (hmem1 _).1]
      have := hwr (k + 1) (by omega)
      simp only [Game.waste] at this
      rw [this, if_neg (by omega)])
  rw [hpw, hps] at hmem2
  refine ⟨g2, ?_, ha2, Or.inl hl2, hm2, ?_, ?_, ?_, ?_⟩
  · simp only [play, hstep1, hstep2, Option.some_bind]
  · intro i hi
    simp only [Game.waste]
    rw [(hmem2 _).1, if_neg (by omega)]
    by_cases hik : i = k
    · subst hik
      rw [if_pos rfl, if_pos (by omega), (hmem1 _).1]
      have := hsr (n - i - 1) (by omega)
      simp only [Game.stock] at this
      rw [this, if_pos (by omega)]
      congr 2
      omega
    · rw [if_neg (by omega), (hmem1 _).1]
      have := hwr i hi
      simp only [Game.waste] at this
      rw [this]
      by_cases h1 : i < k
      · rw [if_pos h1, if_pos (by omega)]
      · rw [if_neg h1, if_neg (by omega)]
  · intro i hi
    simp only [Game.waste]
    rw [(hmem2 _).2 (by omega)]
    by_cases hik : i = k
    · subst hik
      rw [if_pos rfl, (hmem1 _).2]
      have := hss (n - i - 1) (by omega)
      simp only [Game.stock] at this
      rw [this]
      congr 2
      omega
    · rw [if_neg (by omega), (hmem1 _).2]
      exact hws i (by omega)
  · intro i hi
    simp only [Game.stock]
    rw [(hmem2 _).1]
    by_cases hik : i = n - k - 1
    · rw [if_pos (by omega), if_neg (by omega)]
    · rw [if_neg (by omega), if_neg (by omega), (hmem1 _).1]
      have := hsr i hi
      simp only [Game.stock] at this
      rw [this]
      by_cases h1 : i < n - k
      · rw [if_pos h1, if_pos (by omega)]
      · rw [if_neg h1, if_neg (by omega)]
  · intro i hi
    simp only [Game.stock]
    rw [(hmem2 _).2 (by omega), if_neg (by omega), (hmem1 _).2]
    exact hss i (by omega)

/-- Drawing `j` more cards. -/
theorem redrawn_steps (fuel : Nat) (w : Nat → Card) (n : Nat) (hn : n ≤ 64)
    (hw : ∀ i, i < n → (w i).rank ≠ NO_RANK) :
    ∀ (j k : Nat) (g : Game), k + j ≤ n → redrawn w n k g →
      ∃ g', play fuel (redraws j) g = some g' ∧ redrawn w n (k + j) g' := by
  intro j
  induction j with
  | zero =>
    intro k g _ h
    exact ⟨g, rfl, h⟩
  | succ j ih =>
    intro k g hkj h
    obtain ⟨g1, hp1, h1⟩ := redrawn_step fuel w n k g hn hw (by omega) h
    obtain ⟨g2, hp2, h2⟩ := ih (k + 1) g1 (by omega) h1
    refine ⟨g2, ?_, ?_⟩
    · simp only [play, redraws] at hp1 hp2 ⊢
      cases hs1 : step fuel RIGHT g with
      | none => rw [hs1] at hp1; simp at hp1
      | some ga =>
        rw [hs1] at hp1
        simp only [Option.some_bind] at hp1 ⊢
        cases hs2 : step fuel CONFIRM ga with
        | none => rw [hs2] at hp1; simp at hp1
        | some gb =>
          rw [hs2] at hp1
          simp only [Option.some_bind, Option.some.injEq] at hp1 ⊢
          subst hp1
          exact hp2
    · rw [show k + (j + 1) = k + 1 + j by omega]
      exact h2

/-- Recycling a contiguous waste into an empty stock. -/
theorem step_confirm_recycle (fuel : Nat) (g : Game) (ha : g.selected.active = true)
    (hl : g.selected.location = STOCK) (hm : g.moving.active = false)
    (hs : ∀ i, i < 64 → (g.stock i).rank = NO_RANK) (hc : pile_contiguous g WASTE_BASE) :
    ∃ g', step fuel CONFIRM g = some g' ∧
      redrawn (fun i => g.waste i) (pile_len g WASTE_BASE) 0 g' := by
  have hS : STOCK_BASE = 516 := rfl
  have hW : WASTE_BASE = 452 := rfl
  have hle := pile_len_le g WASTE_BASE
  obtain ⟨g1, h1, hsel, hmov, hmem⟩ := confirm_recycle_mem fuel g ha hl hm (hs 0 (by omega))
  refine ⟨_, step_eq _ _ _ _ _ h1, ?_, ?_, ?_, ?_, ?_, ?_, ?_⟩
  · rw [update_display_selected, hsel]
    exact ha
  · rw [update_display_selected, hsel]
    exact Or.inr hl
  · rw [update_display_moving, if_neg (by rw [hmov]; simp [hm]), hmov]
    exact hm
  · intro i hi
    simp only [Game.waste]
    rw [update_display_rank, hmem, if_neg (Nat.not_lt_zero i)]
    by_cases h : i < pile_len g WASTE_BASE
    · rw [if_pos ⟨by omega, by omega⟩]
    · rw [if_neg (by omega), if_neg (by omega), update_visible_rank]
      exact pile_empty_from g WASTE_BASE hc i (by omega) hi
  · intro i hi
    omega
  · intro i hi
    simp only [Game.stock, Game.waste]
    rw [update_display_rank, hmem, if_neg (by omega)]
    by_cases h : i < pile_len g WASTE_BASE
    · rw [if_pos ⟨by omega, by omega⟩, if_pos (by omega)]
      have e : WASTE_BASE + (pile_len g WASTE_BASE - 1 - (STOCK_BASE + i - STOCK_BASE)) =
          WASTE_BASE + (pile_len g WASTE_BASE - 1 - i) := by omega
      rw [e]
      exact update_visible_rank g _
    · rw [if_neg (by omega), if_neg (by omega), update_visible_rank]
      exact hs i hi
  · intro i hi
    simp only [Game.stock, Game.waste]
    rw [update_display_suite, hmem, if_neg (by omega), if_pos ⟨by omega, by omega⟩]
    have e : WASTE_BASE + (pile_len g WASTE_BASE - 1 - (STOCK_BASE + i - STOCK_BASE)) =
        WASTE_BASE + (pile_len g WASTE_BASE - 1 - i) := by omega
    rw [e]
    exact update_visible_suite g _


/-! ## Picking a card up and putting it back -/

/-- In a state at the top of the main loop an active held position resolves to a slot. -/
theorem playing_held_ptr (g : Game) (h : Playing g) (ha : g.moving.active = true) :
    ∃ a, card_ptr g.moving g false = some a := by
  obtain ⟨x, rfl⟩ := playing_display g h
  have hm := update_display_moving x
  by_cases hc : x.moving.active = true ∧ card_ptr x.moving x false = none
  · rw [if_pos hc] at hm
    rw [hm] at ha
    cases ha
  · cases hp : card_ptr (update_display x).moving (update_display x) false with
    | none =>
      exfalso
      rw [card_ptr_update_display] at hp
      rw [if_neg hc] at hm
      rw [hm] at ha
      exact hc ⟨ha, hp⟩
    | some a => exact ⟨a, rfl⟩

/-- A lookup away from the stock changes nothing when the waste cards are face up. -/
theorem touch_steady (g : Game) (hok : cards_ok g) (pos : CardPos) (hl : pos.location ≠ STOCK) :
    touch pos g = g := by
  unfold touch
  split
  · cases hloc : pos.location
    · rfl
    · simp only
      apply game_ext
      · intro a
        rw [mark_visible_mem]
        split
        · rename_i hr
          have hocc := pile_len_occupied g WASTE_BASE (a - WASTE_BASE) (by omega)
          have hle := pile_len_le g WASTE_BASE
          have hv := hok.waste_up (a - WASTE_BASE) (by omega) hocc
          rw [show WASTE_BASE + (a - WASTE_BASE) = a by omega] at hv
          cases hc : g.mem a
          rw [hc] at hv
          simp only at hv
          simp only [hv]
        · rfl
      · rfl
      · rfl
    · exact absurd hloc hl
    · rfl
  · rfl

theorem pos_eq_of_same (a b : CardPos) (h : is_same_pos a b = true) : a = b := by
  unfold is_same_pos at h
  simp only [Bool.and_eq_true, decide_eq_true_eq] at h
  obtain ⟨⟨⟨⟨h1, h2⟩, h3⟩, h4⟩, h5⟩ := h
  cases a
  cases b
  simp only at h1 h2 h3 h4 h5
  subst h1 h2 h3 h4 h5
  rfl

theorem pile_len_le_19 (g : Game) (hok : cards_ok g) (c : Nat) (hc : c < 7) :
    pile_len g (tab c 0) ≤ 19 := by
  by_contra hx
  have h1 := pile_len_occupied g (tab c 0) 19 (by omega)
  rw [tab_zero_add] at h1
  exact h1 (column_le_19 g hok c hc 19 (le_refl _) (by omega))

theorem column_empty_above (g : Game) (hok : cards_ok g) (c : Nat) (hc : c < 7) (r : Nat)
    (h1 : pile_len g (tab c 0) ≤ r) (h2 : r < 64) : (g.mem (tab c r)).rank = NO_RANK := by
  have hL := pile_len_le_19 g hok c hc
  have h0 := pile_len_empty g (tab c 0) (by omega)
  rw [tab_zero_add] at h0
  exact columns_empty_from g hok c hc _ h0 r h1 h2

/-- The auto-move of a card onto the single tableau candidate is not rejected: whenever
`move_card` returns, the held position has been released. -/
theorem auto_move_released (fuel : Nat) (g : Game) (src c0 rt : Nat) (b : Bool) (g1 : Game)
    (hok : cards_ok g) (hsa : g.selected.active = true) (hsl : g.selected.location = TABLEAU)
    (hcol : g.selected.column = (c0 : Int)) (hrow : g.selected.row = (rt : Int)) (hc0 : c0 < 7)
    (hma : g.moving.active = true) (hns : g.moving.location ≠ STOCK)
    (hsrc : card_ptr g.moving g false = some src) (hreal : (g.mem src).rank ≠ NO_RANK)
    (htarget : (0 < pile_len g (tab c0 0) ∧ rt = pile_len g (tab c0 0) - 1 ∧
        can_stack (g.mem src) (g.mem (tab c0 rt)) false = true) ∨
      (pile_len g (tab c0 0) = 0 ∧ rt = 0 ∧ (g.mem src).rank = KING))
    (h : move_card fuel g = some (b, g1)) : g1.moving.active = false := by
  have ht : touch g.moving g = g := touch_steady g hok _ hns
  have hLd := pile_len_le_19 g hok c0 hc0
  have hrt : rt < 64 := by omega
  have hin : in_tab g.selected.column g.selected.row := by
    unfold in_tab
    omega
  have hcell : cell g.selected.column g.selected.row = tab c0 rt := cell_eq _ _ _ _ hcol hrow
  -- the run that is moved
  have hrun : ∃ n, get_amount_stacked_cards g.moving g = n ∧ 1 ≤ n ∧ n ≤ 19 ∧
      ∀ (dest : CardPos) (dst dr : Nat), dest.active = true → dest.location = TABLEAU →
        dest.column = (c0 : Int) → dest.row = (dr : Int) → pile_len g (tab c0 0) ≤ dr →
        dr ≤ 19 →
        ∀ x, move_card_tableau fuel g src dest dst n = some x → x.2.moving.active = false := by
    refine ⟨_, rfl, ?_⟩
    cases hml : g.moving.location with
    | STOCK => exact absurd hml hns
    | WASTE =>
      have hamt := amount_other g.moving g hma (by rw [hml]; simp)
      rw [hamt]
      refine ⟨le_refl _, by omega, ?_⟩
      intro dest dst dr hda hdl hdc hdr h1 h2 x hx
      rw [move_card_tableau_from_waste fuel g src dest dst 1 hma hml ht hda hdl] at hx
      have hcd : cell dest.column (dest.row + (((1 : Nat) : Int) - 1)) = tab c0 dr :=
        cell_eq _ _ _ _ hdc (by omega)
      rw [if_pos ⟨⟨by unfold in_tab; omega, by
        rw [hcd]; exact column_empty_above g hok c0 hc0 dr h1 (by omega)⟩, by
        intro h0
        rw [card_ptr_waste _ _ _ hma hml, if_pos h0] at hsrc
        simp at hsrc⟩] at hx
      obtain ⟨bb, gg⟩ := x
      exact (move_card_finish_spec fuel _ _ _ _ hx).2.1
    | FOUNDATION =>
      have hamt := amount_other g.moving g hma (by rw [hml]; simp)
      rw [hamt]
      refine ⟨le_refl _, by omega, ?_⟩
      intro dest dst dr hda hdl hdc hdr h1 h2 x hx
      rw [move_card_tableau_from_foundation fuel g src dest dst 1 hma hml hda hdl] at hx
      have hcd : cell dest.column (dest.row + (((1 : Nat) : Int) - 1)) = tab c0 dr :=
        cell_eq _ _ _ _ hdc (by omega)
      rw [if_pos ⟨⟨by unfold in_tab; omega, by
        rw [hcd]; exact column_empty_above g hok c0 hc0 dr h1 (by omega)⟩, by
        rw [card_ptr_foundation _ _ _ hma hml] at hsrc
        split at hsrc
        · assumption
        · simp at hsrc, hreal⟩] at hx
      obtain ⟨bb, gg⟩ := x
      exact (move_card_finish_spec fuel _ _ _ _ hx).2.1
    | TABLEAU =>
      rw [card_ptr_tab _ _ _ hma hml] at hsrc
      split at hsrc
      swap
      · simp at hsrc
      rename_i hmin
      obtain ⟨m0, m7, mr0, mr64⟩ := hmin
      obtain ⟨cs, hcs⟩ : ∃ c : Nat, g.moving.column = (c : Int) :=
        ⟨g.moving.column.toNat, by omega⟩
      obtain ⟨rs, hrs⟩ : ∃ r : Nat, g.moving.row = (r : Int) := ⟨g.moving.row.toNat, by omega⟩
      have hcs7 : cs < 7 := by omega
      have hrs64 : rs < 64 := by omega
      have hcm : cell g.moving.column g.moving.row = tab cs rs := cell_eq _ _ _ _ hcs hrs
      rw [hcm] at hsrc
      split at hsrc
      · simp at hsrc
      rename_i hocc0
      simp only [Option.some.injEq] at hsrc
      obtain ⟨a1, a2, a3⟩ := amount_tableau g.moving g cs rs hma hml hcs hrs hcs7 hrs64
      generalize get_amount_stacked_cards g.moving g = n at a1 a2 a3 ⊢
      have hn1 : 1 ≤ n := by
        by_contra hx
        have : n = 0 := by omega
        subst this
        have := a3 (by omega)
        apply hocc0
        exact ⟨rfl, by simpa using this⟩
      have hrs19 : rs < 19 := by
        by_contra hx
        exact hocc0 ⟨rfl, column_le_19 g hok cs hcs7 rs (by omega) hrs64⟩
      have hn19 : rs + n ≤ 19 := by
        by_contra hx
        have := a2 (19 - rs) (by omega)
        rw [show rs + (19 - rs) = 19 by omega] at this
        exact this (column_le_19 g hok cs hcs7 19 (le_refl _) (by omega))
      refine ⟨hn1, by omega, ?_⟩
      intro dest dst dr hda hdl hdc hdr h1 h2 x hx
      rw [move_card_tableau_from_tableau fuel g src dest dst n hma hml hda hdl] at hx
      have hcd : cell dest.column (dest.row + ((n : Int) - 1)) = tab c0 (dr + (n - 1)) :=
        cell_eq _ _ _ _ hdc (by omega)
      have hcl : cell g.moving.column (g.moving.row + ((n : Int) - 1)) = tab cs (rs + (n - 1)) :=
        cell_eq _ _ _ _ hcs (by omega)
      have hcl2 : cell g.moving.column (g.moving.row + ((n : Int) - 1) + 1) = tab cs (rs + n) :=
        cell_eq _ _ _ _ hcs (by omega)
      rw [if_pos ⟨⟨by unfold in_tab; omega, by
          rw [hcd]; exact column_empty_above g hok c0 hc0 _ (by omega) (by omega)⟩,
        ⟨by unfold in_tab; omega, by rw [hcl]; exact a2 (n - 1) (by omega)⟩,
        ⟨by unfold in_tab; omega, by rw [hcl2]; exact a3 (by omega)⟩⟩] at hx
      obtain ⟨bb, gg⟩ := x
      exact (move_card_finish_spec fuel _ _ _ _ hx).2.1
  obtain ⟨n, hn, hn1, hn19, hmove⟩ := hrun
  rcases htarget with ⟨hL0, hrtL, hcs⟩ | ⟨hL0, hrt0, hking⟩
  · have hocc : (g.mem (cell g.selected.column g.selected.row)).rank ≠ NO_RANK := by
      rw [hcell, hrtL]
      have := pile_len_occupied g (tab c0 0) (pile_len g (tab c0 0) - 1) (by omega)
      rwa [tab_zero_add] at this
    rw [move_card_on_card fuel g src hsa hma ht hsl hsrc hin hocc] at h
    have hcell2 : cell g.selected.column (g.selected.row + 1) = tab c0 (rt + 1) :=
      cell_eq _ _ _ _ hcol (by omega)
    rw [if_pos ⟨⟨by unfold in_tab; omega, by
        rw [hcell2]; exact column_empty_above g hok c0 hc0 _ (by omega) (by omega)⟩,
      by rw [hcell]; exact hcs, by omega⟩, hn] at h
    exact hmove { g.selected with row := g.selected.row + 1 } _ (rt + 1) hsa hsl hcol
      (by simp only; omega) (by omega) (by omega) _ h
  · have hocc : (g.mem (cell g.selected.column g.selected.row)).rank = NO_RANK := by
      rw [hcell, hrt0]
      have := pile_len_empty g (tab c0 0) (by omega)
      rw [hL0] at this
      exact this
    rw [move_card_on_empty fuel g src hsa hma ht hsl hsrc hin hocc] at h
    rw [if_pos ⟨by
        unfold can_stack
        simp only [Bool.false_eq_true, if_false, hocc, hking, decide_True, Bool.and_self,
          Bool.true_or], by omega⟩, hn] at h
    exact hmove g.selected _ rt hsa hsl hcol hrow (by omega) (by omega) _ h

/-- The state after a Confirm that leaves a card held: the selected card became the held
card and its candidate destinations are tagged; the cursor did not move. -/
theorem confirm_pickup_state (fuel : Nat) (g : Game) (b : Bool) (g1 : Game) (hok : board_ok g)
    (hm : g.moving.active = false)
    (hreal : ∀ c, card_ptr g.selected g false = some c → (g.mem c).rank ≠ NO_RANK)
    (h : handle_confirm fuel g = some (b, g1)) (hheld : g1.moving.active = true) :
    g.selected.active = true ∧ g.selected.location ≠ STOCK ∧
    ∃ c T, card_ptr g.selected g false = some c ∧
      g1 = { hl_state (clear_highlight g) T with moving := { g.selected with active := true } } := by
  have hF : FOUNDATION_BASE = 448 := rfl
  by_cases hsa : g.selected.active = true
  swap
  · unfold handle_confirm at h
    rw [if_neg hsa] at h
    cases h
    rw [hm] at hheld
    cases hheld
  by_cases hsl : g.selected.location = STOCK
  · exfalso
    rw [handle_confirm_stock_eq fuel g hsa hsl hm] at h
    split at h
    · simp only [Option.some.injEq, Prod.mk.injEq] at h
      obtain ⟨_, rfl⟩ := h
      obtain ⟨⟨_, hmv⟩, _⟩ := recycle_loop_mem 65 0 g
        (by have := pile_len_le g WASTE_BASE; omega)
      rw [hmv, hm] at hheld
      cases hheld
    · simp only [Option.some.injEq, Prod.mk.injEq] at h
      obtain ⟨_, rfl⟩ := h
      have hmv : (draw_loop (STOCK_BASE + (pile_len g STOCK_BASE - 1)) 64 0
          (mark_visible g STOCK_BASE (pile_len g STOCK_BASE))).moving.active = false := by
        rw [draw_loop_full]
        split
        · simp [hm]
        · simp [hm]
      have : (draw_loop (STOCK_BASE + (pile_len g STOCK_BASE - 1)) 64 0
          (mark_visible g STOCK_BASE (pile_len g STOCK_BASE))).moving.active = true := hheld
      rw [hmv] at this
      cases this
  refine ⟨hsa, hsl, ?_⟩
  have ht : touch g.selected g = g := touch_steady g hok.cards _ hsl
  cases hcp : card_ptr g.selected g false with
  | none =>
    exfalso
    unfold handle_confirm at h
    simp only [hsa, hsl, if_true, if_false, get_card_eq, hcp, ht] at h
    cases h
    rw [hm] at hheld
    cases hheld
  | some c =>
    refine ⟨c, stack_targets g c (g.selected.location == TABLEAU), rfl, ?_⟩
    by_cases hlen : (stack_targets (touch g.selected g) c
        (g.selected.location == TABLEAU)).length = 1
    · obtain ⟨a, hT⟩ := List.length_eq_one.1 hlen
      have hmem : a ∈ stack_targets (touch g.selected g) c (g.selected.location == TABLEAU) := by
        rw [hT]; exact List.mem_singleton_self a
      obtain ⟨s1, s2⟩ := handle_confirm_single fuel g c a hsa hsl hm hcp hT
      by_cases hlt : a < FOUNDATION_BASE
      · exfalso
        rw [s1 hlt] at h
        obtain ⟨k1, _⟩ := board_ok_auto g c a hok hsa hsl hmem hlt
        have e : ({ g.selected with active := true } : CardPos) = g.selected := by
          cases hs : g.selected
          rw [hs] at hsa
          simp only at hsa
          subst hsa
          rfl
        rw [ht] at hmem h k1
        rw [mem_stack_targets] at hmem
        have hcolt : ∃ c0, c0 < 7 ∧ column_target g c c0 = some a := by
          rcases hmem with h1 | ⟨_, i, _, h2, _⟩
          · exact h1
          · omega
        obtain ⟨c0, hc0, hct⟩ := hcolt
        have hrange := column_target_range _ _ _ _ hct
        simp only [tab] at hrange
        have e1 : a / 64 = c0 := by omega
        rw [column_target_iff] at hct
        obtain ⟨hL, hct⟩ := hct
        have hrel := auto_move_released fuel _ c (a / 64) (a % 64) b g1 k1.cards rfl rfl rfl rfl
          (by omega) rfl hsl
          (by
            show card_ptr ({ g.selected with active := true } : CardPos) _ false = some c
            rw [e, ← hcp]
            exact card_ptr_congr _ _ _ _ (fun _ => by simp))
          (by
            show ((hl_state (clear_highlight g) [a]).mem c).rank ≠ NO_RANK
            rw [hl_state_rank, clear_highlight_rank]
            exact hreal c hcp)
          (by
            have hpl : ∀ X : Game, (∀ x, (X.mem x).rank = (g.mem x).rank) →
                pile_len X (tab (a / 64) 0) = pile_len g (tab c0 0) := by
              intro X hX
              rw [e1]
              exact pile_len_congr _ _ _ (fun _ _ => hX _)
            rw [hpl _ (fun x => by
              show ((hl_state (clear_highlight g) [a]).mem x).rank = _
              rw [hl_state_rank, clear_highlight_rank])]
            rcases hct with ⟨h1, h2, _, h4⟩ | ⟨h1, h2, h3⟩
            · left
              refine ⟨h1, ?_, ?_⟩
              · generalize pile_len g (tab c0 0) = L at h1 h2 hL ⊢
                simp only [tab] at h2
                omega
              · show can_stack ((hl_state (clear_highlight g) [a]).mem c)
                  ((hl_state (clear_highlight g) [a]).mem (tab (a / 64) (a % 64))) false = true
                rw [show tab (a / 64) (a % 64) = a by simp only [tab]; omega, ← h4]
                exact can_stack_congr _ _ _ _ _ (by simp) (by simp) (by simp) (by simp)
            · right
              refine ⟨h1, ?_, ?_⟩
              · simp only [tab] at h2
                omega
              · show ((hl_state (clear_highlight g) [a]).mem c).rank = KING
                rw [hl_state_rank, clear_highlight_rank]
                exact h3)
          h
        rw [hrel] at hheld
        cases hheld
      · rw [s2 (by omega)] at h
        simp only [Option.some.injEq, Prod.mk.injEq] at h
        obtain ⟨_, rfl⟩ := h
        rw [ht] at hT ⊢
        rw [hT]
    · rw [handle_confirm_pickup fuel g c hsa hsl hm hcp, if_neg hlen] at h
      split at h
      · exfalso
        simp only [Option.some.injEq, Prod.mk.injEq] at h
        obtain ⟨_, rfl⟩ := h
        have : g.moving.active = true := by simpa using hheld
        rw [hm] at this
        cases this
      · simp only [Option.some.injEq, Prod.mk.injEq] at h
        obtain ⟨_, rfl⟩ := h
        rw [ht]


/-! ## Face-up cards stay face up -/

theorem hid_frame_refl (g : Game) : hid_frame g g := fun _ _ _ hv => ⟨rfl, rfl, hv⟩

theorem hid_frame_trans {g k h : Game} (h1 : hid_frame g k) (h2 : hid_frame k h) :
    hid_frame g h := by
  intro a ha hocc hv
  obtain ⟨e1, e2, e3⟩ := h2 a ha hocc hv
  obtain ⟨f1, f2, f3⟩ := h1 a ha (by rw [e1]; exact hocc) e3
  exact ⟨f1.trans e1, f2.trans e2, f3⟩

/-- Cells that keep rank and suite and lose no `visible` flag. -/
theorem hid_frame_of_mono (g h : Game)
    (hr : ∀ a, a < GAME_CELLS → (h.mem a).rank = (g.mem a).rank)
    (hs : ∀ a, a < GAME_CELLS → (h.mem a).suite = (g.mem a).suite)
    (hv : ∀ a, a < GAME_CELLS → (g.mem a).visible = true → (h.mem a).visible = true) :
    hid_frame g h := by
  intro a ha _ hvis
  refine ⟨(hr a ha).symm, (hs a ha).symm, ?_⟩
  cases hx : (g.mem a).visible
  · rfl
  · rw [hv a ha hx] at hvis
    cases hvis

theorem sum_pos_exists (S : Finset Nat) (f : Nat → Nat) (h : 0 < S.sum f) :
    ∃ a, a ∈ S ∧ 0 < f a := by
  by_contra hx
  have : S.sum f = 0 := by
    apply Finset.sum_eq_zero
    intro a ha
    by_contra h0
    exact hx ⟨a, ha, by omega⟩
  omega

theorem card_count_exists (g : Game) (s : Suite) (k : Nat) (h : 0 < card_count g s k) :
    ∃ a, a < GAME_CELLS ∧ cell_holds g a s k := by
  obtain ⟨a, ha, hp⟩ := sum_pos_exists _ _ h
  refine ⟨a, Finset.mem_range.1 ha, ?_⟩
  by_contra hx
  rw [if_neg hx] at hp
  omega

/-- A card that is face up stays face up when the face-down cells are old ones. -/
theorem visible_of_hid_frame (g h : Game) (hg : full_deck g) (hh : cards_ok h)
    (hf : hid_frame g h) (s : Suite) (k : Nat) (hk : 1 ≤ k) (hv : card_visible g s k) :
    card_visible h s k := by
  have hF : FOUNDATION_BASE = 448 := rfl
  have hW : WASTE_BASE = 452 := rfl
  obtain ⟨a, ha, hca, hva⟩ := hv
  have hk13 : k ≤ 13 := by
    by_contra hx
    have := card_count_pos g s k a ha hca
    rw [hg s k hk, if_neg hx] at this
    omega
  obtain ⟨a', ha', hca'⟩ := card_count_exists h s k (by rw [hh.deck s k hk, if_pos hk13]; omega)
  cases hvis : (h.mem a').visible
  swap
  · exact ⟨a', ha', hca', hvis⟩
  exfalso
  have hnf : ¬ (FOUNDATION_BASE ≤ a' ∧ a' < WASTE_BASE) := by
    intro hx
    have := hh.foundations (a' - FOUNDATION_BASE) (by omega)
    rw [show FOUNDATION_BASE + (a' - FOUNDATION_BASE) = a' by omega, hvis] at this
    cases this
  have hexact : (h.mem a').suite = s ∧ (h.mem a').rank = k := by
    unfold cell_holds at hca'
    rwa [if_neg hnf] at hca'
  obtain ⟨e1, e2, e3⟩ := hf a' ha' (by rw [hexact.2]; simp only [NO_RANK]; omega) hvis
  have hcg : cell_holds g a' s k := by
    unfold cell_holds
    rw [if_neg hnf, e1, e2]
    exact hexact
  by_cases e : a = a'
  · subst e
    rw [hva] at e3
    cases e3
  · have := card_count_ge_two g s k a a' ha ha' e hca hcg
    rw [hg s k hk, if_pos hk13] at this
    omega

/-! ## Face-down cells under the single steps -/

theorem hid_frame_mem (g h h' : Game) (e : h'.mem = h.mem) (hf : hid_frame g h) :
    hid_frame g h' := by
  intro a ha
  rw [e]
  exact hf a ha

theorem hid_frame_update_visible (g : Game) : hid_frame g (update_visible g) :=
  hid_frame_of_mono _ _ (fun _ _ => by simp) (fun _ _ => by simp)
    (fun a _ => update_visible_visible_mono g a)

theorem hid_frame_touch (pos : CardPos) (g : Game) : hid_frame g (touch pos g) :=
  hid_frame_of_mono _ _ (fun _ _ => by simp) (fun _ _ => by simp)
    (fun a _ hv => by rw [touch_visible, hv]; rfl)

theorem hid_frame_visrel (g g' : Game) (h : VisRel g g') : hid_frame g g' := by
  obtain ⟨_, _, hmem⟩ := h
  refine hid_frame_of_mono _ _ ?_ ?_ ?_
  · intro a _
    rcases hmem a with h1 | ⟨_, _, _, h1⟩ <;> rw [h1]
  · intro a _
    rcases hmem a with h1 | ⟨_, _, _, h1⟩ <;> rw [h1]
  · intro a _ hv
    rcases hmem a with h1 | ⟨_, _, _, h1⟩
    · rw [h1]; exact hv
    · rw [h1]

theorem hid_frame_update_display (g : Game) : hid_frame g (update_display g) :=
  hid_frame_of_mono _ _ (fun _ _ => by simp) (fun _ _ => by simp)
    (fun a _ hv => by rw [update_display_visible]; unfold display_visible; rw [hv]; rfl)

theorem hid_frame_tagged (g : Game) (T : List Nat) :
    hid_frame g (hl_state (clear_highlight (touch g.selected g)) T) :=
  hid_frame_of_mono _ _ (fun _ _ => by simp) (fun _ _ => by simp)
    (fun a _ hv => by
      rw [hl_state_visible, clear_highlight_visible, touch_visible, hv]; rfl)

theorem hid_frame_finish (fuel : Nat) (k : Game) (dest : CardPos) (b : Bool) (g' : Game)
    (hf : move_card_finish fuel k dest = some (b, g')) : hid_frame k g' := by
  obtain ⟨_, _, hflds, _⟩ := move_card_finish_spec fuel k dest b g' hf
  refine hid_frame_of_mono _ _ (fun a _ => (hflds a).1) (fun a _ => (hflds a).2.1) ?_
  intro a _ hv
  rw [(hflds a).2.2.1, hv]
  split <;> rfl

/-- Face-down cells after cards were copied and their source cells emptied. -/
theorem hid_frame_moved (g h : Game) (src dst n nr : Nat) (hm : moved g h src dst n nr)
    (hw : ∀ a, WASTE_BASE ≤ a → (g.mem a).visible = true → (h.mem a).visible = true)
    (hdst : dst + n ≤ WASTE_BASE)
    (hnr : nr = NO_RANK ∨ src + n ≤ WASTE_BASE)
    (hsv : ∀ i, i < n → (g.mem (src + i)).visible = true) : hid_frame g h := by
  intro a ha hocc hvis
  obtain ⟨e1, e2, e3⟩ := hm.2 a
  by_cases hd : dst ≤ a ∧ a < dst + n
  · exfalso
    rw [e3 (by omega), if_pos hd, hsv (a - dst) (by omega)] at hvis
    cases hvis
  · rw [if_neg hd] at e1 e2
    by_cases hs : src ≤ a ∧ a < src + n
    · exfalso
      rw [if_pos hs] at e1
      by_cases hlt : a < WASTE_BASE
      · rw [e3 hlt, if_neg hd] at hvis
        have := hsv (a - src) (by omega)
        rw [show src + (a - src) = a by omega, hvis] at this
        cases this
      · rcases hnr with hnr | hnr
        · rw [e1, hnr] at hocc
          exact hocc rfl
        · omega
    · rw [if_neg hs] at e1
      refine ⟨e1.symm, e2.symm, ?_⟩
      by_cases hlt : a < WASTE_BASE
      · rw [e3 hlt, if_neg hd] at hvis
        exact hvis
      · cases hx : (g.mem a).visible
        · rfl
        · rw [hw a (by omega) hx] at hvis
          cases hvis

/-- Face-down cells after a tableau run was copied to another column and cleared. -/
theorem hid_frame_run (g : Game) (c r dc dr n : Nat) (hok : cards_ok g) (hc : c < 7)
    (hdc : dc < 7) (hma : g.moving.active = true) (hml : g.moving.location = TABLEAU)
    (hcol : g.moving.column = (c : Int)) (hrow : g.moving.row = (r : Int))
    (hvis : (g.mem (tab c r)).visible = true) (hn : 1 ≤ n) (hb : r + n < 64)
    (hocc : ∀ i, i < n → (g.mem (tab c (r + i))).rank ≠ NO_RANK)
    (hend : (g.mem (tab c (r + n))).rank = NO_RANK)
    (hdb : dr + n ≤ 64) (hemp : (g.mem (tab dc dr)).rank = NO_RANK)
    (hj : dr = 0 ∨ (0 < dr ∧ (g.mem (tab dc (dr - 1))).rank ≠ NO_RANK ∧
      can_stack (g.mem (tab c r)) (g.mem (tab dc (dr - 1))) false = true)) :
    hid_frame g (clear_source_loop n (memcpy_cards g (tab dc dr) (tab c r) n)) := by
  have hF : FOUNDATION_BASE = 448 := rfl
  have hW : WASTE_BASE = 452 := rfl
  have hne : c ≠ dc := by
    intro e
    subst e
    exact run_other_column g c r dr n hok hc hvis hn hb hocc hend (by omega) hemp hj
  have hdis : tab dc dr + n ≤ tab c r ∨ tab c r + n ≤ tab dc dr := by
    simp only [tab]; omega
  have hm := moved_run g c r (tab dc dr) n hc hma hml hcol hrow (by omega) hocc hdis
  have hdesc := run_ok_descend _ (hok.columns c hc) r hvis
  apply hid_frame_moved g _ _ _ n NO_RANK hm
  · obtain ⟨_, h2⟩ := clear_source_loop_tableau c hc n (memcpy_cards g (tab dc dr) (tab c r) n) r
      hma hml hcol hrow (by omega) (by
        intro i hi
        rw [memcpy_cards_mem, if_neg (by simp only [tab] at hdis ⊢; omega)]
        exact hocc i hi)
    intro a ha hv
    rw [h2 a, if_neg (by simp only [tab]; omega), memcpy_cards_mem,
      if_neg (by simp only [tab]; omega)]
    exact hv
  · simp only [tab]; omega
  · left; rfl
  · intro i hi
    rw [show tab c r + i = tab c (r + i) by simp only [tab]; omega]
    exact (hdesc i (by omega) (hocc i hi)).1

/-- Face-down cells after the waste top was copied to a tableau column and cleared. -/
theorem hid_frame_waste_to_tableau (g : Game) (dc dr : Nat) (hok : cards_ok g) (hdc : dc < 7)
    (hma : g.moving.active = true) (hml : g.moving.location = WASTE)
    (hL : pile_len g WASTE_BASE ≠ 0) (hdr : dr < 64) :
    hid_frame g (clear_source_loop 1
      (memcpy_cards g (tab dc dr) (WASTE_BASE + (pile_len g WASTE_BASE - 1)) 1)) := by
  have hF : FOUNDATION_BASE = 448 := rfl
  have hW : WASTE_BASE = 452 := rfl
  have hle := pile_len_le g WASTE_BASE
  have hm := moved_waste g (tab dc dr) hma hml hL (by simp only [tab]; omega)
  have hsocc := pile_len_occupied g WASTE_BASE (pile_len g WASTE_BASE - 1) (by omega)
  have hsvis := hok.waste_up (pile_len g WASTE_BASE - 1) (by omega) hsocc
  apply hid_frame_moved g _ _ _ 1 NO_RANK hm
  · have hlen : pile_len (memcpy_cards g (tab dc dr) (WASTE_BASE + (pile_len g WASTE_BASE - 1)) 1)
        WASTE_BASE = pile_len g WASTE_BASE := by
      apply pile_len_congr
      intro j hj
      rw [memcpy_cards_mem, if_neg (by simp only [tab]; omega)]
    obtain ⟨_, h2⟩ := clear_source_loop_waste
      (memcpy_cards g (tab dc dr) (WASTE_BASE + (pile_len g WASTE_BASE - 1)) 1) hma hml (by
        rw [hlen]; exact hL)
    intro a ha hv
    rw [h2 a, set_rank_visible, touch_visible, memcpy_cards_mem,
      if_neg (by simp only [tab]; omega), hv]
    rfl
  · simp only [tab]; omega
  · left; rfl
  · intro i hi
    rw [show i = 0 by omega]
    exact hsvis

/-- Face-down cells after a foundation top was copied to a tableau column. -/
theorem hid_frame_foundation_to_tableau (g : Game) (j dc dr : Nat) (hok : cards_ok g)
    (hdc : dc < 7) (hj4 : j < 4) (hdr : dr < 64) :
    hid_frame g ((memcpy_cards g (tab dc dr) (FOUNDATION_BASE + j) 1).set_rank
      (FOUNDATION_BASE + j)
      (((memcpy_cards g (tab dc dr) (FOUNDATION_BASE + j) 1).mem (FOUNDATION_BASE + j)).rank
        - 1)) := by
  have hF : FOUNDATION_BASE = 448 := rfl
  have hW : WASTE_BASE = 452 := rfl
  have hm := moved_foundation g (FOUNDATION_BASE + j) (tab dc dr) (by simp only [tab]; omega)
  have hsvis := hok.foundations j hj4
  apply hid_frame_moved g _ _ _ 1 _ hm
  · intro a ha hv
    rw [set_rank_visible, memcpy_cards_mem, if_neg (by simp only [tab]; omega)]
    exact hv
  · simp only [tab]; omega
  · right; omega
  · intro i hi
    rw [show i = 0 by omega]
    exact hsvis

/-- Face-down cells after a card was assigned to a foundation slot. -/
theorem hid_frame_to_foundation (g : Game) (src j : Nat) (hj4 : j < 4)
    (hne : FOUNDATION_BASE + j ≠ src) (hvis : (g.mem src).visible = true) :
    hid_frame g ((g.write (FOUNDATION_BASE + j) (g.mem src)).set_rank src NO_RANK) := by
  have hF : FOUNDATION_BASE = 448 := rfl
  have hW : WASTE_BASE = 452 := rfl
  have hm := moved_single g src (FOUNDATION_BASE + j) hne
  apply hid_frame_moved g _ _ _ 1 NO_RANK hm
  · intro a ha hv
    rw [set_rank_visible, write_mem, if_neg (by omega)]
    exact hv
  · omega
  · left; rfl
  · intro i hi
    rw [show i = 0 by omega]
    exact hvis

/-! ## Face-down cells under `move_card` and `handle_action` -/

theorem hid_frame_move_tableau (fuel : Nat) (g g' : Game) (src : Nat) (dest : CardPos)
    (dc dr : Nat) (hok : board_ok g) (ht : touch g.moving g = g)
    (hma : g.moving.active = true) (hsrc : card_ptr g.moving g false = some src)
    (hn : 1 ≤ get_amount_stacked_cards g.moving g)
    (hda : dest.active = true) (hdl : dest.location = TABLEAU)
    (hdcol : dest.column = (dc : Int)) (hdrow : dest.row = (dr : Int)) (hdc : dc < 7)
    (hdr : dr < 64) (hemp : (g.mem (tab dc dr)).rank = NO_RANK)
    (hj : dr = 0 ∨ (0 < dr ∧ (g.mem (tab dc (dr - 1))).rank ≠ NO_RANK ∧
      can_stack (g.mem src) (g.mem (tab dc (dr - 1))) false = true))
    (h : move_card_tableau fuel g src dest (tab dc dr) (get_amount_stacked_cards g.moving g)
      = some (true, g')) : hid_frame g g' := by
  have hF : FOUNDATION_BASE = 448 := rfl
  have hW : WASTE_BASE = 452 := rfl
  cases hml : g.moving.location
  case STOCK => exact absurd hml (hok.held_stock hma)
  case TABLEAU =>
    have hvis := hok.held hml src hsrc
    rw [card_ptr_tab _ _ _ hma hml] at hsrc
    by_cases hin : in_tab g.moving.column g.moving.row
    swap
    · simp [hin] at hsrc
    rw [if_pos hin] at hsrc
    by_cases hrk : (g.mem (cell g.moving.column g.moving.row)).rank = 0
    · simp [hrk] at hsrc
    rw [if_neg (by simp [hrk])] at hsrc
    simp only [Option.some.injEq] at hsrc
    obtain ⟨hc0, hc7, hr0, hr64⟩ := hin
    obtain ⟨c, hc⟩ : ∃ c : Nat, g.moving.column = (c : Int) := ⟨g.moving.column.toNat, by omega⟩
    obtain ⟨r, hr⟩ : ∃ r : Nat, g.moving.row = (r : Int) := ⟨g.moving.row.toNat, by omega⟩
    have hsrc' : src = tab c r := by rw [← hsrc]; exact cell_eq _ _ _ _ hc hr
    subst hsrc'
    obtain ⟨hb, hocc, hempty⟩ := amount_tableau g.moving g c r hma hml hc hr (by omega) (by omega)
    generalize get_amount_stacked_cards g.moving g = n at *
    rw [move_card_tableau_from_tableau fuel g _ dest _ n hma hml hda hdl] at h
    split at h
    swap
    · simp at h
    rename_i hg
    obtain ⟨⟨hg1, hg2⟩, ⟨hg3, hg4⟩, ⟨hg5, hg6⟩⟩ := hg
    have e3 : cell g.moving.column (g.moving.row + ((n : Int) - 1) + 1) = tab c (r + n) :=
      cell_eq _ _ _ _ hc (by omega)
    rw [e3] at hg6
    obtain ⟨_, _, _, hg5'⟩ := hg5
    obtain ⟨_, _, _, hg1'⟩ := hg1
    have hk := hid_frame_run g c r dc dr n hok.cards (by omega) hdc hma hml hc hr hvis hn
      (by omega) hocc hg6 (by omega) hemp hj
    exact hid_frame_trans hk (hid_frame_finish fuel _ dest true g' h)
  case WASTE =>
    rw [card_ptr_waste _ _ _ hma hml] at hsrc
    by_cases hL : pile_len g WASTE_BASE = 0
    · simp [hL] at hsrc
    rw [if_neg hL] at hsrc
    simp only [Option.some.injEq] at hsrc
    subst hsrc
    rw [amount_other _ _ hma (by rw [hml]; simp)] at h
    rw [move_card_tableau_from_waste fuel g _ dest _ 1 hma hml ht hda hdl] at h
    split at h
    swap
    · simp at h
    have hk := hid_frame_waste_to_tableau g dc dr hok.cards hdc hma hml hL hdr
    exact hid_frame_trans hk (hid_frame_finish fuel _ dest true g' h)
  case FOUNDATION =>
    rw [card_ptr_foundation _ _ _ hma hml] at hsrc
    split at hsrc
    swap
    · simp at hsrc
    rename_i hcol
    simp only [Option.some.injEq] at hsrc
    subst hsrc
    rw [amount_other _ _ hma (by rw [hml]; simp)] at h
    rw [move_card_tableau_from_foundation fuel g _ dest _ 1 hma hml hda hdl] at h
    split at h
    swap
    · simp at h
    have hk := hid_frame_foundation_to_tableau g g.moving.column.toNat dc dr hok.cards hdc
      (by omega) hdr
    exact hid_frame_trans hk (hid_frame_finish fuel _ dest true g' h)

theorem hid_frame_move_foundation (fuel : Nat) (g g' : Game) (src j : Nat) (dest : CardPos)
    (hok : board_ok g) (hma : g.moving.active = true)
    (hsrc : card_ptr g.moving g false = some src) (hj4 : j < 4)
    (hcs : can_stack (g.mem src) (g.mem (FOUNDATION_BASE + j)) true = true)
    (h : move_card_foundation fuel g src dest (FOUNDATION_BASE + j) = some (true, g')) :
    hid_frame g g' := by
  have hF : FOUNDATION_BASE = 448 := rfl
  have hW : WASTE_BASE = 452 := rfl
  have hne : FOUNDATION_BASE + j ≠ src := by
    intro e
    rw [← e] at hcs
    rcases can_stack_true_foundation _ _ hcs with ⟨h1, h2⟩ | ⟨_, _, h2⟩
    · rw [h1] at h2
      cases h2
    · omega
  have hrk : (g.mem src).rank ≠ NO_RANK := by
    rcases can_stack_true_foundation _ _ hcs with ⟨_, h2⟩ | ⟨_, _, h2⟩
    · rw [h2]; decide
    · rw [h2]; simp
  have hvis : (g.mem src).visible = true := by
    cases hml : g.moving.location
    case STOCK => exact absurd hml (hok.held_stock hma)
    case TABLEAU => exact hok.held hml src hsrc
    case WASTE =>
      rw [card_ptr_waste _ _ _ hma hml] at hsrc
      by_cases hL : pile_len g WASTE_BASE = 0
      · simp [hL] at hsrc
      rw [if_neg hL] at hsrc
      simp only [Option.some.injEq] at hsrc
      subst hsrc
      have hle := pile_len_le g WASTE_BASE
      exact hok.cards.waste_up (pile_len g WASTE_BASE - 1) (by omega) hrk
    case FOUNDATION =>
      rw [card_ptr_foundation _ _ _ hma hml] at hsrc
      split at hsrc
      swap
      · simp at hsrc
      simp only [Option.some.injEq] at hsrc
      subst hsrc
      exact hok.cards.foundations g.moving.column.toNat (by omega)
  have hk := hid_frame_to_foundation g src j hj4 hne hvis
  have hfin : move_card_finish fuel ((g.write (FOUNDATION_BASE + j) (g.mem src)).set_rank src
      NO_RANK) dest = some (true, g') := by
    by_cases hml : g.moving.location = TABLEAU
    · rw [move_card_foundation_from_tableau fuel g _ dest _ hma hml] at h
      split at h
      · simp at h
      · exact h
    · rw [move_card_foundation_from_other fuel g _ dest _ hml] at h
      exact h
  exact hid_frame_trans hk (hid_frame_finish fuel _ dest true g' hfin)

theorem hid_frame_move_card (fuel : Nat) (g : Game) (b : Bool) (g' : Game) (hok : board_ok g)
    (hdst : g.selected.location = TABLEAU → in_tab g.selected.column g.selected.row →
      (g.mem (cell g.selected.column g.selected.row)).rank = NO_RANK → g.selected.row = 0)
    (h : move_card fuel g = some (b, g')) : hid_frame g g' := by
  cases b
  · exact hid_frame_visrel g g' (move_card_false_visrel fuel g g' h)
  have hsa := (move_card_true_facts fuel g g' h).1
  have hma := (move_card_true_facts fuel g g' h).2.1
  rw [move_card_touch fuel g hsa hma] at h
  have hok2 := board_ok_touch g.moving g hok
  have ht : touch (touch g.moving g).moving (touch g.moving g) = touch g.moving g := by
    rw [touch_moving]
    exact touch_idem _ _
  have hdst2 : (touch g.moving g).selected.location = TABLEAU →
      in_tab (touch g.moving g).selected.column (touch g.moving g).selected.row →
      ((touch g.moving g).mem (cell (touch g.moving g).selected.column
        (touch g.moving g).selected.row)).rank = NO_RANK →
      (touch g.moving g).selected.row = 0 := by
    simp only [touch_selected, touch_rank]
    exact hdst
  apply hid_frame_trans (hid_frame_touch g.moving g)
  generalize touch g.moving g = k at h hok2 ht hdst2 ⊢
  clear hsa hma hdst hok g
  obtain ⟨hsa, hma, ⟨src, hsrc⟩, hloc⟩ := move_card_true_facts fuel k g' h
  rcases hloc with ⟨hsl, hin⟩ | ⟨hsl, hin⟩
  · obtain ⟨hc0, hc7, hr0, hr64⟩ := hin
    obtain ⟨dc, hdc⟩ : ∃ c : Nat, k.selected.column = (c : Int) :=
      ⟨k.selected.column.toNat, by omega⟩
    obtain ⟨dr, hdr⟩ : ∃ r : Nat, k.selected.row = (r : Int) := ⟨k.selected.row.toNat, by omega⟩
    have hcell : cell k.selected.column k.selected.row = tab dc dr := cell_eq _ _ _ _ hdc hdr
    by_cases hocc : (k.mem (cell k.selected.column k.selected.row)).rank = NO_RANK
    · have hrow0 := hdst2 hsl ⟨hc0, hc7, hr0, hr64⟩ hocc
      rw [move_card_on_empty fuel k src hsa hma ht hsl hsrc ⟨hc0, hc7, hr0, hr64⟩ hocc] at h
      split at h
      swap
      · simp at h
      rename_i hg
      rw [hcell] at h hocc
      exact hid_frame_move_tableau fuel k g' src k.selected dc dr hok2 ht hma hsrc hg.2 hsa hsl
        hdc hdr (by omega) (by omega) hocc (Or.inl (by omega)) h
    · rw [move_card_on_card fuel k src hsa hma ht hsl hsrc ⟨hc0, hc7, hr0, hr64⟩ hocc] at h
      split at h
      swap
      · simp at h
      rename_i hg
      obtain ⟨⟨⟨_, _, _, hg1⟩, hg2⟩, hg3, hg4⟩ := hg
      have hcell2 : cell k.selected.column (k.selected.row + 1) = tab dc (dr + 1) :=
        cell_eq _ _ _ _ hdc (by omega)
      rw [hcell2] at h hg2
      rw [hcell] at hocc hg3
      exact hid_frame_move_tableau fuel k g' src { k.selected with row := k.selected.row + 1 }
        dc (dr + 1) hok2 ht hma hsrc hg4 hsa hsl hdc (by simp only; omega) (by omega) (by omega)
        hg2 (Or.inr ⟨by omega, by simpa using hocc, by simpa using hg3⟩) h
  · rw [move_card_on_foundation fuel k src hsa hma ht hsl hsrc hin] at h
    split at h
    swap
    · simp at h
    rename_i hg
    exact hid_frame_move_foundation fuel k g' src k.selected.column.toNat k.selected hok2 hma hsrc
      (by omega) hg.1 h

theorem hid_frame_confirm_stock (fuel : Nat) (g : Game) (b : Bool) (g' : Game)
    (hok : board_ok g) (hsa : g.selected.active = true) (hsl : g.selected.location = STOCK)
    (hma : g.moving.active = false)
    (h : handle_confirm fuel g = some (b, g')) : hid_frame g g' := by
  have hW : WASTE_BASE = 452 := rfl
  have hS : STOCK_BASE = 516 := rfl
  have hG : GAME_CELLS = 580 := rfl
  have hleW := pile_len_le g WASTE_BASE
  have hleS := pile_len_le g STOCK_BASE
  rw [handle_confirm_stock_eq fuel g hsa hsl hma] at h
  split at h
  · simp only [Option.some.injEq, Prod.mk.injEq] at h
    obtain ⟨_, rfl⟩ := h
    obtain ⟨_, hmem⟩ := recycle_loop_mem 65 0 g (by omega)
    intro a ha hocc hvis
    by_cases h1 : WASTE_BASE ≤ a ∧ a < WASTE_BASE + pile_len g WASTE_BASE
    · rw [hmem a, if_pos h1] at hocc
      exact absurd rfl hocc
    · by_cases h2 : STOCK_BASE + 0 ≤ a ∧ a < STOCK_BASE + 0 + pile_len g WASTE_BASE
      · rw [hmem a, if_neg h1, if_pos h2] at hvis
        cases hvis
      · rw [hmem a, if_neg h1, if_neg h2] at hvis ⊢
        exact ⟨rfl, rfl, hvis⟩
  · rename_i hp
    simp only [Option.some.injEq, Prod.mk.injEq] at h
    obtain ⟨_, rfl⟩ := h
    show hid_frame g (draw_loop (STOCK_BASE + (pile_len g STOCK_BASE - 1)) 64 0
      (mark_visible g STOCK_BASE (pile_len g STOCK_BASE)))
    have hM : hid_frame g (mark_visible g STOCK_BASE (pile_len g STOCK_BASE)) :=
      hid_frame_of_mono _ _ (fun _ _ => by simp) (fun _ _ => by simp)
        (fun a _ hv => by
          rw [mark_visible_mem]
          split
          · rfl
          · exact hv)
    rw [draw_loop_full]
    split
    swap
    · exact hM
    rename_i hw
    rw [pile_len_mark_visible] at hw ⊢
    apply hid_frame_trans hM
    intro a ha hocc hvis
    have hmem := draw_card_mem (STOCK_BASE + (pile_len g STOCK_BASE - 1)) (pile_len g WASTE_BASE)
      (mark_visible g STOCK_BASE (pile_len g STOCK_BASE)) a (by omega) (by
        intro hlt
        rw [mark_visible_rank]
        exact pile_empty_from g WASTE_BASE hok.cards.waste _ (by omega) (by omega))
    by_cases h1 : a = STOCK_BASE + (pile_len g STOCK_BASE - 1)
    · rw [hmem, if_pos h1] at hocc
      exact absurd rfl hocc
    · by_cases h2 : a = WASTE_BASE + pile_len g WASTE_BASE
      · rw [hmem, if_neg h1, if_pos h2] at hvis
        cases hvis
      · rw [hmem, if_neg h1, if_neg h2] at hvis ⊢
        exact ⟨rfl, rfl, hvis⟩

theorem hid_frame_confirm (fuel : Nat) (g : Game) (b : Bool) (g' : Game) (hok : board_ok g)
    (h : handle_confirm fuel g = some (b, g')) : hid_frame g g' := by
  have hF : FOUNDATION_BASE = 448 := rfl
  by_cases hsa : g.selected.active = true
  swap
  · unfold handle_confirm at h
    rw [if_neg hsa] at h
    cases h
    exact hid_frame_refl g
  by_cases hsl : g.selected.location = STOCK
  · by_cases hma : g.moving.active = true
    · unfold handle_confirm at h
      rw [if_pos hsa, if_pos hsl, if_pos hma] at h
      cases h
      exact hid_frame_refl g
    · exact hid_frame_confirm_stock fuel g b g' hok hsa hsl (by simpa using hma) h
  cases hcp : card_ptr g.selected g false with
  | none =>
    unfold handle_confirm at h
    simp only [hsa, hsl, if_true, if_false, get_card_eq, hcp] at h
    cases h
    exact hid_frame_touch _ _
  | some c =>
    by_cases hma : g.moving.active = true
    · unfold handle_confirm at h
      have hma2 : (touch g.selected g).moving.active = true := by rw [touch_moving]; exact hma
      simp only [hsa, hsl, if_true, if_false, get_card_eq, hcp, hma2] at h
      split at h
      · cases h
        exact hid_frame_mem g (touch g.selected g) _ rfl (hid_frame_touch _ _)
      · split at h
        · refine hid_frame_trans (hid_frame_touch g.selected g)
            (hid_frame_move_card fuel _ b g' (board_ok_touch _ _ hok) ?_ h)
          simp only [touch_selected, touch_rank]
          intro hl hin h0
          exfalso
          rw [card_ptr_tab _ _ _ hsa hl, if_pos hin] at hcp
          simp [h0] at hcp
        · cases h
          exact hid_frame_touch _ _
    · have hma' : g.moving.active = false := by simpa using hma
      have hpick : ∀ T, hid_frame g
          { hl_state (clear_highlight (touch g.selected g)) T with
            moving := { g.selected with active := true } } :=
        fun T => hid_frame_mem g _ _ rfl (hid_frame_tagged g T)
      by_cases hlen : (stack_targets (touch g.selected g) c
          (g.selected.location == TABLEAU)).length = 1
      · obtain ⟨a, hT⟩ := List.length_eq_one.1 hlen
        have hmem : a ∈ stack_targets (touch g.selected g) c (g.selected.location == TABLEAU) := by
          rw [hT]; exact List.mem_singleton_self a
        obtain ⟨s1, s2⟩ := handle_confirm_single fuel g c a hsa hsl hma' hcp hT
        by_cases hlt : a < FOUNDATION_BASE
        · rw [s1 hlt] at h
          obtain ⟨k1, k2⟩ := board_ok_auto g c a hok hsa hsl hmem hlt
          refine hid_frame_trans (hid_frame_mem g _ _ rfl (hid_frame_tagged g [a]))
            (hid_frame_move_card fuel
              { hl_state (clear_highlight (touch g.selected g)) [a] with
                moving := { g.selected with active := true },
                selected := ⟨true, TABLEAU, ((a / 64 : Nat) : Int), ((a % 64 : Nat) : Int)⟩ }
              b g' k1 ?_ h)
          intro _ _ h0
          have hcell : cell ((a / 64 : Nat) : Int) ((a % 64 : Nat) : Int) = a := by
            rw [cell_eq _ _ (a / 64) (a % 64) rfl rfl]
            simp only [tab]
            omega
          have h0' : ((hl_state (clear_highlight (touch g.selected g)) [a]).mem
              (cell ((a / 64 : Nat) : Int) ((a % 64 : Nat) : Int))).rank = NO_RANK := h0
          rw [hcell] at h0'
          have := k2 (by simpa using h0')
          show ((a % 64 : Nat) : Int) = 0
          omega
        · rw [s2 (by omega)] at h
          cases h
          exact hpick _
      · rw [handle_confirm_pickup fuel g c hsa hsl hma' hcp, if_neg hlen] at h
        split at h
        · cases h
          exact hid_frame_tagged g _
        · cases h
          exact hpick _

theorem hid_frame_handle_action (fuel : Nat) (d : Action) (g : Game) (b : Bool) (g' : Game)
    (hok : board_ok g) (h : handle_action fuel d g = some (b, g')) : hid_frame g g' := by
  by_cases hd : d = CONFIRM
  · subst hd
    rw [handle_action_confirm] at h
    exact hid_frame_trans (hid_frame_update_visible g)
      (hid_frame_confirm fuel _ b g' (board_ok_update_visible g hok) h)
  · obtain ⟨e1, _, _⟩ := handle_action_nav fuel d g b g' hd hok.cursor h
    exact hid_frame_mem g _ g' e1 (hid_frame_update_visible g)


/-! ## Stacking rules (C1, C2) -/

theorem is_opposite_color_iff (s t : Suite) :
    is_opposite_color s t = true ↔ is_red s ≠ is_red t := by
  cases s <;> cases t <;> decide

/-- C1: on the tableau `can_stack` holds exactly when the target is empty and the candidate is
a King, or the target is a card of the opposite colour whose rank is one more than the
candidate's; 9 of Clubs goes on 10 of Diamonds and not on 10 of Clubs. -/
theorem can_stack_tableau_iff :
    (∀ card above : Card, can_stack card above false = true ↔
      ((above.rank = NO_RANK ∧ card.rank = KING) ∨
       (above.rank ≠ NO_RANK ∧ is_red card.suite ≠ is_red above.suite ∧
          card.rank = above.rank - 1))) ∧
    (∀ v1 v2 h1 h2, can_stack ⟨v1, h1, CLUBS, 9⟩ ⟨v2, h2, DIAMONDS, 10⟩ false = true) ∧
    (∀ v1 v2 h1 h2, can_stack ⟨v1, h1, CLUBS, 9⟩ ⟨v2, h2, CLUBS, 10⟩ false = false) := by
  refine ⟨?_, ?_, ?_⟩
  · intro card above
    simp only [can_stack, Bool.false_eq_true, if_false, Bool.or_eq_true, Bool.and_eq_true,
      decide_eq_true_eq, is_opposite_color_iff]
    simp only [NO_RANK, KING]
    constructor
    · rintro (⟨h1, h2⟩ | ⟨h1, h2⟩)
      · exact Or.inl ⟨h1, h2⟩
      · exact Or.inr ⟨by omega, h1, by omega⟩
    · rintro (⟨h1, h2⟩ | ⟨h1, h2, h3⟩)
      · exact Or.inl ⟨h1, h2⟩
      · exact Or.inr ⟨h2, by omega⟩
  · intros; simp [can_stack, is_opposite_color, get_suite_color, Suite.toNat]
  · intros; simp [can_stack, is_opposite_color, get_suite_color, Suite.toNat]

/-- C2: on a foundation `can_stack` holds exactly when the pile is empty and the candidate is
an Ace, or the pile top has the candidate's suite and the rank just below it; the Ace of
Hearts goes on an empty pile and the 2 of Hearts does not. -/
theorem can_stack_foundation_iff :
    (∀ card top : Card, can_stack card top true = true ↔
      ((top.rank = NO_RANK ∧ card.rank = ACE) ∨
       (top.rank ≠ NO_RANK ∧ card.suite = top.suite ∧ card.rank = top.rank + 1))) ∧
    (∀ v1 v2 h1 h2 s, can_stack ⟨v1, h1, HEARTS, ACE⟩ ⟨v2, h2, s, NO_RANK⟩ true = true) ∧
    (∀ v1 v2 h1 h2 s, can_stack ⟨v1, h1, HEARTS, 2⟩ ⟨v2, h2, s, NO_RANK⟩ true = false) := by
  refine ⟨?_, ?_, ?_⟩
  · intro card top
    unfold can_stack
    by_cases h : top.rank = NO_RANK
    · simp [h]
    · simp [h]
  · intros; simp [can_stack]
  · intros; simp [can_stack]

/-! ## Rejected moves (C6, C8) -/

/-- C6, as stated, fails: with the cursor on the stock, `move_card` returns false after the
lookup of the stock top has set its `visible` flag. -/
theorem move_card_rejected_changes_state :
    ¬ ∀ (fuel : Nat) (g g' : Game), move_card fuel g = some (false, g') → g' = g := by
  intro H
  have hv : (move_card 0 ex_reject).map (fun r => (r.1, (r.2.mem STOCK_BASE).visible))
      = some (false, true) := by decide!
  cases hr : move_card 0 ex_reject with
  | none => rw [hr] at hv; simp at hv
  | some r =>
    obtain ⟨b, g'⟩ := r
    rw [hr] at hv
    simp only [Option.map_some', Option.some.injEq, Prod.mk.injEq] at hv
    obtain ⟨hb, hvis⟩ := hv
    subst hb
    rw [H 0 ex_reject g' hr] at hvis
    revert hvis
    decide

/-- C6, amended: a rejected `move_card` leaves the selected and the moving position and every
card cell as they were, except that occupied waste and stock cells may have become visible;
the game is exactly as before when neither position is on the waste or the stock, and when
all waste and stock cards were visible already. -/
theorem move_card_rejected_frame (fuel : Nat) (g g' : Game)
    (h : move_card fuel g = some (false, g')) :
    g'.selected = g.selected ∧ g'.moving = g.moving ∧
    (∀ a, g'.mem a = g.mem a ∨
      (WASTE_BASE ≤ a ∧ a < GAME_CELLS ∧ (g.mem a).rank ≠ NO_RANK ∧
        g'.mem a = { g.mem a with visible := true })) ∧
    ((g.moving.location = TABLEAU ∨ g.moving.location = FOUNDATION) →
      (g.selected.location = TABLEAU ∨ g.selected.location = FOUNDATION) → g' = g) ∧
    ((∀ a, WASTE_BASE ≤ a → a < GAME_CELLS → (g.mem a).rank ≠ NO_RANK →
        (g.mem a).visible = true) → g' = g) := by
  have ht := move_card_false_touched fuel g g' h
  obtain ⟨hs, hm, hc⟩ := touched_visrel ht
  refine ⟨hs, hm, hc, ?_, ?_⟩
  · intro h1 h2
    apply touched_eq ht
    rintro l (rfl | rfl)
    · exact h1
    · exact h2
  · intro hvis
    apply game_ext _ hs hm
    intro a
    rcases hc a with e | ⟨l, u, r, e⟩
    · exact e
    · rw [e]
      have := hvis a l u r
      cases hc' : g.mem a
      rw [hc'] at this
      simp only at this
      simp [this]

theorem move_card_rejected_frame_witness :
    move_card 0 ex_run = some (false, ex_run) ∧
    (ex_run.selected = ex_run.selected ∧ ex_run.moving = ex_run.moving ∧
    (∀ a, ex_run.mem a = ex_run.mem a ∨
      (WASTE_BASE ≤ a ∧ a < GAME_CELLS ∧ (ex_run.mem a).rank ≠ NO_RANK ∧
        ex_run.mem a = { ex_run.mem a with visible := true })) ∧
    ((ex_run.moving.location = TABLEAU ∨ ex_run.moving.location = FOUNDATION) →
      (ex_run.selected.location = TABLEAU ∨ ex_run.selected.location = FOUNDATION) →
        ex_run = ex_run) ∧
    ((∀ a, WASTE_BASE ≤ a → a < GAME_CELLS → (ex_run.mem a).rank ≠ NO_RANK →
        (ex_run.mem a).visible = true) → ex_run = ex_run)) :=
  ⟨by rfl, move_card_rejected_frame 0 ex_run ex_run (by rfl)⟩

/-- C8: when the held position is a tableau slot with a run of two or more cards and the
cursor is on a foundation pile, `move_card` returns false and the game is unchanged. -/
theorem move_run_to_foundation (fuel : Nat) (g : Game) (hm : g.moving.location = TABLEAU)
    (hs : g.selected.location = FOUNDATION)
    (hrun : 2 ≤ get_amount_stacked_cards g.moving g) :
    move_card fuel g = some (false, g) :=
  move_run_to_foundation_rejected fuel g hm hs hrun

theorem move_run_to_foundation_witness :
    ex_run.moving.location = TABLEAU ∧ ex_run.selected.location = FOUNDATION ∧
    2 ≤ get_amount_stacked_cards ex_run.moving ex_run ∧
    move_card 5 ex_run = some (false, ex_run) :=
  ⟨by decide, by decide, by decide!,
    move_run_to_foundation 5 ex_run (by decide) (by decide) (by decide!)⟩

/-! ## Confirm on the stock (C9, C10) -/

/-- C9, as stated, fails: the draw leaves the other stock cards changed, the lookup of the
stock top having set their `visible` flags. -/
theorem confirm_draw_changes_other_stock_cards :
    ¬ ∀ (fuel : Nat) (g g' : Game), g.selected.active = true →
      g.selected.location = STOCK → g.moving.active = false →
      (g.stock 0).rank ≠ NO_RANK →
      handle_action fuel CONFIRM g = some (true, g') →
      ∀ i, i < 64 → i + 1 ≠ pile_len g STOCK_BASE → g'.stock i = g.stock i := by
  intro H
  have hv : (handle_action 0 CONFIRM ex_draw).map (fun r => (r.1, (r.2.stock 0).visible))
      = some (true, true) := by decide!
  cases hr : handle_action 0 CONFIRM ex_draw with
  | none => rw [hr] at hv; simp at hv
  | some r =>
    obtain ⟨b, g'⟩ := r
    rw [hr] at hv
    simp only [Option.map_some', Option.some.injEq, Prod.mk.injEq] at hv
    obtain ⟨hb, hvis⟩ := hv
    subst hb
    have h0 := H 0 ex_draw g' (by decide) (by decide) (by decide) (by decide!) hr 0 (by decide)
      (by decide!)
    rw [h0] at hvis
    revert hvis
    decide!

/-- C9, amended: with the cursor on the stock, nothing held, a non-empty stock and a waste
that is contiguous and not full, Confirm returns true and moves exactly the stock top onto
the waste, marked visible, with the cursor on the waste; the other waste cards and the
foundations are unchanged, the other stock cards keep rank, suite and highlight (those below
the drawn card are marked visible), and the tableau is as `update_visible` leaves it. -/
theorem confirm_draw_outcome (fuel : Nat) (g : Game) (ha : g.selected.active = true)
    (hl : g.selected.location = STOCK) (hm : g.moving.active = false)
    (hp : (g.stock 0).rank ≠ NO_RANK) (hw : pile_len g WASTE_BASE < 64)
    (hc : waste_contiguous g) :
    ∃ g', handle_action fuel CONFIRM g = some (true, g') ∧ draw_outcome g g' := by
  have hS : STOCK_BASE = 516 := rfl
  have hW : WASTE_BASE = 452 := rfl
  have hF : FOUNDATION_BASE = 448 := rfl
  have hple := pile_len_le g STOCK_BASE
  have hp0 : pile_len g STOCK_BASE ≠ 0 := by
    intro h0
    have := pile_len_empty g STOCK_BASE (by omega)
    rw [h0] at this
    exact hp this
  have hnext : pile_len g WASTE_BASE < 63 →
      (g.mem (WASTE_BASE + (pile_len g WASTE_BASE + 1))).rank = 0 :=
    fun h => hc _ (by omega) (by omega)
  have hmem := confirm_draw_mem g hp0 hw hnext
  rw [handle_action_confirm, handle_confirm_stock_eq fuel (update_visible g)
    (by rw [update_visible_selected]; exact ha) (by rw [update_visible_selected]; exact hl)
    (by rw [update_visible_moving]; exact hm)]
  rw [pile_len_update_visible, if_neg hp0, draw_loop_full, pile_len_mark_visible,
    pile_len_update_visible, if_pos hw]
  refine ⟨_, rfl, ?_⟩
  unfold draw_outcome
  simp only [Game.waste, Game.stock, Game.foundation, Game.tableau]
  refine ⟨?_, ?_, ?_, ?_, ?_, ?_, ?_, ?_, ?_, ?_⟩
  · simp only [update_visible_selected]
  · simp only [draw_card_moving, mark_visible_moving, update_visible_moving]
  · rw [hmem, if_neg (by omega), if_pos rfl]
  · rw [hmem, if_pos rfl]
  · apply pile_len_eq
    · omega
    · intro j hj
      by_cases hjw : j = pile_len g WASTE_BASE
      · rw [hmem, if_neg (by omega), if_pos (by omega)]
        exact pile_len_occupied g STOCK_BASE (pile_len g STOCK_BASE - 1) (by omega)
      · rw [hmem, if_neg (by omega), if_neg (by omega), if_neg (by omega), update_visible_rank]
        exact pile_len_occupied g WASTE_BASE j (by omega)
    · intro hlt
      rw [hmem, if_neg (by omega), if_neg (by omega), if_neg (by omega), update_visible_rank]
      exact hnext (by omega)
  · apply pile_len_eq
    · omega
    · intro j hj
      rw [hmem, if_neg (by omega), if_neg (by omega), if_pos ⟨by omega, by omega⟩]
      exact pile_len_occupied g STOCK_BASE j (by omega)
    · intro _
      rw [hmem, if_pos rfl]
  · intro i hi hne
    rw [hmem, if_neg (by omega), if_neg (by omega), if_neg (by omega),
      update_visible_mem_of_ge _ _ (by omega)]
  · intro i hi hne
    rw [hmem, if_neg (by omega), if_neg (by omega)]
    by_cases h : i < pile_len g STOCK_BASE - 1
    · rw [if_pos ⟨by omega, by omega⟩, if_pos h]
    · rw [if_neg (by omega), if_neg h, update_visible_mem_of_ge _ _ (by omega)]
  · intro i hi
    rw [hmem, if_neg (by omega), if_neg (by omega), if_neg (by omega),
      update_visible_mem_of_ge _ _ (by omega)]
  · intro c r hc hr
    have ht : tab c r < 448 := by simp only [tab]; omega
    rw [hmem, if_neg (by omega), if_neg (by omega), if_neg (by omega)]


theorem confirm_draw_outcome_witness :
    ex_draw.selected.active = true ∧ ex_draw.selected.location = STOCK ∧
    ex_draw.moving.active = false ∧ (ex_draw.stock 0).rank ≠ NO_RANK ∧
    pile_len ex_draw WASTE_BASE < 64 ∧ waste_contiguous ex_draw ∧
    ∃ g', handle_action 0 CONFIRM ex_draw = some (true, g') ∧ draw_outcome ex_draw g' :=
  ⟨by decide, by decide, by decide, by decide!, by decide!, by unfold waste_contiguous; decide!,
    confirm_draw_outcome 0 ex_draw (by decide) (by decide) (by decide) (by decide!) (by decide!)
      (by unfold waste_contiguous; decide!)⟩

/-- C10, as stated, fails: a waste of two cards comes back into the stock in reverse order. -/
theorem confirm_recycle_not_in_waste_order :
    ¬ ∀ (fuel : Nat) (g g' : Game) (n : Nat), g.selected.active = true →
      g.selected.location = STOCK → g.moving.active = false →
      (∀ i, i < 64 → (g.stock i).rank = NO_RANK) → 1 ≤ n → n ≤ 64 →
      (∀ i, i < n → (g.waste i).rank ≠ NO_RANK) →
      (∀ i, n ≤ i → i < 64 → (g.waste i).rank = NO_RANK) →
      handle_action fuel CONFIRM g = some (true, g') →
      ∀ i, i < n → (g'.stock i).rank = (g.waste i).rank ∧ (g'.stock i).suite = (g.waste i).suite := by
  intro H
  have hv : (handle_action 0 CONFIRM ex_recycle).map (fun r => (r.1, (r.2.stock 0).rank))
      = some (true, 2) := by decide!
  cases hr : handle_action 0 CONFIRM ex_recycle with
  | none => rw [hr] at hv; simp at hv
  | some r =>
    obtain ⟨b, g'⟩ := r
    rw [hr] at hv
    simp only [Option.map_some', Option.some.injEq, Prod.mk.injEq] at hv
    obtain ⟨hb, hrank⟩ := hv
    subst hb
    have h0 := (H 0 ex_recycle g' 2 (by decide) (by decide) (by decide) (by decide!) (by decide)
      (by decide) (by decide!) (by decide!) hr 0 (by decide)).1
    rw [hrank] at h0
    revert h0
    decide!


/-- C10, amended: with the cursor on an empty stock, nothing held and a waste of `n >= 1`
cards, Confirm returns true and moves all waste cards into the stock in reverse order: the
waste is empty, the stock holds exactly `n` cards, stock slot `i` holds the card of waste slot
`n - 1 - i` (marked visible), and the cursor stays on the stock. -/
theorem confirm_recycle_outcome (fuel : Nat) (g : Game) (n : Nat)
    (ha : g.selected.active = true) (hl : g.selected.location = STOCK)
    (hm : g.moving.active = false) (hs : ∀ i, i < 64 → (g.stock i).rank = NO_RANK)
    (hn : 1 ≤ n) (hn64 : n ≤ 64)
    (hocc : ∀ i, i < n → (g.waste i).rank ≠ NO_RANK)
    (hemp : ∀ i, n ≤ i → i < 64 → (g.waste i).rank = NO_RANK) :
    ∃ g', handle_action fuel CONFIRM g = some (true, g') ∧ recycle_outcome g n g' := by
  have hS : STOCK_BASE = 516 := rfl
  have hW : WASTE_BASE = 452 := rfl
  have hF : FOUNDATION_BASE = 448 := rfl
  have hp0 : pile_len g STOCK_BASE = 0 :=
    pile_len_eq g STOCK_BASE 0 (by omega) (fun j hj => by omega) (fun _ => hs 0 (by omega))
  have hwn : pile_len g WASTE_BASE = n :=
    pile_len_eq g WASTE_BASE n hn64 hocc (fun h => hemp n (Nat.le_refl _) h)
  rw [handle_action_confirm, handle_confirm_stock_eq fuel (update_visible g)
    (by rw [update_visible_selected]; exact ha) (by rw [update_visible_selected]; exact hl)
    (by rw [update_visible_moving]; exact hm)]
  rw [pile_len_update_visible, if_pos hp0]
  refine ⟨_, rfl, ?_⟩
  obtain ⟨⟨hsel, hmov⟩, hmem⟩ := recycle_loop_mem 65 0 (update_visible g)
    (by rw [pile_len_update_visible, hwn]; omega)
  simp only [pile_len_update_visible, hwn] at hmem
  unfold recycle_outcome
  simp only [Game.waste, Game.stock]
  refine ⟨by rw [hsel, update_visible_selected], by rw [hmov, update_visible_moving],
    ?_, ?_, ?_, ?_, ?_⟩
  · intro i hi
    rw [hmem]
    by_cases h : i < n
    · rw [if_pos ⟨by omega, by omega⟩]
    · rw [if_neg (by omega), if_neg (by omega), update_visible_rank]
      exact hemp i (by omega) hi
  · intro i hi
    rw [hmem, if_neg (by omega), if_pos ⟨by omega, by omega⟩,
      update_visible_mem_of_ge _ _ (by omega)]
    have : STOCK_BASE + i - (STOCK_BASE + 0) = i := by omega
    rw [this]
  · intro i hi hni
    rw [hmem, if_neg (by omega), if_neg (by omega), update_visible_rank]
    exact hs i hi
  · apply pile_len_eq _ _ 0 (by omega) (fun j hj => by omega)
    intro _
    rw [hmem, if_pos ⟨by omega, by omega⟩]
  · apply pile_len_eq _ _ n hn64
    · intro j hj
      rw [hmem, if_neg (by omega), if_pos ⟨by omega, by omega⟩, update_visible_rank]
      exact hocc _ (by omega)
    · intro hlt
      rw [hmem, if_neg (by omega), if_neg (by omega), update_visible_rank]
      exact hs n hlt


theorem confirm_recycle_outcome_witness :
    ex_recycle.selected.active = true ∧ ex_recycle.selected.location = STOCK ∧
    ex_recycle.moving.active = false ∧ (∀ i, i < 64 → (ex_recycle.stock i).rank = NO_RANK) ∧
    1 ≤ 2 ∧ 2 ≤ 64 ∧ (∀ i, i < 2 → (ex_recycle.waste i).rank ≠ NO_RANK) ∧
    (∀ i, 2 ≤ i → i < 64 → (ex_recycle.waste i).rank = NO_RANK) ∧
    ∃ g', handle_action 0 CONFIRM ex_recycle = some (true, g') ∧ recycle_outcome ex_recycle 2 g' :=
  ⟨by decide, by decide, by decide, by decide!, by decide, by decide, by decide!, by decide!,
    confirm_recycle_outcome 0 ex_recycle 2 (by decide) (by decide) (by decide) (by decide!)
      (by decide) (by decide) (by decide!) (by decide!)⟩

/-- C7, as stated, fails: a King in the last row of a full column is not moved to an empty
column, `move_card` rejecting a source run that ends in row 63. -/
theorem move_king_rejected_at_last_row :
    ¬ ∀ (fuel : Nat) (g : Game) (src n : Nat), columns_contiguous g →
      g.selected.active = true → g.selected.location = TABLEAU →
      0 ≤ g.selected.column ∧ g.selected.column < 7 → g.selected.row = 0 →
      (g.tableau g.selected.column.toNat 0).rank = NO_RANK →
      g.moving.active = true → card_ptr g.moving g false = some src →
      (g.mem src).rank = KING → get_amount_stacked_cards g.moving g = n →
      (g.moving.location = TABLEAU ∧ g.moving.column ≠ g.selected.column) ∨
        g.moving.location = WASTE →
      64 < fuel →
      ∃ g', move_card fuel g = some (true, g') ∧
        ∀ i, i < n →
          (g'.tableau g.selected.column.toNat i).rank = (g.mem (src + i)).rank ∧
          (g'.tableau g.selected.column.toNat i).suite = (g.mem (src + i)).suite ∧
          (g'.mem (src + i)).rank = NO_RANK := by
  intro H
  obtain ⟨g', h, _⟩ := H 65 ex_king_full (tab 0 63) 1 (by decide!) (by decide) (by decide)
    (by decide) (by decide) (by decide!) (by decide) (by decide!) (by decide!) (by decide!)
    (Or.inl (by decide)) (by decide)
  have hv : (move_card 65 ex_king_full).map (fun r => r.1) = some false := by decide!
  rw [h] at hv
  cases hv

/-- C7, amended: on a board with contiguous columns, when the held position resolves to a
King that starts a tableau run of `n` cards ending before row 63 (or is the waste top, with
`n = 1`) and the cursor is on row 0 of an empty tableau column other than the source column,
`move_card` returns true (given fuel for the cursor snapping); afterwards rows `0..n-1` of
the destination column hold the ranks and suites of the moved run in its original order and
every slot the run vacated has rank `NO_RANK`. -/
theorem move_king_to_empty_column (fuel : Nat) (g : Game) (src n : Nat)
    (hcont : columns_contiguous g)
    (hsa : g.selected.active = true) (hsl : g.selected.location = TABLEAU)
    (hsc : 0 ≤ g.selected.column ∧ g.selected.column < 7) (hsr : g.selected.row = 0)
    (hemp : (g.tableau g.selected.column.toNat 0).rank = NO_RANK)
    (hma : g.moving.active = true)
    (hsrc : card_ptr g.moving g false = some src) (hking : (g.mem src).rank = KING)
    (hn : get_amount_stacked_cards g.moving g = n)
    (hloc : (g.moving.location = TABLEAU ∧ g.moving.column ≠ g.selected.column ∧
        g.moving.row + n < 64) ∨ g.moving.location = WASTE)
    (hfuel : 64 < fuel) :
    ∃ g', move_card fuel g = some (true, g') ∧
      ∀ i, i < n →
        (g'.tableau g.selected.column.toNat i).rank = (g.mem (src + i)).rank ∧
        (g'.tableau g.selected.column.toNat i).suite = (g.mem (src + i)).suite ∧
        (g'.mem (src + i)).rank = NO_RANK := by
  rcases hloc with ⟨hml, hne, hend⟩ | hml
  · exact king_from_tableau fuel g src n hcont hsa hsl hsc hsr hemp hma hsrc hking hn hml hne
      hend hfuel
  · have hn1 : n = 1 := by rw [← hn]; exact amount_other _ _ hma (by simp [hml])
    subst hn1
    obtain ⟨g', h1, h2⟩ := king_from_waste_touched fuel (touch g.moving g) src
      (by
        intro c hc r hr h
        have := hcont c hc r hr (by simpa [Game.tableau] using h)
        simpa [Game.tableau] using this)
      (by simpa using hsa) (by simpa using hsl) (by simpa using hsc) (by simpa using hsr)
      (by simpa [Game.tableau] using hemp) (by simpa using hma)
      (by simpa using hsrc) (by simpa using hking) (by simpa using hml)
      (by rw [touch_moving, touch_idem]) hfuel
    refine ⟨g', ?_, ?_⟩
    · rw [move_card_touch fuel g hsa hma]; exact h1
    · intro i hi
      simpa using h2 i hi

theorem move_king_to_empty_column_witness :
    ∃ g', move_card 65 ex_king = some (true, g') ∧
      ∀ i, i < 2 →
        (g'.tableau ex_king.selected.column.toNat i).rank = (ex_king.mem (tab 0 1 + i)).rank ∧
        (g'.tableau ex_king.selected.column.toNat i).suite = (ex_king.mem (tab 0 1 + i)).suite ∧
        (g'.mem (tab 0 1 + i)).rank = NO_RANK :=
  move_king_to_empty_column 65 ex_king (tab 0 1) 2 (by decide!) (by decide) (by decide)
    (by decide) (by decide) (by decide!) (by decide) (by decide!) (by decide!) (by decide!)
    (Or.inl ⟨by decide, by decide, by decide⟩) (by decide)

/-! ## The deal (C4) -/

/-- C4: for every outcome of the shuffle (`rand`) and every prior content `g0` of the game
block on which the cursor reset at the start of `reset_game` returns, `reset_game` returns
a board on which column `c` (0..6) holds exactly `c + 1` cards, in rows `0..c`, with only
the card in row `c` visible, the stock holds exactly 24 cards, all hidden, the four
foundations and the waste are empty, and no slot carries a highlight. -/
theorem reset_game_deals (fuel : Nat) (rand : Nat → Nat) (g0 : Game)
    (hret : (reset_selected fuel g0).isSome = true) :
    ∃ g, reset_game fuel rand g0 = some g ∧ fresh_deal g := by
  obtain ⟨g1, hg1⟩ := Option.isSome_iff_exists.1 hret
  have h : reset_game fuel rand g0
      = some (update_display (dealt (shuffle rand 51 init_deck) g1)) := by
    rw [reset_game_eq, hg1]; rfl
  exact ⟨_, h, reset_game_fresh fuel rand g0 _ h⟩

theorem reset_game_deals_witness :
    (reset_selected 1 ex_zero).isSome = true ∧
    ∃ g, reset_game 1 (fun _ => 0) ex_zero = some g ∧ fresh_deal g :=
  ⟨by decide!, reset_game_deals 1 (fun _ => 0) ex_zero (by decide!)⟩

/-! ## Confirm on the empty stock: visibility (C11) -/

/-- C11, as stated, fails: the cards that Confirm puts back into the stock carry
`visible = true`, the lookup of the waste top having marked them. -/
theorem confirm_recycle_stock_not_hidden :
    ¬ ∀ (fuel : Nat) (g g' : Game) (b : Bool), g.selected.active = true →
      g.selected.location = STOCK → g.moving.active = false →
      (∀ i, i < 64 → (g.stock i).rank = NO_RANK) → (g.waste 0).rank ≠ NO_RANK →
      handle_action fuel CONFIRM g = some (b, g') →
      ∀ i, i < 64 → (g'.stock i).rank ≠ NO_RANK → (g'.stock i).visible = false := by
  intro H
  have hv : (handle_action 0 CONFIRM ex_recycle).map
      (fun r => ((r.2.stock 0).rank, (r.2.stock 0).visible)) = some (2, true) := by decide!
  cases hr : handle_action 0 CONFIRM ex_recycle with
  | none => rw [hr] at hv; simp at hv
  | some r =>
    obtain ⟨b, g'⟩ := r
    rw [hr] at hv
    simp only [Option.map_some', Option.some.injEq, Prod.mk.injEq] at hv
    have h0 := H 0 ex_recycle g' b (by decide) (by decide) (by decide) (by decide!) (by decide!)
      hr 0 (by decide) (by rw [hv.1]; decide)
    rw [hv.2] at h0
    cases h0

/-- C11, amended: with the cursor on the stock, nothing held, an empty stock and a non-empty
waste, Confirm returns true, the stock is non-empty afterwards and every card now in the
stock has its visibility flag set (true), not cleared. -/
theorem confirm_recycle_stock_visible (fuel : Nat) (g : Game)
    (ha : g.selected.active = true) (hl : g.selected.location = STOCK)
    (hm : g.moving.active = false) (hs : ∀ i, i < 64 → (g.stock i).rank = NO_RANK)
    (hw : (g.waste 0).rank ≠ NO_RANK) :
    ∃ g', handle_action fuel CONFIRM g = some (true, g') ∧
      (g'.stock 0).rank ≠ NO_RANK ∧
      ∀ i, i < 64 → (g'.stock i).rank ≠ NO_RANK → (g'.stock i).visible = true := by
  have hS : STOCK_BASE = 516 := rfl
  have hW : WASTE_BASE = 452 := rfl
  have hF : FOUNDATION_BASE = 448 := rfl
  obtain ⟨g', h1, _, _, hmem⟩ := confirm_recycle_mem fuel g ha hl hm (hs 0 (by omega))
  have hle := pile_len_le g WASTE_BASE
  have hL : 0 < pile_len g WASTE_BASE := by
    rcases Nat.eq_zero_or_pos (pile_len g WASTE_BASE) with h0 | h0
    · have := pile_len_empty g WASTE_BASE (by omega)
      rw [h0] at this
      exact absurd this hw
    · exact h0
  refine ⟨g', h1, ?_, ?_⟩
  · simp only [Game.stock]
    rw [hmem, if_neg (by omega), if_pos ⟨by omega, by omega⟩]
    simp only [update_visible_rank]
    exact pile_len_occupied g WASTE_BASE _ (by omega)
  · intro i hi
    simp only [Game.stock]
    rw [hmem, if_neg (by omega)]
    by_cases h : i < pile_len g WASTE_BASE
    · rw [if_pos ⟨by omega, by omega⟩]
      intro _
      rfl
    · rw [if_neg (show ¬ (STOCK_BASE ≤ STOCK_BASE + i ∧
        STOCK_BASE + i < STOCK_BASE + pile_len g WASTE_BASE) by omega),
        update_visible_mem_of_ge g (STOCK_BASE + i) (by omega)]
      intro hne
      exact absurd (hs i hi) hne

theorem confirm_recycle_stock_visible_witness :
    ex_recycle.selected.active = true ∧ ex_recycle.selected.location = STOCK ∧
    ex_recycle.moving.active = false ∧ (∀ i, i < 64 → (ex_recycle.stock i).rank = NO_RANK) ∧
    (ex_recycle.waste 0).rank ≠ NO_RANK ∧
    ∃ g', handle_action 0 CONFIRM ex_recycle = some (true, g') ∧
      (g'.stock 0).rank ≠ NO_RANK ∧
      ∀ i, i < 64 → (g'.stock i).rank ≠ NO_RANK → (g'.stock i).visible = true :=
  ⟨by decide, by decide, by decide, by decide!, by decide!,
    confirm_recycle_stock_visible 0 ex_recycle (by decide) (by decide) (by decide) (by decide!)
      (by decide!)⟩

/-! ## Up from the tableau (C19) -/

/-- C19, as stated, fails: Up from row 0 of column 6 goes to the waste, not to the stock,
when the waste is non-empty (and from column 5 the cursor stays in its column when the waste
is empty). -/
theorem up_from_column_six_to_waste :
    ¬ ∀ (fuel : Nat) (g g' : Game) (b : Bool), g.selected.active = true →
      g.selected.location = TABLEAU →
      (g.selected.row ≤ 0 ∨
        card_ptr { g.selected with row := g.selected.row - 1 } g false = none ∨
        ∃ c, card_ptr { g.selected with row := g.selected.row - 1 } g false = some c ∧
          ((update_visible g).mem c).visible = false) →
      handle_action fuel UP g = some (b, g') →
      (0 ≤ g.selected.column ∧ g.selected.column ≤ 3 →
        g'.selected.location = FOUNDATION ∧ g'.selected.column = g.selected.column) ∧
      (g.selected.column = 4 ∨ g.selected.column = 5 →
        if (g.waste 0).rank ≠ NO_RANK then g'.selected.location = WASTE
        else g'.selected.location = FOUNDATION ∧ g'.selected.column = 3) ∧
      (g.selected.column = 6 → g'.selected.location = STOCK) := by
  intro H
  have hv : (handle_action 0 UP ex_up).map (fun r => r.2.selected.location) = some WASTE := by
    decide!
  cases hr : handle_action 0 UP ex_up with
  | none => rw [hr] at hv; simp at hv
  | some r =>
    obtain ⟨b, g'⟩ := r
    rw [hr] at hv
    simp only [Option.map_some', Option.some.injEq] at hv
    have h0 := (H 0 ex_up g' b (by decide) (by decide) (Or.inl (by decide)) hr).2.2 (by decide)
    rw [hv] at h0
    cases h0

/-- C19, amended: with the cursor on a tableau slot in row 0, or whose previous row holds no
visible card, Up leaves the column thus, returning true: from columns 0..3 to the foundation
pile of the same index; from columns 4, 5 and 6 to the waste if the waste is non-empty;
with an empty waste from column 4 to foundation pile 3 and from column 6 to the stock.
From column 5 with an empty waste Up goes nowhere: the cursor is put on row 0 of column 5
and snapped there; Up then returns, with enough fuel, when column 5 is not full, and whenever
it returns the result is true, the cursor is snapped in column 5 and the cards are those
that the flip pass leaves. -/
theorem up_leaves_column (fuel : Nat) (g : Game) (ha : g.selected.active = true)
    (hl : g.selected.location = TABLEAU)
    (hleave : g.selected.row ≤ 0 ∨
      card_ptr { g.selected with row := g.selected.row - 1 } g false = none ∨
      ∃ c, card_ptr { g.selected with row := g.selected.row - 1 } g false = some c ∧
        ((update_visible g).mem c).visible = false) :
    (g.selected.column < 4 → handle_action fuel UP g = some (true,
      { update_visible g with selected :=
        { g.selected with row := 0, location := FOUNDATION } })) ∧
    (4 ≤ g.selected.column → (g.waste 0).rank ≠ NO_RANK → handle_action fuel UP g = some (true,
      { update_visible g with selected :=
        { g.selected with row := 0, column := 0, location := WASTE } })) ∧
    (g.selected.column = 4 → (g.waste 0).rank = NO_RANK → handle_action fuel UP g = some (true,
      { update_visible g with selected :=
        { g.selected with row := 0, column := 3, location := FOUNDATION } })) ∧
    (6 ≤ g.selected.column → (g.waste 0).rank = NO_RANK → handle_action fuel UP g = some (true,
      { update_visible g with selected :=
        { g.selected with row := 0, column := 0, location := STOCK } })) ∧
    (g.selected.column = 5 → (g.waste 0).rank = NO_RANK →
      handle_action fuel UP g =
        (fix_selected_tableau fuel
          { update_visible g with selected := { g.selected with row := 0 } }).map
          (fun g => (true, g)) ∧
      (∀ b g', handle_action fuel UP g = some (b, g') →
        b = true ∧ g'.mem = (update_visible g).mem ∧ g'.moving = g.moving ∧
        g'.selected.active = true ∧ g'.selected.location = TABLEAU ∧
        g'.selected.column = 5 ∧ snapped g') ∧
      (64 < fuel → (g.tableau 5 63).rank = NO_RANK →
        ∃ g', handle_action fuel UP g = some (true, g'))) := by
  have hw : ((update_visible g).mem WASTE_BASE).rank = (g.waste 0).rank := by
    rw [update_visible_rank]; rfl
  rw [handle_action_up_leave fuel g ha hl hleave, hw]
  refine ⟨?_, ?_, ?_, ?_, ?_⟩
  · intro h
    rw [if_neg (by omega), fix_selected_tableau_off _ _ (by simp)]
    rfl
  · intro h h2
    rw [if_pos h, if_pos h2, fix_selected_tableau_off _ _ (by simp)]
    rfl
  · intro h h2
    rw [if_pos (by omega), if_neg (by simp [h2]), if_pos h, fix_selected_tableau_off _ _ (by simp)]
    rfl
  · intro h h2
    rw [if_pos (by omega), if_neg (by simp [h2]), if_neg (by omega), if_pos h,
      fix_selected_tableau_off _ _ (by simp)]
    rfl
  · intro h h2
    rw [if_pos (by omega), if_neg (by simp [h2]), if_neg (by omega), if_neg (by omega)]
    refine ⟨rfl, ?_, ?_⟩
    · intro b g' hr
      simp only [Option.map_eq_some', Prod.mk.injEq] at hr
      obtain ⟨k, hk, hb, rfl⟩ := hr
      obtain ⟨h1, h3, h4, h5, h6, h7⟩ := fix_selected_tableau_spec fuel _ _ hk
      exact ⟨hb.symm, h1, by rw [h3]; simp, by rw [h4]; exact ha, by rw [h5]; exact hl,
        by rw [h6]; exact h, h7 ha hl⟩
    · intro hfuel hfull
      obtain ⟨g', hg'⟩ := fix_selected_from_row_zero fuel
        { update_visible g with selected := { g.selected with row := 0 } } 5 (by omega) hfuel
        ha hl h rfl (by simpa [Game.tableau] using hfull)
        (fun a h => update_visible_tops g a h)
      exact ⟨g', by rw [hg']; rfl⟩

theorem up_leaves_column_witness :
    ex_up.selected.column = 6 ∧ (ex_up.waste 0).rank ≠ NO_RANK ∧
    handle_action 0 UP ex_up = some (true,
      { update_visible ex_up with selected :=
        { ex_up.selected with row := 0, column := 0, location := WASTE } }) :=
  ⟨by decide, by decide!,
    (up_leaves_column 0 ex_up (by decide) (by decide) (Or.inl (by decide))).2.1 (by decide)
      (by decide!)⟩

/-! ## Navigation on the foundations (C20) -/

/-- C20, as stated, fails in its last sentence: every action starts with the flip pass
(`update_visible`), so a rejected Up on a foundation still turns a face-down column top
face up. -/
theorem foundation_up_changes_pile :
    ¬ ∀ (fuel : Nat) (g g' : Game) (b : Bool), g.selected.active = true →
      g.selected.location = FOUNDATION → 0 ≤ g.selected.column ∧ g.selected.column ≤ 3 →
      handle_action fuel UP g = some (b, g') →
      b = false ∧ ∀ a, a < GAME_CELLS → g'.mem a = g.mem a := by
  intro H
  have hv : (handle_action 0 UP ex_foundation).map (fun r => (r.2.mem (tab 0 0)).visible)
      = some true := by decide!
  cases hr : handle_action 0 UP ex_foundation with
  | none => rw [hr] at hv; simp at hv
  | some r =>
    obtain ⟨b, g'⟩ := r
    rw [hr] at hv
    simp only [Option.map_some', Option.some.injEq] at hv
    have h0 := (H 0 ex_foundation g' b (by decide) (by decide) (by decide) hr).2 (tab 0 0)
      (by decide)
    rw [h0] at hv
    revert hv
    decide!

/-- C20, amended: with the cursor on foundation pile `i` (0 <= i <= 3), Up is rejected; Left
moves to pile `i - 1` and is rejected at pile 0; Right moves to pile `i + 1` for `i < 3` and
from pile 3 to the waste if it is non-empty, else to the stock; Down moves to tableau column
`i`, row 0, and applies the snap rule (it returns, with enough fuel, when column `i` is not
full). The cursor row is set to 0 throughout, and the cards are those that the flip pass at
the start of `handle_action` leaves: no pile changes except that face-down column tops are
turned face up. -/
theorem foundation_navigation (fuel : Nat) (g : Game) (ha : g.selected.active = true)
    (hl : g.selected.location = FOUNDATION)
    (hc : 0 ≤ g.selected.column ∧ g.selected.column ≤ 3) :
    handle_action fuel UP g = some (false,
      { update_visible g with selected := { g.selected with row := 0 } }) ∧
    (g.selected.column = 0 → handle_action fuel LEFT g = some (false,
      { update_visible g with selected := { g.selected with row := 0 } })) ∧
    (0 < g.selected.column → handle_action fuel LEFT g = some (true,
      { update_visible g with selected :=
        { g.selected with row := 0, column := g.selected.column - 1 } })) ∧
    (g.selected.column < 3 → handle_action fuel RIGHT g = some (true,
      { update_visible g with selected :=
        { g.selected with row := 0, column := g.selected.column + 1 } })) ∧
    (g.selected.column = 3 → (g.waste 0).rank ≠ NO_RANK → handle_action fuel RIGHT g =
      some (true, { update_visible g with selected :=
        { g.selected with row := 0, column := 0, location := WASTE } })) ∧
    (g.selected.column = 3 → (g.waste 0).rank = NO_RANK → handle_action fuel RIGHT g =
      some (true, { update_visible g with selected :=
        { g.selected with row := 0, column := 0, location := STOCK } })) ∧
    (∀ b g', handle_action fuel DOWN g = some (b, g') →
      b = true ∧ g'.mem = (update_visible g).mem ∧ g'.moving = g.moving ∧
      g'.selected.active = true ∧ g'.selected.location = TABLEAU ∧
      g'.selected.column = g.selected.column ∧ snapped g') ∧
    (64 < fuel → (g.tableau g.selected.column.toNat 63).rank = NO_RANK →
      ∃ g', handle_action fuel DOWN g = some (true, g')) := by
  have hw : ((update_visible g).mem WASTE_BASE).rank = (g.waste 0).rank := by
    rw [update_visible_rank]; rfl
  refine ⟨?_, ?_, ?_, ?_, ?_, ?_, ?_, ?_⟩
  · rw [handle_action_foundation fuel UP g (by simp) ha hl]
    unfold handle_foundation
    simp only [update_visible_selected]
  · intro h
    rw [handle_action_foundation fuel LEFT g (by simp) ha hl]
    unfold handle_foundation
    simp only [update_visible_selected, h, le_refl, if_true]
  · intro h
    rw [handle_action_foundation fuel LEFT g (by simp) ha hl]
    unfold handle_foundation
    simp only [update_visible_selected]
    rw [if_neg (by omega)]
  · intro h
    rw [handle_action_foundation fuel RIGHT g (by simp) ha hl]
    unfold handle_foundation
    simp only [update_visible_selected]
    rw [if_neg (by omega)]
  · intro h h2
    rw [handle_action_foundation fuel RIGHT g (by simp) ha hl]
    unfold handle_foundation
    simp only [update_visible_selected]
    rw [if_pos (by omega), if_pos (by rw [hw]; exact h2)]
  · intro h h2
    rw [handle_action_foundation fuel RIGHT g (by simp) ha hl]
    unfold handle_foundation
    simp only [update_visible_selected]
    rw [if_pos (by omega), if_neg (by rw [hw]; simp [h2])]
  · intro b g' h
    rw [handle_action_foundation fuel DOWN g (by simp) ha hl] at h
    unfold handle_foundation at h
    simp only [update_visible_selected, Option.map_eq_some', Prod.mk.injEq] at h
    obtain ⟨k, hk, hb, rfl⟩ := h
    obtain ⟨h1, h2, h3, h4, h5, h6⟩ := fix_selected_tableau_spec fuel _ _ hk
    exact ⟨hb.symm, h1, by rw [h2]; simp, by rw [h3]; exact ha, h4, h5, h6 ha rfl⟩
  · intro hfuel hfull
    rw [handle_action_foundation fuel DOWN g (by simp) ha hl]
    unfold handle_foundation
    simp only [update_visible_selected]
    obtain ⟨g', hg'⟩ := fix_selected_from_row_zero fuel
      { update_visible g with selected :=
        { g.selected with row := 0, location := TABLEAU } }
      g.selected.column.toNat (by omega) hfuel ha rfl (by simp; omega) rfl
      (by simpa [Game.tableau] using hfull)
      (fun a h => update_visible_tops g a h)
    exact ⟨g', by rw [hg']; rfl⟩

theorem foundation_navigation_witness :
    handle_action 0 UP ex_foundation = some (false,
      { update_visible ex_foundation with selected := { ex_foundation.selected with row := 0 } }) :=
  (foundation_navigation 0 ex_foundation (by decide) (by decide) (by decide)).1

/-- C15 is violated by the code:
on the highlighted row 0 of an empty column Confirm is rejected
(the cursor resolves to no card), while `move_card` on that state moves the held King. -/
theorem confirm_on_empty_column_rejected :
    ¬ ∀ (fuel : Nat) (g : Game) (c : Nat), g.selected.active = true →
      g.moving.active = true →
      (g.selected.location = TABLEAU ∨ g.selected.location = FOUNDATION) →
      card_ptr g.selected g true = some c → (g.mem c).highlight = HIGHLIGHTED →
      is_same_pos g.moving g.selected = false →
      handle_action fuel CONFIRM g = move_card fuel g := by
  intro H
  have h := H 65 ex_king_drop (tab 1 0) (by decide) (by decide) (Or.inl (by decide))
    (by decide!) (by decide!) (by decide)
  have h1 : (handle_action 65 CONFIRM ex_king_drop).map (fun r => r.1) = some false := by
    decide!
  have h2 : (move_card 65 ex_king_drop).map (fun r => r.1) = some true := by decide!
  rw [h, h2] at h1
  cases h1

/-- What the code does where C15 fails:
with a card held and the cursor on a foundation pile or a tableau slot,
when the cursor resolves to a card slot (a foundation pile or an occupied tableau slot)
that is tagged Highlighted and is not the held position, Confirm returns exactly what
`move_card` returns on the state left by the flip pass (`update_visible`) with which
`handle_action` starts; when the cursor resolves to no card (row 0 of an empty column
included) Confirm is rejected and only the flip pass has been applied. -/
theorem confirm_drop_executes_move (fuel : Nat) (g : Game)
    (hsa : g.selected.active = true) (hma : g.moving.active = true)
    (hl : g.selected.location = TABLEAU ∨ g.selected.location = FOUNDATION) :
    (∀ c, card_ptr g.selected g false = some c → (g.mem c).highlight = HIGHLIGHTED →
      is_same_pos g.moving g.selected = false →
      handle_action fuel CONFIRM g = move_card fuel (update_visible g)) ∧
    (card_ptr g.selected g false = none →
      handle_action fuel CONFIRM g = some (false, update_visible g)) := by
  refine ⟨?_, ?_⟩
  · intro c hc hh hsame
    rw [handle_action_confirm]
    exact handle_confirm_drop fuel (update_visible g) c (by simpa using hsa) (by simpa using hma)
      (by simpa using hl) (by simpa using hc) (by simpa using hh) (by simpa using hsame)
  · intro hc
    have ht : touch g.selected (update_visible g) = update_visible g := by
      rcases hl with h | h
      · exact touch_tableau _ _ (by simpa using h)
      · exact touch_foundation _ _ (by simpa using h)
    have hns : g.selected.location ≠ STOCK := by
      rcases hl with h | h <;> simp [h]
    rw [handle_action_confirm]
    unfold handle_confirm
    simp only [update_visible_selected, hsa, hns, if_true, if_false, get_card_eq, ht,
      card_ptr_update_visible, hc]

theorem confirm_drop_executes_move_witness :
    handle_action 65 CONFIRM ex_drop = move_card 65 (update_visible ex_drop) :=
  (confirm_drop_executes_move 65 ex_drop (by decide) (by decide) (Or.inr (by decide))).1
    (FOUNDATION_BASE + 2) (by decide!) (by decide!) (by decide)

/-! ## Candidate destinations (C13) -/

/-- C13, as stated, fails on a full column: the visible King in row 63 of a column of 64
cards is a top card on which the Queen of Hearts stacks, and `highlight_stackable` does not
tag it, its column loop looking for an empty slot. -/
theorem highlight_skips_full_column :
    ¬ ∀ (g : Game) (card : Nat) (tableau : Bool), columns_contiguous g →
      (tableau = true → ∃ c, c < 7 ∧ ∃ r, r < 64 ∧ card = tab c r ∧
        (g.mem card).rank ≠ NO_RANK) →
      (∀ a, a < GAME_CELLS →
        (((highlight_stackable card tableau g).2.mem a).highlight = HIGHLIGHTED ↔
          stackable_slot g card tableau a)) ∧
      (highlight_stackable card tableau g).1 =
        ((Finset.range GAME_CELLS).filter (fun a =>
          ((highlight_stackable card tableau g).2.mem a).highlight = HIGHLIGHTED)).card := by
  intro H
  have h := (H ex_full_column WASTE_BASE false (by decide!) (by intro h; cases h)).1 (tab 0 63)
    (by decide)
  have h1 : ((highlight_stackable WASTE_BASE false ex_full_column).2.mem (tab 0 63)).highlight
      ≠ HIGHLIGHTED := by decide!
  apply h1
  rw [h]
  right; left
  exact ⟨0, by decide, 63, by decide, rfl, by decide!, Or.inl rfl, by decide!, by decide!⟩

/-- C13, amended: on a board with contiguous columns none of which is full (row 63 of every
column is empty), for a held card (`tableau` telling that it is a tableau card),
`highlight_stackable` tags as Highlighted exactly the slots that the specification names:
each foundation pile on which the card stacks, none when it is a tableau card with another
card directly on top of it; the top card of each non-empty column when it is visible and the
card stacks on it; row 0 of each empty column when the card is a King. Its return value is
the number of slots so tagged. -/
theorem highlight_stackable_marks (g : Game) (card : Nat) (tableau : Bool)
    (hcont : columns_contiguous g)
    (hroom : ∀ c, c < 7 → (g.tableau c 63).rank = NO_RANK)
    (hcard : tableau = true → ∃ c, c < 7 ∧ ∃ r, r < 64 ∧ card = tab c r ∧
      (g.mem card).rank ≠ NO_RANK) :
    (∀ a, a < GAME_CELLS →
      (((highlight_stackable card tableau g).2.mem a).highlight = HIGHLIGHTED ↔
        stackable_slot g card tableau a)) ∧
    (highlight_stackable card tableau g).1 =
      ((Finset.range GAME_CELLS).filter (fun a =>
        ((highlight_stackable card tableau g).2.mem a).highlight = HIGHLIGHTED)).card :=
  ⟨fun a ha => (highlight_stackable_tag card tableau g a ha).trans
      (stack_targets_iff g card tableau a hcont hroom hcard),
    highlight_stackable_count card tableau g⟩

theorem highlight_stackable_marks_witness :
    columns_contiguous ex_queen ∧ (∀ c, c < 7 → (ex_queen.tableau c 63).rank = NO_RANK) ∧
    (∀ a, a < GAME_CELLS →
      (((highlight_stackable WASTE_BASE false ex_queen).2.mem a).highlight = HIGHLIGHTED ↔
        stackable_slot ex_queen WASTE_BASE false a)) ∧
    (highlight_stackable WASTE_BASE false ex_queen).1 =
      ((Finset.range GAME_CELLS).filter (fun a =>
        ((highlight_stackable WASTE_BASE false ex_queen).2.mem a).highlight
          = HIGHLIGHTED)).card :=
  ⟨by decide!, by decide!,
    highlight_stackable_marks ex_queen WASTE_BASE false (by decide!) (by decide!)
      (by intro h; cases h)⟩

/-! ## Auto-move on pick-up (C14) -/

/-- C14, as stated, fails when the single candidate is a foundation pile: the scan for the
candidate looks at the tableau only, so Confirm returns false and leaves the card held. -/
theorem confirm_single_foundation_candidate_not_moved :
    ¬ ∀ (fuel : Nat) (g : Game) (c : Nat), g.selected.active = true →
      g.selected.location ≠ STOCK → g.moving.active = false →
      card_ptr g.selected g false = some c →
      (highlight_stackable c (g.selected.location == TABLEAU)
        (touch g.selected (update_visible g))).1 = 1 →
      ∃ g', handle_action fuel CONFIRM g = some (true, g') ∧ g'.moving.active = false := by
  intro H
  obtain ⟨g', h, _⟩ := H 65 ex_auto_foundation (tab 0 0) (by decide) (by decide) (by decide)
    (by decide!) (by decide!)
  have hv : (handle_action 65 CONFIRM ex_auto_foundation).map (fun r => r.1) = some false := by
    decide!
  rw [h] at hv
  cases hv

/-- C14, amended: with nothing held, the cursor not on the stock and on a card for which
`highlight_stackable` returns 1, tagging the single candidate `a`: if `a` is a tableau slot,
Confirm returns exactly what `move_card` returns with that card held and the cursor on `a`
(the move is executed at once, subject to the guards of `move_card`); if `a` is a foundation
pile, no move is made: Confirm returns false and leaves the card held with the candidate
tagged. -/
theorem confirm_single_candidate (fuel : Nat) (g : Game) (c a : Nat)
    (hsa : g.selected.active = true) (hns : g.selected.location ≠ STOCK)
    (hma : g.moving.active = false) (hc : card_ptr g.selected g false = some c)
    (hcount : (highlight_stackable c (g.selected.location == TABLEAU)
      (touch g.selected (update_visible g))).1 = 1)
    (ha : a < GAME_CELLS)
    (htag : ((highlight_stackable c (g.selected.location == TABLEAU)
      (touch g.selected (update_visible g))).2.mem a).highlight = HIGHLIGHTED) :
    (a < FOUNDATION_BASE → handle_action fuel CONFIRM g = move_card fuel
      { (highlight_stackable c (g.selected.location == TABLEAU)
          (touch g.selected (update_visible g))).2 with
        moving := { g.selected with active := true },
        selected := { active := true, location := TABLEAU, column := ((a / 64 : Nat) : Int),
                      row := ((a % 64 : Nat) : Int) } }) ∧
    (FOUNDATION_BASE ≤ a → handle_action fuel CONFIRM g = some (false,
      { (highlight_stackable c (g.selected.location == TABLEAU)
          (touch g.selected (update_visible g))).2 with
        moving := { g.selected with active := true } })) := by
  have hmem := (highlight_stackable_tag _ _ _ a ha).1 htag
  rw [highlight_stackable_eq] at hcount ⊢
  simp only at hcount ⊢
  have hT : stack_targets (touch g.selected (update_visible g)) c
      (g.selected.location == TABLEAU) = [a] := by
    obtain ⟨x, hx⟩ := List.length_eq_one.1 hcount
    rw [hx] at hmem ⊢
    rw [List.mem_singleton.1 hmem]
  rw [hT]
  have h := handle_confirm_single fuel (update_visible g) c a (by simpa using hsa)
    (by simpa using hns) (by simpa using hma) (by simpa using hc)
    (by simpa using hT)
  simp only [update_visible_selected] at h
  rw [handle_action_confirm]
  exact h

theorem confirm_single_candidate_witness :
    handle_action 65 CONFIRM ex_auto_tableau = move_card 65
      { (highlight_stackable (tab 0 0) (ex_auto_tableau.selected.location == TABLEAU)
          (touch ex_auto_tableau.selected (update_visible ex_auto_tableau))).2 with
        moving := { ex_auto_tableau.selected with active := true },
        selected := { active := true, location := TABLEAU,
                      column := ((tab 2 0 / 64 : Nat) : Int),
                      row := ((tab 2 0 % 64 : Nat) : Int) } } :=
  (confirm_single_candidate 65 ex_auto_tableau (tab 0 0) (tab 2 0) (by decide) (by decide)
    (by decide) (by decide!) (by decide!) (by decide) (by decide!)).1 (by decide)

/-! ## Recomputing the display (C18) -/

/-- C18: recomputing the display is idempotent: for every game state `g`,
`update_display (update_display g) = update_display g`; in particular the highlight tag and
the visibility flag of every slot and the held position are the same after the first and
after the second pass. -/
theorem update_display_idempotent (g : Game) :
    update_display (update_display g) = update_display g ∧
    (∀ a, ((update_display (update_display g)).mem a).highlight
        = ((update_display g).mem a).highlight ∧
      ((update_display (update_display g)).mem a).visible
        = ((update_display g).mem a).visible) ∧
    (update_display (update_display g)).moving = (update_display g).moving := by
  have h := update_display_idem g
  exact ⟨h, fun a => by rw [h]; exact ⟨rfl, rfl⟩, by rw [h]⟩


/-! ## The deck (C3) -/

/-- C3: in every state reached from `reset_game` by passes of the main loop (`handle_action`
followed by `update_display`), whatever the shuffle, the cards of the tableau, the waste and
the stock together with the cards `(s, 1), ..., (s, k)` that a foundation slot with stored
top `(s, k)` stands for are the 52 cards, each once: every card of rank 1..13 is accounted
for by exactly one cell, and no cell holds a rank above 13. -/
theorem playing_full_deck (g : Game) (h : Playing g) :
    ∀ s k, 1 ≤ k → card_count g s k = if k ≤ 13 then 1 else 0 :=
  (reachable_board_ok g (playing_reachable g h)).cards.deck

theorem playing_full_deck_witness :
    Playing (after [UP, RIGHT, RIGHT, RIGHT, RIGHT, CONFIRM] start_game) ∧
    ∀ s k, 1 ≤ k →
      card_count (after [UP, RIGHT, RIGHT, RIGHT, RIGHT, CONFIRM] start_game) s k
        = if k ≤ 13 then 1 else 0 :=
  ⟨playing_after _ _ start_playing, playing_full_deck _ (playing_after _ _ start_playing)⟩

/-! ## Contiguous columns (C5) -/

/-- C5: in every state reachable from `reset_game` by `handle_action` calls (with or without
`update_display` between them) the occupied slots of a tableau column are its first slots:
after an empty slot every slot of the column is empty. -/
theorem reachable_columns_contiguous (g : Game) (h : Reachable g) :
    ∀ c, c < 7 → ∀ r r', r < r' → r' < 64 →
      (g.tableau c r).rank = NO_RANK → (g.tableau c r').rank = NO_RANK := by
  intro c hc r r' h1 h2 h0
  exact run_ok_empty_from _ ((reachable_board_ok g h).cards.columns c hc) r h0 r' (by omega) h2

theorem reachable_columns_contiguous_witness :
    Reachable start_game ∧
    ∀ c, c < 7 → ∀ r r', r < r' → r' < 64 →
      (start_game.tableau c r).rank = NO_RANK → (start_game.tableau c r').rank = NO_RANK :=
  ⟨start_reachable, reachable_columns_contiguous _ start_reachable⟩

/-! ## Face-up runs (C29) -/

/-- C29: in every state at the top of the main loop, in each tableau column no face-down card
lies after a face-up one, every face-up card stacks on a face-up card directly before it
(`can_stack` with the card of row `r + 1` as the card and the card of row `r` as the target:
opposite colours, rank one less), and the column holds no card from row 19 on. -/
theorem playing_visible_runs (g : Game) (h : Playing g) :
    ∀ c, c < 7 →
      (∀ r r', r < r' → r' < 64 → (g.tableau c r).visible = true →
        (g.tableau c r').rank ≠ NO_RANK → (g.tableau c r').visible = true) ∧
      (∀ r, r < 63 → (g.tableau c r).visible = true → (g.tableau c (r + 1)).rank ≠ NO_RANK →
        can_stack (g.tableau c (r + 1)) (g.tableau c r) false = true) ∧
      (∀ r, 19 ≤ r → r < 64 → (g.tableau c r).rank = NO_RANK) := by
  intro c hc
  have hok := (reachable_board_ok g (playing_reachable g h)).cards
  have hrun := hok.columns c hc
  refine ⟨?_, ?_, ?_⟩
  · intro r r' h1 h2 hv hocc
    have := run_ok_descend _ hrun r hv (r' - r) (by omega)
      (by rw [show r + (r' - r) = r' by omega]; exact hocc)
    rw [show r + (r' - r) = r' by omega] at this
    exact this.1
  · intro r hr hv hocc
    obtain ⟨_, h2, h3⟩ := hrun.2 r hr hocc hv
    unfold can_stack
    simp only [Game.tableau, Bool.false_eq_true, if_false, Bool.or_eq_true, Bool.and_eq_true,
      decide_eq_true_eq]
    exact Or.inr ⟨h3, h2⟩
  · exact column_le_19 g hok c hc

theorem playing_visible_runs_witness :
    Playing (after [CONFIRM] start_game) ∧
    ∀ c, c < 7 →
      (∀ r r', r < r' → r' < 64 → ((after [CONFIRM] start_game).tableau c r).visible = true →
        ((after [CONFIRM] start_game).tableau c r').rank ≠ NO_RANK →
        ((after [CONFIRM] start_game).tableau c r').visible = true) ∧
      (∀ r, r < 63 → ((after [CONFIRM] start_game).tableau c r).visible = true →
        ((after [CONFIRM] start_game).tableau c (r + 1)).rank ≠ NO_RANK →
        can_stack ((after [CONFIRM] start_game).tableau c (r + 1))
          ((after [CONFIRM] start_game).tableau c r) false = true) ∧
      (∀ r, 19 ≤ r → r < 64 → ((after [CONFIRM] start_game).tableau c r).rank = NO_RANK) :=
  ⟨playing_after _ _ start_playing, playing_visible_runs _ (playing_after _ _ start_playing)⟩

/-! ## The cursor on the tableau (C24) -/

/-- C24 is violated by the code:
`reset_game` snaps the cursor on the block it is given and deals
afterwards, so on a block whose column 0 holds a face-down card under a face-up one the
cursor is left in row 1 of column 0, an empty slot after the deal. -/
theorem reset_leaves_cursor_on_empty_slot :
    ¬ ∀ g, Reachable g → g.selected.active = true → g.selected.location = TABLEAU →
      (∃ a, card_ptr g.selected g false = some a ∧ (g.mem a).visible = true) ∨
      (g.selected.row = 0 ∧
        ∀ r, r < 64 → (g.tableau g.selected.column.toNat r).rank = NO_RANK) := by
  intro H
  have hv : (reset_game 2 (fun i => i) ex_stale).map
      (fun g => (g.selected, card_ptr g.selected g false)) =
      some (⟨true, TABLEAU, 0, 1⟩, none) := by
    decide!
  cases hr : reset_game 2 (fun i => i) ex_stale with
  | none => rw [hr] at hv; simp at hv
  | some g =>
    rw [hr] at hv
    simp only [Option.map_some', Option.some.injEq, Prod.mk.injEq] at hv
    obtain ⟨h1, h2⟩ := hv
    rcases H g (Reachable.reset 2 _ ex_stale g hr) (by rw [h1]) (by rw [h1]) with
      ⟨a, h3, _⟩ | ⟨h3, _⟩
    · rw [h2] at h3
      cases h3
    · rw [h1] at h3
      cases h3

/-- What the code does where C24 fails:
in every state reachable from `reset_game` by `handle_action` calls, a
cursor on the tableau that rests on a card rests on a face-up card. -/
theorem reachable_cursor_visible (g : Game) (h : Reachable g)
    (hl : g.selected.location = TABLEAU) (a : Nat)
    (ha : card_ptr g.selected g false = some a) : (g.mem a).visible = true :=
  (reachable_board_ok g h).cursor hl a ha

theorem reachable_cursor_visible_witness :
    Reachable start_game ∧ start_game.selected.location = TABLEAU ∧
    card_ptr start_game.selected start_game false = some 0 ∧
    (start_game.mem 0).visible = true :=
  ⟨start_reachable, by decide!, by decide!,
    reachable_cursor_visible start_game start_reachable (by decide!) 0 (by decide!)⟩

/-! ## The held position (C23) -/

/-- C23 is violated by the code:
Confirm on an empty foundation pile picks the empty slot up when
an Ace of the opposite colour tops a column; the auto-move is rejected and the held position
stays active on the pile, whose rank is `NO_RANK`. -/
theorem held_position_on_empty_foundation :
    ¬ ∀ g, Playing g → g.moving.active = true →
      ∃ a, card_ptr g.moving g false = some a ∧ (g.mem a).rank ≠ NO_RANK := by
  intro H
  have hv : ((reset_game 1 rand_ace_spades ex_zero).bind (play 2 [UP, CONFIRM])).map
      (fun g => (g.moving.active, card_ptr g.moving g false, (g.mem 448).rank)) =
      some (true, some 448, 0) := by
    decide!
  cases hr : (reset_game 1 rand_ace_spades ex_zero).bind (play 2 [UP, CONFIRM]) with
  | none => rw [hr] at hv; simp at hv
  | some g =>
    rw [hr] at hv
    simp only [Option.map_some', Option.some.injEq, Prod.mk.injEq] at hv
    obtain ⟨h1, h2, h3⟩ := hv
    obtain ⟨a, h4, h5⟩ := H g (playing_of_chain _ _ _ _ _ g hr) h1
    rw [h2] at h4
    simp only [Option.some.injEq] at h4
    subst h4
    exact h5 h3

/-- What the code does where C23 fails:
in every state at the top of the main loop an active held position is on
the tableau, the waste or a foundation pile and resolves to a slot; the slot holds a card
(its rank is not `NO_RANK`) when it is a tableau slot or the waste top. -/
theorem playing_held_resolves (g : Game) (h : Playing g) (ha : g.moving.active = true) :
    g.moving.location ≠ STOCK ∧
    ∃ a, card_ptr g.moving g false = some a ∧
      (g.moving.location ≠ FOUNDATION → (g.mem a).rank ≠ NO_RANK) := by
  refine ⟨(reachable_board_ok g (playing_reachable g h)).held_stock ha, ?_⟩
  obtain ⟨x, rfl⟩ := playing_display g h
  have hm := update_display_moving x
  by_cases hc : x.moving.active = true ∧ card_ptr x.moving x false = none
  · rw [if_pos hc] at hm
    rw [hm] at ha
    cases ha
  · cases hp : card_ptr (update_display x).moving (update_display x) false with
    | none =>
      exfalso
      rw [card_ptr_update_display] at hp
      rw [if_neg hc] at hm
      rw [hm] at ha
      exact hc ⟨ha, hp⟩
    | some a =>
      exact ⟨a, rfl, fun hl => card_ptr_false_rank _ _ a hp hl⟩

theorem playing_held_resolves_witness :
    Playing (after [CONFIRM] start_game) ∧ (after [CONFIRM] start_game).moving.active = true ∧
    (after [CONFIRM] start_game).moving.location ≠ STOCK ∧
    ∃ a, card_ptr (after [CONFIRM] start_game).moving (after [CONFIRM] start_game) false = some a ∧
      ((after [CONFIRM] start_game).moving.location ≠ FOUNDATION →
        ((after [CONFIRM] start_game).mem a).rank ≠ NO_RANK) :=
  ⟨playing_after _ _ start_playing, by decide!,
    playing_held_resolves _ (playing_after _ _ start_playing) (by decide!)⟩

/-! ## The result of `handle_action` (C22) -/

/-- C22 is violated by the code in both directions:
on the fresh deal Left in column 0 returns true
and changes nothing, and Confirm on a card with several candidate destinations returns false
although it picks the card up (the held position becomes active). -/
theorem result_is_not_state_change :
    ¬ (∀ (fuel : Nat) (a : Action) (g g' : Game) (b : Bool), Playing g →
        (a = UP ∨ a = DOWN ∨ a = LEFT ∨ a = RIGHT ∨ a = CONFIRM ∨ a = CANCEL) →
        handle_action fuel a g = some (b, g') → b = true → ¬ same_board g g') ∧
    ¬ (∀ (fuel : Nat) (a : Action) (g g' : Game) (b : Bool), Playing g →
        (a = UP ∨ a = DOWN ∨ a = LEFT ∨ a = RIGHT ∨ a = CONFIRM ∨ a = CANCEL) →
        handle_action fuel a g = some (b, g') → b = false → same_board g g') := by
  constructor
  · intro H
    have hr := handle_action_left_edge 1 start_game (by decide!) (by decide!) (by decide!)
    rw [update_visible_steady _ (playing_steady _ start_playing)] at hr
    exact H 1 LEFT start_game start_game true start_playing (by simp) hr rfl
      ⟨rfl, rfl, fun _ _ => rfl⟩
  · intro H
    have hv : (handle_action 1 CONFIRM start_game).map
        (fun r => (r.1, r.2.moving.active, start_game.moving.active)) =
          some (false, true, false) := by
      decide!
    cases hr : handle_action 1 CONFIRM start_game with
    | none => rw [hr] at hv; simp at hv
    | some r =>
      obtain ⟨b, g'⟩ := r
      rw [hr] at hv
      simp only [Option.map_some', Option.some.injEq, Prod.mk.injEq] at hv
      have := (H 1 CONFIRM start_game g' b start_playing (by simp) hr hv.1).2.1
      rw [this, hv.2.2] at hv
      simp at hv

/-- What the code does where C22 fails:
in every state at the top of the main loop, a false result of
`handle_action` means that no card was moved: every slot keeps its rank and suite; for an
action other than Confirm the card slots and the held position are exactly as before and so
is the cursor, except that its row is set to 0 when it is off the tableau. (A false Confirm
may have picked the card up; a true result does not imply a change.) -/
theorem rejected_action_frame (fuel : Nat) (a : Action) (g g' : Game) (h : Playing g)
    (hr : handle_action fuel a g = some (false, g')) :
    (∀ x, (g'.mem x).rank = (g.mem x).rank ∧ (g'.mem x).suite = (g.mem x).suite) ∧
    (a ≠ CONFIRM → g'.mem = g.mem ∧ g'.moving = g.moving ∧
      (g'.selected = g.selected ∨
        (g.selected.location ≠ TABLEAU ∧ g'.selected = { g.selected with row := 0 }))) := by
  have hst := update_visible_steady g (playing_steady g h)
  have hnav : a ≠ CONFIRM → g'.mem = g.mem ∧ g'.moving = g.moving ∧
      (g'.selected = g.selected ∨
        (g.selected.location ≠ TABLEAU ∧ g'.selected = { g.selected with row := 0 })) := by
    intro ha
    have := handle_action_false_nav fuel a g g' ha hr
    rw [hst] at this
    exact this
  refine ⟨?_, hnav⟩
  by_cases ha : a = CONFIRM
  · subst ha
    rw [handle_action_confirm, hst] at hr
    exact handle_confirm_false_cards fuel g g' hr
  · intro x
    rw [(hnav ha).1]
    exact ⟨rfl, rfl⟩

theorem rejected_action_frame_witness :
    Playing start_game ∧
    ∃ g', handle_action 1 DOWN start_game = some (false, g') ∧
      (∀ x, (g'.mem x).rank = (start_game.mem x).rank ∧
        (g'.mem x).suite = (start_game.mem x).suite) ∧
      (DOWN ≠ CONFIRM → g'.mem = start_game.mem ∧ g'.moving = start_game.moving ∧
        (g'.selected = start_game.selected ∨
          (start_game.selected.location ≠ TABLEAU ∧
            g'.selected = { start_game.selected with row := 0 }))) := by
  have h1 : (handle_action 1 DOWN start_game).map (fun r => r.1) = some false := by decide!
  cases hx : handle_action 1 DOWN start_game with
  | none => rw [hx] at h1; simp at h1
  | some r =>
    obtain ⟨b, g'⟩ := r
    rw [hx] at h1
    simp only [Option.map_some', Option.some.injEq] at h1
    subst h1
    exact ⟨start_playing, g', rfl, rejected_action_frame 1 DOWN start_game g' start_playing hx⟩

/-! ## Navigation on the waste and the stock (C21) -/

/-- C21, as stated, fails: Down from the waste goes to column 5 and snaps the cursor, and the
snap loop does not end in a column of 64 face-down cards (it steps forward to row 64, back to
row 63, forward again, ...), so Down does not return. -/
theorem down_from_waste_does_not_return :
    ¬ ∀ g : Game, g.selected.active = true →
      (g.selected.location = WASTE ∨ g.selected.location = STOCK) →
      ∃ fuel g', handle_action fuel DOWN g = some (true, g') ∧
        g'.selected.location = TABLEAU ∧
        g'.selected.column = (if g.selected.location = WASTE then 5 else 6) ∧ snapped g' := by
  intro H
  obtain ⟨fuel, g', h, _⟩ := H ex_hidden_column (by decide) (Or.inl (by decide))
  have hcards : ∀ r, r < 64 → (ex_hidden_column.mem (tab 5 r)).rank ≠ NO_RANK ∧
      (ex_hidden_column.mem (tab 5 r)).visible = false := by decide
  have hlen : pile_len ex_hidden_column (tab 5 0) = 64 :=
    pile_len_eq _ _ 64 (le_refl _) (fun j hj => by rw [tab_zero_add]; exact (hcards j hj).1)
      (fun hx => absurd hx (by omega))
  rw [handle_action_waste_stock fuel DOWN _ (by simp) (by decide) (Or.inl (by decide))] at h
  unfold handle_waste_stock fix_selected_tableau at h
  simp only [update_visible_selected] at h
  rw [if_neg (by decide)] at h
  rw [fix_selected_loop_diverges 5 (by omega) fuel _ (by decide) (by decide) (by decide)
    (by decide) (by decide) (by
      intro r hr
      rw [update_visible_mem]
      have hnf : ¬ flips ex_hidden_column (tab 5 r) := by
        unfold flips
        have e1 : tab 5 r % 64 = r := by simp only [tab]; omega
        have e2 : tab 5 r / 64 = 5 := by simp only [tab]; omega
        rw [e1, e2, hlen]
        omega
      rw [if_neg hnf]
      exact hcards r hr)] at h
  simp at h

/-- C21, amended: with the cursor on the waste or the stock, Up is rejected; Right moves from
the waste to the stock and is rejected on the stock; Left moves to foundation pile 3 when the
waste is empty or the cursor is on the waste, and otherwise (cursor on the stock, waste
non-empty) to the waste; Down moves from the waste to tableau column 5 and from the stock to
column 6, in row 0, and snaps the cursor there: it returns, with enough fuel, when that
column is not full, and whenever it returns the cursor is snapped. The cursor row is set to 0
throughout; the cards are those that the flip pass at the start of `handle_action` leaves. -/
theorem waste_stock_navigation (fuel : Nat) (g : Game) (ha : g.selected.active = true)
    (hl : g.selected.location = WASTE ∨ g.selected.location = STOCK) :
    handle_action fuel UP g = some (false,
      { update_visible g with selected := { g.selected with row := 0 } }) ∧
    (g.selected.location = WASTE → handle_action fuel RIGHT g = some (true,
      { update_visible g with selected :=
        { g.selected with row := 0, column := 3, location := STOCK } })) ∧
    (g.selected.location = STOCK → handle_action fuel RIGHT g = some (false,
      { update_visible g with selected := { g.selected with row := 0 } })) ∧
    ((g.waste 0).rank = NO_RANK ∨ g.selected.location = WASTE →
      handle_action fuel LEFT g = some (true,
        { update_visible g with selected :=
          { g.selected with row := 0, column := 3, location := FOUNDATION } })) ∧
    ((g.waste 0).rank ≠ NO_RANK → g.selected.location = STOCK →
      handle_action fuel LEFT g = some (true,
        { update_visible g with selected :=
          { g.selected with row := 0, column := 0, location := WASTE } })) ∧
    (∀ b g', handle_action fuel DOWN g = some (b, g') →
      b = true ∧ g'.mem = (update_visible g).mem ∧ g'.moving = g.moving ∧
      g'.selected.active = true ∧ g'.selected.location = TABLEAU ∧
      g'.selected.column = (if g.selected.location = WASTE then 5 else 6) ∧ snapped g') ∧
    (64 < fuel →
      (g.tableau (if g.selected.location = WASTE then 5 else 6) 63).rank = NO_RANK →
      ∃ g', handle_action fuel DOWN g = some (true, g')) := by
  have hw : ((update_visible g).mem WASTE_BASE).rank = (g.waste 0).rank := by
    rw [update_visible_rank]; rfl
  refine ⟨?_, ?_, ?_, ?_, ?_, ?_, ?_⟩
  · rw [handle_action_waste_stock fuel UP g (by simp) ha hl]
    unfold handle_waste_stock
    simp only [update_visible_selected]
  · intro h
    rw [handle_action_waste_stock fuel RIGHT g (by simp) ha hl]
    unfold handle_waste_stock
    simp only [update_visible_selected, h, if_true]
  · intro h
    rw [handle_action_waste_stock fuel RIGHT g (by simp) ha hl]
    unfold handle_waste_stock
    simp only [update_visible_selected, h, reduceCtorEq, if_false]
  · intro h
    rw [handle_action_waste_stock fuel LEFT g (by simp) ha hl]
    unfold handle_waste_stock
    simp only [update_visible_selected]
    rw [if_pos (by rw [hw]; exact h)]
  · intro h1 h2
    rw [handle_action_waste_stock fuel LEFT g (by simp) ha hl]
    unfold handle_waste_stock
    simp only [update_visible_selected]
    rw [if_neg (by rw [hw, h2]; simp [h1])]
  · intro b g' h
    rw [handle_action_waste_stock fuel DOWN g (by simp) ha hl] at h
    unfold handle_waste_stock at h
    simp only [update_visible_selected, Option.map_eq_some', Prod.mk.injEq] at h
    obtain ⟨k, hk, hb, rfl⟩ := h
    obtain ⟨h1, h2, h3, h4, h5, h6⟩ := fix_selected_tableau_spec fuel _ _ hk
    exact ⟨hb.symm, h1, by rw [h2]; simp, by rw [h3]; exact ha, h4, h5, h6 ha rfl⟩
  · intro hfuel hfull
    rw [handle_action_waste_stock fuel DOWN g (by simp) ha hl]
    unfold handle_waste_stock
    simp only [update_visible_selected]
    obtain ⟨g', hg'⟩ := fix_selected_from_row_zero fuel
      { update_visible g with selected :=
        ⟨g.selected.active, TABLEAU, (if g.selected.location = WASTE then 5 else 6), 0⟩ }
      (if g.selected.location = WASTE then 5 else 6) (by split <;> omega) hfuel ha rfl
      (by simp only; split <;> rfl) rfl
      (by simpa [Game.tableau] using hfull)
      (fun a h => update_visible_tops g a h)
    exact ⟨g', by rw [hg']; rfl⟩

theorem waste_stock_navigation_witness :
    handle_action 0 RIGHT ex_waste_cursor = some (true,
      { update_visible ex_waste_cursor with selected :=
        { ex_waste_cursor.selected with row := 0, column := 3, location := STOCK } }) :=
  (waste_stock_navigation 0 ex_waste_cursor (by decide) (Or.inl (by decide))).2.1 (by decide)

/-! ## The flip pass (C26) -/

/-- C26: `update_visible` sets `visible` on the card before the first unoccupied slot of every
tableau column that has such a slot after row 0, and changes nothing else: every other
tableau card, every rank, suite and highlight, the foundations, the waste, the stock, the
cursor and the held position are as before. -/
theorem update_visible_frame (g : Game) :
    (update_visible g).selected = g.selected ∧ (update_visible g).moving = g.moving ∧
    (∀ c r, c < 7 → r < 64 → (update_visible g).tableau c r =
      if first_free g c (r + 1) then { g.tableau c r with visible := true }
      else g.tableau c r) ∧
    (∀ a, FOUNDATION_BASE ≤ a → (update_visible g).mem a = g.mem a) := by
  refine ⟨update_visible_selected g, update_visible_moving g, ?_,
    fun a ha => update_visible_mem_of_ge g a ha⟩
  intro c r hc hr
  have hF : FOUNDATION_BASE = 448 := rfl
  have hiff : flips g (tab c r) ↔ first_free g c (r + 1) := by
    have e1 : tab c r % 64 = r := by simp only [tab]; omega
    have e2 : tab c r / 64 = c := by simp only [tab]; omega
    unfold flips first_free
    rw [e1, e2]
    constructor
    · rintro ⟨_, h2, h3⟩
      refine ⟨h3, ?_, ?_⟩
      · have := pile_len_empty g (tab c 0) (by omega)
        rw [← h2, tab_zero_add] at this
        exact this
      · intro j hj
        have := pile_len_occupied g (tab c 0) j (by omega)
        rw [tab_zero_add] at this
        exact this
    · rintro ⟨h1, h2, h3⟩
      refine ⟨by simp only [tab]; omega, ?_, h1⟩
      exact (pile_len_eq g (tab c 0) (r + 1) (by omega)
        (fun j hj => by rw [tab_zero_add]; exact h3 j hj)
        (fun _ => by rw [tab_zero_add]; exact h2)).symm
  show (update_visible g).mem (tab c r) = _
  rw [update_visible_mem]
  by_cases hf : flips g (tab c r)
  · rw [if_pos hf, if_pos (hiff.1 hf)]
    rfl
  · rw [if_neg hf, if_neg (fun h => hf (hiff.2 h))]
    rfl

/-! ## Cards of rank `NO_RANK` as candidates (C28) -/

/-- C28 is violated by the code:
a card of rank `NO_RANK` stacks on an Ace of the opposite colour
on the tableau, since 1 is the rank after 0. -/
theorem empty_slot_stacks_on_ace :
    ¬ ∀ (card target : Card) (is_foundation : Bool), card.rank = NO_RANK →
      can_stack card target is_foundation = false := by
  intro H
  have := H ⟨true, NO_HIGHLIGHT, HEARTS, NO_RANK⟩ ⟨true, NO_HIGHLIGHT, SPADES, ACE⟩ false rfl
  revert this
  decide

/-- What the code does where C28 fails:
a card of rank `NO_RANK` is never a candidate for a foundation pile, and it
is a candidate for a tableau target exactly when the target is an Ace of the opposite colour;
Confirm with nothing held on an empty foundation pile returns false (the pile may stay held:
`move_card` rejects it as a source only after the pick-up). -/
theorem empty_slot_candidate :
    (∀ card target : Card, card.rank = NO_RANK →
      can_stack card target true = false ∧
      (can_stack card target false = true ↔
        (target.rank = ACE ∧ is_red card.suite ≠ is_red target.suite))) ∧
    (∀ (fuel : Nat) (g : Game), g.selected.active = true → g.selected.location = FOUNDATION →
      0 ≤ g.selected.column → g.selected.column < 4 → g.moving.active = false →
      (g.foundation g.selected.column.toNat).rank = NO_RANK →
      ∃ g', handle_action fuel CONFIRM g = some (false, g')) := by
  constructor
  · intro card target h
    constructor
    · unfold can_stack
      simp only [if_true, h]
      split
      · simp [NO_RANK, ACE]
      · simp [NO_RANK]
    · unfold can_stack
      simp only [Bool.false_eq_true, if_false, h, Bool.or_eq_true, Bool.and_eq_true,
        decide_eq_true_eq]
      have hcol : is_opposite_color card.suite target.suite = true ↔
          is_red card.suite ≠ is_red target.suite := by
        cases card.suite <;> cases target.suite <;> decide
      rw [hcol]
      simp only [NO_RANK, KING, ACE]
      constructor
      · rintro (⟨_, h2⟩ | ⟨h1, h2⟩)
        · omega
        · exact ⟨by omega, h1⟩
      · rintro ⟨h1, h2⟩
        exact Or.inr ⟨h2, by omega⟩
  · intro fuel g hsa hsl hc0 hc4 hma h0
    rw [handle_action_confirm]
    apply handle_confirm_empty_foundation fuel _ (by simpa using hsa) (by simpa using hsl)
      (by simpa using hma)
    intro c hc
    rw [card_ptr_foundation _ _ _ (by simpa using hsa) (by simpa using hsl)] at hc
    simp only [update_visible_selected] at hc
    rw [if_pos ⟨hc0, hc4⟩] at hc
    simp only [Option.some.injEq] at hc
    subst hc
    rw [update_visible_rank]
    exact h0

theorem empty_slot_candidate_witness :
    (can_stack ⟨true, NO_HIGHLIGHT, HEARTS, NO_RANK⟩ ⟨true, NO_HIGHLIGHT, CLUBS, 7⟩ true = false ∧
      (can_stack ⟨true, NO_HIGHLIGHT, HEARTS, NO_RANK⟩ ⟨true, NO_HIGHLIGHT, CLUBS, 7⟩ false = true ↔
        ((⟨true, NO_HIGHLIGHT, CLUBS, 7⟩ : Card).rank = ACE ∧
          is_red (⟨true, NO_HIGHLIGHT, HEARTS, NO_RANK⟩ : Card).suite ≠
            is_red (⟨true, NO_HIGHLIGHT, CLUBS, 7⟩ : Card).suite))) ∧
    ∃ g', handle_action 0 CONFIRM ex_foundation = some (false, g') :=
  ⟨empty_slot_candidate.1 ⟨true, NO_HIGHLIGHT, HEARTS, NO_RANK⟩ ⟨true, NO_HIGHLIGHT, CLUBS, 7⟩ rfl,
    empty_slot_candidate.2 0 ex_foundation (by decide) (by decide) (by decide) (by decide)
      (by decide) (by decide)⟩

/-! ## Cursor snapping (C25) and recycling (C27) -/

/-- C25: on a board whose columns are contiguous and whose non-empty columns have a face-up
top card, the snap of an active tableau cursor with row in 0..63 returns (64 iterations are
enough), and the state it returns is the given one with only the cursor row replaced: the
cells, the held position and the cursor column are untouched.  In a column of `L` cards the
new row is `L - 1` (row 0 when `L = 0`) if the cursor was on an empty slot, and otherwise the
first row at or after the cursor that holds a face-up card; in a non-empty column the card
under the new cursor is present and face up.  A cursor whose column is off the board ends on
row 0. -/
theorem snap_exact (g : Game) (fuel r : Nat) (hcont : columns_contiguous g)
    (htop : ∀ c, c < 7 → 0 < pile_len g (tab c 0) →
      (g.tableau c (pile_len g (tab c 0) - 1)).visible = true)
    (ha : g.selected.active = true) (hl : g.selected.location = TABLEAU)
    (hr : g.selected.row = (r : Int)) (hr64 : r < 64) (hf : 64 ≤ fuel) :
    ∃ r', fix_selected_tableau fuel g = some (at_row g r') ∧
      (¬ (0 ≤ g.selected.column ∧ g.selected.column < 7) → r' = 0) ∧
      ∀ c : Nat, g.selected.column = (c : Int) → c < 7 →
        (pile_len g (tab c 0) ≤ r → r' = pile_len g (tab c 0) - 1) ∧
        (r < pile_len g (tab c 0) →
          r ≤ r' ∧ ∀ j, r ≤ j → j < r' → (g.tableau c j).visible = false) ∧
        (0 < pile_len g (tab c 0) → r' < pile_len g (tab c 0) ∧
          (g.tableau c r').rank ≠ NO_RANK ∧ (g.tableau c r').visible = true) := by
  have hfix : fix_selected_tableau fuel g = fix_selected_loop fuel (at_row g r) := by
    rw [at_row_self g r hr]
    unfold fix_selected_tableau
    simp [ha, hl]
  rw [hfix]
  by_cases hcol : 0 ≤ g.selected.column ∧ g.selected.column < 7
  · obtain ⟨c, hc⟩ : ∃ c : Nat, g.selected.column = (c : Int) :=
      ⟨g.selected.column.toNat, by omega⟩
    have hc7 : c < 7 := by omega
    have hL := pile_len_le g (tab c 0)
    have hempty : ∀ j, pile_len g (tab c 0) ≤ j → j < 64 → (g.mem (tab c j)).rank = NO_RANK := by
      intro j h1 h2
      have := pile_empty_from g (tab c 0) (column_pile_contiguous g hcont c hc7) j h1 h2
      rwa [tab_zero_add] at this
    have hoccupied : ∀ j, j < pile_len g (tab c 0) → (g.mem (tab c j)).rank ≠ NO_RANK := by
      intro j h1
      have := pile_len_occupied g (tab c 0) j h1
      rwa [tab_zero_add] at this
    have huniq : ∀ c' : Nat, g.selected.column = (c' : Int) → c' = c := by
      intro c' h
      omega
    by_cases hcase : pile_len g (tab c 0) ≤ r
    · refine ⟨pile_len g (tab c 0) - 1, ?_, fun h => absurd hcol h, ?_⟩
      · apply fix_backward g c ha hl hc hc7 (pile_len g (tab c 0) - 1) _
          (r - (pile_len g (tab c 0) - 1)) r fuel (by omega) hr64
          (fun j h1 h2 => hempty j (by omega) (by omega)) (by omega)
        by_cases h0 : pile_len g (tab c 0) = 0
        · left
          exact ⟨by omega, hempty 0 (by omega) (by omega)⟩
        · right
          exact ⟨hoccupied _ (by omega), htop c hc7 (by omega)⟩
      · intro c' hc' _
        have := huniq c' hc'
        subst this
        refine ⟨fun _ => rfl, fun h => absurd h (by omega), fun h => ⟨by omega, ?_, ?_⟩⟩
        · exact hoccupied _ (by omega)
        · exact htop c' hc7 h
    · have hex : ∃ j, r ≤ j ∧ j < pile_len g (tab c 0) ∧ (g.mem (tab c j)).visible = true :=
        ⟨pile_len g (tab c 0) - 1, by omega, by omega, htop c hc7 (by omega)⟩
      have hspec := Nat.find_spec hex
      have hmin : ∀ j, r ≤ j → j < Nat.find hex → (g.mem (tab c j)).visible = false := by
        intro j h1 h2
        have := Nat.find_min hex h2
        have hj : j < pile_len g (tab c 0) := by omega
        cases hv : (g.mem (tab c j)).visible
        · rfl
        · exact absurd ⟨h1, hj, hv⟩ this
      refine ⟨Nat.find hex, ?_, fun h => absurd hcol h, ?_⟩
      · exact fix_forward g c ha hl hc hc7 (Nat.find hex) (by omega) (hoccupied _ hspec.2.1)
          hspec.2.2 (Nat.find hex - r) r fuel (by omega)
          (fun j h1 h2 => ⟨hoccupied j (by omega), hmin j h1 h2⟩) (by omega)
      · intro c' hc' _
        have := huniq c' hc'
        subst this
        exact ⟨fun h => absurd h hcase, fun _ => ⟨hspec.1, hmin⟩,
          fun _ => ⟨hspec.2.1, hoccupied _ hspec.2.1, hspec.2.2⟩⟩
  · refine ⟨0, fix_off_board g ha hl hcol r fuel (by omega), fun _ => rfl, ?_⟩
    intro c hc hc7
    exact absurd ⟨by omega, by omega⟩ hcol

theorem snap_exact_witness :
    ∃ r', fix_selected_tableau 64 ex_snap = some (at_row ex_snap r') ∧
      (¬ (0 ≤ ex_snap.selected.column ∧ ex_snap.selected.column < 7) → r' = 0) ∧
      ∀ c : Nat, ex_snap.selected.column = (c : Int) → c < 7 →
        (pile_len ex_snap (tab c 0) ≤ 0 → r' = pile_len ex_snap (tab c 0) - 1) ∧
        (0 < pile_len ex_snap (tab c 0) →
          0 ≤ r' ∧ ∀ j, 0 ≤ j → j < r' → (ex_snap.tableau c j).visible = false) ∧
        (0 < pile_len ex_snap (tab c 0) → r' < pile_len ex_snap (tab c 0) ∧
          (ex_snap.tableau c r').rank ≠ NO_RANK ∧ (ex_snap.tableau c r').visible = true) :=
  snap_exact ex_snap 64 0 (by decide!) (by decide!) rfl rfl rfl (by decide) (by decide)

/-- C27, as stated, fails: after recycling a waste of two cards, two further Confirms do not
rebuild the waste, because the first draw leaves the cursor on the waste and the second
Confirm picks the drawn card up instead of drawing. -/
theorem confirms_after_recycle_do_not_redraw :
    ¬ ∀ (fuel : Nat) (g : Game) (n : Nat), g.selected.active = true →
      g.selected.location = STOCK → g.moving.active = false →
      (∀ i, i < 64 → (g.stock i).rank = NO_RANK) → pile_contiguous g WASTE_BASE →
      pile_len g WASTE_BASE = n →
      ∃ g', play fuel (CONFIRM :: List.replicate n CONFIRM) g = some g' ∧
        ∀ i, i < n → (g'.waste i).rank = (g.waste i).rank ∧
          (g'.waste i).suite = (g.waste i).suite := by
  intro H
  have hv : (play 2 [CONFIRM, CONFIRM, CONFIRM] ex_recycle).map
      (fun g => ((g.waste 0).rank, (g.waste 1).rank, (g.stock 0).rank, g.moving.active))
      = some (1, 0, 2, true) := by decide!
  obtain ⟨g', hp, hg⟩ := H 2 ex_recycle 2 (by decide) (by decide) (by decide) (by decide!)
    (by decide!) (by decide!)
  have hp2 : play 2 [CONFIRM, CONFIRM, CONFIRM] ex_recycle = some g' := hp
  rw [hp2] at hv
  simp only [Option.map_some', Option.some.injEq, Prod.mk.injEq] at hv
  have h1 := (hg 1 (by decide)).1
  rw [hv.2.1] at h1
  revert h1
  decide!

/-- C27, amended: with the cursor on an empty stock, nothing held and a contiguous waste of
`n` cards, Confirm (followed by the display update) empties the waste and fills the stock
with the `n` cards in reverse order (stock slot `i` holds rank and suite of the old waste slot
`n - 1 - i`); from there every `k <= n` draws, each one a Right that brings the cursor to the
stock followed by a Confirm, return a state whose waste holds the first `k` cards of the old
waste in their old order and whose stock holds the other `n - k`; after `n` draws the waste
has the old ranks and suites in every slot and the stock is empty. -/
theorem recycle_then_redraw (fuel : Nat) (g : Game) (n : Nat) (ha : g.selected.active = true)
    (hl : g.selected.location = STOCK) (hm : g.moving.active = false)
    (hs : ∀ i, i < 64 → (g.stock i).rank = NO_RANK) (hc : pile_contiguous g WASTE_BASE)
    (hn : pile_len g WASTE_BASE = n) :
    ∃ g1, step fuel CONFIRM g = some g1 ∧
      (∀ i, i < 64 → (g1.waste i).rank = NO_RANK) ∧
      (∀ i, i < n → (g1.stock i).rank = (g.waste (n - 1 - i)).rank ∧
        (g1.stock i).suite = (g.waste (n - 1 - i)).suite) ∧
      (∀ i, n ≤ i → i < 64 → (g1.stock i).rank = NO_RANK) ∧
      (∀ k, k ≤ n → ∃ g2, play fuel (redraws k) g1 = some g2 ∧
        redrawn (fun i => g.waste i) n k g2) ∧
      ∃ g2, play fuel (redraws n) g1 = some g2 ∧
        (∀ i, i < 64 → (g2.waste i).rank = (g.waste i).rank) ∧
        (∀ i, i < n → (g2.waste i).suite = (g.waste i).suite) ∧
        (∀ i, i < 64 → (g2.stock i).rank = NO_RANK) := by
  subst hn
  have hle := pile_len_le g WASTE_BASE
  have hocc : ∀ i, i < pile_len g WASTE_BASE → (g.waste i).rank ≠ NO_RANK :=
    fun i hi => pile_len_occupied g WASTE_BASE i hi
  obtain ⟨g1, hstep, h0⟩ := step_confirm_recycle fuel g ha hl hm hs hc
  have hall : ∀ k, k ≤ pile_len g WASTE_BASE → ∃ g2, play fuel (redraws k) g1 = some g2 ∧
      redrawn (fun i => g.waste i) (pile_len g WASTE_BASE) k g2 := by
    intro k hk
    have := redrawn_steps fuel (fun i => g.waste i) (pile_len g WASTE_BASE) hle hocc k 0 g1
      (by omega) h0
    simpa using this
  refine ⟨g1, hstep, ?_, ?_, ?_, hall, ?_⟩
  · intro i hi
    have := h0.2.2.2.1 i hi
    simpa using this
  · intro i hi
    have h1 := h0.2.2.2.2.2.1 i (by omega)
    have h2 := h0.2.2.2.2.2.2 i (by omega)
    rw [if_pos (by omega)] at h1
    exact ⟨h1, h2⟩
  · intro i hi hi2
    have h1 := h0.2.2.2.2.2.1 i hi2
    rw [if_neg (by omega)] at h1
    exact h1
  · obtain ⟨g2, hp, hr⟩ := hall _ (le_refl _)
    refine ⟨g2, hp, ?_, hr.2.2.2.2.1, ?_⟩
    · intro i hi
      rw [hr.2.2.2.1 i hi]
      by_cases h : i < pile_len g WASTE_BASE
      · rw [if_pos h]
      · rw [if_neg h]
        exact (pile_empty_from g WASTE_BASE hc i (by omega) hi).symm
    · intro i hi
      rw [hr.2.2.2.2.2.1 i hi, if_neg (by omega)]

theorem recycle_then_redraw_witness :
    ∃ g1, step 0 CONFIRM ex_recycle = some g1 ∧
      (∀ i, i < 64 → (g1.waste i).rank = NO_RANK) ∧
      (∀ i, i < 2 → (g1.stock i).rank = (ex_recycle.waste (2 - 1 - i)).rank ∧
        (g1.stock i).suite = (ex_recycle.waste (2 - 1 - i)).suite) ∧
      (∀ i, 2 ≤ i → i < 64 → (g1.stock i).rank = NO_RANK) ∧
      (∀ k, k ≤ 2 → ∃ g2, play 0 (redraws k) g1 = some g2 ∧
        redrawn (fun i => ex_recycle.waste i) 2 k g2) ∧
      ∃ g2, play 0 (redraws 2) g1 = some g2 ∧
        (∀ i, i < 64 → (g2.waste i).rank = (ex_recycle.waste i).rank) ∧
        (∀ i, i < 2 → (g2.waste i).suite = (ex_recycle.waste i).suite) ∧
        (∀ i, i < 64 → (g2.stock i).rank = NO_RANK) :=
  recycle_then_redraw 0 ex_recycle 2 (by decide) (by decide) (by decide) (by decide!)
    (by decide!) (by decide!)

/-! ## Putting the held card back (C16) and pick-up followed by Cancel (C17) -/

/-- C16 is violated by the code:
after the Waste top was picked up with the cursor reaching the
Waste from the Stock (cursor column 3) and the cursor went to foundation pile 3 and back
to the Waste (cursor column 0), the cursor rests on the held Waste top, but Confirm
returns false and the card stays held: `is_same_pos` compares the column and row fields,
which differ. -/
theorem confirm_on_held_waste_top_rejected :
    ¬ ∀ (fuel : Nat) (g : Game), Playing g → g.moving.active = true →
      g.selected.active = true → g.selected.location = g.moving.location →
      (∃ a, card_ptr g.selected g false = some a ∧ card_ptr g.moving g false = some a) →
      ∃ g', handle_action fuel CONFIRM g = some (true, g') ∧ g'.moving.active = false := by
  intro H
  have hv : ((reset_game 1 rand_ace_hearts ex_zero).bind
      (play 2 [UP, RIGHT, RIGHT, RIGHT, RIGHT, CONFIRM, RIGHT, CONFIRM, CONFIRM, LEFT, RIGHT])).map
      (fun g => decide (g.moving.active = true ∧ g.selected.active = true ∧
        g.selected.location = g.moving.location ∧
        card_ptr g.selected g false = some 453 ∧ card_ptr g.moving g false = some 453 ∧
        (handle_action 2 CONFIRM g).map (fun r => r.1) = some false)) = some true := by
    decide!
  cases hr : (reset_game 1 rand_ace_hearts ex_zero).bind
      (play 2 [UP, RIGHT, RIGHT, RIGHT, RIGHT, CONFIRM, RIGHT, CONFIRM, CONFIRM, LEFT, RIGHT]) with
  | none => rw [hr] at hv; simp at hv
  | some g =>
    rw [hr] at hv
    simp only [Option.map_some', Option.some.injEq, decide_eq_true_eq] at hv
    obtain ⟨h1, h2, h3, h4, h5, h6⟩ := hv
    obtain ⟨g', h7, _⟩ := H 2 g (playing_of_chain _ _ _ _ _ g hr) h1 h2 h3 ⟨453, h4, h5⟩
    rw [h7] at h6
    simp at h6

/-- What the code does where C16 fails:
in every state at the top of the main loop with a card held and the cursor
equal to the held position in pile kind, column and row (`is_same_pos`), Confirm returns
true and the state it returns is the given one with `moving.active` cleared: every card slot,
the cursor and the other fields of `moving` are unchanged. -/
theorem confirm_same_position (fuel : Nat) (g : Game) (h : Playing g)
    (hs : is_same_pos g.moving g.selected = true) :
    handle_action fuel CONFIRM g =
      some (true, { g with moving := { g.moving with active := false } }) := by
  have hok := reachable_board_ok g (playing_reachable g h)
  have hpos := pos_eq_of_same _ _ hs
  have hma : g.moving.active = true := by
    unfold is_same_pos at hs
    simp only [Bool.and_eq_true] at hs
    exact hs.1.1.1.1
  have hsa : g.selected.active = true := by rw [← hpos]; exact hma
  have hns : g.selected.location ≠ STOCK := by
    rw [← hpos]
    exact hok.held_stock hma
  obtain ⟨a, ha⟩ := playing_held_ptr g h hma
  rw [hpos] at ha
  rw [handle_action_confirm, update_visible_steady g (playing_steady g h)]
  unfold handle_confirm
  simp only [hsa, hns, if_true, if_false, get_card_eq, ha, touch_steady g hok.cards _ hns, hma, hs]

theorem confirm_same_position_witness :
    Playing (after [CONFIRM] start_game) ∧
    is_same_pos (after [CONFIRM] start_game).moving (after [CONFIRM] start_game).selected = true ∧
    handle_action 0 CONFIRM (after [CONFIRM] start_game) =
      some (true, { after [CONFIRM] start_game with
        moving := { (after [CONFIRM] start_game).moving with active := false } }) :=
  ⟨playing_after _ _ start_playing, by decide!,
    confirm_same_position 0 _ (playing_after _ _ start_playing) (by decide!)⟩

/-- C17: in every state at the top of the main loop with nothing held and the cursor on a
card, if Confirm returns leaving a card held, then the cursor has not moved, and Cancel in the
next pass of the loop returns true, after which (display update included) the cursor is the
one from before the Confirm, nothing is held, and every card slot of every pile is exactly
as it was before the Confirm. -/
theorem pickup_then_cancel (fuel fuel2 : Nat) (g g1 : Game) (b : Bool) (hp : Playing g)
    (hm : g.moving.active = false)
    (hreal : ∀ c, card_ptr g.selected g false = some c → (g.mem c).rank ≠ NO_RANK)
    (h : handle_action fuel CONFIRM g = some (b, g1)) (hheld : g1.moving.active = true) :
    g1.selected = g.selected ∧
    ∃ g2, handle_action fuel2 CANCEL (update_display g1) = some (true, g2) ∧
      (update_display g2).selected = g.selected ∧
      (update_display g2).moving.active = false ∧
      ∀ a, a < GAME_CELLS → (update_display g2).mem a = g.mem a := by
  have hW : WASTE_BASE = 452 := rfl
  have hok := reachable_board_ok g (playing_reachable g hp)
  have hsteady := playing_steady g hp
  have huv := update_visible_steady g hsteady
  rw [handle_action_confirm, huv] at h
  obtain ⟨hsa, hns, c, T, hcp, rfl⟩ := confirm_pickup_state fuel g b g1 hok hm hreal h hheld
  refine ⟨rfl, ?_⟩
  generalize hg1 : ({ hl_state (clear_highlight g) T with
    moving := { g.selected with active := true } } : Game) = g1
  have hsel1 : g1.selected = g.selected := by rw [← hg1]; rfl
  have hmov1 : g1.moving = { g.selected with active := true } := by rw [← hg1]
  have hrank1 : ∀ x, (g1.mem x).rank = (g.mem x).rank := by
    intro x
    rw [← hg1]
    show ((hl_state (clear_highlight g) T).mem x).rank = _
    rw [hl_state_rank, clear_highlight_rank]
  have hsuite1 : ∀ x, (g1.mem x).suite = (g.mem x).suite := by
    intro x
    rw [← hg1]
    show ((hl_state (clear_highlight g) T).mem x).suite = _
    rw [hl_state_suite, clear_highlight_suite]
  have hvis1 : ∀ x, (g1.mem x).visible = (g.mem x).visible := by
    intro x
    rw [← hg1]
    show ((hl_state (clear_highlight g) T).mem x).visible = _
    rw [hl_state_visible, clear_highlight_visible]
  have e : ({ g.selected with active := true } : CardPos) = g.selected := by
    cases hs : g.selected
    rw [hs] at hsa
    simp only at hsa
    subst hsa
    rfl
  have hptr1 : card_ptr g1.moving g1 false = some c := by
    rw [hmov1, e, ← hcp]
    exact card_ptr_congr _ _ _ _ hrank1
  have hma1 : g1.moving.active = true := by rw [hmov1]
  have hmovu : (update_display g1).moving = g1.moving := by
    rw [update_display_moving, if_neg (by rw [hptr1]; simp)]
  have hcancel : handle_action fuel2 CANCEL (update_display g1) = some (true,
      { update_visible (update_display g1) with
        moving := { (update_visible (update_display g1)).moving with active := false } }) := by
    unfold handle_action
    simp only [update_visible_moving, hmovu, hma1, if_true]
  refine ⟨_, hcancel, ?_, ?_, ?_⟩
  · rw [update_display_selected]
    show (update_visible (update_display g1)).selected = _
    rw [update_visible_selected, update_display_selected, hsel1]
  · rw [update_display_moving, if_neg (by simp)]
  · intro a ha
    rw [update_display_inactive _ rfl]
    have hflip : ∀ X : Game, (∀ x, (X.mem x).rank = (g.mem x).rank) → flips X a →
        (g.mem a).visible = true := by
      intro X hX hf
      have hf2 := (flips_congr g X a hX).1 hf
      have := update_visible_visible g a
      rw [huv] at this
      rw [this]
      simp [hf2]
    have htm : touch_marks g1.moving g1 a → (g.mem a).visible = true := by
      intro ht
      obtain ⟨_, ⟨hl, h1, h2⟩ | ⟨hl, _⟩⟩ := ht
      · rw [pile_len_congr g g1 WASTE_BASE (fun _ _ => hrank1 _)] at h2
        have hocc := pile_len_occupied g WASTE_BASE (a - WASTE_BASE) (by omega)
        have hle := pile_len_le g WASTE_BASE
        have := hok.cards.waste_up (a - WASTE_BASE) (by omega) hocc
        rwa [show WASTE_BASE + (a - WASTE_BASE) = a by omega] at this
      · rw [hmov1] at hl
        exact absurd hl hns
    have hg : g = clear_highlight (update_visible g) := by
      rw [← update_display_inactive g hm, hsteady]
    apply card_ext
    · simp only [clear_highlight_rank, update_visible_rank, update_display_rank, hrank1]
    · simp only [clear_highlight_suite, update_visible_suite, update_display_suite, hsuite1]
    · rw [clear_highlight_visible, update_visible_visible]
      show ((((update_visible (update_display g1)).mem a).visible) || _) = _
      rw [update_visible_visible, update_display_visible]
      unfold display_visible
      rw [hvis1]
      cases hv : (g.mem a).visible
      · have f1 : ¬ flips g1 a := fun hf => by
          have := hflip g1 hrank1 hf
          rw [hv] at this
          cases this
        have f2 : ¬ touch_marks g1.moving g1 a := fun hf => by
          have := htm hf
          rw [hv] at this
          cases this
        have f3 : ¬ flips (update_display g1) a := fun hf => by
          have := hflip (update_display g1) (fun x => by rw [update_display_rank, hrank1]) hf
          rw [hv] at this
          cases this
        have f4 : ¬ flips ({ update_visible (update_display g1) with
            moving := { (update_visible (update_display g1)).moving with active := false } }
            : Game) a := fun hf => by
          have := hflip _ (fun x => by
            show ((update_visible (update_display g1)).mem x).rank = _
            rw [update_visible_rank, update_display_rank, hrank1]) hf
          rw [hv] at this
          cases this
        simp only [f1, f2, f3, decide_False, Bool.or_false, Bool.false_or]
        exact decide_eq_false f4
      · simp
    · rw [clear_highlight_mem, if_pos ha]
      show NO_HIGHLIGHT = _
      have : (g.mem a).highlight = NO_HIGHLIGHT := by
        rw [hg, clear_highlight_mem, if_pos ha]
      rw [this]

theorem pickup_then_cancel_witness :
    Playing start_game ∧ start_game.moving.active = false ∧
    handle_action 1 CONFIRM start_game = some (ex_picked.1, ex_picked.2) ∧
    ex_picked.2.moving.active = true ∧
    ex_picked.2.selected = start_game.selected ∧
    ∃ g2, handle_action 0 CANCEL (update_display ex_picked.2) = some (true, g2) ∧
      (update_display g2).selected = start_game.selected ∧
      (update_display g2).moving.active = false ∧
      ∀ a, a < GAME_CELLS → (update_display g2).mem a = start_game.mem a :=
  ⟨start_playing, by decide!, getD_of_isSome _ _ (by decide!), by decide!,
    pickup_then_cancel 1 0 start_game ex_picked.2 ex_picked.1 start_playing (by decide!)
      (fun c hc => by
        have h0 : card_ptr start_game.selected start_game false = some 0 := by decide!
        rw [h0] at hc
        cases hc
        decide!)
      (getD_of_isSome _ _ (by decide!)) (by decide!)⟩

/-! ## Visibility of the cards (C12) -/

/-- C12: in every state reachable from `reset_game`, for every action that `handle_action`
handles, followed by `update_display`: a card `(s, k)` that lay face up before the action
(a cell accounting for it had its `visible` flag set) lies face up after it, in whichever
pile it now lies. -/
theorem visible_stays_visible (fuel : Nat) (d : Action) (g g' : Game) (b : Bool)
    (hr : Reachable g) (h : handle_action fuel d g = some (b, g')) :
    ∀ s k, 1 ≤ k → card_visible g s k → card_visible (update_display g') s k := by
  intro s k hk hv
  have hok := reachable_board_ok g hr
  have hok2 := reachable_board_ok _ (Reachable.display _ (Reachable.action fuel d g b g' hr h))
  exact visible_of_hid_frame g _ hok.cards.deck hok2.cards
    (hid_frame_trans (hid_frame_handle_action fuel d g b g' hok h) (hid_frame_update_display g'))
    s k hk hv

theorem visible_stays_visible_witness :
    Reachable start_game ∧
    handle_action 1 CONFIRM start_game = some (ex_picked.1, ex_picked.2) ∧
    ∀ s k, 1 ≤ k → card_visible start_game s k →
      card_visible (update_display ex_picked.2) s k :=
  ⟨start_reachable, getD_of_isSome _ _ (by decide!),
    visible_stays_visible 1 CONFIRM start_game ex_picked.2 ex_picked.1 start_reachable
      (getD_of_isSome _ _ (by decide!))⟩

end Solitaire
